import Mathlib

/-!
# go3mf: node structure of a mesh and the object/component model

Shallow embedding of `internal/mesh/nodes.go` and `internal/model/component.go`.

Conventions of the embedding:
* a `float32` is held as its IEEE-754 bit pattern (a natural number), so a position is a
  triple of bit patterns and a matrix is sixteen of them; the linear-algebra primitives of
  `mgl32` (`TransformCoordinate`, `Mul4`) are parameters of the definitions that call them;
* a `uint32` is a natural number, conversions to `uint32` are written `u32`;
* a Go `panic` is an explicit result: stateful operations return the result together with
  the state in which the call left the receiver;
* a Go `error` is `Option GoError`, `none` being `nil`.
-/

namespace Go3mf

/-! ## Values -/

/-- Conversion to `uint32`. -/
def u32 (n : Nat) : Nat := n % 4294967296

/-- The three `float32` coordinates of `mgl32.Vec3`, each as its bit pattern. -/
structure Vec3 where
  x : Nat
  y : Nat
  z : Nat
deriving DecidableEq, Repr

/-- The sixteen `float32` entries of `mgl32.Mat4`, each as its bit pattern. -/
abbrev Mat4 := Fin 16 → Nat

/-- The ways in which the code aborts: the explicit `panic(new(MaxNodeError))` of `AddNode`,
the runtime panic of a slice access outside its bounds, and the runtime panic of a method
call or field access through a nil pointer or nil interface. -/
inductive Panic where
  | MaxNodeError
  | IndexOutOfRange
  | NilDereference
deriving DecidableEq, Repr

/-! ## internal/mesh/nodes.go -/

/-- MaxNodeCount is the maximum number of nodes allowed. -/
def MaxNodeCount : Nat := 2147483646

/-- Node defines a node of a mesh. -/
structure Node where
  Index : Nat
  Position : Vec3
deriving DecidableEq, Repr

/-- Modelled from the spec: `geometry.VectorTree`, the spatial dedup index, is declared in
package `geometry`, outside the files embedded here. The spec gives it as an exact-key
lookup from a position to a vertex index (`find(position) -> optional index`,
`insert(position, index)`, equality of positions is bit-exact, no tolerance). It is held as
an association list with one entry per key. -/
structure VectorTree where
  entries : List (Vec3 × Nat)
deriving DecidableEq, Repr

/-- Modelled from the spec: `FindVector`, the `find` of the dedup index: the index stored
under exactly this position, if any. -/
def VectorTree.FindVector (t : VectorTree) (position : Vec3) : Option Nat :=
  List.lookup position t.entries

/-- Modelled from the spec: `AddVector`, the `insert` of the dedup index: stores the index
under the position, replacing the entry the position had. -/
def VectorTree.AddVector (t : VectorTree) (position : Vec3) (index : Nat) : VectorTree :=
  ⟨(position, index) :: t.entries.filter (fun e => e.1 != position)⟩

/-- The `nodeStructure` of a mesh: `vectorTree` is `none` for the nil pointer. -/
structure nodeStructure where
  vectorTree : Option VectorTree
  nodes : List Node
  maxNodeCount : Nat
deriving DecidableEq, Repr

namespace nodeStructure

/-- `clear`: replaces the node list by an empty one. -/
def clear (n : nodeStructure) : nodeStructure :=
  { n with nodes := [] }

/-- NodeCount returns the number of nodes in the mesh. -/
def NodeCount (n : nodeStructure) : Nat :=
  u32 n.nodes.length

/-- Node retrieve the node with the target index; the slice access panics out of range. -/
def Node (n : nodeStructure) (index : Nat) : Except Panic Go3mf.Node :=
  match n.nodes[u32 index]? with
  | some node => .ok node
  | none => .error Panic.IndexOutOfRange

/-- `getMaxNodeCount`: the effective maximum. -/
def getMaxNodeCount (n : nodeStructure) : Nat :=
  if n.maxNodeCount = 0 then MaxNodeCount else n.maxNodeCount

/-- AddNode adds a node the the mesh at the target position. The result is paired with the
structure as the call leaves it (unchanged when the call panics). -/
def AddNode (n : nodeStructure) (position : Vec3) : Except Panic Go3mf.Node × nodeStructure :=
  let found : Option Nat :=
    match n.vectorTree with
    | some t => t.FindVector position
    | none => none
  match found with
  | some index => (n.Node index, n)
  | none =>
    let nodeCount := n.NodeCount
    if nodeCount ≥ n.getMaxNodeCount then
      (.error Panic.MaxNodeError, n)
    else
      let node : Go3mf.Node := { Index := nodeCount, Position := position }
      (.ok node,
        { n with
          nodes := n.nodes ++ [node]
          vectorTree := n.vectorTree.map (fun t => t.AddVector node.Position node.Index) })

/-- The loop of `checkSanity` over the indices still to visit. -/
def checkSanityLoop (n : nodeStructure) : List Nat → Except Panic Bool
  | [] => .ok true
  | i :: rest =>
    match n.Node (u32 i) with
    | .error e => .error e
    | .ok node => if node.Index ≠ u32 i then .ok false else checkSanityLoop n rest

/-- `checkSanity`: the count is within the maximum and every node sits at its own index. -/
def checkSanity (n : nodeStructure) : Except Panic Bool :=
  let nodeCount := n.NodeCount
  if nodeCount > n.getMaxNodeCount then .ok false
  else checkSanityLoop n (List.range nodeCount)

/-- The loop of `merge` over the source indices still to visit; `newNodes` holds the entries
filled so far. A panic of `other.Node` or of `AddNode` ends the loop where it stands. -/
def mergeLoop (TransformCoordinate : Vec3 → Mat4 → Vec3) (other : nodeStructure) (matrix : Mat4) :
    List Nat → nodeStructure → List Go3mf.Node → Except Panic (List Go3mf.Node) × nodeStructure
  | [], n, newNodes => (.ok newNodes, n)
  | i :: rest, n, newNodes =>
    match other.Node (u32 i) with
    | .error e => (.error e, n)
    | .ok node =>
      let position := TransformCoordinate node.Position matrix
      match n.AddNode position with
      | (.error e, n1) => (.error e, n1)
      | (.ok added, n1) => mergeLoop TransformCoordinate other matrix rest n1 (newNodes ++ [added])

/-- `merge`: adds the transformed position of every node of `other`, in order, and returns
the nodes they were mapped to. `other` is read through `NodeCount` and `Node` only. -/
def merge (TransformCoordinate : Vec3 → Mat4 → Vec3) (n other : nodeStructure) (matrix : Mat4) :
    Except Panic (List Go3mf.Node) × nodeStructure :=
  let nodeCount := other.NodeCount
  if nodeCount = 0 then (.ok [], n)
  else mergeLoop TransformCoordinate other matrix (List.range nodeCount) n []

end nodeStructure

/-- An empty node structure, with or without a dedup index, with a `uint32` maximum. -/
def emptyNodes (withTree : Bool) (maxNodeCount : Nat) : nodeStructure :=
  { vectorTree := if withTree then some ⟨[]⟩ else none, nodes := [], maxNodeCount := maxNodeCount }

/-- The node structures built from an empty one by `AddNode` and `merge` calls, whatever the
calls return. -/
inductive Reachable (TransformCoordinate : Vec3 → Mat4 → Vec3) : nodeStructure → Prop where
  | empty (withTree : Bool) (maxNodeCount : Nat) (h : maxNodeCount < 4294967296) :
      Reachable TransformCoordinate (emptyNodes withTree maxNodeCount)
  | addNode (n : nodeStructure) (position : Vec3) :
      Reachable TransformCoordinate n → Reachable TransformCoordinate (n.AddNode position).2
  | merge (n other : nodeStructure) (matrix : Mat4) :
      Reachable TransformCoordinate n →
      Reachable TransformCoordinate (nodeStructure.merge TransformCoordinate n other matrix).2

/-- Successive `AddNode` calls, one for each position of the list in order; a call that
panics ends the sequence. Returns the nodes the calls returned. -/
def AddNodes : nodeStructure → List Vec3 → Except Panic (List Node) × nodeStructure
  | n, [] => (.ok [], n)
  | n, p :: ps =>
    match n.AddNode p with
    | (.error e, n1) => (.error e, n1)
    | (.ok node, n1) =>
      match AddNodes n1 ps with
      | (.error e, n2) => (.error e, n2)
      | (.ok nodes, n2) => (.ok (node :: nodes), n2)

/-- What the dedup lookup at the head of `AddNode` yields: nothing without an index. -/
def nodeStructure.lookup (n : nodeStructure) (position : Vec3) : Option Nat :=
  match n.vectorTree with
  | some t => t.FindVector position
  | none => none

/-- The position is the position of a stored node. -/
def nodeStructure.Stored (n : nodeStructure) (position : Vec3) : Prop :=
  ∃ node ∈ n.nodes, node.Position = position

instance (n : nodeStructure) (position : Vec3) : Decidable (n.Stored position) := by
  unfold nodeStructure.Stored
  infer_instance

/-- The transformed positions that `merge` hands to `AddNode`, in order. -/
def mergedPositions (TransformCoordinate : Vec3 → Mat4 → Vec3) (other : nodeStructure)
    (matrix : Mat4) : List Vec3 :=
  (other.nodes.take other.NodeCount).map (fun node => TransformCoordinate node.Position matrix)

/-- The positions of the nodes that `merge` reads from a source, in order. -/
def sourcePositions (other : nodeStructure) : List Vec3 :=
  (other.nodes.take other.NodeCount).map (fun node => node.Position)

/-- The nodes appended for fresh positions: the k-th gets index `start + k`. -/
def freshNodes (start : Nat) : List Vec3 → List Node
  | [] => []
  | p :: ps => { Index := start, Position := p } :: freshNodes (start + 1) ps

/-- The invariant of the node structures built from empty: the maximum is a `uint32`, the
count is within the effective maximum, every node sits at its own index, and the dedup
index holds exactly the stored positions, each under the index of its node. -/
structure nodeStructure.WF (n : nodeStructure) : Prop where
  hmax : n.maxNodeCount < 4294967296
  hlen : n.nodes.length ≤ n.getMaxNodeCount
  hidx : ∀ (i : Nat) (node : Go3mf.Node), n.nodes[i]? = some node → node.Index = i
  htree : ∀ t, n.vectorTree = some t →
    ∀ (p : Vec3) (i : Nat),
      t.FindVector p = some i ↔ n.nodes[i]? = some { Index := i, Position := p }

end Go3mf

namespace Go3mf

/-! ## internal/model/component.go -/

/-- A Go `error` that is not nil. -/
structure GoError where
  msg : String
deriving DecidableEq, Repr

/-- ObjectType defines the allowed object types (`type ObjectType string` of `types.go`). -/
abbrev ObjectType := String

/-- Modelled from the spec: the constants `ObjectTypeOther`, `ObjectTypeModel`,
`ObjectTypeSupport`, `ObjectTypeSolidSupport` and `ObjectTypeSurface` that `component.go` and
its test name are declared outside the files embedded here; the spec lists the object types as
Model, Support, SolidSupport, Surface and Other, and `types.go` gives their values. -/
def ObjectTypeOther : ObjectType := "other"

/-- Modelled from the spec: see `ObjectTypeOther`. -/
def ObjectTypeModel : ObjectType := "model"

/-- Modelled from the spec: see `ObjectTypeOther`. -/
def ObjectTypeSupport : ObjectType := "support"

/-- Modelled from the spec: see `ObjectTypeOther`. -/
def ObjectTypeSolidSupport : ObjectType := "solidsupport"

/-- Modelled from the spec: see `ObjectTypeOther`. -/
def ObjectTypeSurface : ObjectType := "surface"

/-- Object defines a composable object: the interface, as the record of its methods. `Mesh` is
the state of the destination `*mesh.Mesh` (the type is declared outside the files embedded here);
`MergeToMesh` returns its error together with the state it leaves the destination in. -/
structure Object (Mesh : Type) where
  MergeToMesh : Mesh → Mat4 → Option GoError × Mesh
  IsValid : Bool
  IsValidForSlices : Mat4 → Bool
  TypeOf : ObjectType

/-- An ObjectResource is an in memory representation of the 3MF model object
(`DefaultProperty`, an empty interface, is left out). -/
structure ObjectResource where
  ID : Nat
  ModelPath : String
  UUID : String
  Name : String
  PartNumber : String
  SliceStackID : Nat
  SliceResoultion : String
  Thumbnail : String
  ObjectType : ObjectType
deriving DecidableEq, Repr

namespace ObjectResource

/-- Identify returns the resource ID and the ModelPath. -/
def Identify (o : ObjectResource) : Nat × String := (o.ID, o.ModelPath)

/-- Type returns the type of the object. -/
def TypeOf (o : ObjectResource) : Go3mf.ObjectType := o.ObjectType

/-- MergeToMesh left on purpose empty to be redefined in embedding class. -/
def MergeToMesh {Mesh : Type} (_o : ObjectResource) (m : Mesh) (_transform : Mat4) :
    Option GoError × Mesh := (none, m)

/-- IsValid should be redefined in embedding class. -/
def IsValid (_o : ObjectResource) : Bool := false

/-- IsValidForSlices should be redefined in embedding class. -/
def IsValidForSlices (_o : ObjectResource) (_transform : Mat4) : Bool := false

/-- An `ObjectResource` as an `Object`. -/
def toObject (Mesh : Type) (o : ObjectResource) : Object Mesh :=
  { MergeToMesh := fun m transform => o.MergeToMesh m transform
    IsValid := o.IsValid
    IsValidForSlices := o.IsValidForSlices
    TypeOf := o.TypeOf }

end ObjectResource

/-- A Component is an in memory representation of the 3MF component. -/
structure Component (Mesh : Type) where
  Object : Object Mesh
  Transform : Mat4
  UUID : String

/-- MergeToMesh merges a mesh with the component. -/
def Component.MergeToMesh {Mesh : Type} (Mul4 : Mat4 → Mat4 → Mat4) (c : Component Mesh)
    (m : Mesh) (transform : Mat4) : Option GoError × Mesh :=
  c.Object.MergeToMesh m (Mul4 c.Transform transform)

/-- A ComponentResource resource is an in memory representation of the 3MF component object. -/
structure ComponentResource (Mesh : Type) where
  toObjectResource : ObjectResource
  Components : List (Component Mesh)

namespace ComponentResource

/-- The loop of `MergeToMesh` over the components still to merge. -/
def mergeLoop {Mesh : Type} (Mul4 : Mat4 → Mat4 → Mat4) (transform : Mat4) :
    List (Component Mesh) → Mesh → Option GoError × Mesh
  | [], m => (none, m)
  | comp :: rest, m =>
    match comp.MergeToMesh Mul4 m transform with
    | (some err, m1) => (some err, m1)
    | (none, m1) => mergeLoop Mul4 transform rest m1

/-- MergeToMesh merges the mesh with all the components. -/
def MergeToMesh {Mesh : Type} (Mul4 : Mat4 → Mat4 → Mat4) (c : ComponentResource Mesh)
    (m : Mesh) (transform : Mat4) : Option GoError × Mesh :=
  mergeLoop Mul4 transform c.Components m

/-- The loop of `IsValid` over the components still to check. -/
def isValidLoop {Mesh : Type} : List (Component Mesh) → Bool
  | [] => true
  | comp :: rest => if !comp.Object.IsValid then false else isValidLoop rest

/-- IsValid checks if the component resource and all its child are valid. -/
def IsValid {Mesh : Type} (c : ComponentResource Mesh) : Bool :=
  if c.Components.length = 0 then false
  else isValidLoop c.Components

/-- The loop of `IsValidForSlices` over the components still to check. -/
def isValidForSlicesLoop {Mesh : Type} (Mul4 : Mat4 → Mat4 → Mat4) (transform : Mat4) :
    List (Component Mesh) → Bool
  | [] => true
  | comp :: rest =>
    if !comp.Object.IsValidForSlices (Mul4 transform comp.Transform) then false
    else isValidForSlicesLoop Mul4 transform rest

/-- IsValidForSlices checks if the component resource and all its child are valid to be used
with slices. -/
def IsValidForSlices {Mesh : Type} (Mul4 : Mat4 → Mat4 → Mat4) (c : ComponentResource Mesh)
    (transform : Mat4) : Bool :=
  if c.Components.length = 0 then true
  else isValidForSlicesLoop Mul4 transform c.Components

end ComponentResource

/-- A MeshResource is an in memory representation of the 3MF mesh object; `Mesh` is `none`
for the nil pointer (`BeamLatticeAttributes` is left out). -/
structure MeshResource (Mesh : Type) where
  toObjectResource : ObjectResource
  Mesh : Option Mesh

/-- IsValid checks if the mesh resource are valid. `IsManifoldAndOriented` and `BeamCount`
are the methods of `mesh.Mesh`, declared outside the files embedded here. -/
def MeshResource.IsValid {Mesh : Type} (IsManifoldAndOriented : Mesh → Bool)
    (BeamCount : Mesh → Nat) (c : MeshResource Mesh) : Bool :=
  match c.Mesh with
  | none => false
  | some mesh =>
    if c.toObjectResource.ObjectType = ObjectTypeModel then IsManifoldAndOriented mesh
    else if c.toObjectResource.ObjectType = ObjectTypeSupport then BeamCount mesh == 0
    else if c.toObjectResource.ObjectType = ObjectTypeSolidSupport then IsManifoldAndOriented mesh
    else if c.toObjectResource.ObjectType = ObjectTypeSurface then BeamCount mesh == 0
    else false

/-- The calls `o.MergeToMesh(m, t)` made one after the other for a list of objects with
their transforms, as a caller writes them by hand: each call works on the mesh the one
before left, and the first error ends the sequence and is the result. -/
def mergeInOrder {Mesh : Type} : List (Object Mesh × Mat4) → Mesh → Option GoError × Mesh
  | [], m => (none, m)
  | (o, t) :: rest, m =>
    match o.MergeToMesh m t with
    | (some err, m1) => (some err, m1)
    | (none, m1) => mergeInOrder rest m1

/-- The mesh after calling `MergeToMesh` on every component of the list in order, whatever
the calls return. -/
def meshAfter {Mesh : Type} (Mul4 : Mat4 → Mat4 → Mat4) (transform : Mat4) :
    List (Component Mesh) → Mesh → Mesh
  | [], m => m
  | comp :: rest, m => meshAfter Mul4 transform rest (comp.MergeToMesh Mul4 m transform).2

/-- Every component of the list returns nil when the components are merged in order. -/
def allNil {Mesh : Type} (Mul4 : Mat4 → Mat4 → Mat4) (transform : Mat4) :
    List (Component Mesh) → Mesh → Prop
  | [], _ => True
  | comp :: rest, m =>
    (comp.MergeToMesh Mul4 m transform).1 = none ∧
      allNil Mul4 transform rest (comp.MergeToMesh Mul4 m transform).2

/-- An object that merges one vertex at a fixed position into the destination's nodes. -/
def vertexObject (position : Vec3) : Object nodeStructure :=
  { MergeToMesh := fun m _ =>
      match m.AddNode position with
      | (.ok _, m1) => (none, m1)
      | (.error _, m1) => (some ⟨"CapacityExceeded"⟩, m1)
    IsValid := true
    IsValidForSlices := fun _ => true
    TypeOf := ObjectTypeModel }

/-- The object types for which `MeshResource.IsValid` has a case. -/
def checkedObjectTypes : List ObjectType :=
  [ObjectTypeModel, ObjectTypeSupport, ObjectTypeSolidSupport, ObjectTypeSurface]

/-- An object whose merge fails and leaves the destination as it is. -/
def failingObject (err : GoError) : Object nodeStructure :=
  { MergeToMesh := fun m _ => (some err, m)
    IsValid := false
    IsValidForSlices := fun _ => false
    TypeOf := ObjectTypeOther }

end Go3mf

namespace Go3mf

/-! ## Concrete inputs -/

/-- The position with all coordinates `+0`. -/
def originPosition : Vec3 := { x := 0, y := 0, z := 0 }

/-- A position other than `originPosition` (the bit pattern 1065353216 is `1.0`). -/
def unitPosition : Vec3 := { x := 1065353216, y := 0, z := 0 }

/-- A `TransformCoordinate` under which every matrix maps every position to itself. -/
def keepPosition : Vec3 → Mat4 → Vec3 := fun p _ => p

/-- A `Mul4` that returns its left operand. -/
def keepLeft : Mat4 → Mat4 → Mat4 := fun a _ => a

/-- A matrix value. -/
def zeroMatrix : Mat4 := fun _ => 0

/-- A node structure with a dedup index and `maxNodeCount = 1` after `AddNode(origin)`:
it holds one node and is at its effective maximum. -/
def fullNodes : nodeStructure := ((emptyNodes true 1).AddNode originPosition).2

/-- A Components Object with two children: the first merges a vertex at the origin, the
second fails. -/
def failingSecond : ComponentResource nodeStructure :=
  { toObjectResource :=
      { ID := 1, ModelPath := "", UUID := "", Name := "", PartNumber := "", SliceStackID := 0,
        SliceResoultion := "", Thumbnail := "", ObjectType := ObjectTypeModel }
    Components :=
      [{ Object := vertexObject originPosition, Transform := zeroMatrix, UUID := "" },
       { Object := failingObject ⟨"unresolved reference"⟩, Transform := zeroMatrix, UUID := "" }] }

/-- A source without a dedup index holding two nodes, at the origin and at the unit position. -/
def twoNodes : nodeStructure :=
  (AddNodes (emptyNodes false 0) [originPosition, unitPosition]).2

end Go3mf

namespace Go3mf

/-! ## internal/model/component.go: validity for slices -/

/-- The comparison `x == 0` of a `float32` held as its bit pattern: it holds for `+0` and
for `-0` and for no other value. -/
def f32IsZero (bits : Nat) : Bool := bits == 0 || bits == 2147483648

/-- The comparison `x == 1` of a `float32` held as its bit pattern (`1.0` is 1065353216). -/
def f32IsOne (bits : Nat) : Bool := bits == 1065353216

/-- IsValidForSlices checks if the mesh resource are valid for slices. -/
def MeshResource.IsValidForSlices {Mesh : Type} (c : MeshResource Mesh) (t : Mat4) : Bool :=
  c.toObjectResource.SliceStackID == 0 ||
    (f32IsZero (t 2) && f32IsZero (t 6) && f32IsZero (t 8) && f32IsZero (t 9) && f32IsOne (t 10))

/-- The matrix whose sixteen entries are all `1.0`. -/
def allOnesMatrix : Mat4 := fun _ => 1065353216

end Go3mf

namespace Go3mf

/-! ## io3mf/read.go: the token stream -/

/-- The error `io.EOF`. -/
def ioEOF : GoError := ⟨"EOF"⟩

/-- Conversion to `int64`. -/
def i64 (v : Int) : Int := (v + 9223372036854775808) % 18446744073709551616 - 9223372036854775808

/-- An `xml.Name`. -/
structure XMLName where
  Space : String
  Local : String
deriving DecidableEq, Repr

/-- An `xml.Attr`. -/
structure XMLAttr where
  Name : XMLName
  Value : String
deriving DecidableEq, Repr

/-- An `xml.Token`: a start element, an end element, character data, or one of the token
kinds the decoder ignores (comment, processing instruction, directive). -/
inductive XMLToken where
  | StartElement (Name : XMLName) (Attr : List XMLAttr)
  | EndElement (Name : XMLName)
  | CharData (data : List Nat)
  | Ignored
deriving DecidableEq, Repr

/-- A XMLDecoder is anything that can decode a stream of XML tokens. It is held as the
tokens still to be read, each with the input offset reached once it is consumed, the
current input offset, and the error `Token` returns when the tokens are used up (`io.EOF`
at a clean end of the input). -/
structure XMLDecoder where
  tokens : List (XMLToken × Int)
  offset : Int
  final : GoError
deriving DecidableEq, Repr

namespace XMLDecoder

/-- Token returns the next token, or the final error once the tokens are used up. -/
def Token (x : XMLDecoder) : Except GoError XMLToken × XMLDecoder :=
  match x.tokens with
  | [] => (.error x.final, x)
  | (t, off) :: rest => (.ok t, { x with tokens := rest, offset := off })

/-- The tokens left, and the offset reached, once the end element at nesting depth `depth`
has been consumed; `none` when the tokens are used up before. -/
def skipTokens : List (XMLToken × Int) → Nat → Option (List (XMLToken × Int) × Int)
  | [], _ => none
  | (XMLToken.StartElement _ _, _) :: rest, depth => skipTokens rest (depth + 1)
  | (XMLToken.EndElement _, off) :: rest, 0 => some (rest, off)
  | (XMLToken.EndElement _, _) :: rest, depth + 1 => skipTokens rest depth
  | (XMLToken.CharData _, _) :: rest, depth => skipTokens rest depth
  | (XMLToken.Ignored, _) :: rest, depth => skipTokens rest depth

/-- Skip reads tokens until it has consumed the end element matching the most recent start
element already consumed. When the tokens are used up before, it returns the final error. -/
def Skip (x : XMLDecoder) : Option GoError × XMLDecoder :=
  match skipTokens x.tokens 0 with
  | some (rest, off) => (none, { x with tokens := rest, offset := off })
  | none => (some x.final, { x with tokens := [] })

/-- InputOffset returns the input stream byte offset of the current decoder position. -/
def InputOffset (x : XMLDecoder) : Int := x.offset

end XMLDecoder

/-! ## io3mf/read.go: the decoders of the elements -/

/-- Modelled from the spec: `iohelper.Scanner` is declared outside the files embedded here;
it is the decode context of one part (strict flag, warnings, registry, part path). These
are the fields `read.go` reads and writes; build items and resources are opaque handles. -/
structure Scanner where
  IsRoot : Bool
  Strict : Bool
  ModelPath : String
  Element : String
  Err : Option GoError
  UUID : String
  BuildItems : List Nat
  Resources : List Nat
  Warnings : List GoError
deriving DecidableEq, Repr

/-- Modelled from the spec: `iohelper.NewScanner`, declared outside the files embedded here:
a scanner that has captured no error and registered nothing yet. -/
def NewScanner : Scanner :=
  { IsRoot := false, Strict := false, ModelPath := "", Element := "", Err := none, UUID := "",
    BuildItems := [], Resources := [], Warnings := [] }

/-- Everything the decoders of one part read and write: the scanner they share, and the
rest (their own fields and the model under construction), of a type `δ` left open. -/
structure DecodeState (δ : Type) where
  scanner : Scanner
  priv : δ

/-- The assignment `d.scanner.Element = e`. -/
def DecodeState.setElement {δ : Type} (st : DecodeState δ) (e : String) : DecodeState δ :=
  { st with scanner := { st.scanner with Element := e } }

/-- The `nodeDecoder` implementations other than `topLevelDecoder`, which are declared
outside the files embedded here: `D` is the type of the decoder objects, and each method
takes the object it is called on and returns the state it leaves. `modelDecoder` is the
object `topLevelDecoder.Child` creates; `nsCoreSpec` and `attrModel` are the constants it
compares the element name with. -/
structure ElementDecoders (D δ : Type) where
  Open : D → DecodeState δ → DecodeState δ
  Attributes : D → List XMLAttr → DecodeState δ → Bool × DecodeState δ
  Text : D → List Nat → DecodeState δ → Bool × DecodeState δ
  Child : D → XMLName → DecodeState δ → Option D × DecodeState δ
  Close : D → DecodeState δ → Bool × DecodeState δ
  SetScanner : D → DecodeState δ → DecodeState δ
  modelDecoder : D
  nsCoreSpec : String
  attrModel : String

/-- A `nodeDecoder` object: the `topLevelDecoder` of `read.go`, or one of the others. -/
inductive nodeDecoder (D : Type) where
  | topLevelDecoder (isRoot : Bool)
  | element (d : D)
deriving DecidableEq, Repr

namespace nodeDecoder

variable {D δ : Type}

/-- `Open`: empty for `topLevelDecoder` (from `emptyDecoder`). -/
def Open (cb : ElementDecoders D δ) : nodeDecoder D → DecodeState δ → DecodeState δ
  | topLevelDecoder _, s => s
  | element d, s => cb.Open d s

/-- `Attributes`: `true` for `topLevelDecoder` (from `emptyDecoder`). -/
def Attributes (cb : ElementDecoders D δ) :
    nodeDecoder D → List XMLAttr → DecodeState δ → Bool × DecodeState δ
  | topLevelDecoder _, _, s => (true, s)
  | element d, attrs, s => cb.Attributes d attrs s

/-- `Text`: `true` for `topLevelDecoder` (from `emptyDecoder`). -/
def Text (cb : ElementDecoders D δ) :
    nodeDecoder D → List Nat → DecodeState δ → Bool × DecodeState δ
  | topLevelDecoder _, _, s => (true, s)
  | element d, data, s => cb.Text d data s

/-- `Child`: `topLevelDecoder` knows the model element of the core namespace only. -/
def Child (cb : ElementDecoders D δ) :
    nodeDecoder D → XMLName → DecodeState δ → Option (nodeDecoder D) × DecodeState δ
  | topLevelDecoder _, name, s =>
    if name = { Space := cb.nsCoreSpec, Local := cb.attrModel } then
      (some (element cb.modelDecoder), s)
    else (none, s)
  | element d, name, s =>
    match cb.Child d name s with
    | (some child, s1) => (some (element child), s1)
    | (none, s1) => (none, s1)

/-- `Close`: `true` for `topLevelDecoder` (from `emptyDecoder`). -/
def Close (cb : ElementDecoders D δ) : nodeDecoder D → DecodeState δ → Bool × DecodeState δ
  | topLevelDecoder _, s => (true, s)
  | element d, s => cb.Close d s

/-- `SetScanner`: `emptyDecoder` keeps the pointer, which changes nothing in the state. -/
def SetScanner (cb : ElementDecoders D δ) : nodeDecoder D → DecodeState δ → DecodeState δ
  | topLevelDecoder _, s => s
  | element d, s => cb.SetScanner d s

end nodeDecoder

/-! ## io3mf/read.go: `modelFileDecoder.Decode` -/

/-- The error of a done `context.Context`: `context.Canceled` or
`context.DeadlineExceeded`. -/
inductive ContextError where
  | Canceled
  | DeadlineExceeded
deriving DecidableEq, Repr

/-- The `error` value of a `ContextError`. -/
def ContextError.toError : ContextError → GoError
  | Canceled => ⟨"context canceled"⟩
  | DeadlineExceeded => ⟨"context deadline exceeded"⟩

/-- The `context.Context` as `Decode` sees it: `done k` tells whether the non-blocking
receive on `ctx.Done()` succeeds at the consultation that follows `k` earlier ones, and
`err` is what `ctx.Err()` returns then. -/
structure Context where
  done : Nat → Bool
  err : ContextError

/-- A call of a `nodeDecoder` method made by `Decode`, with the boolean it returned. -/
inductive Call (D : Type) where
  | Child (d : nodeDecoder D) (name : XMLName)
  | Open (d : nodeDecoder D)
  | Attributes (d : nodeDecoder D) (attrs : List XMLAttr) (ok : Bool)
  | Text (d : nodeDecoder D) (data : List Nat) (ok : Bool)
  | Close (d : nodeDecoder D) (ok : Bool)
deriving DecidableEq, Repr

/-- A consultation of the cancellation signal: the input offset and the byte threshold it
was compared with, and whether the signal was set. -/
structure Check where
  offset : Int
  threshold : Int
  signalled : Bool
deriving DecidableEq, Repr

/-- The variables of the loop of `Decode`. The slices `state` and `names` are held with
their last element first. `calls` and `checks` record, oldest first, the method calls made
and the consultations of the cancellation signal; nothing reads them. -/
structure LoopState (D δ : Type) where
  x : XMLDecoder
  st : DecodeState δ
  state : List (nodeDecoder D)
  names : List XMLName
  currentDecoder : nodeDecoder D
  currentName : XMLName
  nextBytesCheck : Int
  calls : List (Call D)
  checks : List Check

/-- What `Decode` leaves: the error it returns (or the panic that ends it), and the
variables of the loop when it ended. -/
structure DecodeResult (D δ : Type) where
  err : Except Panic (Option GoError)
  final : LoopState D δ

/-- The end of `Decode`: `io.EOF` is turned into nil. -/
def finishDecode {D δ : Type} (err : GoError) (s : LoopState D δ) : DecodeResult D δ :=
  { err := .ok (if err = ioEOF then none else some err), final := s }

/-- The cancellation check at the end of the `xml.EndElement` case: returns the error to
leave the loop with, if any, and the variables after the check. -/
def cancelCheck {D δ : Type} (ctx : Context) (checkEveryBytes : Int)
    (err : Option GoError) (s : LoopState D δ) : Option GoError × LoopState D δ :=
  if s.x.InputOffset > s.nextBytesCheck then
    let signalled := ctx.done s.checks.length
    (if signalled then some ctx.err.toError else err,
      { s with
        nextBytesCheck := i64 (s.nextBytesCheck + checkEveryBytes)
        checks := s.checks ++ [{ offset := s.x.InputOffset, threshold := s.nextBytesCheck,
                                 signalled := signalled }] })
  else (err, s)

/-- The body of the loop of `Decode`: one iteration from the variables `s`. `Sum.inl` is the
end of `Decode` (the loop is left, or a panic), `Sum.inr` the variables at the start of the
next iteration. -/
def decodeStep {D δ : Type} (cb : ElementDecoders D δ) (ctx : Context) (checkEveryBytes : Int)
    (s : LoopState D δ) : DecodeResult D δ ⊕ LoopState D δ :=
  match s.x.Token with
  | (.error err, x1) => .inl (finishDecode err { s with x := x1 })
  | (.ok t, x1) =>
    let s := { s with x := x1 }
    match t with
    | XMLToken.StartElement name attr =>
      match s.currentDecoder.Child cb name s.st with
      | (some tmpDecoder, st1) =>
        let st2 := tmpDecoder.SetScanner cb st1
        let st3 := st2.setElement name.Local
        let st4 := tmpDecoder.Open cb st3
        match tmpDecoder.Attributes cb attr st4 with
        | (ok, st5) =>
          let s1 : LoopState D δ :=
            { s with
              st := st5
              state := s.currentDecoder :: s.state
              names := s.currentName :: s.names
              currentName := name
              currentDecoder := tmpDecoder
              calls := s.calls ++ [Call.Child s.currentDecoder name, Call.Open tmpDecoder,
                                   Call.Attributes tmpDecoder attr ok] }
          match (if ok then none else st5.scanner.Err) with
          | some err => .inl (finishDecode err s1)
          | none => .inr s1
      | (none, st1) =>
        let s1 : LoopState D δ :=
          { s with st := st1, calls := s.calls ++ [Call.Child s.currentDecoder name] }
        match s1.x.Skip with
        | (some err, x2) => .inl (finishDecode err { s1 with x := x2 })
        | (none, x2) => .inr { s1 with x := x2 }
    | XMLToken.CharData data =>
      match s.currentDecoder.Text cb data s.st with
      | (ok, st1) =>
        let s1 : LoopState D δ :=
          { s with st := st1, calls := s.calls ++ [Call.Text s.currentDecoder data ok] }
        match (if ok then none else st1.scanner.Err) with
        | some err => .inl (finishDecode err s1)
        | none => .inr s1
    | XMLToken.EndElement name =>
      if s.currentName = name then
        let st1 := s.st.setElement name.Local
        match s.currentDecoder.Close cb st1 with
        | (true, st2) =>
          let s1 : LoopState D δ :=
            { s with st := st2, calls := s.calls ++ [Call.Close s.currentDecoder true] }
          match s1.state with
          | [] => .inl { err := .error Panic.IndexOutOfRange, final := s1 }
          | d :: state =>
            let s2 : LoopState D δ := { s1 with currentDecoder := d, state := state }
            match s2.names with
            | [] => .inl { err := .error Panic.IndexOutOfRange, final := s2 }
            | n :: names =>
              match cancelCheck ctx checkEveryBytes none
                  { s2 with currentName := n, names := names } with
              | (some err, s3) => .inl (finishDecode err s3)
              | (none, s3) => .inr s3
        | (false, st2) =>
          let s1 : LoopState D δ :=
            { s with st := st2, calls := s.calls ++ [Call.Close s.currentDecoder false] }
          match cancelCheck ctx checkEveryBytes st2.scanner.Err s1 with
          | (some err, s2) => .inl (finishDecode err s2)
          | (none, s2) => .inr s2
      else
        match cancelCheck ctx checkEveryBytes none s with
        | (some err, s2) => .inl (finishDecode err s2)
        | (none, s2) => .inr s2
    | XMLToken.Ignored => .inr s

/-- The loop of `Decode`, for at most `fuel` iterations: `none` when they do not suffice. -/
def decodeLoop {D δ : Type} (cb : ElementDecoders D δ) (ctx : Context) (checkEveryBytes : Int) :
    Nat → LoopState D δ → Option (DecodeResult D δ)
  | 0, _ => none
  | fuel + 1, s =>
    match decodeStep cb ctx checkEveryBytes s with
    | .inl r => some r
    | .inr s1 => decodeLoop cb ctx checkEveryBytes fuel s1

namespace LoopState

variable {D δ : Type}

/-- The variables once a token is read: `rest` is left to read, at input offset `off`. -/
def read (s : LoopState D δ) (rest : List (XMLToken × Int)) (off : Int) : LoopState D δ :=
  { s with x := { s.x with tokens := rest, offset := off } }

/-- The variables once a method call is recorded that left the state `st`. -/
def called (s : LoopState D δ) (st : DecodeState δ) (call : Call D) : LoopState D δ :=
  { s with st := st, calls := s.calls ++ [call] }

/-- The variables once the decoder `d` of a recognised element `name` is made current: the
decoder and the name that were current are saved. -/
def push (s : LoopState D δ) (name : XMLName) (attr : List XMLAttr) (d : nodeDecoder D)
    (ok : Bool) (st : DecodeState δ) : LoopState D δ :=
  { s with
    st := st
    state := s.currentDecoder :: s.state
    names := s.currentName :: s.names
    currentName := name
    currentDecoder := d
    calls := s.calls ++ [Call.Child s.currentDecoder name, Call.Open d,
                         Call.Attributes d attr ok] }

/-- The variables once the saved decoder `d` and the saved name `n` are current again. -/
def pop (s : LoopState D δ) (d : nodeDecoder D) (state : List (nodeDecoder D)) (n : XMLName)
    (names : List XMLName) : LoopState D δ :=
  { s with currentDecoder := d, state := state, currentName := n, names := names }

end LoopState

/-- The loop of `Decode` from the variables `s`, on one more iteration than there are tokens
left to read. -/
def runDecode {D δ : Type} (cb : ElementDecoders D δ) (ctx : Context) (checkEveryBytes : Int)
    (s : LoopState D δ) : Option (DecodeResult D δ) :=
  decodeLoop cb ctx checkEveryBytes (s.x.tokens.length + 1) s

/-- The byte threshold after `k` cancellation checks: it starts at `checkEveryBytes` and
every check adds `checkEveryBytes` to it, in `int64` arithmetic. -/
def thresholdAt (checkEveryBytes : Int) : Nat → Int
  | 0 => checkEveryBytes
  | k + 1 => i64 (thresholdAt checkEveryBytes k + checkEveryBytes)

/-- The variables of `Decode` when it enters its loop. -/
def initialLoopState {D δ : Type} (x : XMLDecoder) (priv : δ) (path : String)
    (isRoot strict : Bool) (checkEveryBytes : Int) : LoopState D δ :=
  { x := x
    st := { scanner := { NewScanner with IsRoot := isRoot, Strict := strict, ModelPath := path }
            priv := priv }
    state := []
    names := []
    currentDecoder := nodeDecoder.topLevelDecoder isRoot
    currentName := { Space := "", Local := "" }
    nextBytesCheck := checkEveryBytes
    calls := []
    checks := [] }

/-- `modelFileDecoder.Decode`: the loop runs on one more iteration than there are tokens,
which always suffices. `priv` is the state of the model and of the decoders on entry. -/
def Decode {D δ : Type} (cb : ElementDecoders D δ) (checkEveryBytes : Int) (ctx : Context)
    (x : XMLDecoder) (priv : δ) (path : String) (isRoot strict : Bool) : DecodeResult D δ :=
  let s := initialLoopState x priv path isRoot strict checkEveryBytes
  match decodeLoop cb ctx checkEveryBytes (x.tokens.length + 1) s with
  | some r => r
  | none => { err := .ok none, final := s }

/-- A well-nested token stream: every start element is closed by an end element of the same
name, after a well-nested content. -/
inductive WellNested : List (XMLToken × Int) → Prop where
  | nil : WellNested []
  | charData (data : List Nat) (off : Int) (rest : List (XMLToken × Int)) :
      WellNested rest → WellNested ((XMLToken.CharData data, off) :: rest)
  | ignored (off : Int) (rest : List (XMLToken × Int)) :
      WellNested rest → WellNested ((XMLToken.Ignored, off) :: rest)
  | element (name : XMLName) (attr : List XMLAttr) (off1 off2 : Int)
      (inner rest : List (XMLToken × Int)) :
      WellNested inner → WellNested rest →
      WellNested ((XMLToken.StartElement name attr, off1) :: inner ++
        (XMLToken.EndElement name, off2) :: rest)

/-- The variables the loop of `Decode` passes through from the variables `s`. -/
inductive Reaches {D δ : Type} (cb : ElementDecoders D δ) (ctx : Context)
    (checkEveryBytes : Int) (s : LoopState D δ) : LoopState D δ → Prop where
  | start : Reaches cb ctx checkEveryBytes s s
  | next (s1 s2 : LoopState D δ) :
      Reaches cb ctx checkEveryBytes s s1 → decodeStep cb ctx checkEveryBytes s1 = .inr s2 →
      Reaches cb ctx checkEveryBytes s s2

/-- The number of recognised elements opened so far: the recorded `Open` calls. -/
def countOpened {D : Type} : List (Call D) → Nat
  | [] => 0
  | Call.Open _ :: rest => countOpened rest + 1
  | _ :: rest => countOpened rest

/-- The number of recognised elements closed so far: the recorded `Close` calls that
returned true. -/
def countClosed {D : Type} : List (Call D) → Nat
  | [] => 0
  | Call.Close _ true :: rest => countClosed rest + 1
  | _ :: rest => countClosed rest

/-- The recursive descent that the loop of `Decode` is to carry out on a well-nested token
stream while every callback returns true, told from the point of view of the decoder `d`
that is current: `Walk cb d st tokens st1 calls` says that on `tokens`, from the state `st`,
the decoders are called as `calls` lists, oldest first, and leave the state `st1`.
Character data goes to `Text` of `d`; an element that `Child` of `d` does not know is passed
over with all its content; for an element that `Child` of `d` knows, the child decoder gets
`SetScanner`, `Open` and `Attributes`, then the content of the element is walked with the
child as the current decoder, then the child gets `Close`, and the walk goes on with `d`. -/
inductive Walk {D δ : Type} (cb : ElementDecoders D δ) :
    nodeDecoder D → DecodeState δ → List (XMLToken × Int) → DecodeState δ →
    List (Call D) → Prop where
  | done (d : nodeDecoder D) (st : DecodeState δ) : Walk cb d st [] st []
  | ignored (d : nodeDecoder D) (st st1 : DecodeState δ) (off : Int)
      (rest : List (XMLToken × Int)) (calls : List (Call D)) :
      Walk cb d st rest st1 calls →
      Walk cb d st ((XMLToken.Ignored, off) :: rest) st1 calls
  | charData (d : nodeDecoder D) (st st1 st2 : DecodeState δ) (data : List Nat) (off : Int)
      (rest : List (XMLToken × Int)) (calls : List (Call D)) :
      d.Text cb data st = (true, st1) →
      Walk cb d st1 rest st2 calls →
      Walk cb d st ((XMLToken.CharData data, off) :: rest) st2 (Call.Text d data true :: calls)
  | unknown (d : nodeDecoder D) (st st1 st2 : DecodeState δ) (name : XMLName)
      (attr : List XMLAttr) (off1 off2 : Int) (inner rest : List (XMLToken × Int))
      (calls : List (Call D)) :
      d.Child cb name st = (none, st1) →
      WellNested inner →
      Walk cb d st1 rest st2 calls →
      Walk cb d st
        ((XMLToken.StartElement name attr, off1) :: inner ++
          (XMLToken.EndElement name, off2) :: rest)
        st2 (Call.Child d name :: calls)
  | element (d child : nodeDecoder D) (st st1 st2 st3 st4 st5 : DecodeState δ) (name : XMLName)
      (attr : List XMLAttr) (off1 off2 : Int) (inner rest : List (XMLToken × Int))
      (calls1 calls2 : List (Call D)) :
      d.Child cb name st = (some child, st1) →
      child.Attributes cb attr
        (child.Open cb ((child.SetScanner cb st1).setElement name.Local)) = (true, st2) →
      Walk cb child st2 inner st3 calls1 →
      child.Close cb (st3.setElement name.Local) = (true, st4) →
      Walk cb d st4 rest st5 calls2 →
      Walk cb d st
        ((XMLToken.StartElement name attr, off1) :: inner ++
          (XMLToken.EndElement name, off2) :: rest)
        st5
        (Call.Child d name :: Call.Open child :: Call.Attributes child attr true ::
          (calls1 ++ Call.Close child true :: calls2))

end Go3mf

namespace Go3mf

variable {D δ : Type}

/-! ## Invariants of the loop of `Decode` -/

/-- The property of the variables that every iteration keeps: the two stacks have the same
length, which is the number of elements that were opened and are not closed yet. -/
def StackInvariant (s : LoopState D δ) : Prop :=
  s.state.length = s.names.length ∧
    countOpened s.calls = countClosed s.calls + s.state.length

/-- What the record of the cancellation checks tells about a token stream `orig`: the k-th
check compared the offset reached after an end element of the stream with the threshold
after `k` checks, which the offset exceeds, and recorded the signal of that moment. -/
def ChecksSound (c : Int) (ctx : Context) (orig : List (XMLToken × Int))
    (checks : List Check) : Prop :=
  ∀ (k : Nat) (ck : Check), checks[k]? = some ck →
    ck.threshold = thresholdAt c k ∧ ck.threshold < ck.offset ∧ ck.signalled = ctx.done k ∧
    ∃ pre name post, orig = pre ++ (XMLToken.EndElement name, ck.offset) :: post

/-- The property of the variables that every iteration keeps, for `Decode` on the token
stream `orig`: what is left to read is an end of `orig`, the threshold is the one after the
checks made, the record of the checks is sound and no check found the signal set. -/
def CheckInvariant (c : Int) (ctx : Context) (orig : List (XMLToken × Int))
    (s : LoopState D δ) : Prop :=
  (∃ pre, orig = pre ++ s.x.tokens) ∧ s.nextBytesCheck = thresholdAt c s.checks.length ∧
    ChecksSound c ctx orig s.checks ∧ ∀ ck ∈ s.checks, ck.signalled = false

/-- What holds when `Decode` on the token stream `orig` ends: the record of the checks is
sound, and a check that found the signal set is the last one, ended `Decode` with the error
of the context, and left unread all the tokens after its end element. -/
def CheckOutcome (c : Int) (ctx : Context) (orig : List (XMLToken × Int))
    (r : DecodeResult D δ) : Prop :=
  ChecksSound c ctx orig r.final.checks ∧
    ∀ (k : Nat) (ck : Check), r.final.checks[k]? = some ck → ck.signalled = true →
      k + 1 = r.final.checks.length ∧ r.err = .ok (some ctx.err.toError) ∧
      ∃ pre name, orig = pre ++ (XMLToken.EndElement name, ck.offset) :: r.final.x.tokens

end Go3mf

namespace Go3mf

/-! ## io3mf/read.go: the `Decoder` -/

/-- Modelled from the spec: `go3mf.ProductionAttachment`, declared outside the files embedded
here: a secondary part of the package, as `extractModelAttachments` records it. -/
structure ProductionAttachment where
  RelationshipType : String
  Path : String
deriving DecidableEq, Repr

/-- Modelled from the spec: `go3mf.Model`, declared outside the files embedded here. These
are the fields that the functions of `read.go` embedded here read and write; build items
and resources are opaque handles. -/
structure Model where
  Path : String
  UUID : String
  BuildItems : List Nat
  Resources : List Nat
  ProductionAttachments : List ProductionAttachment
deriving DecidableEq, Repr

/-- A `packageFile` as the `Decoder` uses it: its name, the error of `Open` (`none` when the
file opens), and what decoding the opened file gives: `decode isRoot strict` is the scanner
that `modelFileDecoder.Decode` leaves in `mf.scanner` and the error it returns. -/
structure packageFile where
  Name : String
  openError : Option GoError
  decode : Bool → Bool → Scanner × Option GoError

/-- Decoder implements a 3mf file decoder: the fields that the functions embedded here read
and write. `productionModels` is the map from the path of a secondary part to its file. -/
structure Decoder where
  Strict : Bool
  Warnings : List GoError
  productionModels : List (String × packageFile)

/-- A call of `modelFileDecoder.Decode`: the path of the part decoded and whether it was
decoded as the root part. -/
structure PartDecode where
  path : String
  isRoot : Bool
deriving DecidableEq, Repr

namespace Decoder

/-- `addModelFile`: copies the UUID and appends the build items, the resources and the
warnings of a decoded part. -/
def addModelFile (d : Decoder) (p : Scanner) (model : Model) : Decoder × Model :=
  let model1 := { model with UUID := p.UUID }
  let model2 :=
    p.BuildItems.foldl (fun m bi => { m with BuildItems := m.BuildItems ++ [bi] }) model1
  let model3 :=
    p.Resources.foldl (fun m res => { m with Resources := m.Resources ++ [res] }) model2
  let d1 := p.Warnings.foldl (fun d w => { d with Warnings := d.Warnings ++ [w] }) d
  (d1, model3)

/-- `processRootModel`: `seen` is the number of receives on `ctx.Done()` made before. The
result is the error, the decoder and the model the call leaves, and the `Decode` call made,
if any. -/
def processRootModel (d : Decoder) (ctx : Context) (seen : Nat) (rootFile : packageFile)
    (model : Model) : Option GoError × Decoder × Model × List PartDecode :=
  match rootFile.openError with
  | some err => (some err, d, model, [])
  | none =>
    match rootFile.decode true d.Strict with
    | (scanner, err) =>
      let err1 := if ctx.done seen then some ctx.err.toError else err
      match d.addModelFile scanner model with
      | (d1, model1) => (err1, d1, model1, [{ path := rootFile.Name, isRoot := true }])

/-- `readProductionAttachmentModel`: the scanner (`none` for the nil pointer) and the error
of the i-th secondary part, and the `Decode` call made, if any. The index expression and
the call of `Open` on the file found in `productionModels` can panic. -/
def readProductionAttachmentModel (d : Decoder) (i : Nat) (model : Model) :
    Except Panic (Option Scanner × Option GoError × List PartDecode) :=
  match model.ProductionAttachments[i]? with
  | none => .error Panic.IndexOutOfRange
  | some attachment =>
    match d.productionModels.lookup attachment.Path with
    | none => .error Panic.NilDereference
    | some file =>
      match file.openError with
      | some err => .ok (none, some err, [])
      | none =>
        match file.decode false d.Strict with
        | (scanner, err) => .ok (some scanner, err, [{ path := attachment.Path, isRoot := false }])

end Decoder

/-- What the goroutines of `processNonRootModels` share: the variable `err`, whether
`cancel` was called, the map `files` (held as the list of its entries in the order they
were stored), the `Decode` calls made, and the number of receives on `ctx.Done()` made. -/
structure TaskState where
  err : Option GoError
  cancelled : Bool
  files : List (Nat × Option Scanner)
  log : List PartDecode
  receives : Nat
deriving DecidableEq, Repr

/-- `files.Store(i, f)`. -/
def TaskState.store (ts : TaskState) (i : Nat) (f : Option Scanner) : TaskState :=
  { ts with files := ts.files.filter (fun e => e.1 != i) ++ [(i, f)] }

namespace Decoder

/-- The goroutine of the i-th secondary part, taken as one step at the time it completes:
it reads and decodes the part, gives up if the context is done by then (the caller's
context is done, or `cancel` was called), and otherwise records its error, if any, calls
`cancel` in that case, and stores its scanner. -/
def nonRootTask (d : Decoder) (ctx : Context) (model : Model) (ts : TaskState) (i : Nat) :
    Except Panic TaskState :=
  match d.readProductionAttachmentModel i model with
  | .error p => .error p
  | .ok (f, err1, log) =>
    let ts1 := { ts with log := ts.log ++ log, receives := ts.receives + 1 }
    if ctx.done ts.receives || ts.cancelled then .ok ts1
    else
      match err1 with
      | some e => .ok ({ ts1 with err := some e, cancelled := true }.store i f)
      | none => .ok (ts1.store i f)

/-- The goroutines of `processNonRootModels` completing in the order `order`. -/
def nonRootTasks (d : Decoder) (ctx : Context) (model : Model) :
    List Nat → TaskState → Except Panic TaskState
  | [], ts => .ok ts
  | i :: rest, ts =>
    match d.nonRootTask ctx model ts i with
    | .error p => .error p
    | .ok ts1 => nonRootTasks d ctx model rest ts1

/-- The last loop of `processNonRootModels`: the stored scanners are added in the order of
`indices`; a stored nil pointer makes `addModelFile` panic. -/
def addStoredFiles (files : List (Nat × Option Scanner)) :
    List Nat → Decoder → Model → Except Panic Unit × Decoder × Model
  | [], d, model => (.ok (), d, model)
  | index :: rest, d, model =>
    match files.lookup index with
    | some (some p) =>
      match d.addModelFile p model with
      | (d1, model1) => addStoredFiles files rest d1 model1
    | _ => (.error Panic.NilDereference, d, model)

/-- `processNonRootModels`: one goroutine per secondary part; `order` is the order in which
they complete. The result is the error (or the panic), the decoder and the model the call
leaves, and the `Decode` calls made, in the order of their completion. -/
def processNonRootModels (d : Decoder) (ctx : Context) (model : Model) (order : List Nat) :
    Except Panic (Option GoError) × Decoder × Model × List PartDecode :=
  match d.nonRootTasks ctx model order
      { err := none, cancelled := false, files := [], log := [], receives := 0 } with
  | .error p => (.error p, d, model, [])
  | .ok ts =>
    match ts.err with
    | some err => (.ok (some err), d, model, ts.log)
    | none =>
      let indices := (ts.files.map Prod.fst).insertionSort (fun a b => a ≤ b)
      match addStoredFiles ts.files indices d model with
      | (.error p, d1, model1) => (.error p, d1, model1, ts.log)
      | (.ok _, d1, model1) => (.ok none, d1, model1, ts.log)

/-- DecodeContext reads the 3mf file and unmarshall its content into the model.
`processOPC` opens the package, finds the root file and records the attachments; it decodes
no part and is a parameter here. `order` is the order in which the goroutines of the
secondary parts complete. -/
def DecodeContext (processOPC : Decoder → Model → Except GoError packageFile × Decoder × Model)
    (d : Decoder) (ctx : Context) (order : List Nat) (model : Model) :
    Except Panic (Option GoError) × Decoder × Model × List PartDecode :=
  match processOPC d model with
  | (.error err, d1, model1) => (.ok (some err), d1, model1, [])
  | (.ok rootFile, d1, model1) =>
    match d1.processNonRootModels ctx model1 order with
    | (.error p, d2, model2, log) => (.error p, d2, model2, log)
    | (.ok (some err), d2, model2, log) => (.ok (some err), d2, model2, log)
    | (.ok none, d2, model2, log) =>
      match d2.processRootModel ctx order.length rootFile model2 with
      | (err, d3, model3, log3) => (.ok err, d3, model3, log ++ log3)

/-- `addModelFile` for each scanner of a list in order. -/
def addModelFiles : List Scanner → Decoder → Model → Decoder × Model
  | [], d, model => (d, model)
  | p :: rest, d, model =>
    match d.addModelFile p model with
    | (d1, model1) => addModelFiles rest d1 model1

end Decoder

end Go3mf

namespace Go3mf

/-! ## Concrete inputs for the decoder -/

/-- A set of element decoders to run the loop on: the decoder object of an element is the
local name of the element. `Child` knows the elements of the namespace `core`; `Attributes`
fails on an attribute named `invalid`, `Close` fails for the element `broken`, and both
leave an error in the scanner then. -/
def sampleDecoders : ElementDecoders String Unit :=
  { Open := fun _ st => st
    Attributes := fun _ attrs st =>
      if attrs.any (fun a => a.Name.Local == "invalid") then
        (false, { st with scanner := { st.scanner with Err := some ⟨"invalid attribute"⟩ } })
      else (true, st)
    Text := fun _ _ st => (true, st)
    Child := fun _ name st => if name.Space = "core" then (some name.Local, st) else (none, st)
    Close := fun d st =>
      if d = "broken" then
        (false, { st with scanner := { st.scanner with Err := some ⟨"close failed"⟩ } })
      else (true, st)
    SetScanner := fun _ st => st
    modelDecoder := "model"
    nsCoreSpec := "core"
    attrModel := "model" }

/-- A context that is never done. -/
def liveContext : Context := { done := fun _ => false, err := ContextError.Canceled }

/-- A context that is done from the start. -/
def cancelledContext : Context := { done := fun _ => true, err := ContextError.Canceled }

/-- The token stream of `<model>text<other:thing>text</other:thing></model>`, the model
element being of the namespace `core`, read to `io.EOF`. -/
def sampleStream : XMLDecoder :=
  { tokens :=
      [(XMLToken.StartElement ⟨"core", "model"⟩ [], 7),
       (XMLToken.CharData [116], 11),
       (XMLToken.StartElement ⟨"other", "thing"⟩ [], 24),
       (XMLToken.CharData [116], 28),
       (XMLToken.EndElement ⟨"other", "thing"⟩, 42),
       (XMLToken.EndElement ⟨"core", "model"⟩, 50)]
    offset := 0
    final := ioEOF }

/-- The token stream of `<model><broken></broken></model>`, both elements of the namespace
`core`, read to `io.EOF`. -/
def brokenStream : XMLDecoder :=
  { tokens :=
      [(XMLToken.StartElement ⟨"core", "model"⟩ [], 7),
       (XMLToken.StartElement ⟨"core", "broken"⟩ [], 15),
       (XMLToken.EndElement ⟨"core", "broken"⟩, 24),
       (XMLToken.EndElement ⟨"core", "model"⟩, 32)]
    offset := 0
    final := ioEOF }

/-- The token stream of `<other:thing><model></model></other:thing>`, the model element
being of the namespace `core`, read to `io.EOF`. -/
def unknownStream : XMLDecoder :=
  { tokens :=
      [(XMLToken.StartElement ⟨"other", "thing"⟩ [], 13),
       (XMLToken.StartElement ⟨"core", "model"⟩ [], 20),
       (XMLToken.EndElement ⟨"core", "model"⟩, 28),
       (XMLToken.EndElement ⟨"other", "thing"⟩, 42)]
    offset := 0
    final := ioEOF }

/-- A model that holds nothing and names one secondary part. -/
def sampleModel : Model :=
  { Path := "/3D/3dmodel.model", UUID := "", BuildItems := [], Resources := []
    ProductionAttachments := [{ RelationshipType := "model3d", Path := "/3D/other.model" }] }

/-- A model that holds nothing and names two secondary parts. -/
def twoPartModel : Model :=
  { Path := "/3D/3dmodel.model", UUID := "", BuildItems := [], Resources := []
    ProductionAttachments :=
      [{ RelationshipType := "model3d", Path := "/3D/first.model" },
       { RelationshipType := "model3d", Path := "/3D/second.model" }] }

/-- The scanner a decode leaves that registered the resource `r` and nothing else. -/
def scannerWith (r : Nat) : Scanner := { NewScanner with Resources := [r] }

/-- A part that opens and decodes without error, registering the resource `r`. -/
def goodFile (name : String) (r : Nat) : packageFile :=
  { Name := name, openError := none, decode := fun _ _ => (scannerWith r, none) }

/-- A root part that opens and whose decode fails after it registered the resource 7 and the
build item 3: the scanner holds them, and the error. -/
def failingRootFile : packageFile :=
  { Name := "/3D/3dmodel.model"
    openError := none
    decode := fun _ _ =>
      ({ NewScanner with
         Resources := [7], BuildItems := [3], Err := some ⟨"invalid required attribute"⟩ },
        some ⟨"invalid required attribute"⟩) }

/-- A decoder in strict mode that knows the files of the secondary parts of `sampleModel`
and of `twoPartModel`. -/
def sampleDecoder : Decoder :=
  { Strict := true
    Warnings := []
    productionModels :=
      [("/3D/other.model", goodFile "/3D/other.model" 2),
       ("/3D/first.model", goodFile "/3D/first.model" 10),
       ("/3D/second.model", goodFile "/3D/second.model" 20)] }

/-- A `processOPC` that finds the root file `/3D/3dmodel.model` and one secondary part. -/
def sampleOPC : Decoder → Model → Except GoError packageFile × Decoder × Model :=
  fun _ _ => (.ok (goodFile "/3D/3dmodel.model" 1), sampleDecoder, sampleModel)

end Go3mf

namespace Go3mf

/-! ## pkg/stack/stack.go -/

/-- ItemStack the stack of Items: the slice `items`, oldest first (the lock guards the
slice and holds no data). -/
structure ItemStack (Item : Type) where
  items : List Item
deriving DecidableEq, Repr

/-- NewItemStack creates a new ItemStack. -/
def NewItemStack (Item : Type) : ItemStack Item := { items := [] }

namespace ItemStack

variable {Item : Type}

/-- Push adds an Item to the top of the stack. -/
def Push (s : ItemStack Item) (t : Item) : ItemStack Item :=
  { items := s.items ++ [t] }

/-- Pop removes an Item from the top of the stack; on an empty stack the index expression
`s.items[len(s.items)-1]` panics. -/
def Pop (s : ItemStack Item) : Except Panic Item × ItemStack Item :=
  match s.items.getLast? with
  | none => (.error Panic.IndexOutOfRange, s)
  | some item => (.ok item, { items := s.items.take (s.items.length - 1) })

/-- `Empty`: whether the stack holds no item. -/
def Empty (s : ItemStack Item) : Bool := s.items.length == 0

/-- `Top`: the item `Pop` would remove; on an empty stack the index expression panics. -/
def Top (s : ItemStack Item) : Except Panic Item :=
  match s.items.getLast? with
  | none => .error Panic.IndexOutOfRange
  | some item => .ok item

/-- Successive `Push` calls, one for each item of the list in order. -/
def PushAll (s : ItemStack Item) : List Item → ItemStack Item
  | [] => s
  | x :: xs => PushAll (s.Push x) xs

/-- Successive `Pop` calls, `k` of them; returns the items popped, in the order of the
calls. A call that panics ends the sequence. -/
def PopN : Nat → ItemStack Item → Except Panic (List Item) × ItemStack Item
  | 0, s => (.ok [], s)
  | k + 1, s =>
    match s.Pop with
    | (.error e, s1) => (.error e, s1)
    | (.ok item, s1) =>
      match PopN k s1 with
      | (.error e, s2) => (.error e, s2)
      | (.ok items, s2) => (.ok (item :: items), s2)

end ItemStack

end Go3mf

namespace Go3mf

/-! ## Concrete inputs for a failing secondary part -/

/-- A context that the caller cancels so that it is done from the receive number `k` on. -/
def doneFrom (k : Nat) : Context :=
  { done := fun n => decide (k ≤ n), err := ContextError.Canceled }

/-- A part that opens and whose decode fails after it registered the resource `r`. -/
def failingFile (name : String) (r : Nat) : packageFile :=
  { Name := name
    openError := none
    decode := fun _ _ =>
      ({ NewScanner with Resources := [r], Err := some ⟨"invalid required attribute"⟩ },
        some ⟨"invalid required attribute"⟩) }

/-- A decoder in strict mode for `twoPartModel`: the first secondary part decodes, the
second fails. -/
def failingDecoder : Decoder :=
  { Strict := true
    Warnings := []
    productionModels :=
      [("/3D/first.model", goodFile "/3D/first.model" 10),
       ("/3D/second.model", failingFile "/3D/second.model" 20)] }

end Go3mf

namespace Go3mf

/-! ## io3mf: the names of namespaces and attributes -/

/-- Modelled from the spec: the constants of package `io3mf` that name the namespaces and
the attributes are declared outside the files embedded here; they have the values of the
document format: this is the namespace of the production extension. -/
def nsProductionSpec : String := "http://schemas.microsoft.com/3dmanufacturing/production/2015/06"

/-- Modelled from the spec: see `nsProductionSpec`; the namespace of the slice extension. -/
def nsSliceSpec : String := "http://schemas.microsoft.com/3dmanufacturing/slice/2015/07"

/-- Modelled from the spec: see `nsProductionSpec`. -/
def attrProdUUID : String := "UUID"

/-- Modelled from the spec: see `nsProductionSpec`. -/
def attrPath : String := "path"

/-- Modelled from the spec: see `nsProductionSpec`. -/
def attrObjectID : String := "objectid"

/-- Modelled from the spec: see `nsProductionSpec`. -/
def attrTransform : String := "transform"

/-- Modelled from the spec: see `nsProductionSpec`. -/
def attrID : String := "id"

/-- Modelled from the spec: see `nsProductionSpec`. -/
def attrType : String := "type"

/-- Modelled from the spec: see `nsProductionSpec`. -/
def attrThumbnail : String := "thumbnail"

/-- Modelled from the spec: see `nsProductionSpec`. -/
def attrName : String := "name"

/-- Modelled from the spec: see `nsProductionSpec`. -/
def attrPartNumber : String := "partnumber"

/-- Modelled from the spec: see `nsProductionSpec`. -/
def attrPID : String := "pid"

/-- Modelled from the spec: see `nsProductionSpec`. -/
def attrPIndex : String := "pindex"

/-- Modelled from the spec: see `nsProductionSpec`. -/
def attrSliceRefID : String := "slicestackid"

/-- Modelled from the spec: see `nsProductionSpec`. -/
def attrMeshRes : String := "meshresolution"

/-- Modelled from the spec: see `nsProductionSpec`. -/
def attrV1 : String := "v1"

/-- Modelled from the spec: see `nsProductionSpec`. -/
def attrV2 : String := "v2"

/-- Modelled from the spec: see `nsProductionSpec`. -/
def attrR1 : String := "r1"

/-- Modelled from the spec: see `nsProductionSpec`. -/
def attrR2 : String := "r2"

/-- Modelled from the spec: see `nsProductionSpec`. -/
def attrCap1 : String := "cap1"

/-- Modelled from the spec: see `nsProductionSpec`. -/
def attrCap2 : String := "cap2"

/-- Modelled from the spec: see `nsProductionSpec`. -/
def attrRadius : String := "radius"

/-- Modelled from the spec: see `nsProductionSpec`. -/
def attrMinLength : String := "minlength"

/-- Modelled from the spec: see `nsProductionSpec`. -/
def attrPrecision : String := "precision"

/-- Modelled from the spec: see `nsProductionSpec`. -/
def attrClippingMode : String := "clippingmode"

/-- Modelled from the spec: see `nsProductionSpec`. -/
def attrClipping : String := "clipping"

/-- Modelled from the spec: see `nsProductionSpec`. -/
def attrClippingMesh : String := "clippingmesh"

/-- Modelled from the spec: see `nsProductionSpec`. -/
def attrRepresentationMesh : String := "representationmesh"

/-- Modelled from the spec: see `nsProductionSpec`. -/
def attrCap : String := "cap"

/-! ## io3mf/object.go: the data the decoders build -/

namespace go3mf

/-- Modelled from the spec: `go3mf.ObjectResource` is declared outside the files embedded
here; these are the fields `object.go` reads and writes (the metadata are left out). -/
structure ObjectResource where
  ID : Nat
  ModelPath : String
  UUID : String
  Name : String
  PartNumber : String
  Thumbnail : String
  ObjectType : Go3mf.ObjectType
  DefaultPropertyID : Nat
  DefaultPropertyIndex : Nat
  SliceStackID : Nat
  SliceResoultion : String
deriving DecidableEq, Repr

/-- Modelled from the spec: `go3mf.Component` is declared outside the files embedded here:
a target Object reference (`none` is the nil interface), a transform and a UUID. `Obj` is
the type of the values of the interface `go3mf.Object`. -/
structure Component (Obj : Type) where
  Object : Option Obj
  Transform : Mat4
  UUID : String

/-- Modelled from the spec: `go3mf.ComponentsResource` is declared outside the files
embedded here: the common fields of an object and the ordered sequence of components. -/
structure ComponentsResource (Obj : Type) where
  ObjectResource : go3mf.ObjectResource
  Components : List (Component Obj)

end go3mf

/-- The methods of `iohelper.Scanner` that `object.go` calls; they are declared outside the
files embedded here and are parameters of the decoders. Each takes the scanner it is called
on and returns, next to its results, the scanner it leaves. `Resource` is the type of the
values of the interface `go3mf.Resource`. -/
structure ScannerMethods (Resource : Type) where
  GenericError : Scanner → Bool → String → Bool × Scanner
  MissingAttr : Scanner → String → Bool × Scanner
  InvalidRequiredAttr : Scanner → String → String → Bool × Scanner
  InvalidOptionalAttr : Scanner → String → String → Scanner
  ParseResourceID : Scanner → String → (Nat × Bool) × Scanner
  ParseUint32Required : Scanner → String → String → (Nat × Bool) × Scanner
  ParseUint32Optional : Scanner → String → String → Nat × Scanner
  ParseToMatrixOptional : Scanner → String → String → Mat4 × Scanner
  NamespaceRegistered : Scanner → String → Bool
  FindResource : Scanner → String → Nat → Option Resource

/-! ## io3mf/object.go: `objectDecoder` -/

/-- The `objectDecoder`: the scanner it shares with the other decoders of the part, and
the resource it builds. -/
structure objectDecoder where
  scanner : Scanner
  resource : go3mf.ObjectResource
deriving DecidableEq, Repr

namespace objectDecoder

variable {Resource : Type}

/-- `Open`: takes the path of the part from the scanner. -/
def Open (d : objectDecoder) : objectDecoder :=
  { d with resource := { d.resource with ModelPath := d.scanner.ModelPath } }

/-- `parseCoreAttr`: an attribute without namespace. `newObjectType` of package `io3mf` is
declared outside the files embedded here and is a parameter. -/
def parseCoreAttr (sm : ScannerMethods Resource) (newObjectType : String → ObjectType × Bool)
    (d : objectDecoder) (a : XMLAttr) : Bool × objectDecoder :=
  if a.Name.Local = attrID then
    ((sm.ParseResourceID d.scanner a.Value).1.2,
      { scanner := (sm.ParseResourceID d.scanner a.Value).2
        resource := { d.resource with ID := (sm.ParseResourceID d.scanner a.Value).1.1 } })
  else if a.Name.Local = attrType then
    if (newObjectType a.Value).2 then
      (true, { d with resource := { d.resource with ObjectType := (newObjectType a.Value).1 } })
    else
      (true,
        { scanner := sm.InvalidOptionalAttr d.scanner attrType a.Value
          resource := { d.resource with ObjectType := (newObjectType a.Value).1 } })
  else if a.Name.Local = attrThumbnail then
    (true, { d with resource := { d.resource with Thumbnail := a.Value } })
  else if a.Name.Local = attrName then
    (true, { d with resource := { d.resource with Name := a.Value } })
  else if a.Name.Local = attrPartNumber then
    (true, { d with resource := { d.resource with PartNumber := a.Value } })
  else if a.Name.Local = attrPID then
    (true,
      { scanner := (sm.ParseUint32Optional d.scanner attrPID a.Value).2
        resource := { d.resource with
          DefaultPropertyID := (sm.ParseUint32Optional d.scanner attrPID a.Value).1 } })
  else if a.Name.Local = attrPIndex then
    (true,
      { scanner := (sm.ParseUint32Optional d.scanner attrPIndex a.Value).2
        resource := { d.resource with
          DefaultPropertyIndex := (sm.ParseUint32Optional d.scanner attrPIndex a.Value).1 } })
  else (true, d)

/-- `parseSliceAttr`: an attribute of the slice namespace. `newSliceResolution` of package
`io3mf` is declared outside the files embedded here and is a parameter. -/
def parseSliceAttr (sm : ScannerMethods Resource) (newSliceResolution : String → String × Bool)
    (d : objectDecoder) (a : XMLAttr) : Bool × objectDecoder :=
  if a.Name.Local = attrSliceRefID then
    ((sm.ParseUint32Required d.scanner attrSliceRefID a.Value).1.2,
      { scanner := (sm.ParseUint32Required d.scanner attrSliceRefID a.Value).2
        resource := { d.resource with
          SliceStackID := (sm.ParseUint32Required d.scanner attrSliceRefID a.Value).1.1 } })
  else if a.Name.Local = attrMeshRes then
    if (newSliceResolution a.Value).2 then
      (true,
        { d with resource := { d.resource with SliceResoultion := (newSliceResolution a.Value).1 } })
    else
      (true,
        { scanner := sm.InvalidOptionalAttr d.scanner attrMeshRes a.Value
          resource := { d.resource with SliceResoultion := (newSliceResolution a.Value).1 } })
  else (true, d)

/-- The body of the loop of `Attributes`: what one attribute does, and the value it leaves
in `ok`. `validateUUID` of package `io3mf` is declared outside the files embedded here and
is a parameter. -/
def handleAttr (sm : ScannerMethods Resource) (validateUUID : String → Option GoError)
    (newObjectType : String → ObjectType × Bool) (newSliceResolution : String → String × Bool)
    (d : objectDecoder) (a : XMLAttr) : Bool × objectDecoder :=
  if a.Name.Space = nsProductionSpec then
    if a.Name.Local = attrProdUUID then
      match validateUUID a.Value with
      | some _ =>
        ((sm.InvalidRequiredAttr d.scanner attrProdUUID a.Value).1,
          { d with scanner := (sm.InvalidRequiredAttr d.scanner attrProdUUID a.Value).2 })
      | none => (true, { d with resource := { d.resource with UUID := a.Value } })
    else (true, d)
  else if a.Name.Space = nsSliceSpec then parseSliceAttr sm newSliceResolution d a
  else if a.Name.Space = "" then parseCoreAttr sm newObjectType d a
  else (true, d)

/-- `Attributes`: the attributes are handled in order; the first one that leaves `ok` false
ends the loop. -/
def Attributes (sm : ScannerMethods Resource) (validateUUID : String → Option GoError)
    (newObjectType : String → ObjectType × Bool) (newSliceResolution : String → String × Bool) :
    objectDecoder → List XMLAttr → Bool × objectDecoder
  | d, [] => (true, d)
  | d, a :: rest =>
    match handleAttr sm validateUUID newObjectType newSliceResolution d a with
    | (false, d1) => (false, d1)
    | (true, d1) => Attributes sm validateUUID newObjectType newSliceResolution d1 rest

end objectDecoder

/-! ## io3mf/object.go: `componentDecoder` -/

/-- The `componentDecoder`: the scanner it shares with the other decoders of the part, and
the components resource of the enclosing element, which `componentsDecoder.Open` points
`resource` to. -/
structure componentDecoder (Obj : Type) where
  scanner : Scanner
  resource : go3mf.ComponentsResource Obj

/-- The local variables of `componentDecoder.Attributes`. -/
structure componentVars (Obj : Type) where
  component : go3mf.Component Obj
  path : String
  objectID : Nat

/-- The local variables of `componentDecoder.Attributes` at their zero values. -/
def componentVars.zero (Obj : Type) : componentVars Obj :=
  { component := { Object := none, Transform := fun _ => 0, UUID := "" }, path := "", objectID := 0 }

namespace componentDecoder

variable {Resource Obj : Type}

/-- The body of the loop of `Attributes`: what one attribute does to the scanner and to the
local variables, and the value it leaves in `ok`. -/
def handleAttr (sm : ScannerMethods Resource) (validateUUID : String → Option GoError)
    (s : Scanner) (v : componentVars Obj) (a : XMLAttr) : Bool × Scanner × componentVars Obj :=
  if a.Name.Space = nsProductionSpec then
    if a.Name.Local = attrProdUUID then
      match validateUUID a.Value with
      | some _ =>
        ((sm.InvalidRequiredAttr s attrProdUUID a.Value).1,
          (sm.InvalidRequiredAttr s attrProdUUID a.Value).2, v)
      | none => (true, s, { v with component := { v.component with UUID := a.Value } })
    else if a.Name.Local = attrPath then (true, s, { v with path := a.Value })
    else (true, s, v)
  else if a.Name.Space = "" then
    if a.Name.Local = attrObjectID then
      ((sm.ParseUint32Required s attrObjectID a.Value).1.2,
        (sm.ParseUint32Required s attrObjectID a.Value).2,
        { v with objectID := (sm.ParseUint32Required s attrObjectID a.Value).1.1 })
    else if a.Name.Local = attrTransform then
      (true, (sm.ParseToMatrixOptional s attrTransform a.Value).2,
        { v with component :=
          { v.component with Transform := (sm.ParseToMatrixOptional s attrTransform a.Value).1 } })
    else (true, s, v)
  else (true, s, v)

/-- The loop of `Attributes`: the first attribute that leaves `ok` false ends it (and
`Attributes` returns false). -/
def attributesLoop (sm : ScannerMethods Resource) (validateUUID : String → Option GoError) :
    List XMLAttr → Scanner → componentVars Obj → Bool × Scanner × componentVars Obj
  | [], s, v => (true, s, v)
  | a :: rest, s, v =>
    match handleAttr sm validateUUID s v a with
    | (false, s1, v1) => (false, s1, v1)
    | (true, s1, v1) => attributesLoop sm validateUUID rest s1 v1

/-- The first part of `addComponent`: the check for the UUID and the check for a path in a
part that is not the root part; the value of `ok` and the scanner they leave. -/
def precheck (sm : ScannerMethods Resource) (s : Scanner) (component : go3mf.Component Obj)
    (path : String) : Bool × Scanner :=
  let r1 : Bool × Scanner :=
    if component.UUID = "" ∧ sm.NamespaceRegistered s nsProductionSpec = true then
      sm.MissingAttr s attrProdUUID
    else (true, s)
  if r1.1 = true ∧ path ≠ "" ∧ r1.2.IsRoot = false then
    sm.GenericError r1.2 true "path attribute in a non-root file is not supported"
  else r1

/-- The second part of `addComponent`: the lookup of the target and the type assertion
`resource.(go3mf.Object)`, which is the parameter `asObject`; the value of `ok`, the scanner
and the component they leave. -/
def resolve (sm : ScannerMethods Resource) (asObject : Resource → Option Obj) (s : Scanner)
    (component : go3mf.Component Obj) (path : String) (objectID : Nat) :
    Bool × Scanner × go3mf.Component Obj :=
  match sm.FindResource s path (u32 objectID) with
  | none =>
    ((sm.GenericError s true "non-existent referenced object").1,
      (sm.GenericError s true "non-existent referenced object").2, component)
  | some resource =>
    match asObject resource with
    | some o => (true, s, { component with Object := some o })
    | none =>
      ((sm.GenericError s true "non-object referenced resource").1,
        (sm.GenericError s true "non-object referenced resource").2,
        { component with Object := none })

/-- `addComponent`: the two checks, then the lookup of the target; the component is
appended when `ok` is true at the end. -/
def addComponent (sm : ScannerMethods Resource) (asObject : Resource → Option Obj)
    (d : componentDecoder Obj) (component : go3mf.Component Obj) (path : String)
    (objectID : Nat) : Bool × componentDecoder Obj :=
  match precheck sm d.scanner component path with
  | (false, s1) => (false, { d with scanner := s1 })
  | (true, s1) =>
    match resolve sm asObject s1 component path objectID with
    | (true, s2, c) =>
      (true,
        { scanner := s2
          resource := { d.resource with Components := d.resource.Components ++ [c] } })
    | (false, s2, _) => (false, { d with scanner := s2 })

/-- `Attributes`: the loop over the attributes, then `addComponent` on what they gave. The
local variables start at their zero values. -/
def Attributes (sm : ScannerMethods Resource) (validateUUID : String → Option GoError)
    (asObject : Resource → Option Obj) (d : componentDecoder Obj) (attrs : List XMLAttr) :
    Bool × componentDecoder Obj :=
  match attributesLoop sm validateUUID attrs d.scanner (componentVars.zero Obj) with
  | (false, s1, _) => (false, { d with scanner := s1 })
  | (true, s1, v) => addComponent sm asObject { d with scanner := s1 } v.component v.path v.objectID

end componentDecoder

end Go3mf

namespace Go3mf

/-! ## io3mf/beamlattice.go: the data the decoders build -/

/-- The comparison `x == 0` of a `float64` held as its bit pattern: it holds for `+0` and
for `-0` and for no other value. -/
def f64IsZero (bits : Nat) : Bool := bits == 0 || bits == 9223372036854775808

/-- ClipMode defines the clipping modes for the beam lattices (`type ClipMode string` of
`types.go`). -/
abbrev ClipMode := String

namespace mesh

/-- Modelled from the spec: `mesh.CapMode` is declared outside the files embedded here: the
cap mode of an end of a beam, an enumeration held as its number. -/
abbrev CapMode := Nat

/-- Modelled from the spec: `mesh.Beam` is declared outside the files embedded here: two
vertex indices, two radii (`float64`, each as its bit pattern) and two cap modes. -/
structure Beam where
  NodeIndices : Nat × Nat
  Radius : Nat × Nat
  CapMode : CapMode × CapMode
deriving DecidableEq, Repr

/-- Modelled from the spec: `mesh.BeamSet` is declared outside the files embedded here: a
named subset of the beams, by index. -/
structure BeamSet where
  Name : String
  Identifier : String
  Refs : List Nat
deriving DecidableEq, Repr

/-- Modelled from the spec: `mesh.Mesh` is declared outside the files embedded here; these
are the fields `beamlattice.go` reads and writes: the default radius and the minimum length
(`float64`, as bit patterns), the default cap mode, the beams and the beam sets. -/
structure Mesh where
  DefaultRadius : Nat
  MinLength : Nat
  CapMode : CapMode
  Beams : List Beam
  BeamSets : List BeamSet
deriving DecidableEq, Repr

end mesh

namespace go3mf

/-- Modelled from the spec: `BeamLatticeAttributes` of `go3mf.MeshResource` is declared
outside the files embedded here: the clip mode and the references to a clipping mesh and
to a representation mesh by id. -/
structure BeamLatticeAttributes where
  ClipMode : Go3mf.ClipMode
  ClippingMeshID : Nat
  RepresentationMeshID : Nat
deriving DecidableEq, Repr

/-- Modelled from the spec: `go3mf.MeshResource` is declared outside the files embedded
here; these are the fields `beamlattice.go` reads and writes. `Mesh` is the mesh the
pointer of the resource points to. -/
structure MeshResource where
  Mesh : Go3mf.mesh.Mesh
  BeamLatticeAttributes : BeamLatticeAttributes
deriving DecidableEq, Repr

end go3mf

/-- The functions that `beamlattice.go` calls and that are declared outside the files
embedded here; they are parameters of the decoders. `ParseUint` is
`strconv.ParseUint(s, 10, 32)` and `ParseFloat` is `strconv.ParseFloat(s, 64)`, each
returning its value (the float as its bit pattern) and its error; `newCapMode` and
`newClipMode` of package `io3mf` return a value and whether the string is a known one. -/
structure BeamParsers where
  ParseUint : String → Nat × Option GoError
  ParseFloat : String → Nat × Option GoError
  newCapMode : String → mesh.CapMode × Bool
  newClipMode : String → ClipMode × Bool

/-! ## io3mf/beamlattice.go: `beamLatticeDecoder` -/

/-- The `beamLatticeDecoder`: `r` is the `Reader`, of a type `R` left open, and `resource`
the mesh resource the pointer of the decoder points to. -/
structure beamLatticeDecoder (R : Type) where
  r : R
  resource : go3mf.MeshResource

namespace beamLatticeDecoder

variable {R : Type}

/-- The body of the loop of `Attributes`: what one attribute does, and the value it leaves
in `err`. -/
def handleAttr (ps : BeamParsers) (d : beamLatticeDecoder R) (a : XMLAttr) :
    Option GoError × beamLatticeDecoder R :=
  if a.Name.Space ≠ "" then (none, d)
  else if a.Name.Local = attrRadius then
    ((ps.ParseFloat a.Value).2,
      { d with resource := { d.resource with
          Mesh := { d.resource.Mesh with DefaultRadius := (ps.ParseFloat a.Value).1 } } })
  else if a.Name.Local = attrMinLength ∨ a.Name.Local = attrPrecision then
    ((ps.ParseFloat a.Value).2,
      { d with resource := { d.resource with
          Mesh := { d.resource.Mesh with MinLength := (ps.ParseFloat a.Value).1 } } })
  else if a.Name.Local = attrClippingMode ∨ a.Name.Local = attrClipping then
    (none,
      { d with resource := { d.resource with
          BeamLatticeAttributes := { d.resource.BeamLatticeAttributes with
            ClipMode := (ps.newClipMode a.Value).1 } } })
  else if a.Name.Local = attrClippingMesh then
    ((ps.ParseUint a.Value).2,
      { d with resource := { d.resource with
          BeamLatticeAttributes := { d.resource.BeamLatticeAttributes with
            ClippingMeshID := u32 (ps.ParseUint a.Value).1 } } })
  else if a.Name.Local = attrRepresentationMesh then
    ((ps.ParseUint a.Value).2,
      { d with resource := { d.resource with
          BeamLatticeAttributes := { d.resource.BeamLatticeAttributes with
            RepresentationMeshID := u32 (ps.ParseUint a.Value).1 } } })
  else if a.Name.Local = attrCap then
    (none,
      { d with resource := { d.resource with
          Mesh := { d.resource.Mesh with CapMode := (ps.newCapMode a.Value).1 } } })
  else (none, d)

/-- `Attributes`: the attributes are handled in order; the first one that leaves an error
ends the loop, and the error is returned. -/
def Attributes (ps : BeamParsers) : beamLatticeDecoder R → List XMLAttr →
    Option GoError × beamLatticeDecoder R
  | d, [] => (none, d)
  | d, a :: rest =>
    match handleAttr ps d a with
    | (some err, d1) => (some err, d1)
    | (none, d1) => Attributes ps d1 rest

end beamLatticeDecoder

/-! ## io3mf/beamlattice.go: `beamDecoder` -/

/-- The `beamDecoder`: `r` is the `Reader`, of a type `R` left open, and `mesh` the mesh
the pointer of the decoder points to. -/
structure beamDecoder (R : Type) where
  r : R
  mesh : mesh.Mesh

/-- The local variables of `beamDecoder.Attributes`. -/
structure beamVars where
  v1 : Nat
  v2 : Nat
  r1 : Nat
  r2 : Nat
  cap1 : mesh.CapMode
  cap2 : mesh.CapMode
  hasCap1 : Bool
  hasCap2 : Bool
deriving DecidableEq, Repr

/-- The local variables of `beamDecoder.Attributes` at their zero values. -/
def beamVars.zero : beamVars :=
  { v1 := 0, v2 := 0, r1 := 0, r2 := 0, cap1 := 0, cap2 := 0, hasCap1 := false,
    hasCap2 := false }

namespace beamDecoder

variable {R : Type}

/-- The body of the loop of `Attributes`: what one attribute does to the local variables,
and the value it leaves in `err`. -/
def handleAttr (ps : BeamParsers) (v : beamVars) (a : XMLAttr) : Option GoError × beamVars :=
  if a.Name.Space ≠ "" then (none, v)
  else if a.Name.Local = attrV1 then
    ((ps.ParseUint a.Value).2, { v with v1 := (ps.ParseUint a.Value).1 })
  else if a.Name.Local = attrV2 then
    ((ps.ParseUint a.Value).2, { v with v2 := (ps.ParseUint a.Value).1 })
  else if a.Name.Local = attrR1 then
    ((ps.ParseFloat a.Value).2, { v with r1 := (ps.ParseFloat a.Value).1 })
  else if a.Name.Local = attrR2 then
    ((ps.ParseFloat a.Value).2, { v with r2 := (ps.ParseFloat a.Value).1 })
  else if a.Name.Local = attrCap1 then
    (none, { v with cap1 := (ps.newCapMode a.Value).1, hasCap1 := true })
  else if a.Name.Local = attrCap2 then
    (none, { v with cap2 := (ps.newCapMode a.Value).1, hasCap2 := true })
  else (none, v)

/-- The loop of `Attributes`: the first attribute that leaves an error ends it. -/
def attributesLoop (ps : BeamParsers) : List XMLAttr → beamVars → Option GoError × beamVars
  | [], v => (none, v)
  | a :: rest, v =>
    match handleAttr ps v a with
    | (some err, v1) => (some err, v1)
    | (none, v1) => attributesLoop ps rest v1

/-- The beam that `Attributes` appends for the values the attributes gave: a radius that is
zero and a cap mode that no attribute set are replaced as the code does. -/
def newBeam (m : mesh.Mesh) (v : beamVars) : mesh.Beam :=
  let r1 := if f64IsZero v.r1 then m.DefaultRadius else v.r1
  let r2 := if f64IsZero v.r2 then r1 else v.r2
  let cap1 := if !v.hasCap1 then m.CapMode else v.cap1
  let cap2 := if !v.hasCap2 then m.CapMode else v.cap2
  { NodeIndices := (u32 v.v1, u32 v.v2), Radius := (r1, r2), CapMode := (cap1, cap2) }

/-- `Attributes`: the loop over the attributes; with an error nothing else is done,
otherwise the beam is appended to the beams of the mesh. -/
def Attributes (ps : BeamParsers) (d : beamDecoder R) (attrs : List XMLAttr) :
    Option GoError × beamDecoder R :=
  match attributesLoop ps attrs beamVars.zero with
  | (some err, _) => (some err, d)
  | (none, v) => (none, { d with mesh := { d.mesh with Beams := d.mesh.Beams ++ [newBeam d.mesh v] } })

end beamDecoder

end Go3mf

namespace Go3mf

/-! ## The scanner as the spec describes it -/

/-- Modelled from the spec: how `iohelper.Scanner` (declared outside the files embedded
here) reports a condition that is recoverable: strict mode promotes it to a fatal abort of
the decode of the part, lenient mode records a warning and continues. In strict mode the
error is captured in `Err` and the result is false; in lenient mode the error joins the
warnings and the result is true. -/
def Scanner.strictError (s : Scanner) (err : GoError) : Bool × Scanner :=
  if s.Strict then (false, { s with Err := some err })
  else (true, { s with Warnings := s.Warnings ++ [err] })

/-- Modelled from the spec: how `iohelper.Scanner` reports a condition that is a warning
regardless of mode. -/
def Scanner.warning (s : Scanner) (err : GoError) : Scanner :=
  { s with Warnings := s.Warnings ++ [err] }

/-- Modelled from the spec: how `iohelper.Scanner` reports a condition that is always
fatal. -/
def Scanner.fatalError (s : Scanner) (err : GoError) : Bool × Scanner :=
  (false, { s with Err := some err })

/-- The value of a string of decimal digits; `none` when a character is no digit. -/
def digitsValue (cs : List Char) : Option Nat :=
  cs.foldl
    (fun acc c =>
      match acc with
      | none => none
      | some n => if c.isDigit then some (10 * n + (c.toNat - 48)) else none)
    (some 0)

/-- `strconv.ParseUint(s, 10, 32)`: a non-empty string of decimal digits whose value is a
`uint32`; otherwise the error, with the value that comes with it. -/
def parseUint32 (s : String) : Nat × Option GoError :=
  if s.data = [] then (0, some ⟨"invalid syntax"⟩)
  else
    match digitsValue s.data with
    | none => (0, some ⟨"invalid syntax"⟩)
    | some n =>
      if n < 4294967296 then (n, none) else (4294967295, some ⟨"value out of range"⟩)

/-- Modelled from the spec: the methods of `iohelper.Scanner`, declared outside the files
embedded here, as the spec describes them: an unresolved or mismatched reference, a path in
a part that is not the root part (`GenericError` called with `true`) and a missing required
field are recoverable conditions (`Scanner.strictError`); an invalid required value is
always fatal; an invalid optional value is a warning regardless of mode and leaves the
default; a required numeric attribute that fails to parse aborts in strict mode and in
lenient mode is a warning with the element skipped. `registry` is the resource table that
`FindResource` resolves in, `namespaces` the namespaces the part registered, `parseMatrix`
the parser of a transform. -/
def specScanner {Resource : Type} (registry : String → Nat → Option Resource)
    (namespaces : List String) (parseMatrix : String → Option Mat4) : ScannerMethods Resource :=
  { GenericError := fun s strict msg =>
      if strict then s.strictError ⟨msg⟩ else (true, s.warning ⟨msg⟩)
    MissingAttr := fun s attr => s.strictError ⟨"missing attribute " ++ attr⟩
    InvalidRequiredAttr := fun s attr _ => s.fatalError ⟨"invalid required attribute " ++ attr⟩
    InvalidOptionalAttr := fun s attr _ => s.warning ⟨"invalid optional attribute " ++ attr⟩
    ParseResourceID := fun s v =>
      match parseUint32 v with
      | (n, none) => ((n, true), s)
      | (_, some _) => ((0, false), (s.fatalError ⟨"invalid required attribute id"⟩).2)
    ParseUint32Required := fun s attr v =>
      match parseUint32 v with
      | (n, none) => ((n, true), s)
      | (_, some _) =>
        ((0, false),
          if s.Strict then { s with Err := some ⟨"missing attribute " ++ attr⟩ }
          else s.warning ⟨"missing attribute " ++ attr⟩)
    ParseUint32Optional := fun s attr v =>
      match parseUint32 v with
      | (n, none) => (n, s)
      | (_, some _) => (0, s.warning ⟨"invalid optional attribute " ++ attr⟩)
    ParseToMatrixOptional := fun s attr v =>
      match parseMatrix v with
      | some m => (m, s)
      | none => (fun _ => 0, s.warning ⟨"invalid optional attribute " ++ attr⟩)
    NamespaceRegistered := fun _ ns => namespaces.contains ns
    FindResource := fun _ path id => registry path id }

/-! ## Concrete inputs for the decoders of objects and beams -/

/-- A resource of a part for the examples: an object, with its id, or something else. -/
inductive SampleResource where
  | object (id : Nat)
  | texture (id : Nat)
deriving DecidableEq, Repr

/-- The type assertion `resource.(go3mf.Object)` on the resources of the examples. -/
def SampleResource.asObject : SampleResource → Option Nat
  | SampleResource.object id => some id
  | SampleResource.texture _ => none

/-- A resource table: the root part `/3D/3dmodel.model` (the path is empty from inside it)
holds the object 1 and the texture 2, the part `/3D/other.model` holds the object 1. -/
def sampleRegistry : String → Nat → Option SampleResource := fun path id =>
  if path = "" ∧ id = 1 then some (SampleResource.object 1)
  else if path = "" ∧ id = 2 then some (SampleResource.texture 2)
  else if path = "/3D/other.model" ∧ id = 1 then some (SampleResource.object 1)
  else none

/-- The scanner methods as the spec describes them, on `sampleRegistry`, for a part that
registered no namespace, with a transform parser that knows no transform. -/
def sampleScannerMethods : ScannerMethods SampleResource :=
  specScanner sampleRegistry [] (fun _ => none)

/-- A `validateUUID` for the examples: every non-empty string passes. -/
def sampleValidateUUID : String → Option GoError := fun v =>
  if v = "" then some ⟨"invalid uuid"⟩ else none

/-- A component decoder in lenient mode inside the root part, on an empty component
list. -/
def lenientComponentDecoder : componentDecoder Nat :=
  { scanner := { NewScanner with IsRoot := true, Strict := false, ModelPath := "/3D/3dmodel.model" }
    resource :=
      { ObjectResource :=
          { ID := 5, ModelPath := "/3D/3dmodel.model", UUID := "", Name := "", PartNumber := ""
            Thumbnail := "", ObjectType := ObjectTypeModel, DefaultPropertyID := 0
            DefaultPropertyIndex := 0, SliceStackID := 0, SliceResoultion := "" }
        Components := [] } }

/-- A component decoder in strict mode inside a part that is not the root part. -/
def strictSecondaryComponentDecoder : componentDecoder Nat :=
  { lenientComponentDecoder with
    scanner := { NewScanner with IsRoot := false, Strict := true, ModelPath := "/3D/other.model" } }

/-- A component decoder in lenient mode inside a part that is not the root part. -/
def lenientSecondaryComponentDecoder : componentDecoder Nat :=
  { lenientComponentDecoder with
    scanner := { NewScanner with IsRoot := false, Strict := false, ModelPath := "/3D/other.model" } }

/-- An attribute without namespace. -/
def plainAttr (name value : String) : XMLAttr := { Name := { Space := "", Local := name }, Value := value }

/-- Parsers for the examples: `ParseUint` is `parseUint32`; `ParseFloat` knows the strings
`0`, `1` and `2` (as `strconv.ParseFloat` reads them) and takes every other string for
invalid; `newCapMode` knows `sphere`, `hemisphere` and `butt`, `newClipMode` knows `none`,
`inside` and `outside`. -/
def sampleParsers : BeamParsers :=
  { ParseUint := parseUint32
    ParseFloat := fun s =>
      if s = "0" then (0, none)
      else if s = "1" then (4607182418800017408, none)
      else if s = "2" then (4611686018427387904, none)
      else (0, some ⟨"invalid syntax"⟩)
    newCapMode := fun s =>
      if s = "sphere" then (0, true)
      else if s = "hemisphere" then (1, true)
      else if s = "butt" then (2, true)
      else (0, false)
    newClipMode := fun s =>
      if s = "none" ∨ s = "inside" ∨ s = "outside" then (s, true) else ("", false) }

/-- A mesh with default radius `1.0`, default cap mode 2 and no beams. -/
def sampleBeamMesh : mesh.Mesh :=
  { DefaultRadius := 4607182418800017408, MinLength := 0, CapMode := 2, Beams := [], BeamSets := [] }

/-- A beam decoder on `sampleBeamMesh`; its `Reader` is held as the list of the warnings
it has recorded, none so far. -/
def sampleBeamDecoder : beamDecoder (List GoError) := { r := [], mesh := sampleBeamMesh }

/-- A beam lattice decoder on `sampleBeamMesh`; its `Reader` is held as the list of the
warnings it has recorded, none so far. -/
def sampleBeamLatticeDecoder : beamLatticeDecoder (List GoError) :=
  { r := []
    resource :=
      { Mesh := sampleBeamMesh
        BeamLatticeAttributes := { ClipMode := "", ClippingMeshID := 0, RepresentationMeshID := 0 } } }

/-- An object decoder in strict mode on an object with nothing set. -/
def sampleObjectDecoder : objectDecoder :=
  { scanner := { NewScanner with IsRoot := true, Strict := true, ModelPath := "/3D/3dmodel.model" }
    resource :=
      { ID := 0, ModelPath := "", UUID := "", Name := "", PartNumber := "", Thumbnail := ""
        ObjectType := "", DefaultPropertyID := 0, DefaultPropertyIndex := 0, SliceStackID := 0
        SliceResoultion := "" } }

/-- A `newObjectType` for the examples: the five object types of `types.go` are known. -/
def sampleNewObjectType : String → ObjectType × Bool := fun s =>
  if s = "model" ∨ s = "other" ∨ s = "support" ∨ s = "solidsupport" ∨ s = "surface" then (s, true)
  else ("", false)

/-- A `newSliceResolution` for the examples: the two resolutions of `types.go` are known. -/
def sampleNewSliceResolution : String → String × Bool := fun s =>
  if s = "fullres" ∨ s = "lowres" then (s, true) else ("", false)

end Go3mf

namespace Go3mf

/-! ## Attributes present in an element -/

/-- The element carries an attribute without namespace of this name. -/
def hasPlainAttr (attrs : List XMLAttr) (name : String) : Prop :=
  ∃ a ∈ attrs, a.Name.Space = "" ∧ a.Name.Local = name

instance (attrs : List XMLAttr) (name : String) : Decidable (hasPlainAttr attrs name) := by
  unfold hasPlainAttr
  infer_instance

/-- The attribute is one of the numeric attributes of a beam and fails to parse with the
error `err`. -/
def beamParseFailure (ps : BeamParsers) (a : XMLAttr) (err : GoError) : Prop :=
  a.Name.Space = "" ∧
    (((a.Name.Local = attrV1 ∨ a.Name.Local = attrV2) ∧ (ps.ParseUint a.Value).2 = some err) ∨
      ((a.Name.Local = attrR1 ∨ a.Name.Local = attrR2) ∧ (ps.ParseFloat a.Value).2 = some err))

/-- The attribute is one of the numeric attributes of a beam lattice and fails to parse
with the error `err`. -/
def beamLatticeParseFailure (ps : BeamParsers) (a : XMLAttr) (err : GoError) : Prop :=
  a.Name.Space = "" ∧
    (((a.Name.Local = attrRadius ∨ a.Name.Local = attrMinLength ∨ a.Name.Local = attrPrecision) ∧
        (ps.ParseFloat a.Value).2 = some err) ∨
      ((a.Name.Local = attrClippingMesh ∨ a.Name.Local = attrRepresentationMesh) ∧
        (ps.ParseUint a.Value).2 = some err))

end Go3mf

namespace Go3mf

/-- The attribute is an enumerated attribute of an object: the object type, or the slice
resolution. -/
def objectEnumAttr (a : XMLAttr) : Prop :=
  (a.Name.Space = "" ∧ a.Name.Local = attrType) ∨
    (a.Name.Space = nsSliceSpec ∧ a.Name.Local = attrMeshRes)

/-- The attribute is one of those whose handling by the object decoder can leave `ok`
false, and does so from the decoder `d`: a UUID that `validateUUID` rejects, a slice stack
id, or an id, each with the result of the scanner method that reports on it. -/
def objectAttrFailure {Resource : Type} (sm : ScannerMethods Resource)
    (validateUUID : String → Option GoError) (d : objectDecoder) (a : XMLAttr) : Prop :=
  (a.Name.Space = nsProductionSpec ∧ a.Name.Local = attrProdUUID ∧
      validateUUID a.Value ≠ none ∧
      (sm.InvalidRequiredAttr d.scanner attrProdUUID a.Value).1 = false) ∨
    (a.Name.Space = nsSliceSpec ∧ a.Name.Local = attrSliceRefID ∧
      (sm.ParseUint32Required d.scanner attrSliceRefID a.Value).1.2 = false) ∨
    (a.Name.Space = "" ∧ a.Name.Local = attrID ∧
      (sm.ParseResourceID d.scanner a.Value).1.2 = false)

/-- The attribute is an enumerated attribute of a beam: the cap mode of an end. -/
def beamEnumAttr (a : XMLAttr) : Prop :=
  a.Name.Space = "" ∧ (a.Name.Local = attrCap1 ∨ a.Name.Local = attrCap2)

/-- The attribute is an enumerated attribute of a beam lattice: the cap mode or the
clipping mode. -/
def beamLatticeEnumAttr (a : XMLAttr) : Prop :=
  a.Name.Space = "" ∧
    (a.Name.Local = attrCap ∨ a.Name.Local = attrClippingMode ∨ a.Name.Local = attrClipping)

/-- The value the attributes of a component element leave in the variable `path`, from the
value `p`: the value of the last attribute `path` of the production namespace. -/
def pathAfter (attrs : List XMLAttr) (p : String) : String :=
  attrs.foldl
    (fun p a => if a.Name.Space = nsProductionSpec ∧ a.Name.Local = attrPath then a.Value else p) p

/-- The path attribute of a component element: the value of its last attribute `path` of
the production namespace, empty when it has none. -/
def componentPath (attrs : List XMLAttr) : String := pathAfter attrs ""

/-- An attribute of the production namespace. -/
def productionAttr (name value : String) : XMLAttr :=
  { Name := { Space := nsProductionSpec, Local := name }, Value := value }

end Go3mf

namespace Go3mf

namespace componentDecoder

variable {Resource Obj : Type}

/-- The values that the attributes of a component element leave in the local variables of
`Attributes`. -/
def parsed (sm : ScannerMethods Resource) (validateUUID : String → Option GoError)
    (d : componentDecoder Obj) (attrs : List XMLAttr) : componentVars Obj :=
  (attributesLoop sm validateUUID attrs d.scanner (componentVars.zero Obj)).2.2

/-- The value of `ok` and the scanner after the two checks of `addComponent`, for the
values that the attributes of a component element gave. -/
def checked (sm : ScannerMethods Resource) (validateUUID : String → Option GoError)
    (d : componentDecoder Obj) (attrs : List XMLAttr) : Bool × Scanner :=
  precheck sm
    (attributesLoop sm validateUUID attrs d.scanner (componentVars.zero Obj)).2.1
    (parsed sm validateUUID d attrs).component (parsed sm validateUUID d attrs).path

end componentDecoder

end Go3mf

namespace Go3mf

/-! ## The value of an attribute of an element -/

/-- The value of the last attribute without namespace of this name, if the element has
one: the value a loop over the attributes ends with when every such attribute assigns. -/
def lastPlainValue (attrs : List XMLAttr) (name : String) : Option String :=
  (attrs.reverse.find? (fun a => a.Name.Space == "" && a.Name.Local == name)).map
    (fun a => a.Value)

/-- The value of the first attribute without namespace of this name, if the element has
one: the value a loop over the attributes finds when it stops at the first such
attribute. -/
def firstPlainValue (attrs : List XMLAttr) (name : String) : Option String :=
  (attrs.find? (fun a => a.Name.Space == "" && a.Name.Local == name)).map (fun a => a.Value)

/-! ## io3mf/beamlattice.go: `beamSetsDecoder`, `beamSetDecoder` and `beamRefDecoder` -/

/-- Modelled from the spec: see `nsProductionSpec`; the namespace of the beam lattice
extension. -/
def nsBeamLatticeSpec : String := "http://schemas.microsoft.com/3dmanufacturing/beamlattice/2017/02"

/-- Modelled from the spec: see `nsProductionSpec`. -/
def attrBeamSet : String := "beamset"

/-- Modelled from the spec: see `nsProductionSpec`. -/
def attrRef : String := "ref"

/-- Modelled from the spec: see `nsProductionSpec`. -/
def attrIndex : String := "index"

/-- Modelled from the spec: see `nsProductionSpec`. -/
def attrIdentifier : String := "identifier"

/-- The `beamSetsDecoder`: `r` is the `Reader`, of a type `R` left open, and `mesh` the
mesh the pointer of the decoder points to. -/
structure beamSetsDecoder (R : Type) where
  r : R
  mesh : mesh.Mesh

/-- The `beamSetDecoder` with the `beamRefDecoder` it holds: the `Reader`, the mesh its
pointer points to, the beam set it builds, and `refTarget`, which tells whether the pointer
`beamRefDecoder.beamSet` points to that beam set (`Open` makes it so; it is nil before). -/
structure beamSetDecoder (R : Type) where
  r : R
  mesh : mesh.Mesh
  beamSet : Go3mf.mesh.BeamSet
  refTarget : Bool

/-- `beamSetsDecoder.Child`: a new `beamSetDecoder` for a `beamset` element of the beam
lattice namespace, nil for any other element. -/
def beamSetsDecoder.Child {R : Type} (d : beamSetsDecoder R) (name : XMLName) :
    Option (beamSetDecoder R) :=
  if name.Space = nsBeamLatticeSpec ∧ name.Local = attrBeamSet then
    some
      { r := d.r, mesh := d.mesh, beamSet := { Name := "", Identifier := "", Refs := [] }
        refTarget := false }
  else none

namespace beamSetDecoder

variable {R : Type}

/-- `Open`: hands the `Reader` and the address of the beam set to the `beamRefDecoder`. -/
def Open (d : beamSetDecoder R) : beamSetDecoder R := { d with refTarget := true }

/-- `Close`: appends the beam set to the beam sets of the mesh. -/
def Close (d : beamSetDecoder R) : beamSetDecoder R :=
  { d with mesh := { d.mesh with BeamSets := d.mesh.BeamSets ++ [d.beamSet] } }

/-- The body of the loop of `Attributes`: what one attribute does. -/
def handleAttr (d : beamSetDecoder R) (a : XMLAttr) : beamSetDecoder R :=
  if a.Name.Space ≠ "" then d
  else if a.Name.Local = attrName then { d with beamSet := { d.beamSet with Name := a.Value } }
  else if a.Name.Local = attrIdentifier then
    { d with beamSet := { d.beamSet with Identifier := a.Value } }
  else d

/-- `Attributes`: takes the name and the identifier of the beam set; it returns nil. -/
def Attributes (d : beamSetDecoder R) (attrs : List XMLAttr) : beamSetDecoder R :=
  attrs.foldl handleAttr d

/-- `Child`: whether the result is the `beamRefDecoder` (for a `ref` element of the beam
lattice namespace) and not nil. -/
def Child (_d : beamSetDecoder R) (name : XMLName) : Bool :=
  name.Space = nsBeamLatticeSpec ∧ name.Local = attrRef

end beamSetDecoder

namespace beamRefDecoder

variable {R : Type}

/-- The loop of `Attributes`: the value and the error that `strconv.ParseUint` gives for
the first attribute `index` without namespace; zero and nil when there is none. -/
def index (ps : BeamParsers) (attrs : List XMLAttr) : Nat × Option GoError :=
  match firstPlainValue attrs attrIndex with
  | some value => ps.ParseUint value
  | none => (0, none)

/-- `Attributes` of the `beamRefDecoder` that the `beamSetDecoder` `d` holds: without error
the index is appended to the references of the beam set that the pointer of the decoder
points to, which panics while that pointer is nil. -/
def Attributes (ps : BeamParsers) (d : beamSetDecoder R) (attrs : List XMLAttr) :
    Except Panic (Option GoError) × beamSetDecoder R :=
  match (index ps attrs).2 with
  | some err => (.ok (some err), d)
  | none =>
    if d.refTarget then
      (.ok none,
        { d with beamSet := { d.beamSet with Refs := d.beamSet.Refs ++ [u32 (index ps attrs).1] } })
    else (.error Panic.NilDereference, d)

/-- The `Attributes` calls for the `ref` children of a `beamset` element, in document
order; an error or a panic ends the sequence. -/
def AttributesAll (ps : BeamParsers) :
    List (List XMLAttr) → beamSetDecoder R → Except Panic (Option GoError) × beamSetDecoder R
  | [], d => (.ok none, d)
  | attrs :: rest, d =>
    match Attributes ps d attrs with
    | (.ok none, d1) => AttributesAll ps rest d1
    | (res, d1) => (res, d1)

end beamRefDecoder

/-- The calls made for one `beamset` element with the attributes `attrs` whose `ref`
children carry the attribute lists `refs`, in the order the engine of the decoders makes
them: `Child` of the parent for the element, `Open` and `Attributes` of the new decoder,
`Attributes` of the `beamRefDecoder` for each `ref` child, and `Close` at the end of the
element. An element the parent does not know is skipped; an error or a panic ends the
sequence. The result is paired with the mesh as the calls leave it. -/
def beamSetsDecoder.decodeBeamSet {R : Type} (ps : BeamParsers) (parent : beamSetsDecoder R)
    (name : XMLName) (attrs : List XMLAttr) (refs : List (List XMLAttr)) :
    Except Panic (Option GoError) × mesh.Mesh :=
  match parent.Child name with
  | none => (.ok none, parent.mesh)
  | some d =>
    match beamRefDecoder.AttributesAll ps refs (d.Open.Attributes attrs) with
    | (.ok none, d1) => (.ok none, d1.Close.mesh)
    | (res, d1) => (res, d1.mesh)

/-! ## Concrete inputs for the beam sets -/

/-- A beam sets decoder on `sampleBeamMesh`, which has no beam set. -/
def sampleBeamSetsDecoder : beamSetsDecoder (List GoError) := { r := [], mesh := sampleBeamMesh }

/-- The name of a `beamset` element. -/
def beamSetName : XMLName := { Space := nsBeamLatticeSpec, Local := attrBeamSet }

end Go3mf

namespace Go3mf

/-! ## The end of an iteration of the loop of `Decode` -/

/-- The variables of the loop at the end of an iteration: those the loop goes on with, or
those it is left with. -/
def afterStep {D δ : Type} (r : DecodeResult D δ ⊕ LoopState D δ) : LoopState D δ :=
  match r with
  | .inl r => r.final
  | .inr s => s

/-- Whether the iteration that reads the end element `name` from the variables `s` panics
before it comes to the cancellation check: the name is the current one, `Close` returns
true, and one of the slices `state` and `names` is empty, so that the index expression
`state[len(state)-1]` or `names[len(names)-1]` is out of range. -/
def LoopState.popPanics {D δ : Type} (cb : ElementDecoders D δ) (s : LoopState D δ)
    (name : XMLName) : Bool :=
  decide (s.currentName = name) &&
    ((s.currentDecoder.Close cb (s.st.setElement name.Local)).1 &&
      (s.state.isEmpty || s.names.isEmpty))

/-- The token stream of `<model><a></a><b></b></model>`, all elements of the namespace
`core`, read to `io.EOF`. -/
def nestedStream : XMLDecoder :=
  { tokens :=
      [(XMLToken.StartElement ⟨"core", "model"⟩ [], 7),
       (XMLToken.StartElement ⟨"core", "a"⟩ [], 10),
       (XMLToken.EndElement ⟨"core", "a"⟩, 14),
       (XMLToken.StartElement ⟨"core", "b"⟩ [], 17),
       (XMLToken.EndElement ⟨"core", "b"⟩, 21),
       (XMLToken.EndElement ⟨"core", "model"⟩, 29)]
    offset := 0
    final := ioEOF }

end Go3mf

namespace Go3mf

/-! ## The dedup index -/

theorem VectorTree.FindVector_AddVector (t : VectorTree) (p q : Vec3) (i : Nat) :
    (t.AddVector p i).FindVector q = if q = p then some i else t.FindVector q := by
  unfold VectorTree.FindVector VectorTree.AddVector
  by_cases h : q = p
  · subst h
    simp [List.lookup]
  · have hb : (q == p) = false := by simpa using h
    simp only [List.lookup, hb, if_neg h]
    induction t.entries with
    | nil => rfl
    | cons e es ih =>
      obtain ⟨k, v⟩ := e
      by_cases hk : k = p
      · subst hk
        have : (q == k) = false := hb
        simp [List.filter, List.lookup, this, ih]
      · have hkb : (k != p) = true := by simpa using hk
        simp only [List.filter, hkb, List.lookup]
        cases hq : (q == k) <;> simp [ih]

/-! ## The effective maximum and the count -/

theorem nodeStructure.getMaxNodeCount_lt (n : nodeStructure) (h : n.maxNodeCount < 4294967296) :
    n.getMaxNodeCount < 4294967296 := by
  unfold nodeStructure.getMaxNodeCount MaxNodeCount
  split <;> omega

theorem nodeStructure.WF.NodeCount_eq {n : nodeStructure} (h : n.WF) :
    n.NodeCount = n.nodes.length := by
  have h1 := n.getMaxNodeCount_lt h.hmax
  have h2 := h.hlen
  unfold nodeStructure.NodeCount u32
  exact Nat.mod_eq_of_lt (by omega)

theorem nodeStructure.AddNode_eq (n : nodeStructure) (p : Vec3) :
    n.AddNode p =
      match n.lookup p with
      | some index => (n.Node index, n)
      | none =>
        if n.NodeCount ≥ n.getMaxNodeCount then (.error Panic.MaxNodeError, n)
        else
          (.ok { Index := n.NodeCount, Position := p },
            { n with
              nodes := n.nodes ++ [{ Index := n.NodeCount, Position := p }]
              vectorTree := n.vectorTree.map (fun t => t.AddVector p n.NodeCount) }) := rfl

/-! ## The three outcomes of `AddNode` -/

theorem nodeStructure.AddNode_found (n : nodeStructure) (p : Vec3) (i : Nat)
    (h : n.lookup p = some i) : n.AddNode p = (n.Node i, n) := by
  rw [nodeStructure.AddNode_eq, h]

theorem nodeStructure.AddNode_full (n : nodeStructure) (p : Vec3)
    (h : n.lookup p = none) (hfull : n.getMaxNodeCount ≤ n.NodeCount) :
    n.AddNode p = (.error Panic.MaxNodeError, n) := by
  rw [nodeStructure.AddNode_eq, h]
  simp [hfull]

theorem nodeStructure.AddNode_append (n : nodeStructure) (p : Vec3)
    (h : n.lookup p = none) (hroom : n.NodeCount < n.getMaxNodeCount) :
    n.AddNode p =
      (.ok { Index := n.NodeCount, Position := p },
        { n with
          nodes := n.nodes ++ [{ Index := n.NodeCount, Position := p }]
          vectorTree := n.vectorTree.map (fun t => t.AddVector p n.NodeCount) }) := by
  rw [nodeStructure.AddNode_eq, h]
  simp [Nat.not_le.mpr hroom]

/-! ## The invariant -/

theorem nodeStructure.WF.lookup_none {n : nodeStructure} (h : n.WF) {p : Vec3}
    (hp : ¬ n.Stored p) : n.lookup p = none := by
  unfold nodeStructure.lookup
  cases ht : n.vectorTree with
  | none => rfl
  | some t =>
    cases hf : t.FindVector p with
    | none => simp [hf]
    | some i =>
      exfalso
      apply hp
      have := (h.htree t ht p i).mp hf
      exact ⟨_, List.getElem?_mem this, rfl⟩

theorem nodeStructure.WF.lookup_some {n : nodeStructure} (h : n.WF) {t : VectorTree}
    (ht : n.vectorTree = some t) {node : Go3mf.Node} (hn : node ∈ n.nodes) :
    n.lookup node.Position = some node.Index ∧ n.Node node.Index = .ok node := by
  obtain ⟨i, hi⟩ := List.getElem?_of_mem hn
  have hidx := h.hidx i node hi
  have hlt : i < n.nodes.length := by
    rcases Nat.lt_or_ge i n.nodes.length with hlt | hge
    · exact hlt
    · rw [List.getElem?_eq_none hge] at hi
      cases hi
  have hM := n.getMaxNodeCount_lt h.hmax
  have hlen := h.hlen
  have hu : u32 i = i := Nat.mod_eq_of_lt (by omega)
  constructor
  · unfold nodeStructure.lookup
    rw [ht]
    show t.FindVector node.Position = some node.Index
    rw [hidx]
    apply (h.htree t ht node.Position i).mpr
    rw [hi]
    congr 1
    cases node
    simp_all
  · unfold nodeStructure.Node
    rw [hidx, hu, hi]

theorem nodeStructure.WF.lookup_hit {n : nodeStructure} (h : n.WF) {p : Vec3} {i : Nat}
    (hl : n.lookup p = some i) :
    n.Node i = .ok { Index := i, Position := p } ∧
      ({ Index := i, Position := p } : Go3mf.Node) ∈ n.nodes := by
  unfold nodeStructure.lookup at hl
  cases ht : n.vectorTree with
  | none => rw [ht] at hl; cases hl
  | some t =>
    rw [ht] at hl
    have hi := (h.htree t ht p i).mp hl
    have hmem := List.getElem?_mem hi
    have hlt : i < n.nodes.length := by
      rcases Nat.lt_or_ge i n.nodes.length with hlt | hge
      · exact hlt
      · rw [List.getElem?_eq_none hge] at hi
        cases hi
    have hM := n.getMaxNodeCount_lt h.hmax
    have hlen := h.hlen
    have hu : u32 i = i := Nat.mod_eq_of_lt (by omega)
    refine ⟨?_, hmem⟩
    unfold nodeStructure.Node
    rw [hu, hi]

theorem WF_emptyNodes (withTree : Bool) (maxNodeCount : Nat) (h : maxNodeCount < 4294967296) :
    (emptyNodes withTree maxNodeCount).WF := by
  refine ⟨h, by simp [emptyNodes], ?_, ?_⟩
  · intro i node hi
    simp [emptyNodes] at hi
  · intro t ht p i
    cases withTree <;> simp [emptyNodes] at ht
    subst ht
    simp [VectorTree.FindVector, emptyNodes, List.lookup]

theorem nodeStructure.WF.AddNode {n : nodeStructure} (h : n.WF) (p : Vec3) :
    (n.AddNode p).2.WF := by
  have hM := n.getMaxNodeCount_lt h.hmax
  have hlen := h.hlen
  have hcount := h.NodeCount_eq
  cases hl : n.lookup p with
  | some i => rw [nodeStructure.AddNode_found n p i hl]; exact h
  | none =>
    rcases Nat.lt_or_ge n.NodeCount n.getMaxNodeCount with hroom | hfull
    · rw [nodeStructure.AddNode_append n p hl hroom]
      rw [hcount] at hroom ⊢
      refine ⟨h.hmax, ?_, ?_, ?_⟩
      · show (n.nodes ++ [_]).length ≤ n.getMaxNodeCount
        simp
        omega
      · intro i node hi
        simp only at hi
        rcases Nat.lt_or_ge i n.nodes.length with hlt | hge
        · rw [List.getElem?_append_left hlt] at hi
          exact h.hidx i node hi
        · rw [List.getElem?_append_right hge] at hi
          rcases Nat.eq_or_lt_of_le hge with heq | hgt
          · rw [← heq] at hi
            simp at hi
            rw [← hi, heq]
          · have : i - n.nodes.length ≠ 0 := by omega
            obtain ⟨k, hk⟩ := Nat.exists_eq_succ_of_ne_zero this
            rw [hk] at hi
            simp at hi
      · intro t ht q i
        simp only at ht ⊢
        cases hto : n.vectorTree with
        | none => rw [hto] at ht; cases ht
        | some t0 =>
          rw [hto] at ht
          simp only [Option.map_some', Option.some.injEq] at ht
          subst ht
          rw [VectorTree.FindVector_AddVector]
          have hold : t0.FindVector p = none := by
            unfold nodeStructure.lookup at hl
            rw [hto] at hl
            exact hl
          by_cases hq : q = p
          · subst hq
            simp only [if_true, Option.some.injEq]
            constructor
            · intro hi
              subst hi
              simp
            · intro hi
              rcases Nat.lt_or_ge i n.nodes.length with hlt | hge
              · rw [List.getElem?_append_left hlt] at hi
                have := (h.htree t0 hto q i).mpr hi
                rw [hold] at this
                cases this
              · rcases Nat.eq_or_lt_of_le hge with heq | hgt
                · exact heq
                · rw [List.getElem?_eq_none (by simp; omega)] at hi
                  cases hi
          · simp only [if_neg hq]
            rw [h.htree t0 hto q i]
            rcases Nat.lt_or_ge i n.nodes.length with hlt | hge
            · rw [List.getElem?_append_left hlt]
            · rw [List.getElem?_eq_none hge]
              rcases Nat.eq_or_lt_of_le hge with heq | hgt
              · subst heq
                simp
                intro hqp
                exact hq hqp.symm
              · rw [List.getElem?_eq_none (by simp; omega)]
    · rw [nodeStructure.AddNode_full n p hl hfull]; exact h

theorem nodeStructure.WF.AddNode_ok_position {n : nodeStructure} (h : n.WF) {p : Vec3}
    {node : Go3mf.Node} (hr : (n.AddNode p).1 = .ok node) :
    node.Position = p ∧ node ∈ (n.AddNode p).2.nodes := by
  cases hl : n.lookup p with
  | some i =>
    rw [nodeStructure.AddNode_found n p i hl] at hr ⊢
    obtain ⟨h1, h2⟩ := h.lookup_hit hl
    simp only at hr
    rw [h1] at hr
    cases hr
    exact ⟨rfl, h2⟩
  | none =>
    rcases Nat.lt_or_ge n.NodeCount n.getMaxNodeCount with hroom | hfull
    · rw [nodeStructure.AddNode_append n p hl hroom] at hr ⊢
      simp only at hr
      cases hr
      exact ⟨rfl, by simp⟩
    · rw [nodeStructure.AddNode_full n p hl hfull] at hr
      cases hr

theorem nodeStructure.WF.AddNodes {n : nodeStructure} (h : n.WF) (ps : List Vec3) :
    (Go3mf.AddNodes n ps).2.WF := by
  induction ps generalizing n with
  | nil => exact h
  | cons p ps ih =>
    have h1 := h.AddNode p
    unfold Go3mf.AddNodes
    rcases hres : n.AddNode p with ⟨r, n1⟩
    rw [hres] at h1
    cases r with
    | error e => exact h1
    | ok node =>
      have h2 := ih h1
      simp only at h1 h2 ⊢
      rcases hrest : Go3mf.AddNodes n1 ps with ⟨r2, n2⟩
      rw [hrest] at h2
      cases r2 <;> exact h2

/-! ## `merge` is the sequence of `AddNode` calls -/

theorem nodeStructure.mergeLoop_eq (tc : Vec3 → Mat4 → Vec3) (other : nodeStructure)
    (matrix : Mat4) (k : Nat) :
    ∀ (s : Nat) (n : nodeStructure) (acc : List Go3mf.Node),
      s + k ≤ other.nodes.length → s + k ≤ 4294967296 →
      nodeStructure.mergeLoop tc other matrix (List.range' s k) n acc =
        match Go3mf.AddNodes n
            (((other.nodes.drop s).take k).map (fun node => tc node.Position matrix)) with
        | (.error e, n1) => (.error e, n1)
        | (.ok l, n1) => (.ok (acc ++ l), n1) := by
  induction k with
  | zero =>
    intro s n acc _ _
    simp [nodeStructure.mergeLoop, Go3mf.AddNodes]
  | succ k ih =>
    intro s n acc h1 h2
    have hs : s < other.nodes.length := by omega
    have hu : u32 s = s := Nat.mod_eq_of_lt (by omega)
    have hnode : other.Node (u32 s) = .ok (other.nodes[s]) := by
      unfold nodeStructure.Node
      rw [hu, hu, List.getElem?_eq_getElem hs]
    rw [List.range'_succ, List.drop_eq_getElem_cons hs]
    simp only [List.take_succ_cons, List.map_cons]
    unfold nodeStructure.mergeLoop Go3mf.AddNodes
    rw [hnode]
    simp only
    rcases hres : n.AddNode (tc (other.nodes[s]).Position matrix) with ⟨r, n1⟩
    cases r with
    | error e => rfl
    | ok added =>
      simp only
      rw [ih (s + 1) n1 (acc ++ [added]) (by omega) (by omega)]
      generalize Go3mf.AddNodes n1
          (((other.nodes.drop (s + 1)).take k).map (fun node => tc node.Position matrix)) = res
      rcases res with ⟨r2, n2⟩
      cases r2 with
      | error e => rfl
      | ok l => simp

theorem nodeStructure.NodeCount_le (n : nodeStructure) : n.NodeCount ≤ n.nodes.length :=
  Nat.mod_le _ _

theorem nodeStructure.NodeCount_lt (n : nodeStructure) : n.NodeCount < 4294967296 :=
  Nat.mod_lt _ (by decide)

theorem nodeStructure.merge_eq_AddNodes (tc : Vec3 → Mat4 → Vec3) (n other : nodeStructure)
    (matrix : Mat4) :
    nodeStructure.merge tc n other matrix = Go3mf.AddNodes n (mergedPositions tc other matrix) := by
  unfold nodeStructure.merge mergedPositions
  simp only
  by_cases h0 : other.NodeCount = 0
  · simp [h0, Go3mf.AddNodes]
  · rw [if_neg h0, List.range_eq_range',
      nodeStructure.mergeLoop_eq tc other matrix other.NodeCount 0 n []
        (by have := other.NodeCount_le; omega) (by have := other.NodeCount_lt; omega)]
    simp only [List.drop_zero, List.nil_append]
    generalize Go3mf.AddNodes n
        ((other.nodes.take other.NodeCount).map (fun node => tc node.Position matrix)) = res
    rcases res with ⟨r, n1⟩
    cases r <;> rfl

theorem nodeStructure.WF.merge {n : nodeStructure} (h : n.WF) (tc : Vec3 → Mat4 → Vec3)
    (other : nodeStructure) (matrix : Mat4) : (nodeStructure.merge tc n other matrix).2.WF := by
  rw [nodeStructure.merge_eq_AddNodes]
  exact h.AddNodes _

theorem Reachable.WF {tc : Vec3 → Mat4 → Vec3} {n : nodeStructure} (h : Reachable tc n) :
    n.WF := by
  induction h with
  | empty withTree maxNodeCount hm => exact WF_emptyNodes withTree maxNodeCount hm
  | addNode n p _ ih => exact ih.AddNode p
  | merge n other matrix _ ih => exact ih.merge tc other matrix

/-! ## Sequences of `AddNode` calls -/

theorem nodeStructure.WF.AddNode_fresh {n : nodeStructure} (h : n.WF) {p : Vec3}
    (hp : ¬ n.Stored p) (hroom : n.nodes.length < n.getMaxNodeCount) :
    n.AddNode p =
      (.ok { Index := n.nodes.length, Position := p },
        { n with
          nodes := n.nodes ++ [{ Index := n.nodes.length, Position := p }]
          vectorTree := n.vectorTree.map (fun t => t.AddVector p n.nodes.length) }) := by
  have hc := h.NodeCount_eq
  have := nodeStructure.AddNode_append n p (h.lookup_none hp) (by rw [hc]; exact hroom)
  rw [hc] at this
  exact this

theorem nodeStructure.WF.AddNode_at_capacity {n : nodeStructure} (h : n.WF) {p : Vec3}
    (hp : ¬ n.Stored p) (hfull : n.getMaxNodeCount ≤ n.nodes.length) :
    n.AddNode p = (.error Panic.MaxNodeError, n) :=
  nodeStructure.AddNode_full n p (h.lookup_none hp) (by rw [h.NodeCount_eq]; exact hfull)

theorem nodeStructure.WF.AddNode_stored {n : nodeStructure} (h : n.WF) {t : VectorTree}
    (ht : n.vectorTree = some t) {node : Go3mf.Node} (hn : node ∈ n.nodes) :
    n.AddNode node.Position = (.ok node, n) := by
  obtain ⟨h1, h2⟩ := h.lookup_some ht hn
  rw [nodeStructure.AddNode_found n _ _ h1, h2]

theorem nodeStructure.WF.AddNodes_replicate_stored {n : nodeStructure} (h : n.WF)
    {t : VectorTree} (ht : n.vectorTree = some t) {node : Go3mf.Node} (hn : node ∈ n.nodes)
    (N : Nat) :
    Go3mf.AddNodes n (List.replicate N node.Position) = (.ok (List.replicate N node), n) := by
  induction N with
  | zero => rfl
  | succ N ih =>
    rw [List.replicate_succ, Go3mf.AddNodes, h.AddNode_stored ht hn]
    simp only
    rw [ih]
    rfl

theorem freshNodes_length (start : Nat) (ps : List Vec3) :
    (freshNodes start ps).length = ps.length := by
  induction ps generalizing start with
  | nil => rfl
  | cons p ps ih => simp [freshNodes, ih]

theorem freshNodes_getElem? (start : Nat) (ps : List Vec3) (i : Nat) (p : Vec3)
    (h : ps[i]? = some p) :
    (freshNodes start ps)[i]? = some { Index := start + i, Position := p } := by
  induction ps generalizing start i with
  | nil => simp at h
  | cons q ps ih =>
    cases i with
    | zero =>
      simp at h
      simp [freshNodes, h]
    | succ i =>
      simp at h
      simp only [freshNodes, List.getElem?_cons_succ]
      rw [ih (start + 1) i h]
      congr 2
      omega

theorem nodeStructure.WF.AddNodes_fresh {n : nodeStructure} (h : n.WF) (ps : List Vec3)
    (hnodup : ps.Nodup) (hfresh : ∀ p ∈ ps, ¬ n.Stored p)
    (hcap : n.nodes.length + ps.length ≤ n.getMaxNodeCount) :
    (Go3mf.AddNodes n ps).1 = .ok (freshNodes n.nodes.length ps) ∧
      (Go3mf.AddNodes n ps).2.nodes = n.nodes ++ freshNodes n.nodes.length ps ∧
      (Go3mf.AddNodes n ps).2.getMaxNodeCount = n.getMaxNodeCount := by
  induction ps generalizing n with
  | nil => simp [Go3mf.AddNodes, freshNodes]
  | cons p ps ih =>
    have hp : ¬ n.Stored p := hfresh p (List.mem_cons_self _ _)
    simp only [List.length_cons] at hcap
    have hadd := h.AddNode_fresh hp (by omega)
    have hwf := h.AddNode p
    rw [hadd] at hwf
    simp only at hwf
    obtain ⟨hpn, hps⟩ := List.nodup_cons.mp hnodup
    have hfresh1 : ∀ q ∈ ps, ¬ nodeStructure.Stored
        { n with
          nodes := n.nodes ++ [{ Index := n.nodes.length, Position := p }]
          vectorTree := n.vectorTree.map (fun t => t.AddVector p n.nodes.length) } q := by
      intro q hq hst
      obtain ⟨node, hmem, hpos⟩ := hst
      simp only [List.mem_append, List.mem_singleton] at hmem
      rcases hmem with hmem | hmem
      · exact hfresh q (List.mem_cons_of_mem _ hq) ⟨node, hmem, hpos⟩
      · subst hmem
        simp only at hpos
        subst hpos
        exact hpn hq
    have hrec := ih hwf hps hfresh1 (by
      simp only [List.length_append, List.length_singleton]
      show n.nodes.length + 1 + ps.length ≤ n.getMaxNodeCount
      omega)
    simp only [List.length_append, List.length_singleton] at hrec
    obtain ⟨hr1, hr2, hr3⟩ := hrec
    unfold Go3mf.AddNodes
    rw [hadd]
    simp only
    generalize hres : Go3mf.AddNodes
        { n with
          nodes := n.nodes ++ [{ Index := n.nodes.length, Position := p }]
          vectorTree := n.vectorTree.map (fun t => t.AddVector p n.nodes.length) } ps = res at hr1 hr2 hr3
    rcases res with ⟨r, n2⟩
    simp only at hr1 hr2 hr3
    subst hr1
    refine ⟨rfl, ?_, hr3⟩
    show n2.nodes = _
    rw [hr2]
    simp [freshNodes]

theorem nodeStructure.WF.AddNode_length_le {n : nodeStructure} (p : Vec3) :
    (n.AddNode p).2.nodes.length ≤ n.nodes.length + 1 ∧
      (n.AddNode p).2.getMaxNodeCount = n.getMaxNodeCount := by
  rw [nodeStructure.AddNode_eq]
  cases n.lookup p with
  | some i => simp
  | none =>
    simp only
    split <;> simp [nodeStructure.getMaxNodeCount]

theorem nodeStructure.WF.AddNode_error {n : nodeStructure} (h : n.WF) {p : Vec3} {e : Panic}
    (he : (n.AddNode p).1 = .error e) :
    e = Panic.MaxNodeError ∧ n.lookup p = none ∧ n.nodes.length = n.getMaxNodeCount ∧
      (n.AddNode p).2 = n := by
  cases hl : n.lookup p with
  | some i =>
    rw [nodeStructure.AddNode_found n p i hl] at he
    simp only at he
    rw [(h.lookup_hit hl).1] at he
    cases he
  | none =>
    rcases Nat.lt_or_ge n.NodeCount n.getMaxNodeCount with hroom | hfull
    · rw [nodeStructure.AddNode_append n p hl hroom] at he
      cases he
    · rw [nodeStructure.AddNode_full n p hl hfull] at he ⊢
      simp only [Except.error.injEq] at he
      refine ⟨he.symm, rfl, ?_, rfl⟩
      · have := h.hlen
        rw [h.NodeCount_eq] at hfull
        omega

theorem nodeStructure.WF.AddNodes_ok_positions {n : nodeStructure} (h : n.WF) (ps : List Vec3)
    {l : List Go3mf.Node} (hl : (Go3mf.AddNodes n ps).1 = .ok l) :
    l.map (fun node => node.Position) = ps := by
  induction ps generalizing n l with
  | nil =>
    simp only [Go3mf.AddNodes, Except.ok.injEq] at hl
    subst hl
    rfl
  | cons p ps ih =>
    have hwf := h.AddNode p
    unfold Go3mf.AddNodes at hl
    generalize hres : n.AddNode p = res at hl hwf
    rcases res with ⟨r, n1⟩
    cases r with
    | error e => cases hl
    | ok node =>
      simp only at hl hwf
      have hok : (n.AddNode p).1 = .ok node := by rw [hres]
      have hpos := (h.AddNode_ok_position hok).1
      generalize hres2 : Go3mf.AddNodes n1 ps = res2 at hl
      rcases res2 with ⟨r2, n2⟩
      cases r2 with
      | error e => cases hl
      | ok rest =>
        simp only [Except.ok.injEq] at hl
        subst hl
        have := ih hwf (l := rest) (by rw [hres2])
        simp [hpos, this]

theorem nodeStructure.WF.AddNodes_error {n : nodeStructure} (h : n.WF) (ps : List Vec3)
    {e : Panic} (he : (Go3mf.AddNodes n ps).1 = .error e) : e = Panic.MaxNodeError := by
  induction ps generalizing n with
  | nil => cases he
  | cons p ps ih =>
    have hwf := h.AddNode p
    unfold Go3mf.AddNodes at he
    generalize hres : n.AddNode p = res at he hwf
    rcases res with ⟨r, n1⟩
    cases r with
    | error e1 =>
      simp only [Except.error.injEq] at he
      subst he
      exact (h.AddNode_error (p := p) (e := e1) (by rw [hres])).1
    | ok node =>
      simp only at he hwf
      generalize hres2 : Go3mf.AddNodes n1 ps = res2 at he
      rcases res2 with ⟨r2, n2⟩
      cases r2 with
      | error e2 =>
        simp only [Except.error.injEq] at he
        subst he
        exact ih hwf (by rw [hres2])
      | ok rest => cases he

theorem nodeStructure.WF.AddNodes_ok_of_room {n : nodeStructure} (h : n.WF) (ps : List Vec3)
    (hcap : n.nodes.length + ps.length ≤ n.getMaxNodeCount) :
    ∃ l, (Go3mf.AddNodes n ps).1 = .ok l := by
  induction ps generalizing n with
  | nil => exact ⟨[], rfl⟩
  | cons p ps ih =>
    simp only [List.length_cons] at hcap
    have hwf := h.AddNode p
    obtain ⟨hlen, hmaxeq⟩ := nodeStructure.WF.AddNode_length_le (n := n) p
    unfold Go3mf.AddNodes
    generalize hres : n.AddNode p = res at hwf hlen hmaxeq
    rcases res with ⟨r, n1⟩
    simp only at hwf hlen hmaxeq
    cases r with
    | error e =>
      exfalso
      have := (h.AddNode_error (p := p) (e := e) (by rw [hres])).2.2.1
      omega
    | ok node =>
      simp only
      obtain ⟨rest, hrest⟩ := ih hwf (by omega)
      generalize hres2 : Go3mf.AddNodes n1 ps = res2 at hrest
      rcases res2 with ⟨r2, n2⟩
      simp only at hrest
      subst hrest
      exact ⟨node :: rest, rfl⟩

theorem nodeStructure.WF.checkSanityLoop {n : nodeStructure} (h : n.WF) (indices : List Nat)
    (hlt : ∀ i ∈ indices, i < n.nodes.length) :
    n.checkSanityLoop indices = .ok true := by
  have hM := n.getMaxNodeCount_lt h.hmax
  have hlen := h.hlen
  induction indices with
  | nil => rfl
  | cons i rest ih =>
    have hi : i < n.nodes.length := hlt i (List.mem_cons_self _ _)
    have hu : u32 i = i := Nat.mod_eq_of_lt (by omega)
    have hidx := h.hidx i _ (List.getElem?_eq_getElem hi)
    unfold nodeStructure.checkSanityLoop nodeStructure.Node
    rw [hu, hu, List.getElem?_eq_getElem hi]
    simp only [hidx, ne_eq, not_true_eq_false, if_false]
    exact ih (fun j hj => hlt j (List.mem_cons_of_mem _ hj))

/-! ## Claims on the node structure -/

/-- C1 (amended): in a node structure with a dedup index built from empty by `AddNode` (and
`merge`) calls, `N >= 1` successive `AddNode(p)` calls add no node and all return the stored
node when `p` is stored (also at the maximum node count); they add exactly one node, with
index `NodeCount`, and all return it when `p` is not stored and `NodeCount` is below the
effective maximum; when `p` is not stored and the structure is at its maximum the call
fails with `MaxNodeError` and adds nothing. -/
theorem AddNode_repeated (tc : Vec3 → Mat4 → Vec3) (n : nodeStructure) (hr : Reachable tc n)
    (t : VectorTree) (ht : n.vectorTree = some t) (p : Vec3) (N : Nat) (hN : 1 ≤ N) :
    (∀ node ∈ n.nodes, node.Position = p →
        AddNodes n (List.replicate N p) = (.ok (List.replicate N node), n)) ∧
    (¬ n.Stored p → n.NodeCount < n.getMaxNodeCount →
        AddNodes n (List.replicate N p) =
          (.ok (List.replicate N { Index := n.NodeCount, Position := p }), (n.AddNode p).2) ∧
        (n.AddNode p).2.nodes = n.nodes ++ [{ Index := n.NodeCount, Position := p }]) ∧
    (¬ n.Stored p → n.getMaxNodeCount ≤ n.NodeCount →
        AddNodes n (List.replicate N p) = (.error Panic.MaxNodeError, n)) := by
  have h := hr.WF
  have hc := h.NodeCount_eq
  obtain ⟨k, rfl⟩ : ∃ k, N = k + 1 := ⟨N - 1, by omega⟩
  refine ⟨?_, ?_, ?_⟩
  · intro node hn hpos
    subst hpos
    exact h.AddNodes_replicate_stored ht hn (k + 1)
  · intro hp hroom
    rw [hc] at hroom ⊢
    have hadd := h.AddNode_fresh hp hroom
    have hwf := h.AddNode p
    rw [hadd] at hwf ⊢
    refine ⟨?_, rfl⟩
    have hmem : ({ Index := n.nodes.length, Position := p } : Node) ∈
        (n.nodes ++ [{ Index := n.nodes.length, Position := p }]) := by simp
    have hrest := hwf.AddNodes_replicate_stored (t := t.AddVector p n.nodes.length)
      (by simp [ht]) hmem k
    rw [List.replicate_succ, AddNodes, hadd]
    simp only at hrest ⊢
    rw [hrest]
    rfl
  · intro hp hfull
    rw [hc] at hfull
    rw [List.replicate_succ, AddNodes, h.AddNode_at_capacity hp hfull]

/-- Witness of `AddNode_repeated`: three `AddNode(origin)` calls on the structure that
already stores the origin and is at its maximum. -/
theorem AddNode_repeated_witness :
    1 ≤ 3 ∧ AddNodes fullNodes (List.replicate 3 originPosition) =
      (.ok (List.replicate 3 { Index := 0, Position := originPosition }), fullNodes) :=
  ⟨by decide,
    (AddNode_repeated keepPosition fullNodes
      (Reachable.addNode _ _ (Reachable.empty true 1 (by decide)))
      ⟨[(originPosition, 0)]⟩ rfl originPosition 3 (by decide)).1
      { Index := 0, Position := originPosition } (by decide) rfl⟩

/-- C1 (counterexample): the structure built from empty by one `AddNode` call, with a dedup
index and at its maximum of one node, does not store the unit position, yet two successive
`AddNode` calls for it add no node and return no node: the first already fails. -/
theorem AddNode_repeated_at_capacity :
    fullNodes.vectorTree.isSome = true ∧
      (∀ node ∈ fullNodes.nodes, node.Position ≠ unitPosition) ∧
      AddNodes fullNodes (List.replicate 2 unitPosition) =
        (.error Panic.MaxNodeError, fullNodes) ∧
      (AddNodes fullNodes (List.replicate 2 unitPosition)).2.nodes.length =
        fullNodes.nodes.length :=
  ⟨rfl, by decide, rfl, rfl⟩

/-- C2: with `M` the effective maximum of a node structure built from empty, `AddNode` of a
position that is not stored succeeds whenever `NodeCount < M`, returning the node with index
`NodeCount` and raising the count by one; any run of pairwise distinct new positions that
fits below `M` is inserted in full (from empty: exactly `M` of them); at `NodeCount = M`,
`AddNode` of one more new position fails with `MaxNodeError` and leaves the structure, and
so its count `M`, as it was. -/
theorem AddNode_capacity (tc : Vec3 → Mat4 → Vec3) (n : nodeStructure) (hr : Reachable tc n)
    (p : Vec3) (hp : ¬ n.Stored p) :
    (n.NodeCount < n.getMaxNodeCount →
        (n.AddNode p).1 = .ok { Index := n.NodeCount, Position := p } ∧
        (n.AddNode p).2.NodeCount = n.NodeCount + 1) ∧
    (n.NodeCount = n.getMaxNodeCount →
        (n.AddNode p).1 = .error Panic.MaxNodeError ∧ (n.AddNode p).2 = n ∧
        (n.AddNode p).2.NodeCount = n.getMaxNodeCount) ∧
    (∀ ps : List Vec3, ps.Nodup → (∀ q ∈ ps, ¬ n.Stored q) →
        n.NodeCount + ps.length ≤ n.getMaxNodeCount →
        (AddNodes n ps).1 = .ok (freshNodes n.NodeCount ps) ∧
        (AddNodes n ps).2.NodeCount = n.NodeCount + ps.length ∧
        (AddNodes n ps).2.getMaxNodeCount = n.getMaxNodeCount) := by
  have h := hr.WF
  have hc := h.NodeCount_eq
  have hM := n.getMaxNodeCount_lt h.hmax
  refine ⟨?_, ?_, ?_⟩
  · intro hroom
    rw [hc] at hroom ⊢
    rw [h.AddNode_fresh hp hroom]
    refine ⟨rfl, ?_⟩
    simp only [nodeStructure.NodeCount, u32, List.length_append, List.length_singleton]
    exact Nat.mod_eq_of_lt (by omega)
  · intro hfull
    rw [h.AddNode_at_capacity hp (by omega)]
    exact ⟨rfl, rfl, hfull⟩
  · intro ps hnodup hfresh hcap
    rw [hc] at hcap ⊢
    obtain ⟨h1, h2, h3⟩ := h.AddNodes_fresh ps hnodup hfresh hcap
    refine ⟨h1, ?_, h3⟩
    simp only [nodeStructure.NodeCount, u32]
    rw [h2, List.length_append, freshNodes_length]
    exact Nat.mod_eq_of_lt (by omega)

/-- Witness of `AddNode_capacity`: the empty structure with maximum 1 takes the origin. -/
theorem AddNode_capacity_witness :
    ¬ (emptyNodes true 1).Stored originPosition ∧
      ((emptyNodes true 1).AddNode originPosition).1 =
        .ok { Index := 0, Position := originPosition } :=
  ⟨by decide,
    ((AddNode_capacity keepPosition (emptyNodes true 1) (Reachable.empty true 1 (by decide))
      originPosition (by decide)).1 (by decide)).1⟩

/-- C3: every node structure built from empty by `AddNode` and `merge` calls, with or
without a dedup index, passes `checkSanity`: the count is at most the effective maximum and
the node at every position below the count carries that position as its `Index`. -/
theorem checkSanity_reachable (tc : Vec3 → Mat4 → Vec3) (n : nodeStructure)
    (hr : Reachable tc n) :
    n.checkSanity = .ok true ∧ n.NodeCount ≤ n.getMaxNodeCount ∧
      ∀ i, i < n.NodeCount → ∃ node, n.Node i = .ok node ∧ node.Index = i := by
  have h := hr.WF
  have hc := h.NodeCount_eq
  have hlen := h.hlen
  have hM := n.getMaxNodeCount_lt h.hmax
  refine ⟨?_, by omega, ?_⟩
  · unfold nodeStructure.checkSanity
    simp only
    rw [if_neg (by omega), hc]
    exact h.checkSanityLoop _ (fun i hi => List.mem_range.mp hi)
  · intro i hi
    rw [hc] at hi
    have hu : u32 i = i := Nat.mod_eq_of_lt (by omega)
    refine ⟨n.nodes[i], ?_, h.hidx i _ (List.getElem?_eq_getElem hi)⟩
    unfold nodeStructure.Node
    rw [hu, List.getElem?_eq_getElem hi]

/-- Witness of `checkSanity_reachable`: the structure after merging two nodes into the one
that is full already (the merge stops on capacity) is still sane. -/
theorem checkSanity_reachable_witness :
    (nodeStructure.merge keepPosition fullNodes twoNodes zeroMatrix).2.checkSanity = .ok true :=
  (checkSanity_reachable keepPosition _
    (Reachable.merge fullNodes twoNodes zeroMatrix
      (Reachable.addNode _ _ (Reachable.empty true 1 (by decide))))).1

/-- C4 (amended): in a node structure with a dedup index built from empty by `AddNode` and
`merge` calls, no two stored nodes have equal positions, the dedup lookup only ever yields
the index of a node lying at the position looked up, and `AddNode(p)` returns a node whose
`Position` equals `p`, unless `p` is not stored and `NodeCount` has reached the effective
maximum, in which case it fails with `MaxNodeError` and returns no node. -/
theorem AddNode_position (tc : Vec3 → Mat4 → Vec3) (n : nodeStructure) (hr : Reachable tc n)
    (t : VectorTree) (ht : n.vectorTree = some t) :
    (∀ (i j : Nat) (a b : Node), n.nodes[i]? = some a → n.nodes[j]? = some b →
        a.Position = b.Position → i = j) ∧
    (∀ (p : Vec3) (i : Nat), t.FindVector p = some i →
        n.Node i = .ok { Index := i, Position := p }) ∧
    (∀ p : Vec3,
        (∃ node, (n.AddNode p).1 = .ok node ∧ node.Position = p) ∨
        ((n.AddNode p).1 = .error Panic.MaxNodeError ∧ ¬ n.Stored p ∧
          n.NodeCount = n.getMaxNodeCount)) := by
  have h := hr.WF
  have hc := h.NodeCount_eq
  refine ⟨?_, ?_, ?_⟩
  · intro i j a b hi hj hpos
    have h1 := (h.lookup_some ht (List.getElem?_mem hi)).1
    have h2 := (h.lookup_some ht (List.getElem?_mem hj)).1
    rw [hpos, h2, h.hidx i a hi, h.hidx j b hj] at h1
    exact (Option.some.inj h1).symm
  · intro p i hf
    have hl : n.lookup p = some i := by
      unfold nodeStructure.lookup
      rw [ht]
      exact hf
    exact (h.lookup_hit hl).1
  · intro p
    cases hres : (n.AddNode p).1 with
    | ok node => exact Or.inl ⟨node, rfl, (h.AddNode_ok_position hres).1⟩
    | error e =>
      obtain ⟨he, hl, hlen, _⟩ := h.AddNode_error hres
      refine Or.inr ⟨by rw [he], ?_, by rw [hc]; exact hlen⟩
      rintro ⟨node, hmem, hpos⟩
      have := (h.lookup_some ht hmem).1
      rw [hpos, hl] at this
      cases this

/-- Witness of `AddNode_position`: on the full structure, the lookup of the origin yields
node 0, which lies at the origin. -/
theorem AddNode_position_witness :
    fullNodes.vectorTree = some ⟨[(originPosition, 0)]⟩ ∧
      fullNodes.Node 0 = .ok { Index := 0, Position := originPosition } :=
  ⟨rfl,
    (AddNode_position keepPosition fullNodes
      (Reachable.addNode _ _ (Reachable.empty true 1 (by decide)))
      ⟨[(originPosition, 0)]⟩ rfl).2.1 originPosition 0 rfl⟩

/-- C4 (counterexample): on the structure built from empty by one `AddNode` call, with a
dedup index and at its maximum of one node, `AddNode` of the unit position returns no node:
it fails with `MaxNodeError`. -/
theorem AddNode_position_at_capacity :
    (fullNodes.AddNode unitPosition).1 = .error Panic.MaxNodeError ∧
      ¬ ∃ node, (fullNodes.AddNode unitPosition).1 = .ok node ∧ node.Position = unitPosition :=
  ⟨rfl, fun ⟨_, h, _⟩ => by cases h⟩

/-! ## Claims on `merge` -/

theorem nodeStructure.Node_of_lt_NodeCount (other : nodeStructure) {i : Nat}
    (hi : i < other.NodeCount) :
    ∃ src, other.Node i = .ok src ∧ (other.nodes.take other.NodeCount)[i]? = some src := by
  have h1 := other.NodeCount_le
  have h2 := other.NodeCount_lt
  have hlt : i < other.nodes.length := by omega
  have hu : u32 i = i := Nat.mod_eq_of_lt (by omega)
  refine ⟨other.nodes[i], ?_, ?_⟩
  · unfold nodeStructure.Node
    rw [hu, List.getElem?_eq_getElem hlt]
  · rw [List.getElem?_take_of_lt hi, List.getElem?_eq_getElem hlt]

theorem mergedPositions_length (tc : Vec3 → Mat4 → Vec3) (other : nodeStructure)
    (matrix : Mat4) : (mergedPositions tc other matrix).length = other.NodeCount := by
  unfold mergedPositions
  rw [List.length_map, List.length_take]
  exact Nat.min_eq_left other.NodeCount_le

theorem AddNodes_ok_length (n : nodeStructure) (ps : List Vec3) {l : List Node}
    (hl : (AddNodes n ps).1 = .ok l) : l.length = ps.length := by
  induction ps generalizing n l with
  | nil =>
    simp only [AddNodes, Except.ok.injEq] at hl
    subst hl
    rfl
  | cons p ps ih =>
    unfold AddNodes at hl
    generalize n.AddNode p = res at hl
    rcases res with ⟨r, n1⟩
    cases r with
    | error e => cases hl
    | ok node =>
      simp only at hl
      generalize hres2 : AddNodes n1 ps = res2 at hl
      rcases res2 with ⟨r2, n2⟩
      cases r2 with
      | error e => cases hl
      | ok rest =>
        simp only [Except.ok.injEq] at hl
        subst hl
        have hrest : (AddNodes n1 ps).1 = .ok rest := by rw [hres2]
        simp [ih n1 hrest]

/-- C5 (amended): `merge(other, matrix)` is the sequence of `AddNode` calls for the
transformed positions of the nodes of `other` in order, and fails when one of them fails;
when it returns, the list has exactly `other.NodeCount()` entries, the i-th being the node
`AddNode` returned for the i-th node of `other`. For a destination built from empty by
`AddNode` and `merge` calls, the i-th entry lies at
`TransformCoordinate(other.Node(i).Position, matrix)`, the only failure is `MaxNodeError`,
and there is none while `NodeCount + other.NodeCount()` is within the effective maximum.
When `other` has no nodes the result is empty and the destination is unchanged. -/
theorem merge_result (tc : Vec3 → Mat4 → Vec3) (n other : nodeStructure) (matrix : Mat4) :
    nodeStructure.merge tc n other matrix = AddNodes n (mergedPositions tc other matrix) ∧
    (∀ l, (nodeStructure.merge tc n other matrix).1 = .ok l → l.length = other.NodeCount) ∧
    (Reachable tc n →
      (∀ l, (nodeStructure.merge tc n other matrix).1 = .ok l →
        ∀ i, i < other.NodeCount → ∃ src dst, other.Node i = .ok src ∧ l[i]? = some dst ∧
          dst.Position = tc src.Position matrix) ∧
      (n.NodeCount + other.NodeCount ≤ n.getMaxNodeCount →
        ∃ l, (nodeStructure.merge tc n other matrix).1 = .ok l) ∧
      (∀ e, (nodeStructure.merge tc n other matrix).1 = .error e → e = Panic.MaxNodeError)) ∧
    (other.NodeCount = 0 → nodeStructure.merge tc n other matrix = (.ok [], n)) := by
  have heq := nodeStructure.merge_eq_AddNodes tc n other matrix
  have hlength : ∀ l, (nodeStructure.merge tc n other matrix).1 = .ok l →
      l.length = other.NodeCount := by
    intro l hl
    rw [heq] at hl
    rw [AddNodes_ok_length n _ hl, mergedPositions_length]
  refine ⟨heq, hlength, ?_, ?_⟩
  · intro hr
    have h := hr.WF
    refine ⟨?_, ?_, ?_⟩
    · intro l hl i hi
      have hlen := hlength l hl
      rw [heq] at hl
      have hpos := h.AddNodes_ok_positions _ hl
      obtain ⟨src, hsrc, htake⟩ := other.Node_of_lt_NodeCount hi
      have hil : i < l.length := by omega
      refine ⟨src, l[i], hsrc, List.getElem?_eq_getElem hil, ?_⟩
      have h1 : (l.map (fun node => node.Position))[i]? = some (l[i]).Position := by
        rw [List.getElem?_map, List.getElem?_eq_getElem hil]
        rfl
      have h2 : (mergedPositions tc other matrix)[i]? = some (tc src.Position matrix) := by
        unfold mergedPositions
        rw [List.getElem?_map, htake]
        rfl
      rw [hpos, h2] at h1
      exact (Option.some.inj h1).symm
    · intro hcap
      rw [heq]
      apply h.AddNodes_ok_of_room
      rw [mergedPositions_length, ← h.NodeCount_eq]
      exact hcap
    · intro e he
      rw [heq] at he
      exact h.AddNodes_error _ he
  · intro h0
    unfold nodeStructure.merge
    simp [h0]

/-- Witness of `merge_result`: merging the two-node source into an empty destination with a
dedup index stays within the maximum and returns a list. -/
theorem merge_result_witness :
    (emptyNodes true 0).NodeCount + twoNodes.NodeCount ≤ (emptyNodes true 0).getMaxNodeCount ∧
      ∃ l, (nodeStructure.merge keepPosition (emptyNodes true 0) twoNodes zeroMatrix).1 = .ok l :=
  ⟨by decide,
    ((merge_result keepPosition (emptyNodes true 0) twoNodes zeroMatrix).2.2.1
      (Reachable.empty true 0 (by decide))).2.1 (by decide)⟩

/-- C5 (counterexample): merging the two-node source into the destination that is full with
one node returns no list: the `AddNode` for the second source node fails with
`MaxNodeError`. -/
theorem merge_result_at_capacity :
    twoNodes.NodeCount = 2 ∧
      (nodeStructure.merge keepPosition fullNodes twoNodes zeroMatrix).1 =
        .error Panic.MaxNodeError ∧
      ¬ ∃ l, (nodeStructure.merge keepPosition fullNodes twoNodes zeroMatrix).1 = .ok l ∧
        l.length = twoNodes.NodeCount :=
  ⟨rfl, rfl, fun ⟨_, h, _⟩ => by cases h⟩

/-- C6: when the nodes of the source lie at pairwise distinct positions, none of which is
stored in the destination, `NodeCount + v` is within the effective maximum for the `v`
nodes of the source, and the transform maps every position to itself, `merge` raises the
destination's `NodeCount` by exactly `v` and maps the i-th source node to the destination
node with index `oldCount + i` at the same position. -/
theorem merge_additive (tc : Vec3 → Mat4 → Vec3) (n other : nodeStructure) (matrix : Mat4)
    (hr : Reachable tc n) (hid : ∀ p, tc p matrix = p)
    (hdistinct : (sourcePositions other).Nodup)
    (hfresh : ∀ p ∈ sourcePositions other, ¬ n.Stored p)
    (hcap : n.NodeCount + other.NodeCount ≤ n.getMaxNodeCount) :
    (nodeStructure.merge tc n other matrix).2.NodeCount = n.NodeCount + other.NodeCount ∧
    ∃ l, (nodeStructure.merge tc n other matrix).1 = .ok l ∧ l.length = other.NodeCount ∧
      ∀ i, i < other.NodeCount → ∃ src, other.Node i = .ok src ∧
        l[i]? = some { Index := n.NodeCount + i, Position := src.Position } := by
  have h := hr.WF
  have hc := h.NodeCount_eq
  have hM := n.getMaxNodeCount_lt h.hmax
  have hpos : mergedPositions tc other matrix = sourcePositions other := by
    unfold mergedPositions sourcePositions
    exact List.map_congr_left (fun node _ => hid node.Position)
  have hlen : (sourcePositions other).length = other.NodeCount := by
    rw [← hpos]
    exact mergedPositions_length tc other matrix
  rw [nodeStructure.merge_eq_AddNodes, hpos]
  obtain ⟨h1, h2, _⟩ := h.AddNodes_fresh (sourcePositions other) hdistinct hfresh
    (by rw [hlen, ← hc]; exact hcap)
  refine ⟨?_, freshNodes n.nodes.length (sourcePositions other), h1, ?_, ?_⟩
  · simp only [nodeStructure.NodeCount, u32] at hcap ⊢
    rw [h2, List.length_append, freshNodes_length, hlen]
    simp only [nodeStructure.NodeCount, u32] at hc ⊢
    rw [hc] at hcap ⊢
    exact Nat.mod_eq_of_lt (by omega)
  · rw [freshNodes_length, hlen]
  · intro i hi
    obtain ⟨src, hsrc, htake⟩ := other.Node_of_lt_NodeCount hi
    refine ⟨src, hsrc, ?_⟩
    rw [hc]
    apply freshNodes_getElem?
    unfold sourcePositions
    rw [List.getElem?_map, htake]
    rfl

/-- Witness of `merge_additive`: the two-node source merged into the destination holding a
third position: the count goes from 1 to 3. -/
theorem merge_additive_witness :
    (∀ p, keepPosition p zeroMatrix = p) ∧ (sourcePositions twoNodes).Nodup ∧
      (nodeStructure.merge keepPosition
        ((emptyNodes true 0).AddNode { x := 0, y := 0, z := 1065353216 }).2
        twoNodes zeroMatrix).2.NodeCount =
      ((emptyNodes true 0).AddNode { x := 0, y := 0, z := 1065353216 }).2.NodeCount
        + twoNodes.NodeCount :=
  ⟨fun _ => rfl, by decide,
    (merge_additive keepPosition
      ((emptyNodes true 0).AddNode { x := 0, y := 0, z := 1065353216 }).2 twoNodes zeroMatrix
      (Reachable.addNode _ _ (Reachable.empty true 0 (by decide)))
      (fun _ => rfl) (by decide) (by decide) (by decide)).1⟩

/-! ## Claims on the component model -/

theorem ComponentResource.mergeLoop_eq_mergeInOrder {Mesh : Type} (Mul4 : Mat4 → Mat4 → Mat4)
    (transform : Mat4) (comps : List (Component Mesh)) (m : Mesh) :
    ComponentResource.mergeLoop Mul4 transform comps m =
      mergeInOrder (comps.map (fun ci => (ci.Object, Mul4 ci.Transform transform))) m := by
  induction comps generalizing m with
  | nil => rfl
  | cons comp rest ih =>
    simp only [ComponentResource.mergeLoop, List.map_cons, mergeInOrder, Component.MergeToMesh]
    generalize comp.Object.MergeToMesh m (Mul4 comp.Transform transform) = res
    rcases res with ⟨r, m1⟩
    cases r with
    | some err => rfl
    | none => exact ih m1

/-- C7: for every Components Object with components `c1..cn` and every cumulative transform
`C`, `ComponentResource.MergeToMesh(m, C)` has the result and the effect on `m` of the calls
`ci.Object.MergeToMesh(m, ci.Transform.Mul4(C))` made in list order; for two children
`(M1, T1)` and `(M2, T2)` it is merging `M1` under `T1.Mul4(C)` and then `M2` under
`T2.Mul4(C)`. -/
theorem ComponentResource_MergeToMesh_in_order {Mesh : Type} (Mul4 : Mat4 → Mat4 → Mat4)
    (c : ComponentResource Mesh) (m : Mesh) (C : Mat4) :
    c.MergeToMesh Mul4 m C =
        mergeInOrder (c.Components.map (fun ci => (ci.Object, Mul4 ci.Transform C))) m ∧
    ∀ (o : ObjectResource) (M1 M2 : Object Mesh) (T1 T2 : Mat4) (u1 u2 : String),
      ComponentResource.MergeToMesh Mul4
          { toObjectResource := o
            Components := [{ Object := M1, Transform := T1, UUID := u1 },
                           { Object := M2, Transform := T2, UUID := u2 }] } m C =
        match M1.MergeToMesh m (Mul4 T1 C) with
        | (some err, m1) => (some err, m1)
        | (none, m1) => M2.MergeToMesh m1 (Mul4 T2 C) := by
  refine ⟨ComponentResource.mergeLoop_eq_mergeInOrder Mul4 C c.Components m, ?_⟩
  intro o M1 M2 T1 T2 u1 u2
  simp only [ComponentResource.MergeToMesh, ComponentResource.mergeLoop, Component.MergeToMesh]
  generalize M1.MergeToMesh m (Mul4 T1 C) = res
  rcases res with ⟨r, m1⟩
  cases r with
  | some err => rfl
  | none =>
    simp only
    generalize M2.MergeToMesh m1 (Mul4 T2 C) = res2
    rcases res2 with ⟨r2, m2⟩
    cases r2 <;> rfl

theorem ComponentResource.mergeLoop_append {Mesh : Type} (Mul4 : Mat4 → Mat4 → Mat4)
    (transform : Mat4) (pre rest : List (Component Mesh)) (m : Mesh)
    (hpre : allNil Mul4 transform pre m) :
    ComponentResource.mergeLoop Mul4 transform (pre ++ rest) m =
      ComponentResource.mergeLoop Mul4 transform rest (meshAfter Mul4 transform pre m) := by
  induction pre generalizing m with
  | nil => rfl
  | cons comp pre ih =>
    obtain ⟨h1, h2⟩ := hpre
    simp only [List.cons_append, ComponentResource.mergeLoop, meshAfter]
    generalize hres : comp.MergeToMesh Mul4 m transform = res at h1 h2
    rcases res with ⟨r, m1⟩
    simp only at h1 h2
    subst h1
    exact ih m1 h2

theorem ComponentResource.mergeLoop_nil_iff {Mesh : Type} (Mul4 : Mat4 → Mat4 → Mat4)
    (transform : Mat4) (comps : List (Component Mesh)) (m : Mesh) :
    (ComponentResource.mergeLoop Mul4 transform comps m).1 = none ↔
      allNil Mul4 transform comps m := by
  induction comps generalizing m with
  | nil => simp [ComponentResource.mergeLoop, allNil]
  | cons comp rest ih =>
    simp only [ComponentResource.mergeLoop, allNil]
    generalize comp.MergeToMesh Mul4 m transform = res
    rcases res with ⟨r, m1⟩
    cases r with
    | some err => simp
    | none => simpa using ih m1

theorem ComponentResource.mergeLoop_first_error {Mesh : Type} (Mul4 : Mat4 → Mat4 → Mat4)
    (transform : Mat4) (comps : List (Component Mesh)) (m : Mesh) (err : GoError)
    (h : (ComponentResource.mergeLoop Mul4 transform comps m).1 = some err) :
    ∃ pre comp post, comps = pre ++ comp :: post ∧ allNil Mul4 transform pre m ∧
      comp.MergeToMesh Mul4 (meshAfter Mul4 transform pre m) transform =
        (some err, (ComponentResource.mergeLoop Mul4 transform comps m).2) := by
  induction comps generalizing m with
  | nil => simp [ComponentResource.mergeLoop] at h
  | cons comp rest ih =>
    simp only [ComponentResource.mergeLoop] at h ⊢
    generalize hres : comp.MergeToMesh Mul4 m transform = res at h
    rcases res with ⟨r, m1⟩
    cases r with
    | some e =>
      simp only [Option.some.injEq] at h
      subst h
      exact ⟨[], comp, rest, rfl, trivial, hres⟩
    | none =>
      simp only at h ⊢
      obtain ⟨pre, c1, post, heq, hnil, hc1⟩ := ih m1 h
      refine ⟨comp :: pre, c1, post, by rw [heq]; rfl, ⟨by rw [hres], by rw [hres]; exact hnil⟩, ?_⟩
      simp only [meshAfter]
      rw [hres]
      exact hc1

/-- C8: `ComponentResource.MergeToMesh` returns nil if and only if the merge of every
component, made in list order, returns nil, and then the mesh is the one all these merges
leave; when the components before some component all return nil and that component returns
an error, the result is that error and the mesh is as that component's merge left it,
whatever components follow: none of them is merged. -/
theorem ComponentResource_MergeToMesh_first_error {Mesh : Type} (Mul4 : Mat4 → Mat4 → Mat4)
    (c : ComponentResource Mesh) (m : Mesh) (C : Mat4) :
    ((c.MergeToMesh Mul4 m C).1 = none ↔ allNil Mul4 C c.Components m) ∧
    (allNil Mul4 C c.Components m →
        c.MergeToMesh Mul4 m C = (none, meshAfter Mul4 C c.Components m)) ∧
    (∀ (pre post : List (Component Mesh)) (comp : Component Mesh) (err : GoError),
        c.Components = pre ++ comp :: post → allNil Mul4 C pre m →
        (comp.MergeToMesh Mul4 (meshAfter Mul4 C pre m) C).1 = some err →
        c.MergeToMesh Mul4 m C =
          (some err, (comp.MergeToMesh Mul4 (meshAfter Mul4 C pre m) C).2)) := by
  refine ⟨ComponentResource.mergeLoop_nil_iff Mul4 C c.Components m, ?_, ?_⟩
  · intro hnil
    have := ComponentResource.mergeLoop_append Mul4 C c.Components [] m hnil
    rw [List.append_nil] at this
    exact this
  · intro pre post comp err heq hnil herr
    unfold ComponentResource.MergeToMesh
    rw [heq, ComponentResource.mergeLoop_append Mul4 C pre (comp :: post) m hnil]
    simp only [ComponentResource.mergeLoop]
    generalize comp.MergeToMesh Mul4 (meshAfter Mul4 C pre m) C = res at herr
    rcases res with ⟨r, m1⟩
    simp only at herr
    subst herr
    rfl

/-- C9 (amended): if `ComponentResource.MergeToMesh` returns an error, that error comes from
a component before which every component returned nil, and the destination mesh is as that
component's merge left it after the merges of the components that precede it: their
geometry stays merged, and nothing after the failing component is merged. -/
theorem ComponentResource_MergeToMesh_on_error {Mesh : Type} (Mul4 : Mat4 → Mat4 → Mat4)
    (c : ComponentResource Mesh) (m : Mesh) (C : Mat4) (err : GoError)
    (h : (c.MergeToMesh Mul4 m C).1 = some err) :
    ∃ pre comp post, c.Components = pre ++ comp :: post ∧ allNil Mul4 C pre m ∧
      comp.MergeToMesh Mul4 (meshAfter Mul4 C pre m) C = (some err, (c.MergeToMesh Mul4 m C).2) :=
  ComponentResource.mergeLoop_first_error Mul4 C c.Components m err h

/-- Witness of `ComponentResource_MergeToMesh_on_error`: the Components Object whose second
child fails. -/
theorem ComponentResource_MergeToMesh_on_error_witness :
    (failingSecond.MergeToMesh keepLeft (emptyNodes true 0) zeroMatrix).1 =
        some ⟨"unresolved reference"⟩ ∧
      ∃ pre comp post, failingSecond.Components = pre ++ comp :: post ∧
        allNil keepLeft zeroMatrix pre (emptyNodes true 0) ∧
        comp.MergeToMesh keepLeft (meshAfter keepLeft zeroMatrix pre (emptyNodes true 0))
            zeroMatrix =
          (some ⟨"unresolved reference"⟩,
            (failingSecond.MergeToMesh keepLeft (emptyNodes true 0) zeroMatrix).2) :=
  ⟨rfl, ComponentResource_MergeToMesh_on_error keepLeft failingSecond (emptyNodes true 0)
    zeroMatrix ⟨"unresolved reference"⟩ rfl⟩

/-- C9 (counterexample): the Components Object whose first child merges a vertex and whose
second child fails returns the error, and the destination, empty before the call, holds the
first child's vertex afterwards. -/
theorem ComponentResource_MergeToMesh_partial :
    (failingSecond.MergeToMesh keepLeft (emptyNodes true 0) zeroMatrix).1 =
        some ⟨"unresolved reference"⟩ ∧
      (failingSecond.MergeToMesh keepLeft (emptyNodes true 0) zeroMatrix).2.nodes =
        [{ Index := 0, Position := originPosition }] ∧
      (failingSecond.MergeToMesh keepLeft (emptyNodes true 0) zeroMatrix).2 ≠
        emptyNodes true 0 :=
  ⟨rfl, rfl, by decide⟩

/-- C10: `MeshResource.IsValid` is false when the Mesh is absent; otherwise it equals
`Mesh.IsManifoldAndOriented()` for the object types Model and SolidSupport, equals
`Mesh.BeamCount() == 0` for Support and Surface, and is false for every other object type,
Other included. -/
theorem MeshResource_IsValid_cases {Mesh : Type} (IsManifoldAndOriented : Mesh → Bool)
    (BeamCount : Mesh → Nat) (o : ObjectResource) :
    MeshResource.IsValid IsManifoldAndOriented BeamCount
        { toObjectResource := o, Mesh := none } = false ∧
    ∀ mesh : Mesh,
      (o.ObjectType = ObjectTypeModel ∨ o.ObjectType = ObjectTypeSolidSupport →
        MeshResource.IsValid IsManifoldAndOriented BeamCount
          { toObjectResource := o, Mesh := some mesh } = IsManifoldAndOriented mesh) ∧
      (o.ObjectType = ObjectTypeSupport ∨ o.ObjectType = ObjectTypeSurface →
        MeshResource.IsValid IsManifoldAndOriented BeamCount
          { toObjectResource := o, Mesh := some mesh } = (BeamCount mesh == 0)) ∧
      (o.ObjectType ∉ checkedObjectTypes →
        MeshResource.IsValid IsManifoldAndOriented BeamCount
          { toObjectResource := o, Mesh := some mesh } = false) ∧
      ObjectTypeOther ∉ checkedObjectTypes := by
  refine ⟨rfl, fun mesh => ⟨?_, ?_, ?_, by decide⟩⟩
  · rintro (h | h) <;>
      simp [MeshResource.IsValid, h, ObjectTypeModel, ObjectTypeSupport, ObjectTypeSolidSupport,
        ObjectTypeSurface]
  · rintro (h | h) <;>
      simp [MeshResource.IsValid, h, ObjectTypeModel, ObjectTypeSupport, ObjectTypeSolidSupport,
        ObjectTypeSurface]
  · intro h
    simp only [checkedObjectTypes, List.mem_cons, List.mem_singleton, List.not_mem_nil,
      or_false, not_or] at h
    obtain ⟨h1, h2, h3, h4⟩ := h
    simp only [MeshResource.IsValid, if_neg h1, if_neg h2, if_neg h3, if_neg h4]

end Go3mf

namespace Go3mf

/-! ## Claims on validity -/

theorem ComponentResource.isValidLoop_iff {Mesh : Type} (comps : List (Component Mesh)) :
    ComponentResource.isValidLoop comps = true ↔
      ∀ comp ∈ comps, comp.Object.IsValid = true := by
  induction comps with
  | nil => simp [ComponentResource.isValidLoop]
  | cons comp rest ih =>
    simp only [ComponentResource.isValidLoop, List.mem_cons, forall_eq_or_imp]
    cases h : comp.Object.IsValid <;> simp [ih]

/-- C11: `ComponentResource.IsValid` is false for an empty component list and, for a
non-empty list, is true if and only if `IsValid` of the Object of every component is
true. -/
theorem ComponentResource_IsValid_iff {Mesh : Type} (c : ComponentResource Mesh) :
    (c.Components = [] → c.IsValid = false) ∧
    (c.Components ≠ [] →
      (c.IsValid = true ↔ ∀ comp ∈ c.Components, comp.Object.IsValid = true)) := by
  constructor
  · intro h
    simp [ComponentResource.IsValid, h]
  · intro h
    have hlen : c.Components.length ≠ 0 := by
      intro h0
      exact h (List.length_eq_zero.mp h0)
    simp only [ComponentResource.IsValid, if_neg hlen]
    exact ComponentResource.isValidLoop_iff c.Components

/-- C12: `MeshResource.IsValidForSlices(t)` is true for every transform `t`, the all-ones
matrix included, when `SliceStackID` is 0; when `SliceStackID` is not 0 it is true exactly
when `t[2] == 0`, `t[6] == 0`, `t[8] == 0`, `t[9] == 0` and `t[10] == 1`; the result never
depends on another entry of `t`. -/
theorem MeshResource_IsValidForSlices_iff {Mesh : Type} (c : MeshResource Mesh) :
    (c.toObjectResource.SliceStackID = 0 →
      (∀ t : Mat4, c.IsValidForSlices t = true) ∧ c.IsValidForSlices allOnesMatrix = true) ∧
    (c.toObjectResource.SliceStackID ≠ 0 →
      ∀ t : Mat4, (c.IsValidForSlices t = true ↔
        f32IsZero (t 2) = true ∧ f32IsZero (t 6) = true ∧ f32IsZero (t 8) = true ∧
          f32IsZero (t 9) = true ∧ f32IsOne (t 10) = true)) ∧
    (∀ t u : Mat4, t 2 = u 2 → t 6 = u 6 → t 8 = u 8 → t 9 = u 9 → t 10 = u 10 →
      c.IsValidForSlices t = c.IsValidForSlices u) := by
  refine ⟨?_, ?_, ?_⟩
  · intro h
    have : ∀ t : Mat4, c.IsValidForSlices t = true := by
      intro t
      simp [MeshResource.IsValidForSlices, h]
    exact ⟨this, this _⟩
  · intro h t
    simp [MeshResource.IsValidForSlices, h, and_assoc]
  · intro t u h2 h6 h8 h9 h10
    simp only [MeshResource.IsValidForSlices, h2, h6, h8, h9, h10]

theorem ComponentResource.isValidForSlicesLoop_iff {Mesh : Type} (Mul4 : Mat4 → Mat4 → Mat4)
    (transform : Mat4) (comps : List (Component Mesh)) :
    ComponentResource.isValidForSlicesLoop Mul4 transform comps = true ↔
      ∀ comp ∈ comps, comp.Object.IsValidForSlices (Mul4 transform comp.Transform) = true := by
  induction comps with
  | nil => simp [ComponentResource.isValidForSlicesLoop]
  | cons comp rest ih =>
    simp only [ComponentResource.isValidForSlicesLoop, List.mem_cons, forall_eq_or_imp]
    cases h : comp.Object.IsValidForSlices (Mul4 transform comp.Transform) <;> simp [ih]

/-- C13: `ComponentResource.IsValidForSlices(transform)` is true for an empty component
list for every transform; for a non-empty list it is true if and only if
`c.Object.IsValidForSlices(transform.Mul4(c.Transform))` is true for every component `c`. -/
theorem ComponentResource_IsValidForSlices_iff {Mesh : Type} (Mul4 : Mat4 → Mat4 → Mat4)
    (c : ComponentResource Mesh) (transform : Mat4) :
    (c.Components = [] → c.IsValidForSlices Mul4 transform = true) ∧
    (c.Components ≠ [] →
      (c.IsValidForSlices Mul4 transform = true ↔
        ∀ comp ∈ c.Components,
          comp.Object.IsValidForSlices (Mul4 transform comp.Transform) = true)) := by
  constructor
  · intro h
    simp [ComponentResource.IsValidForSlices, h]
  · intro h
    have hlen : c.Components.length ≠ 0 := by
      intro h0
      exact h (List.length_eq_zero.mp h0)
    simp only [ComponentResource.IsValidForSlices, if_neg hlen]
    exact ComponentResource.isValidForSlicesLoop_iff Mul4 transform c.Components

end Go3mf

namespace Go3mf

variable {D δ : Type}

/-! ## One iteration of the loop of `Decode` -/

theorem decodeStep_eof (cb : ElementDecoders D δ) (ctx : Context) (c : Int) (s : LoopState D δ)
    (h : s.x.tokens = []) : decodeStep cb ctx c s = .inl (finishDecode s.x.final s) := by
  unfold decodeStep XMLDecoder.Token
  simp only [h]

theorem decodeStep_start_known (cb : ElementDecoders D δ) (ctx : Context) (c : Int)
    (s : LoopState D δ) {name : XMLName} {attr : List XMLAttr} {off : Int}
    {rest : List (XMLToken × Int)} {d : nodeDecoder D} {st1 st5 : DecodeState δ} {ok : Bool}
    (h : s.x.tokens = (XMLToken.StartElement name attr, off) :: rest)
    (hc : s.currentDecoder.Child cb name s.st = (some d, st1))
    (ha : d.Attributes cb attr (d.Open cb ((d.SetScanner cb st1).setElement name.Local)) =
      (ok, st5)) :
    decodeStep cb ctx c s =
      match (if ok then none else st5.scanner.Err) with
      | some err => .inl (finishDecode err ((s.read rest off).push name attr d ok st5))
      | none => .inr ((s.read rest off).push name attr d ok st5) := by
  unfold decodeStep XMLDecoder.Token
  simp only [h, hc, ha]
  rfl

theorem decodeStep_start_unknown (cb : ElementDecoders D δ) (ctx : Context) (c : Int)
    (s : LoopState D δ) {name : XMLName} {attr : List XMLAttr} {off : Int}
    {rest : List (XMLToken × Int)} {st1 : DecodeState δ}
    (h : s.x.tokens = (XMLToken.StartElement name attr, off) :: rest)
    (hc : s.currentDecoder.Child cb name s.st = (none, st1)) :
    decodeStep cb ctx c s =
      match XMLDecoder.skipTokens rest 0 with
      | some (rest1, off1) =>
        .inr (((s.read rest off).called st1 (Call.Child s.currentDecoder name)).read rest1 off1)
      | none =>
        .inl (finishDecode s.x.final
          (((s.read rest off).called st1 (Call.Child s.currentDecoder name)).read [] off)) := by
  unfold decodeStep XMLDecoder.Token
  simp only [h, hc, XMLDecoder.Skip]
  cases XMLDecoder.skipTokens rest 0 with
  | none => rfl
  | some p => rfl

theorem decodeStep_charData (cb : ElementDecoders D δ) (ctx : Context) (c : Int)
    (s : LoopState D δ) {data : List Nat} {off : Int}
    {rest : List (XMLToken × Int)} {st1 : DecodeState δ} {ok : Bool}
    (h : s.x.tokens = (XMLToken.CharData data, off) :: rest)
    (ht : s.currentDecoder.Text cb data s.st = (ok, st1)) :
    decodeStep cb ctx c s =
      match (if ok then none else st1.scanner.Err) with
      | some err =>
        .inl (finishDecode err ((s.read rest off).called st1 (Call.Text s.currentDecoder data ok)))
      | none => .inr ((s.read rest off).called st1 (Call.Text s.currentDecoder data ok)) := by
  unfold decodeStep XMLDecoder.Token
  simp only [h, ht]
  rfl

theorem decodeStep_ignored (cb : ElementDecoders D δ) (ctx : Context) (c : Int)
    (s : LoopState D δ) {off : Int} {rest : List (XMLToken × Int)}
    (h : s.x.tokens = (XMLToken.Ignored, off) :: rest) :
    decodeStep cb ctx c s = .inr (s.read rest off) := by
  unfold decodeStep XMLDecoder.Token
  simp only [h]
  rfl

theorem decodeStep_end_other (cb : ElementDecoders D δ) (ctx : Context) (c : Int)
    (s : LoopState D δ) {name : XMLName} {off : Int} {rest : List (XMLToken × Int)}
    (h : s.x.tokens = (XMLToken.EndElement name, off) :: rest)
    (hn : s.currentName ≠ name) :
    decodeStep cb ctx c s =
      match cancelCheck ctx c none (s.read rest off) with
      | (some err, s2) => .inl (finishDecode err s2)
      | (none, s2) => .inr s2 := by
  unfold decodeStep XMLDecoder.Token
  simp only [h, if_neg hn]
  rfl

theorem decodeStep_end_close_false (cb : ElementDecoders D δ) (ctx : Context) (c : Int)
    (s : LoopState D δ) {name : XMLName} {off : Int} {rest : List (XMLToken × Int)}
    {st2 : DecodeState δ}
    (h : s.x.tokens = (XMLToken.EndElement name, off) :: rest)
    (hn : s.currentName = name)
    (hc : s.currentDecoder.Close cb (s.st.setElement name.Local) = (false, st2)) :
    decodeStep cb ctx c s =
      match cancelCheck ctx c st2.scanner.Err
          ((s.read rest off).called st2 (Call.Close s.currentDecoder false)) with
      | (some err, s2) => .inl (finishDecode err s2)
      | (none, s2) => .inr s2 := by
  unfold decodeStep XMLDecoder.Token
  simp only [h, if_pos hn, hc]
  rfl

theorem decodeStep_end_close_true (cb : ElementDecoders D δ) (ctx : Context) (c : Int)
    (s : LoopState D δ) {name : XMLName} {off : Int} {rest : List (XMLToken × Int)}
    {st2 : DecodeState δ} {d : nodeDecoder D} {state : List (nodeDecoder D)} {n : XMLName}
    {names : List XMLName}
    (h : s.x.tokens = (XMLToken.EndElement name, off) :: rest)
    (hn : s.currentName = name)
    (hc : s.currentDecoder.Close cb (s.st.setElement name.Local) = (true, st2))
    (hs : s.state = d :: state) (hns : s.names = n :: names) :
    decodeStep cb ctx c s =
      match cancelCheck ctx c none
          (((s.read rest off).called st2 (Call.Close s.currentDecoder true)).pop d state n names) with
      | (some err, s2) => .inl (finishDecode err s2)
      | (none, s2) => .inr s2 := by
  unfold decodeStep XMLDecoder.Token
  simp only [h, if_pos hn, hc, hs, hns]
  rfl

theorem decodeStep_end_close_empty (cb : ElementDecoders D δ) (ctx : Context) (c : Int)
    (s : LoopState D δ) {name : XMLName} {off : Int} {rest : List (XMLToken × Int)}
    {st2 : DecodeState δ}
    (h : s.x.tokens = (XMLToken.EndElement name, off) :: rest)
    (hn : s.currentName = name)
    (hc : s.currentDecoder.Close cb (s.st.setElement name.Local) = (true, st2))
    (hs : s.state = []) :
    decodeStep cb ctx c s =
      .inl { err := .error Panic.IndexOutOfRange,
             final := (s.read rest off).called st2 (Call.Close s.currentDecoder true) } := by
  unfold decodeStep XMLDecoder.Token
  simp only [h, if_pos hn, hc, hs, LoopState.read, LoopState.called]

theorem decodeStep_end_close_noname (cb : ElementDecoders D δ) (ctx : Context) (c : Int)
    (s : LoopState D δ) {name : XMLName} {off : Int} {rest : List (XMLToken × Int)}
    {st2 : DecodeState δ} {d : nodeDecoder D} {state : List (nodeDecoder D)}
    (h : s.x.tokens = (XMLToken.EndElement name, off) :: rest)
    (hn : s.currentName = name)
    (hc : s.currentDecoder.Close cb (s.st.setElement name.Local) = (true, st2))
    (hs : s.state = d :: state) (hns : s.names = []) :
    ∃ r, decodeStep cb ctx c s = .inl r ∧ r.err = .error Panic.IndexOutOfRange := by
  unfold decodeStep XMLDecoder.Token
  simp only [h, if_pos hn, hc, hs, hns]
  exact ⟨_, rfl, rfl⟩

end Go3mf

namespace Go3mf

variable {D δ : Type}

/-! ## The loop of `Decode` ends -/

theorem XMLDecoder.skipTokens_length (l : List (XMLToken × Int)) (depth : Nat)
    (rest : List (XMLToken × Int)) (off : Int)
    (h : XMLDecoder.skipTokens l depth = some (rest, off)) : rest.length < l.length := by
  induction l generalizing depth with
  | nil => simp [XMLDecoder.skipTokens] at h
  | cons hd tl ih =>
    obtain ⟨t, o⟩ := hd
    cases t with
    | StartElement n a =>
      have := ih (depth + 1) (by simpa [XMLDecoder.skipTokens] using h)
      simp only [List.length_cons]; omega
    | EndElement n =>
      cases depth with
      | zero =>
        simp only [XMLDecoder.skipTokens, Option.some.injEq, Prod.mk.injEq] at h
        rw [← h.1]; simp
      | succ d =>
        have := ih d (by simpa [XMLDecoder.skipTokens] using h)
        simp only [List.length_cons]; omega
    | CharData data =>
      have := ih depth (by simpa [XMLDecoder.skipTokens] using h)
      simp only [List.length_cons]; omega
    | Ignored =>
      have := ih depth (by simpa [XMLDecoder.skipTokens] using h)
      simp only [List.length_cons]; omega

theorem XMLDecoder.skipTokens_suffix (l : List (XMLToken × Int)) (depth : Nat)
    (rest : List (XMLToken × Int)) (off : Int)
    (h : XMLDecoder.skipTokens l depth = some (rest, off)) : rest <:+ l := by
  induction l generalizing depth with
  | nil => simp [XMLDecoder.skipTokens] at h
  | cons hd tl ih =>
    obtain ⟨t, o⟩ := hd
    cases t with
    | StartElement n a =>
      exact (ih (depth + 1) (by simpa [XMLDecoder.skipTokens] using h)).trans
        (List.suffix_cons _ _)
    | EndElement n =>
      cases depth with
      | zero =>
        simp only [XMLDecoder.skipTokens, Option.some.injEq, Prod.mk.injEq] at h
        rw [← h.1]; exact List.suffix_cons _ _
      | succ d =>
        exact (ih d (by simpa [XMLDecoder.skipTokens] using h)).trans (List.suffix_cons _ _)
    | CharData data =>
      exact (ih depth (by simpa [XMLDecoder.skipTokens] using h)).trans (List.suffix_cons _ _)
    | Ignored =>
      exact (ih depth (by simpa [XMLDecoder.skipTokens] using h)).trans (List.suffix_cons _ _)

/-- What the cancellation check does: nothing, or one more recorded consultation. -/
theorem cancelCheck_eq (ctx : Context) (c : Int) (err : Option GoError) (s : LoopState D δ) :
    (¬ s.x.InputOffset > s.nextBytesCheck ∧ cancelCheck ctx c err s = (err, s)) ∨
    (s.x.InputOffset > s.nextBytesCheck ∧
      cancelCheck ctx c err s =
        (if ctx.done s.checks.length then some ctx.err.toError else err,
          { s with
            nextBytesCheck := i64 (s.nextBytesCheck + c)
            checks := s.checks ++ [{ offset := s.x.InputOffset, threshold := s.nextBytesCheck,
                                     signalled := ctx.done s.checks.length }] })) := by
  unfold cancelCheck
  by_cases h : s.x.InputOffset > s.nextBytesCheck
  · right; exact ⟨h, by rw [if_pos h]⟩
  · left; exact ⟨h, by rw [if_neg h]⟩

theorem cancelCheck_frame (ctx : Context) (c : Int) (err : Option GoError) (s : LoopState D δ) :
    (cancelCheck ctx c err s).2.x = s.x ∧ (cancelCheck ctx c err s).2.state = s.state ∧
    (cancelCheck ctx c err s).2.names = s.names ∧
    (cancelCheck ctx c err s).2.currentDecoder = s.currentDecoder ∧
    (cancelCheck ctx c err s).2.currentName = s.currentName ∧
    (cancelCheck ctx c err s).2.st = s.st ∧ (cancelCheck ctx c err s).2.calls = s.calls := by
  rcases cancelCheck_eq ctx c err s with ⟨_, h⟩ | ⟨_, h⟩ <;> rw [h] <;> simp

/-- The shape of one iteration: either no cancellation check is made and what is left to
read is a proper suffix (or the input is used up and the loop ends), or the token read is an
end element and the iteration ends with the cancellation check. -/
theorem decodeStep_shape (cb : ElementDecoders D δ) (ctx : Context) (c : Int)
    (s : LoopState D δ) :
    (∃ r, decodeStep cb ctx c s = .inl r ∧ r.final.checks = s.checks ∧
        r.final.nextBytesCheck = s.nextBytesCheck ∧ r.final.x.tokens <:+ s.x.tokens) ∨
    (∃ s1, decodeStep cb ctx c s = .inr s1 ∧ s1.checks = s.checks ∧
        s1.nextBytesCheck = s.nextBytesCheck ∧ s1.x.tokens <:+ s.x.tokens ∧
        s1.x.tokens.length < s.x.tokens.length) ∨
    (∃ name off rest err s0, s.x.tokens = (XMLToken.EndElement name, off) :: rest ∧
        s0.x.tokens = rest ∧ s0.x.offset = off ∧ s0.checks = s.checks ∧
        s0.nextBytesCheck = s.nextBytesCheck ∧
        decodeStep cb ctx c s =
          match cancelCheck ctx c err s0 with
          | (some e, s2) => .inl (finishDecode e s2)
          | (none, s2) => .inr s2) := by
  cases htok : s.x.tokens with
  | nil =>
    left
    exact ⟨_, decodeStep_eof cb ctx c s htok, rfl, rfl,
      by show s.x.tokens <:+ []; rw [htok]⟩
  | cons hd tl =>
    obtain ⟨t, off⟩ := hd
    cases t with
    | StartElement name attr =>
      rcases hc : s.currentDecoder.Child cb name s.st with ⟨_ | d, st1⟩
      · rw [decodeStep_start_unknown cb ctx c s htok hc]
        cases hs : XMLDecoder.skipTokens tl 0 with
        | none =>
          left
          exact ⟨_, rfl, rfl, rfl, List.nil_suffix⟩
        | some p =>
          obtain ⟨rest1, off1⟩ := p
          right; left
          have h1 := XMLDecoder.skipTokens_suffix _ _ _ _ hs
          have h2 := XMLDecoder.skipTokens_length _ _ _ _ hs
          exact ⟨_, rfl, rfl, rfl, h1.trans (List.suffix_cons _ _),
            by simp only [LoopState.read, LoopState.called, List.length_cons]; omega⟩
      · rcases ha : d.Attributes cb attr
            (d.Open cb ((d.SetScanner cb st1).setElement name.Local)) with ⟨ok, st5⟩
        rw [decodeStep_start_known cb ctx c s htok hc ha]
        cases he : (if ok = true then none else st5.scanner.Err) with
        | none =>
          right; left
          exact ⟨_, rfl, rfl, rfl, List.suffix_cons _ _, by simp [LoopState.read, LoopState.push]⟩
        | some e =>
          left
          exact ⟨_, rfl, rfl, rfl, List.suffix_cons _ _⟩
    | CharData data =>
      rcases ht : s.currentDecoder.Text cb data s.st with ⟨ok, st1⟩
      rw [decodeStep_charData cb ctx c s htok ht]
      cases he : (if ok = true then none else st1.scanner.Err) with
      | none =>
        right; left
        exact ⟨_, rfl, rfl, rfl, List.suffix_cons _ _,
          by simp [LoopState.read, LoopState.called]⟩
      | some e =>
        left
        exact ⟨_, rfl, rfl, rfl, List.suffix_cons _ _⟩
    | Ignored =>
      right; left
      exact ⟨_, decodeStep_ignored cb ctx c s htok, rfl, rfl, List.suffix_cons _ _,
        by simp [LoopState.read]⟩
    | EndElement name =>
      by_cases hn : s.currentName = name
      · rcases hc : s.currentDecoder.Close cb (s.st.setElement name.Local) with ⟨ok, st2⟩
        cases ok with
        | false =>
          right; right
          exact ⟨name, off, tl, st2.scanner.Err,
            (s.read tl off).called st2 (Call.Close s.currentDecoder false), rfl, rfl, rfl, rfl,
            rfl,
            decodeStep_end_close_false cb ctx c s htok hn hc⟩
        | true =>
          cases hs : s.state with
          | nil =>
            left
            exact ⟨_, decodeStep_end_close_empty cb ctx c s htok hn hc hs, rfl, rfl,
              List.suffix_cons _ _⟩
          | cons d state =>
            cases hns : s.names with
            | nil =>
              left
              unfold decodeStep XMLDecoder.Token
              simp only [htok, if_pos hn, hc, hs, hns]
              exact ⟨_, rfl, rfl, rfl, List.suffix_cons _ _⟩
            | cons n names =>
              right; right
              exact ⟨name, off, tl, none,
                ((s.read tl off).called st2 (Call.Close s.currentDecoder true)).pop d state n
                  names,
                rfl, rfl, rfl, rfl, rfl,
                decodeStep_end_close_true cb ctx c s htok hn hc hs hns⟩
      · right; right
        exact ⟨name, off, tl, none, s.read tl off, rfl, rfl, rfl, rfl, rfl,
          decodeStep_end_other cb ctx c s htok hn⟩

end Go3mf

namespace Go3mf

variable {D δ : Type}

/-! ## The tokens left to read -/

theorem decodeStep_inr_tokens (cb : ElementDecoders D δ) (ctx : Context) (c : Int)
    (s s1 : LoopState D δ) (h : decodeStep cb ctx c s = .inr s1) :
    s1.x.tokens <:+ s.x.tokens ∧ s1.x.tokens.length < s.x.tokens.length := by
  rcases decodeStep_shape cb ctx c s with ⟨r, hr, _⟩ | ⟨s2, hs2, _, _, h1, h2⟩ |
    ⟨name, off, rest, err, s0, htok, hx, _, _, _, heq⟩
  · rw [hr] at h; cases h
  · rw [hs2] at h
    cases h
    exact ⟨h1, h2⟩
  · rw [heq] at h
    have hf := (cancelCheck_frame ctx c err s0).1
    rcases hcc : cancelCheck ctx c err s0 with ⟨e, s2⟩
    rw [hcc] at h hf
    cases e with
    | some e => cases h
    | none =>
      simp only [Sum.inr.injEq] at h
      subst h
      simp only at hf
      rw [hf, hx, htok]
      exact ⟨List.suffix_cons _ _, by simp⟩

theorem decodeStep_inl_tokens (cb : ElementDecoders D δ) (ctx : Context) (c : Int)
    (s : LoopState D δ) (r : DecodeResult D δ) (h : decodeStep cb ctx c s = .inl r) :
    r.final.x.tokens <:+ s.x.tokens := by
  rcases decodeStep_shape cb ctx c s with ⟨r1, hr, _, _, h1⟩ | ⟨s2, hs2, _⟩ |
    ⟨name, off, rest, err, s0, htok, hx, _, _, _, heq⟩
  · rw [hr] at h
    cases h
    exact h1
  · rw [hs2] at h; cases h
  · rw [heq] at h
    have hf := (cancelCheck_frame ctx c err s0).1
    rcases hcc : cancelCheck ctx c err s0 with ⟨e, s2⟩
    rw [hcc] at h hf
    cases e with
    | none => cases h
    | some e =>
      simp only [Sum.inl.injEq] at h
      subst h
      simp only at hf
      show s2.x.tokens <:+ _
      rw [hf, hx, htok]
      exact List.suffix_cons _ _

theorem decodeLoop_fuel (cb : ElementDecoders D δ) (ctx : Context) (c : Int) :
    ∀ (fuel : Nat) (s : LoopState D δ), s.x.tokens.length < fuel →
      decodeLoop cb ctx c fuel s = runDecode cb ctx c s := by
  intro fuel
  induction fuel using Nat.strong_induction_on with
  | _ fuel ih =>
    intro s hlt
    cases fuel with
    | zero => omega
    | succ fuel =>
      unfold runDecode
      simp only [decodeLoop]
      cases hstep : decodeStep cb ctx c s with
      | inl r => rfl
      | inr s1 =>
        simp only
        have hlen := (decodeStep_inr_tokens cb ctx c s s1 hstep).2
        rw [ih fuel (by omega) s1 (by omega)]
        by_cases h0 : s.x.tokens.length = fuel
        · rw [h0, ih fuel (by omega) s1 (by omega)]
        · rw [ih s.x.tokens.length (by omega) s1 hlen]

theorem runDecode_inl (cb : ElementDecoders D δ) (ctx : Context) (c : Int)
    (s : LoopState D δ) (r : DecodeResult D δ) (h : decodeStep cb ctx c s = .inl r) :
    runDecode cb ctx c s = some r := by
  unfold runDecode
  simp only [decodeLoop, h]

theorem runDecode_inr (cb : ElementDecoders D δ) (ctx : Context) (c : Int)
    (s s1 : LoopState D δ) (h : decodeStep cb ctx c s = .inr s1) :
    runDecode cb ctx c s = runDecode cb ctx c s1 := by
  have hlen := (decodeStep_inr_tokens cb ctx c s s1 h).2
  unfold runDecode
  simp only [decodeLoop, h]
  exact decodeLoop_fuel cb ctx c _ s1 hlen

/-- The rule for invariants of the loop: a property of the variables that every iteration
keeps, and that gives `Q` whenever the loop ends, gives `Q` for the result. The loop always
ends. -/
theorem runDecode_invariant (cb : ElementDecoders D δ) (ctx : Context) (c : Int)
    (P : LoopState D δ → Prop) (Q : DecodeResult D δ → Prop)
    (hstep : ∀ s s1, P s → decodeStep cb ctx c s = .inr s1 → P s1)
    (hend : ∀ s r, P s → decodeStep cb ctx c s = .inl r → Q r) :
    ∀ s, P s → ∃ r, runDecode cb ctx c s = some r ∧ Q r := by
  intro s
  generalize hn : s.x.tokens.length = n
  induction n using Nat.strong_induction_on generalizing s with
  | _ n ih =>
    intro hP
    cases hs : decodeStep cb ctx c s with
    | inl r => exact ⟨r, runDecode_inl cb ctx c s r hs, hend s r hP hs⟩
    | inr s1 =>
      have hlen := (decodeStep_inr_tokens cb ctx c s s1 hs).2
      rw [runDecode_inr cb ctx c s s1 hs]
      exact ih _ (by omega) s1 rfl (hstep s s1 hP hs)

/-- `Decode` is the result of its loop: the iterations allowed always suffice. -/
theorem Decode_eq_runDecode (cb : ElementDecoders D δ) (c : Int) (ctx : Context)
    (x : XMLDecoder) (priv : δ) (path : String) (isRoot strict : Bool) :
    runDecode cb ctx c (initialLoopState x priv path isRoot strict c) =
      some (Decode cb c ctx x priv path isRoot strict) := by
  obtain ⟨r, hr, _⟩ := runDecode_invariant cb ctx c (fun _ => True) (fun _ => True)
    (fun _ _ _ _ => trivial) (fun _ _ _ _ => trivial)
    (initialLoopState x priv path isRoot strict c) trivial
  have hr1 := hr
  unfold runDecode at hr
  unfold Decode
  simp only
  have : (initialLoopState (D := D) x priv path isRoot strict c).x.tokens = x.tokens := rfl
  rw [this] at hr
  rw [hr, hr1]

end Go3mf

namespace Go3mf

variable {D δ : Type}

/-! ## Unknown elements are passed over -/

theorem XMLDecoder.skipTokens_wellNested {inner : List (XMLToken × Int)}
    (h : WellNested inner) :
    ∀ (depth : Nat) (tail : List (XMLToken × Int)),
      XMLDecoder.skipTokens (inner ++ tail) depth = XMLDecoder.skipTokens tail depth := by
  induction h with
  | nil => intro depth tail; rfl
  | charData data off rest _ ih =>
    intro depth tail
    simp only [List.cons_append, XMLDecoder.skipTokens]
    exact ih depth tail
  | ignored off rest _ ih =>
    intro depth tail
    simp only [List.cons_append, XMLDecoder.skipTokens]
    exact ih depth tail
  | element name attr off1 off2 inner rest _ _ ih1 ih2 =>
    intro depth tail
    have e : ((XMLToken.StartElement name attr, off1) :: inner ++
          (XMLToken.EndElement name, off2) :: rest) ++ tail =
        (XMLToken.StartElement name attr, off1) ::
          (inner ++ ((XMLToken.EndElement name, off2) :: (rest ++ tail))) := by simp
    rw [e, XMLDecoder.skipTokens, ih1 (depth + 1), XMLDecoder.skipTokens]
    exact ih2 depth tail

/-- An iteration of the loop at a start element that `Child` of the current decoder does
not know, the content of the element being well nested. -/
theorem decodeStep_skip (cb : ElementDecoders D δ) (ctx : Context) (c : Int)
    (s : LoopState D δ) (name : XMLName) (attr : List XMLAttr) (off1 off2 : Int)
    (inner rest : List (XMLToken × Int)) (st1 : DecodeState δ)
    (htok : s.x.tokens = (XMLToken.StartElement name attr, off1) :: inner ++
      (XMLToken.EndElement name, off2) :: rest)
    (hin : WellNested inner)
    (hc : s.currentDecoder.Child cb name s.st = (none, st1)) :
    decodeStep cb ctx c s =
      .inr { s with
             x := { s.x with tokens := rest, offset := off2 }
             st := st1
             calls := s.calls ++ [Call.Child s.currentDecoder name] } := by
  have e : (XMLToken.StartElement name attr, off1) :: inner ++
        (XMLToken.EndElement name, off2) :: rest =
      (XMLToken.StartElement name attr, off1) ::
        (inner ++ ((XMLToken.EndElement name, off2) :: rest)) := by simp
  rw [e] at htok
  rw [decodeStep_start_unknown cb ctx c s htok hc,
    XMLDecoder.skipTokens_wellNested hin 0]
  simp only [XMLDecoder.skipTokens]
  rfl

/-- C14: whatever the variables of the loop, when the next token opens an element for which
`Child` of the current decoder returns nil, and the content of the element is well nested,
that iteration of `Decode` consumes the element with all its content up to its end element:
the only call made is that `Child`, the current decoder, the current name, the two stacks
and the byte threshold are unchanged, no cancellation check is made, and the loop goes on
with the token that follows the element: no error results. -/
theorem Decode_skips_unknown_element (cb : ElementDecoders D δ) (ctx : Context) (c : Int)
    (s : LoopState D δ) (name : XMLName) (attr : List XMLAttr) (off1 off2 : Int)
    (inner rest : List (XMLToken × Int)) (st1 : DecodeState δ)
    (htok : s.x.tokens = (XMLToken.StartElement name attr, off1) :: inner ++
      (XMLToken.EndElement name, off2) :: rest)
    (hin : WellNested inner)
    (hc : s.currentDecoder.Child cb name s.st = (none, st1)) :
    decodeStep cb ctx c s =
        .inr { s with
               x := { s.x with tokens := rest, offset := off2 }
               st := st1
               calls := s.calls ++ [Call.Child s.currentDecoder name] } ∧
    ∀ fuel, decodeLoop cb ctx c (fuel + 1) s =
      decodeLoop cb ctx c fuel
        { s with
          x := { s.x with tokens := rest, offset := off2 }
          st := st1
          calls := s.calls ++ [Call.Child s.currentDecoder name] } := by
  have hstep := decodeStep_skip cb ctx c s name attr off1 off2 inner rest st1 htok hin hc
  refine ⟨hstep, fun fuel => ?_⟩
  simp only [decodeLoop, hstep]

/-! ## The stack discipline -/

theorem countOpened_append (l1 l2 : List (Call D)) :
    countOpened (l1 ++ l2) = countOpened l1 + countOpened l2 := by
  induction l1 with
  | nil => simp [countOpened]
  | cons a l ih =>
    cases a <;> simp [countOpened, ih]; omega

theorem countClosed_append (l1 l2 : List (Call D)) :
    countClosed (l1 ++ l2) = countClosed l1 + countClosed l2 := by
  induction l1 with
  | nil => simp [countClosed]
  | cons a l ih =>
    cases a with
    | Close d ok => cases ok <;> simp [countClosed, ih]; omega
    | _ => simp [countClosed, ih]

theorem decodeStep_stackInvariant (cb : ElementDecoders D δ) (ctx : Context) (c : Int)
    (s s1 : LoopState D δ) (h : decodeStep cb ctx c s = .inr s1) (hs : StackInvariant s) :
    StackInvariant s1 := by
  obtain ⟨h1, h2⟩ := hs
  cases htok : s.x.tokens with
  | nil =>
    rw [decodeStep_eof cb ctx c s htok] at h
    cases h
  | cons hd tl =>
    obtain ⟨t, off⟩ := hd
    cases t with
    | StartElement name attr =>
      rcases hc : s.currentDecoder.Child cb name s.st with ⟨_ | d, st1⟩
      · rw [decodeStep_start_unknown cb ctx c s htok hc] at h
        cases hsk : XMLDecoder.skipTokens tl 0 with
        | none => rw [hsk] at h; cases h
        | some p =>
          rw [hsk] at h
          simp only [Sum.inr.injEq] at h
          subst h
          simp only [StackInvariant, LoopState.read, LoopState.called, countOpened_append,
            countClosed_append, countOpened, countClosed]
          exact ⟨h1, by omega⟩
      · rcases ha : d.Attributes cb attr
            (d.Open cb ((d.SetScanner cb st1).setElement name.Local)) with ⟨ok, st5⟩
        rw [decodeStep_start_known cb ctx c s htok hc ha] at h
        cases he : (if ok = true then none else st5.scanner.Err) with
        | some e => rw [he] at h; cases h
        | none =>
          rw [he] at h
          simp only [Sum.inr.injEq] at h
          subst h
          simp only [StackInvariant, LoopState.read, LoopState.push, countOpened_append,
            countClosed_append, countOpened, countClosed, List.length_cons]
          exact ⟨by omega, by omega⟩
    | CharData data =>
      rcases ht : s.currentDecoder.Text cb data s.st with ⟨ok, st1⟩
      rw [decodeStep_charData cb ctx c s htok ht] at h
      cases he : (if ok = true then none else st1.scanner.Err) with
      | some e => rw [he] at h; cases h
      | none =>
        rw [he] at h
        simp only [Sum.inr.injEq] at h
        subst h
        simp only [StackInvariant, LoopState.read, LoopState.called, countOpened_append,
          countClosed_append, countOpened, countClosed]
        exact ⟨h1, by omega⟩
    | Ignored =>
      rw [decodeStep_ignored cb ctx c s htok] at h
      simp only [Sum.inr.injEq] at h
      subst h
      exact ⟨h1, h2⟩
    | EndElement name =>
      by_cases hn : s.currentName = name
      · rcases hcl : s.currentDecoder.Close cb (s.st.setElement name.Local) with ⟨ok, st2⟩
        cases ok with
        | false =>
          rw [decodeStep_end_close_false cb ctx c s htok hn hcl] at h
          have hf := cancelCheck_frame ctx c st2.scanner.Err
            ((s.read tl off).called st2 (Call.Close s.currentDecoder false))
          rcases hcc : cancelCheck ctx c st2.scanner.Err
            ((s.read tl off).called st2 (Call.Close s.currentDecoder false)) with ⟨e, s2⟩
          rw [hcc] at h hf
          cases e with
          | some e => cases h
          | none =>
            simp only [Sum.inr.injEq] at h
            subst h
            obtain ⟨_, hf2, hf3, _, _, _, hf7⟩ := hf
            simp only at hf2 hf3 hf7
            simp only [StackInvariant, hf2, hf3, hf7, LoopState.read, LoopState.called,
              countOpened_append, countClosed_append, countOpened, countClosed]
            exact ⟨h1, by omega⟩
        | true =>
          cases hst : s.state with
          | nil =>
            rw [decodeStep_end_close_empty cb ctx c s htok hn hcl hst] at h
            cases h
          | cons d state =>
            cases hns : s.names with
            | nil =>
              obtain ⟨r, hr, _⟩ := decodeStep_end_close_noname cb ctx c s htok hn hcl hst hns
              rw [hr] at h
              cases h
            | cons n names =>
              rw [decodeStep_end_close_true cb ctx c s htok hn hcl hst hns] at h
              have hf := cancelCheck_frame ctx c none
                (((s.read tl off).called st2 (Call.Close s.currentDecoder true)).pop d state n
                  names)
              rcases hcc : cancelCheck ctx c none
                (((s.read tl off).called st2 (Call.Close s.currentDecoder true)).pop d state n
                  names) with ⟨e, s2⟩
              rw [hcc] at h hf
              cases e with
              | some e => cases h
              | none =>
                simp only [Sum.inr.injEq] at h
                subst h
                obtain ⟨_, hf2, hf3, _, _, _, hf7⟩ := hf
                simp only at hf2 hf3 hf7
                rw [hst, hns] at h1
                rw [hst] at h2
                simp only [List.length_cons] at h1 h2
                simp only [StackInvariant, hf2, hf3, hf7, LoopState.read, LoopState.called,
                  LoopState.pop, countOpened_append, countClosed_append, countOpened,
                  countClosed]
                exact ⟨by omega, by omega⟩
      · rw [decodeStep_end_other cb ctx c s htok hn] at h
        have hf := cancelCheck_frame ctx c none (s.read tl off)
        rcases hcc : cancelCheck ctx c none (s.read tl off) with ⟨e, s2⟩
        rw [hcc] at h hf
        cases e with
        | some e => cases h
        | none =>
          simp only [Sum.inr.injEq] at h
          subst h
          obtain ⟨_, hf2, hf3, _, _, _, hf7⟩ := hf
          simp only at hf2 hf3 hf7
          simp only [StackInvariant, hf2, hf3, hf7, LoopState.read]
          exact ⟨h1, h2⟩

theorem Reaches.stackInvariant {cb : ElementDecoders D δ} {ctx : Context} {c : Int}
    {s s1 : LoopState D δ} (h : Reaches cb ctx c s s1) (hs : StackInvariant s) :
    StackInvariant s1 := by
  induction h with
  | start => exact hs
  | next s2 s3 _ hstep ih => exact decodeStep_stackInvariant cb ctx c s2 s3 hstep ih

end Go3mf

namespace Go3mf

variable {D δ : Type}

/-! ## The loop carries out the walk -/

theorem Reaches.trans {cb : ElementDecoders D δ} {ctx : Context} {c : Int}
    {s s1 s2 : LoopState D δ} (h1 : Reaches cb ctx c s s1) (h2 : Reaches cb ctx c s1 s2) :
    Reaches cb ctx c s s2 := by
  induction h2 with
  | start => exact h1
  | next a b _ hstep ih => exact Reaches.next a b ih hstep

theorem ContextError.toError_ne_ioEOF (e : ContextError) : e.toError ≠ ioEOF := by
  cases e <;> decide

theorem finishDecode_context (e : ContextError) (s : LoopState D δ) :
    (finishDecode e.toError s).err = .ok (some e.toError) := by
  simp [finishDecode, ContextError.toError_ne_ioEOF]

/-- The cancellation check made with no error pending: the loop goes on with the same
variables but for the threshold and the record of the checks, or the signal was set. -/
theorem cancelCheck_none (ctx : Context) (c : Int) (s : LoopState D δ) :
    (cancelCheck ctx c none s).1 = none ∨
      ((cancelCheck ctx c none s).1 = some ctx.err.toError ∧ ∃ k, ctx.done k = true) := by
  rcases cancelCheck_eq ctx c none s with ⟨_, h⟩ | ⟨_, h⟩
  · left; rw [h]
  · rw [h]
    cases hd : ctx.done s.checks.length with
    | false => left; simp
    | true => right; exact ⟨by simp, _, hd⟩

/-- The loop of `Decode` carries out the walk: from variables whose current decoder and
state are those of the walk and whose input starts with the tokens of the walk, the loop
comes to the variables in which these tokens are consumed, the state is the one the walk
leaves, the calls of the walk are recorded, and the current decoder, the current name and
the two stacks are as before; unless a cancellation check finds the signal set and ends
`Decode` with the error of the context. -/
theorem runDecode_walk (cb : ElementDecoders D δ) (ctx : Context) (c : Int)
    {d : nodeDecoder D} {st st1 : DecodeState δ} {toks : List (XMLToken × Int)}
    {calls : List (Call D)} (hw : Walk cb d st toks st1 calls) :
    ∀ (s : LoopState D δ) (tail : List (XMLToken × Int)),
      s.currentDecoder = d → s.st = st → s.x.tokens = toks ++ tail →
      (∃ s1, runDecode cb ctx c s = runDecode cb ctx c s1 ∧ Reaches cb ctx c s s1 ∧
          s1.x.tokens = tail ∧ s1.x.final = s.x.final ∧ s1.st = st1 ∧ s1.state = s.state ∧
          s1.names = s.names ∧ s1.currentDecoder = s.currentDecoder ∧
          s1.currentName = s.currentName ∧ s1.calls = s.calls ++ calls) ∨
      (∃ r, runDecode cb ctx c s = some r ∧ r.err = .ok (some ctx.err.toError) ∧
          ∃ k, ctx.done k = true) := by
  induction hw with
  | done d st =>
    intro s tail _ hst htok
    left
    exact ⟨s, rfl, Reaches.start, by simpa using htok, rfl, hst, rfl, rfl, rfl, rfl, by simp⟩
  | ignored d st st1 off rest calls _ ih =>
    intro s tail hd hst htok
    have htok1 : s.x.tokens = (XMLToken.Ignored, off) :: (rest ++ tail) := by
      rw [htok]; rfl
    have hstep := decodeStep_ignored cb ctx c s htok1
    rcases ih (s.read (rest ++ tail) off) tail hd hst rfl with
      ⟨s1, h1, h2, h3, h4, h5, h6, h7, h8, h9, h10⟩ | ⟨r, h1, h2, h3⟩
    · left
      exact ⟨s1, (runDecode_inr cb ctx c s _ hstep).trans h1,
        (Reaches.next s _ Reaches.start hstep).trans h2, h3, h4, h5, h6, h7, h8, h9, h10⟩
    · right
      exact ⟨r, (runDecode_inr cb ctx c s _ hstep).trans h1, h2, h3⟩
  | charData d st st1 st2 data off rest calls htext _ ih =>
    intro s tail hd hst htok
    subst hd hst
    have htok1 : s.x.tokens = (XMLToken.CharData data, off) :: (rest ++ tail) := by
      rw [htok]; rfl
    have hstep := decodeStep_charData cb ctx c s htok1 htext
    simp only [if_true] at hstep
    rcases ih ((s.read (rest ++ tail) off).called st1 (Call.Text s.currentDecoder data true))
        tail rfl rfl rfl with
      ⟨s1, h1, h2, h3, h4, h5, h6, h7, h8, h9, h10⟩ | ⟨r, h1, h2, h3⟩
    · left
      refine ⟨s1, (runDecode_inr cb ctx c s _ hstep).trans h1,
        (Reaches.next s _ Reaches.start hstep).trans h2, h3, h4, h5, h6, h7, h8, h9, ?_⟩
      rw [h10]
      simp [LoopState.read, LoopState.called]
    · right
      exact ⟨r, (runDecode_inr cb ctx c s _ hstep).trans h1, h2, h3⟩
  | unknown d st st1 st2 name attr off1 off2 inner rest calls hchild hin _ ih =>
    intro s tail hd hst htok
    subst hd hst
    have htok1 : s.x.tokens = (XMLToken.StartElement name attr, off1) :: inner ++
        (XMLToken.EndElement name, off2) :: (rest ++ tail) := by
      rw [htok]; simp
    have hstep := decodeStep_skip cb ctx c s name attr off1 off2 inner
      (rest ++ tail) st1 htok1 hin hchild
    rcases ih
        { s with
          x := { s.x with tokens := rest ++ tail, offset := off2 }
          st := st1
          calls := s.calls ++ [Call.Child s.currentDecoder name] } tail rfl rfl rfl with
      ⟨s1, h1, h2, h3, h4, h5, h6, h7, h8, h9, h10⟩ | ⟨r, h1, h2, h3⟩
    · left
      refine ⟨s1, (runDecode_inr cb ctx c s _ hstep).trans h1,
        (Reaches.next s _ Reaches.start hstep).trans h2, h3, h4, h5, h6, h7, h8, h9, ?_⟩
      rw [h10]
      simp
    · right
      exact ⟨r, (runDecode_inr cb ctx c s _ hstep).trans h1, h2, h3⟩
  | element d child st st1 st2 st3 st4 st5 name attr off1 off2 inner rest calls1 calls2
      hchild hattr _ hclose _ ih1 ih2 =>
    intro s tail hd hst htok
    subst hd hst
    have htok1 : s.x.tokens = (XMLToken.StartElement name attr, off1) ::
        (inner ++ ((XMLToken.EndElement name, off2) :: (rest ++ tail))) := by
      rw [htok]; simp
    have hstep := decodeStep_start_known cb ctx c s htok1 hchild hattr
    simp only [if_true] at hstep
    rcases ih1 ((s.read (inner ++ ((XMLToken.EndElement name, off2) :: (rest ++ tail)))
        off1).push name attr child true st2)
        ((XMLToken.EndElement name, off2) :: (rest ++ tail)) rfl rfl rfl with
      ⟨s1, h1, h2, h3, h4, h5, h6, h7, h8, h9, h10⟩ | ⟨r, h1, h2, h3⟩
    · -- the end element of the recognised element
      have hcl : s1.currentDecoder.Close cb (s1.st.setElement name.Local) = (true, st4) := by
        rw [h8, h5]; exact hclose
      have hstate : s1.state = s.currentDecoder :: s.state := by rw [h6]; rfl
      have hnames : s1.names = s.currentName :: s.names := by rw [h7]; rfl
      have hend := decodeStep_end_close_true cb ctx c s1 h3
        (by rw [h9]; rfl) hcl hstate hnames
      have hf := cancelCheck_frame ctx c none
        (((s1.read (rest ++ tail) off2).called st4 (Call.Close s1.currentDecoder true)).pop
          s.currentDecoder s.state s.currentName s.names)
      rcases cancelCheck_none ctx c
        (((s1.read (rest ++ tail) off2).called st4 (Call.Close s1.currentDecoder true)).pop
          s.currentDecoder s.state s.currentName s.names) with hnone | ⟨hsome, hk⟩
      · rcases hcc : cancelCheck ctx c none
          (((s1.read (rest ++ tail) off2).called st4 (Call.Close s1.currentDecoder true)).pop
            s.currentDecoder s.state s.currentName s.names) with ⟨e, s2⟩
        rw [hcc] at hnone hend hf
        simp only at hnone
        subst hnone
        simp only at hend hf
        obtain ⟨g1, g2, g3, g4, g5, g6, g7⟩ := hf
        rcases ih2 s2 tail (by rw [g4]; rfl) (by rw [g6]; rfl) (by rw [g1]; rfl) with
          ⟨s3, k1, k2, k3, k4, k5, k6, k7, k8, k9, k10⟩ | ⟨r, k1, k2, k3⟩
        · left
          refine ⟨s3, ?_, ?_, k3, ?_, k5, ?_, ?_, ?_, ?_, ?_⟩
          · exact ((runDecode_inr cb ctx c s _ hstep).trans h1).trans
              ((runDecode_inr cb ctx c s1 _ hend).trans k1)
          · exact ((Reaches.next s _ Reaches.start hstep).trans h2).trans
              ((Reaches.next s1 _ Reaches.start hend).trans k2)
          · rw [k4, g1]; exact h4
          · rw [k6, g2]; rfl
          · rw [k7, g3]; rfl
          · rw [k8, g4]; rfl
          · rw [k9, g5]; rfl
          · rw [k10, g7]
            simp only [LoopState.pop, LoopState.called, LoopState.read, h10, h8,
              LoopState.push]
            simp
        · right
          exact ⟨r, ((runDecode_inr cb ctx c s _ hstep).trans h1).trans
            ((runDecode_inr cb ctx c s1 _ hend).trans k1), k2, k3⟩
      · right
        rcases hcc : cancelCheck ctx c none
          (((s1.read (rest ++ tail) off2).called st4 (Call.Close s1.currentDecoder true)).pop
            s.currentDecoder s.state s.currentName s.names) with ⟨e, s2⟩
        rw [hcc] at hsome hend
        simp only at hsome
        subst hsome
        simp only at hend
        exact ⟨_, ((runDecode_inr cb ctx c s _ hstep).trans h1).trans
          (runDecode_inl cb ctx c s1 _ hend), finishDecode_context _ _, hk⟩
    · right
      exact ⟨r, (runDecode_inr cb ctx c s _ hstep).trans h1, h2, h3⟩

end Go3mf

namespace Go3mf

variable {D δ : Type}

/-! ## Claims on the stack discipline -/

/-- On a well-nested token stream there is a walk from every decoder and state when the
`Attributes`, `Text` and `Close` callbacks never return false. -/
theorem Walk.exists_of_wellNested (cb : ElementDecoders D δ)
    (hA : ∀ (d : nodeDecoder D) (a : List XMLAttr) (st : DecodeState δ),
      (d.Attributes cb a st).1 = true)
    (hT : ∀ (d : nodeDecoder D) (data : List Nat) (st : DecodeState δ),
      (d.Text cb data st).1 = true)
    (hC : ∀ (d : nodeDecoder D) (st : DecodeState δ), (d.Close cb st).1 = true)
    {toks : List (XMLToken × Int)} (h : WellNested toks) :
    ∀ (d : nodeDecoder D) (st : DecodeState δ), ∃ st1 calls, Walk cb d st toks st1 calls := by
  induction h with
  | nil => intro d st; exact ⟨st, [], Walk.done d st⟩
  | charData data off rest _ ih =>
    intro d st
    obtain ⟨st2, calls, hw⟩ := ih d (d.Text cb data st).2
    exact ⟨st2, _, Walk.charData d st _ st2 data off rest calls
      (by rw [← hT d data st]) hw⟩
  | ignored off rest _ ih =>
    intro d st
    obtain ⟨st1, calls, hw⟩ := ih d st
    exact ⟨st1, calls, Walk.ignored d st st1 off rest calls hw⟩
  | element name attr off1 off2 inner rest hin _ ih1 ih2 =>
    intro d st
    rcases hc : d.Child cb name st with ⟨_ | child, st1⟩
    · obtain ⟨st2, calls, hw⟩ := ih2 d st1
      exact ⟨st2, _, Walk.unknown d st st1 st2 name attr off1 off2 inner rest calls hc hin hw⟩
    · have ha := hA child attr (child.Open cb ((child.SetScanner cb st1).setElement name.Local))
      obtain ⟨st3, calls1, hw1⟩ := ih1 child
        (child.Attributes cb attr
          (child.Open cb ((child.SetScanner cb st1).setElement name.Local))).2
      have hcl := hC child (st3.setElement name.Local)
      obtain ⟨st5, calls2, hw2⟩ := ih2 d (child.Close cb (st3.setElement name.Local)).2
      exact ⟨st5, _, Walk.element d child st st1 _ st3 _ st5 name attr off1 off2 inner rest
        calls1 calls2 hc (by rw [← ha]) hw1 (by rw [← hcl]) hw2⟩

/-- C15: on a well-nested token stream on which every callback returns true (a walk: for
each recognised element `Child`, `Open` and `Attributes` of the child decoder, `Text` for the
character data directly inside, `Close` at the matching end element, then the parent decoder
again), `Decode` makes exactly the calls of the walk, in that order, reads the input to
`io.EOF` and returns nil with both stacks empty and the top-level decoder current; the only
other way it ends is a cancellation check that finds the signal set. It never pops an empty
stack. At every iteration the saved-decoder stack and the saved-name stack have the same
length, the number of elements opened and not closed yet. -/
theorem Decode_stack_discipline (cb : ElementDecoders D δ) (c : Int) (ctx : Context)
    (x : XMLDecoder) (priv : δ) (path : String) (isRoot strict : Bool)
    (st1 : DecodeState δ) (calls : List (Call D))
    (hw : Walk cb (nodeDecoder.topLevelDecoder isRoot)
      (initialLoopState (D := D) x priv path isRoot strict c).st x.tokens st1 calls)
    (hfinal : x.final = ioEOF) :
    (∀ s, Reaches cb ctx c (initialLoopState x priv path isRoot strict c) s →
        s.state.length = s.names.length ∧
        countOpened s.calls = countClosed s.calls + s.state.length) ∧
    (((Decode cb c ctx x priv path isRoot strict).err = .ok none ∧
        (Decode cb c ctx x priv path isRoot strict).final.calls = calls ∧
        (Decode cb c ctx x priv path isRoot strict).final.st = st1 ∧
        (Decode cb c ctx x priv path isRoot strict).final.state = [] ∧
        (Decode cb c ctx x priv path isRoot strict).final.names = [] ∧
        (Decode cb c ctx x priv path isRoot strict).final.currentDecoder =
          nodeDecoder.topLevelDecoder isRoot ∧
        (Decode cb c ctx x priv path isRoot strict).final.x.tokens = []) ∨
      ((Decode cb c ctx x priv path isRoot strict).err = .ok (some ctx.err.toError) ∧
        ∃ k, ctx.done k = true)) ∧
    ((∀ k, ctx.done k = false) →
      (Decode cb c ctx x priv path isRoot strict).err = .ok none ∧
        (Decode cb c ctx x priv path isRoot strict).final.calls = calls ∧
        (Decode cb c ctx x priv path isRoot strict).final.state = [] ∧
        (Decode cb c ctx x priv path isRoot strict).final.names = []) := by
  have hmain : ((Decode cb c ctx x priv path isRoot strict).err = .ok none ∧
        (Decode cb c ctx x priv path isRoot strict).final.calls = calls ∧
        (Decode cb c ctx x priv path isRoot strict).final.st = st1 ∧
        (Decode cb c ctx x priv path isRoot strict).final.state = [] ∧
        (Decode cb c ctx x priv path isRoot strict).final.names = [] ∧
        (Decode cb c ctx x priv path isRoot strict).final.currentDecoder =
          nodeDecoder.topLevelDecoder isRoot ∧
        (Decode cb c ctx x priv path isRoot strict).final.x.tokens = []) ∨
      ((Decode cb c ctx x priv path isRoot strict).err = .ok (some ctx.err.toError) ∧
        ∃ k, ctx.done k = true) := by
    have hrun := Decode_eq_runDecode cb c ctx x priv path isRoot strict
    rcases runDecode_walk cb ctx c hw (initialLoopState x priv path isRoot strict c) []
        rfl rfl (by simp [initialLoopState]) with
      ⟨s1, h1, _, h3, h4, h5, h6, h7, h8, _, h10⟩ | ⟨r, h1, h2, h3⟩
    · left
      have hstep := decodeStep_eof cb ctx c s1 h3
      rw [h1, runDecode_inl cb ctx c s1 _ hstep] at hrun
      simp only [Option.some.injEq] at hrun
      rw [← hrun]
      have hf : s1.x.final = ioEOF := by rw [h4]; exact hfinal
      refine ⟨by simp [finishDecode, hf], ?_, h5, ?_, ?_, ?_, h3⟩
      · show s1.calls = calls
        rw [h10]; rfl
      · show s1.state = []
        rw [h6]; rfl
      · show s1.names = []
        rw [h7]; rfl
      · show s1.currentDecoder = _
        rw [h8]; rfl
    · right
      rw [h1] at hrun
      simp only [Option.some.injEq] at hrun
      rw [← hrun]
      exact ⟨h2, h3⟩
  refine ⟨?_, hmain, ?_⟩
  · intro s hs
    exact hs.stackInvariant ⟨rfl, rfl⟩
  · intro hnever
    rcases hmain with ⟨h1, h2, _, h4, h5, _⟩ | ⟨_, k, hk⟩
    · exact ⟨h1, h2, h4, h5⟩
    · rw [hnever k] at hk
      cases hk

end Go3mf

namespace Go3mf

variable {D δ : Type}

/-! ## A callback that returns false -/

theorem decodeLoop_inl (cb : ElementDecoders D δ) (ctx : Context) (c : Int)
    (s : LoopState D δ) (r : DecodeResult D δ) (fuel : Nat)
    (h : decodeStep cb ctx c s = .inl r) : decodeLoop cb ctx c (fuel + 1) s = some r := by
  simp only [decodeLoop, h]

/-- C16 (amended): whatever the variables of the loop, when `Attributes` or `Text` of the
current decoder returns false and the scanner holds an error, `Decode` ends in that
iteration, having read no further token, and returns the scanner's error (nil if that error
is `io.EOF` itself); when `Close` returns false and the scanner holds an error, `Decode`
ends in that iteration as well, after the cancellation check of the end element: it returns
the error of the context when that check is made (the offset exceeds the byte threshold)
and finds the signal set, and the scanner's error otherwise. When the scanner holds no
error after `Attributes` or `Text` returned false, the loop goes on. -/
theorem Decode_callback_false (cb : ElementDecoders D δ) (ctx : Context) (c : Int)
    (s : LoopState D δ) :
    (∀ (name : XMLName) (attr : List XMLAttr) (off : Int) (rest : List (XMLToken × Int))
        (d : nodeDecoder D) (st1 st5 : DecodeState δ),
      s.x.tokens = (XMLToken.StartElement name attr, off) :: rest →
      s.currentDecoder.Child cb name s.st = (some d, st1) →
      d.Attributes cb attr (d.Open cb ((d.SetScanner cb st1).setElement name.Local)) =
        (false, st5) →
      (∀ err, st5.scanner.Err = some err → ∀ fuel, ∃ r,
          decodeLoop cb ctx c (fuel + 1) s = some r ∧
          r.err = .ok (if err = ioEOF then none else some err) ∧
          r.final.x.tokens = rest ∧ r.final.checks = s.checks) ∧
      (st5.scanner.Err = none → ∃ s1, decodeStep cb ctx c s = .inr s1)) ∧
    (∀ (data : List Nat) (off : Int) (rest : List (XMLToken × Int)) (st1 : DecodeState δ),
      s.x.tokens = (XMLToken.CharData data, off) :: rest →
      s.currentDecoder.Text cb data s.st = (false, st1) →
      (∀ err, st1.scanner.Err = some err → ∀ fuel, ∃ r,
          decodeLoop cb ctx c (fuel + 1) s = some r ∧
          r.err = .ok (if err = ioEOF then none else some err) ∧
          r.final.x.tokens = rest ∧ r.final.checks = s.checks) ∧
      (st1.scanner.Err = none → ∃ s1, decodeStep cb ctx c s = .inr s1)) ∧
    (∀ (name : XMLName) (off : Int) (rest : List (XMLToken × Int)) (st2 : DecodeState δ),
      s.x.tokens = (XMLToken.EndElement name, off) :: rest →
      s.currentName = name →
      s.currentDecoder.Close cb (s.st.setElement name.Local) = (false, st2) →
      ∀ err, st2.scanner.Err = some err → ∀ fuel, ∃ r,
          decodeLoop cb ctx c (fuel + 1) s = some r ∧
          r.final.x.tokens = rest ∧
          r.err = .ok (if off > s.nextBytesCheck ∧ ctx.done s.checks.length = true
            then some ctx.err.toError
            else if err = ioEOF then none else some err)) := by
  refine ⟨?_, ?_, ?_⟩
  · intro name attr off rest d st1 st5 htok hc ha
    have hstep := decodeStep_start_known cb ctx c s htok hc ha
    constructor
    · intro err herr fuel
      simp only [herr, Bool.false_eq_true, if_false] at hstep
      exact ⟨_, decodeLoop_inl cb ctx c s _ fuel hstep, rfl, rfl, rfl⟩
    · intro hnone
      simp only [hnone, Bool.false_eq_true, if_false] at hstep
      exact ⟨_, hstep⟩
  · intro data off rest st1 htok ht
    have hstep := decodeStep_charData cb ctx c s htok ht
    constructor
    · intro err herr fuel
      simp only [herr, Bool.false_eq_true, if_false] at hstep
      exact ⟨_, decodeLoop_inl cb ctx c s _ fuel hstep, rfl, rfl, rfl⟩
    · intro hnone
      simp only [hnone, Bool.false_eq_true, if_false] at hstep
      exact ⟨_, hstep⟩
  · intro name off rest st2 htok hn hcl err herr fuel
    have hstep := decodeStep_end_close_false cb ctx c s htok hn hcl
    rw [herr] at hstep
    rcases cancelCheck_eq ctx c (some err)
        ((s.read rest off).called st2 (Call.Close s.currentDecoder false)) with
      ⟨hno, heq⟩ | ⟨hyes, heq⟩
    · rw [heq] at hstep
      refine ⟨_, decodeLoop_inl cb ctx c s _ fuel hstep, rfl, ?_⟩
      have : ¬ off > s.nextBytesCheck := hno
      simp [finishDecode, this]
    · rw [heq] at hstep
      have hgt : off > s.nextBytesCheck := hyes
      cases hd : ctx.done s.checks.length with
      | true =>
        have hd1 : ctx.done
            ((s.read rest off).called st2 (Call.Close s.currentDecoder false)).checks.length =
            true := hd
        simp only [hd1, if_true] at hstep
        refine ⟨_, decodeLoop_inl cb ctx c s _ fuel hstep, rfl, ?_⟩
        simp [finishDecode, hgt, ContextError.toError_ne_ioEOF]
      | false =>
        have hd1 : ctx.done
            ((s.read rest off).called st2 (Call.Close s.currentDecoder false)).checks.length =
            false := hd
        simp only [hd1, Bool.false_eq_true, if_false] at hstep
        refine ⟨_, decodeLoop_inl cb ctx c s _ fuel hstep, rfl, ?_⟩
        simp [finishDecode]

end Go3mf

namespace Go3mf

variable {D δ : Type}

/-! ## The cancellation checks -/

theorem ChecksSound.append {c : Int} {ctx : Context} {orig : List (XMLToken × Int)}
    {checks : List Check} (h : ChecksSound c ctx orig checks) (ck : Check)
    (h1 : ck.threshold = thresholdAt c checks.length) (h2 : ck.threshold < ck.offset)
    (h3 : ck.signalled = ctx.done checks.length)
    (h4 : ∃ pre name post, orig = pre ++ (XMLToken.EndElement name, ck.offset) :: post) :
    ChecksSound c ctx orig (checks ++ [ck]) := by
  intro k ck1 hk
  rcases Nat.lt_or_ge k checks.length with hlt | hge
  · rw [List.getElem?_append_left hlt] at hk
    exact h k ck1 hk
  · rw [List.getElem?_append_right hge] at hk
    rcases Nat.eq_or_lt_of_le hge with heq | hgt
    · subst heq
      simp only [Nat.sub_self, List.getElem?_cons_zero, Option.some.injEq] at hk
      subst hk
      exact ⟨h1, h2, h3, h4⟩
    · obtain ⟨j, hj⟩ : ∃ j, k - checks.length = j + 1 := ⟨k - checks.length - 1, by omega⟩
      rw [hj] at hk
      simp at hk

theorem CheckInvariant.outcome_of_same {c : Int} {ctx : Context}
    {orig : List (XMLToken × Int)} {s : LoopState D δ} (h : CheckInvariant c ctx orig s)
    (r : DecodeResult D δ) (hr : r.final.checks = s.checks) : CheckOutcome c ctx orig r := by
  obtain ⟨_, _, h3, h4⟩ := h
  refine ⟨by rw [hr]; exact h3, ?_⟩
  intro k ck hk hsig
  rw [hr] at hk
  have := h4 ck (List.getElem?_mem hk)
  rw [this] at hsig
  cases hsig

theorem decodeStep_checkInvariant (cb : ElementDecoders D δ) (ctx : Context) (c : Int)
    (orig : List (XMLToken × Int)) (s : LoopState D δ) (h : CheckInvariant c ctx orig s) :
    (∀ s1, decodeStep cb ctx c s = .inr s1 → CheckInvariant c ctx orig s1) ∧
    (∀ r, decodeStep cb ctx c s = .inl r → CheckOutcome c ctx orig r) := by
  obtain ⟨⟨pre, hpre⟩, hn, hsound, hunsig⟩ := h
  have hinv : CheckInvariant c ctx orig s := ⟨⟨pre, hpre⟩, hn, hsound, hunsig⟩
  rcases decodeStep_shape cb ctx c s with ⟨r, hr, g1, g2, g3⟩ | ⟨s2, hs2, g1, g2, g3, _⟩ |
    ⟨name, off, rest, err, s0, htok, hx, hoff, hck, hnb, heq⟩
  · constructor
    · intro s1 h1; rw [hr] at h1; cases h1
    · intro r1 h1
      rw [hr] at h1
      cases h1
      exact hinv.outcome_of_same r g1
  · constructor
    · intro s1 h1
      rw [hs2] at h1
      cases h1
      obtain ⟨p2, hp2⟩ := g3
      refine ⟨⟨pre ++ p2, by rw [hpre, ← hp2, List.append_assoc]⟩, by rw [g2, g1]; exact hn,
        by rw [g1]; exact hsound, by rw [g1]; exact hunsig⟩
    · intro r1 h1; rw [hs2] at h1; cases h1
  · have hsplit : orig = (pre ++ [(XMLToken.EndElement name, off)]) ++ rest := by
      rw [hpre, htok]; simp
    have hsplit2 : orig = pre ++ (XMLToken.EndElement name, off) :: rest := by
      rw [hpre, htok]
    rcases cancelCheck_eq ctx c err s0 with ⟨_, hcc⟩ | ⟨hgt, hcc⟩
    · rw [hcc] at heq
      constructor
      · intro s1 h1
        rw [heq] at h1
        cases err with
        | some e => cases h1
        | none =>
          simp only [Sum.inr.injEq] at h1
          subst h1
          exact ⟨⟨pre ++ [(XMLToken.EndElement name, off)], by rw [hx]; exact hsplit⟩,
            by rw [hnb, hck]; exact hn,
            by rw [hck]; exact hsound, by rw [hck]; exact hunsig⟩
      · intro r1 h1
        rw [heq] at h1
        cases err with
        | none => cases h1
        | some e =>
          simp only [Sum.inl.injEq] at h1
          subst h1
          exact hinv.outcome_of_same _ hck
    · rw [hcc] at heq
      have hnew : ChecksSound c ctx orig
          (s0.checks ++ [{ offset := s0.x.InputOffset, threshold := s0.nextBytesCheck,
                           signalled := ctx.done s0.checks.length }]) := by
        apply ChecksSound.append (by rw [hck]; exact hsound)
        · show s0.nextBytesCheck = _
          rw [hnb, hck]; exact hn
        · exact hgt
        · rfl
        · exact ⟨pre, name, rest, by
            show orig = pre ++ (XMLToken.EndElement name, s0.x.offset) :: rest
            rw [hoff]; exact hsplit2⟩
      constructor
      · intro s1 h1
        rw [heq] at h1
        cases hd : ctx.done s0.checks.length with
        | true => simp only [hd, if_true] at h1; cases h1
        | false =>
          simp only [hd, Bool.false_eq_true, if_false] at h1
          cases err with
          | some e => cases h1
          | none =>
            simp only [Sum.inr.injEq] at h1
            subst h1
            refine ⟨⟨pre ++ [(XMLToken.EndElement name, off)], by
              show orig = _ ++ s0.x.tokens
              rw [hx]; exact hsplit⟩, ?_, ?_, ?_⟩
            · show i64 (s0.nextBytesCheck + c) = thresholdAt c (s0.checks ++ [_]).length
              rw [List.length_append, List.length_singleton, thresholdAt, hnb, hck, hn]
            · rw [hd] at hnew
              exact hnew
            · intro ck hmem
              simp only [List.mem_append, List.mem_singleton] at hmem
              rcases hmem with hmem | hmem
              · exact hunsig ck (by rw [← hck]; exact hmem)
              · rw [hmem]
      · intro r1 h1
        rw [heq] at h1
        have hres : ∀ (e : GoError),
            (if ctx.done s0.checks.length = true then some ctx.err.toError else err) = some e →
            CheckOutcome c ctx orig
              (finishDecode e
                { s0 with
                  nextBytesCheck := i64 (s0.nextBytesCheck + c)
                  checks := s0.checks ++ [{ offset := s0.x.InputOffset,
                                            threshold := s0.nextBytesCheck,
                                            signalled := ctx.done s0.checks.length }] }) := by
          intro e he
          refine ⟨hnew, ?_⟩
          intro k ck hk hsig
          simp only [finishDecode] at hk
          rcases Nat.lt_or_ge k s0.checks.length with hlt | hge
          · rw [List.getElem?_append_left hlt] at hk
            have := hunsig ck (by rw [← hck]; exact List.getElem?_mem hk)
            rw [this] at hsig
            cases hsig
          · rw [List.getElem?_append_right hge] at hk
            rcases Nat.eq_or_lt_of_le hge with hke | hgt2
            · subst hke
              simp only [Nat.sub_self, List.getElem?_cons_zero, Option.some.injEq] at hk
              subst hk
              simp only at hsig
              rw [hsig] at he
              simp only [if_true, Option.some.injEq] at he
              subst he
              refine ⟨by simp [finishDecode], finishDecode_context _ _, pre, name, ?_⟩
              show orig = pre ++ (XMLToken.EndElement name, s0.x.offset) :: s0.x.tokens
              rw [hoff, hx]
              exact hsplit2
            · obtain ⟨j, hj⟩ : ∃ j, k - s0.checks.length = j + 1 :=
                ⟨k - s0.checks.length - 1, by omega⟩
              rw [hj] at hk
              simp at hk
        cases he : (if ctx.done s0.checks.length = true then some ctx.err.toError else err) with
        | none => rw [he] at h1; cases h1
        | some e =>
          rw [he] at h1
          simp only [Sum.inl.injEq] at h1
          subst h1
          exact hres e he

end Go3mf

namespace Go3mf

/-! ## `addModelFile` -/

theorem foldl_append_singleton_buildItems (l : List Nat) (m : Model) :
    l.foldl (fun m bi => { m with BuildItems := m.BuildItems ++ [bi] }) m =
      { m with BuildItems := m.BuildItems ++ l } := by
  induction l generalizing m with
  | nil => simp
  | cons a l ih => simp [List.foldl, ih]

theorem foldl_append_singleton_resources (l : List Nat) (m : Model) :
    l.foldl (fun m res => { m with Resources := m.Resources ++ [res] }) m =
      { m with Resources := m.Resources ++ l } := by
  induction l generalizing m with
  | nil => simp
  | cons a l ih => simp [List.foldl, ih]

theorem foldl_append_singleton_warnings (l : List GoError) (d : Decoder) :
    l.foldl (fun d w => { d with Warnings := d.Warnings ++ [w] }) d =
      { d with Warnings := d.Warnings ++ l } := by
  induction l generalizing d with
  | nil => simp
  | cons a l ih => simp [List.foldl, ih]

theorem Decoder.addModelFile_eq (d : Decoder) (p : Scanner) (model : Model) :
    d.addModelFile p model =
      ({ d with Warnings := d.Warnings ++ p.Warnings },
        { model with
          UUID := p.UUID
          BuildItems := model.BuildItems ++ p.BuildItems
          Resources := model.Resources ++ p.Resources }) := by
  simp only [Decoder.addModelFile, foldl_append_singleton_buildItems,
    foldl_append_singleton_resources, foldl_append_singleton_warnings]

theorem Decoder.addModelFiles_lists (scs : List Scanner) (d : Decoder) (model : Model) :
    (Decoder.addModelFiles scs d model).2.Resources =
        scs.foldl (fun acc p => acc ++ p.Resources) model.Resources ∧
    (Decoder.addModelFiles scs d model).2.BuildItems =
        scs.foldl (fun acc p => acc ++ p.BuildItems) model.BuildItems ∧
    (Decoder.addModelFiles scs d model).1.Warnings =
        scs.foldl (fun acc p => acc ++ p.Warnings) d.Warnings := by
  induction scs generalizing d model with
  | nil => exact ⟨rfl, rfl, rfl⟩
  | cons p rest ih =>
    simp only [Decoder.addModelFiles, Decoder.addModelFile_eq, List.foldl]
    exact ih _ _

/-! ## The secondary parts -/

theorem TaskState.store_fresh (ts : TaskState) (i : Nat) (f : Option Scanner)
    (h : ∀ e ∈ ts.files, e.1 ≠ i) :
    (ts.store i f).files = ts.files ++ [(i, f)] := by
  simp only [TaskState.store]
  congr 1
  apply List.filter_eq_self.mpr
  intro e he
  simpa using h e he

theorem Decoder.nonRootTasks_all_stored (d : Decoder) (ctx : Context) (model : Model)
    (sc : Nat → Scanner) (order : List Nat) :
    ∀ (ts : TaskState), ts.err = none → ts.cancelled = false →
      order.Nodup → (∀ e ∈ ts.files, e.1 ∉ order) →
      (∀ i ∈ order, ∃ log,
        d.readProductionAttachmentModel i model = .ok (some (sc i), none, log)) →
      (∀ k, ts.receives ≤ k → k < ts.receives + order.length → ctx.done k = false) →
      ∃ ts1, d.nonRootTasks ctx model order ts = .ok ts1 ∧ ts1.err = none ∧
        ts1.files = ts.files ++ order.map (fun i => (i, some (sc i))) := by
  induction order with
  | nil =>
    intro ts h1 _ _ _ _ _
    exact ⟨ts, rfl, h1, by simp⟩
  | cons i rest ih =>
    intro ts herr hcan hnodup hfresh hok hctx
    obtain ⟨log, hread⟩ := hok i (List.mem_cons_self _ _)
    have hdone : ctx.done ts.receives = false :=
      hctx ts.receives (Nat.le_refl _) (by simp)
    obtain ⟨hni, hnodup1⟩ := List.nodup_cons.mp hnodup
    have hstore := TaskState.store_fresh
      { ts with log := ts.log ++ log, receives := ts.receives + 1 } i (some (sc i))
      (fun e he => fun heq => hfresh e he (by rw [heq]; exact List.mem_cons_self _ _))
    have hstep : d.nonRootTask ctx model ts i =
        .ok ({ ts with log := ts.log ++ log, receives := ts.receives + 1 }.store i
          (some (sc i))) := by
      simp only [Decoder.nonRootTask, hread, hdone, hcan, Bool.or_self, Bool.false_eq_true,
        if_false]
    obtain ⟨ts1, hrun, herr1, hfiles⟩ := ih
      ({ ts with log := ts.log ++ log, receives := ts.receives + 1 }.store i (some (sc i)))
      herr hcan hnodup1
      (by
        intro e he
        rw [hstore] at he
        simp only [List.mem_append, List.mem_singleton] at he
        rcases he with he | he
        · exact fun hmem => hfresh e he (List.mem_cons_of_mem _ hmem)
        · rw [he]; exact hni)
      (fun j hj => hok j (List.mem_cons_of_mem _ hj))
      (by
        intro k hk1 hk2
        apply hctx k
        · have : ts.receives + 1 ≤ k := hk1
          omega
        · have : k < ts.receives + 1 + rest.length := hk2
          simp only [List.length_cons]
          omega)
    refine ⟨ts1, ?_, herr1, ?_⟩
    · simp only [Decoder.nonRootTasks, hstep]
      exact hrun
    · rw [hfiles, hstore]
      simp

theorem lookup_map_self {β : Type} (f : Nat → β) (l : List Nat) (i : Nat) (h : i ∈ l) :
    List.lookup i (l.map (fun j => (j, f j))) = some (f i) := by
  induction l with
  | nil => cases h
  | cons a l ih =>
    simp only [List.map_cons, List.lookup]
    by_cases hia : i = a
    · subst hia
      simp
    · have : (i == a) = false := by simpa using hia
      rw [this]
      rcases List.mem_cons.mp h with h1 | h1
      · exact absurd h1 hia
      · exact ih h1

theorem Decoder.addStoredFiles_all (files : List (Nat × Option Scanner)) (sc : Nat → Scanner)
    (indices : List Nat) (h : ∀ i ∈ indices, files.lookup i = some (some (sc i))) :
    ∀ (d : Decoder) (model : Model),
      Decoder.addStoredFiles files indices d model =
        (.ok (), Decoder.addModelFiles (indices.map sc) d model) := by
  induction indices with
  | nil => intro d model; rfl
  | cons i rest ih =>
    intro d model
    simp only [Decoder.addStoredFiles, h i (List.mem_cons_self _ _), List.map_cons,
      Decoder.addModelFiles]
    exact ih (fun j hj => h j (List.mem_cons_of_mem _ hj)) _ _

theorem insertionSort_perm_range (order : List Nat) (n : Nat)
    (h : order.Perm (List.range n)) :
    order.insertionSort (fun a b => a ≤ b) = List.range n :=
  List.eq_of_perm_of_sorted ((List.perm_insertionSort _ order).trans h)
    (List.sorted_insertionSort _ order) (List.sorted_le_range n)

theorem Decoder.processNonRootModels_all_ok (d : Decoder) (ctx : Context) (model : Model)
    (sc : Nat → Scanner) (order : List Nat)
    (hok : ∀ i, i < model.ProductionAttachments.length → ∃ log,
      d.readProductionAttachmentModel i model = .ok (some (sc i), none, log))
    (hctx : ∀ k, k < model.ProductionAttachments.length → ctx.done k = false)
    (hperm : order.Perm (List.range model.ProductionAttachments.length)) :
    (d.processNonRootModels ctx model order).1 = .ok none ∧
      (d.processNonRootModels ctx model order).2.1 =
        (Decoder.addModelFiles ((List.range model.ProductionAttachments.length).map sc) d
          model).1 ∧
      (d.processNonRootModels ctx model order).2.2.1 =
        (Decoder.addModelFiles ((List.range model.ProductionAttachments.length).map sc) d
          model).2 := by
  have hmem : ∀ i ∈ order, i < model.ProductionAttachments.length := fun i hi =>
    List.mem_range.mp (hperm.mem_iff.mp hi)
  have hlen : order.length = model.ProductionAttachments.length := by
    rw [hperm.length_eq, List.length_range]
  obtain ⟨ts1, hrun, herr, hfiles⟩ := Decoder.nonRootTasks_all_stored d ctx model sc order
    { err := none, cancelled := false, files := [], log := [], receives := 0 } rfl rfl
    (hperm.nodup_iff.mpr (List.nodup_range _)) (fun e he => by simp at he)
    (fun i hi => hok i (hmem i hi))
    (fun k _ hk => hctx k (by simp only [Nat.zero_add] at hk; omega))
  simp only [List.nil_append] at hfiles
  have hkeys : ts1.files.map Prod.fst = order := by
    rw [hfiles, List.map_map]
    exact List.map_id'' (fun _ => rfl) order
  have hsort := insertionSort_perm_range order _ hperm
  have hstored := Decoder.addStoredFiles_all ts1.files sc
    (List.range model.ProductionAttachments.length)
    (fun i hi => by
      rw [hfiles]
      exact lookup_map_self (fun j => some (sc j)) order i (hperm.mem_iff.mpr hi)) d model
  simp only [Decoder.processNonRootModels, hrun, herr, hkeys, hsort, hstored]
  trivial

end Go3mf

namespace Go3mf

/-! ## `DecodeContext`: the order of the parts -/

theorem Decoder.readProductionAttachmentModel_log (d : Decoder) (i : Nat) (model : Model)
    (f : Option Scanner) (err : Option GoError) (log : List PartDecode)
    (h : d.readProductionAttachmentModel i model = .ok (f, err, log)) :
    ∀ e ∈ log, e.isRoot = false := by
  unfold Decoder.readProductionAttachmentModel at h
  cases h1 : model.ProductionAttachments[i]? with
  | none => rw [h1] at h; cases h
  | some attachment =>
    rw [h1] at h
    simp only at h
    cases h2 : d.productionModels.lookup attachment.Path with
    | none => rw [h2] at h; cases h
    | some file =>
      rw [h2] at h
      simp only at h
      cases h3 : file.openError with
      | some e0 =>
        rw [h3] at h
        simp only [Except.ok.injEq, Prod.mk.injEq] at h
        obtain ⟨_, _, hl⟩ := h
        subst hl
        intro e he
        cases he
      | none =>
        rw [h3] at h
        simp only [Except.ok.injEq, Prod.mk.injEq] at h
        obtain ⟨_, _, hl⟩ := h
        subst hl
        intro e he
        simp only [List.mem_singleton] at he
        subst he
        rfl

theorem Decoder.nonRootTask_log (d : Decoder) (ctx : Context) (model : Model)
    (ts ts1 : TaskState) (i : Nat) (h : d.nonRootTask ctx model ts i = .ok ts1)
    (hts : ∀ e ∈ ts.log, e.isRoot = false) : ∀ e ∈ ts1.log, e.isRoot = false := by
  unfold Decoder.nonRootTask at h
  cases hr : d.readProductionAttachmentModel i model with
  | error p => rw [hr] at h; cases h
  | ok r =>
    obtain ⟨f, err1, log⟩ := r
    have hlog := Decoder.readProductionAttachmentModel_log d i model f err1 log hr
    rw [hr] at h
    simp only at h
    have hboth : ∀ e ∈ ts.log ++ log, e.isRoot = false := by
      intro e he
      rcases List.mem_append.mp he with he | he
      · exact hts e he
      · exact hlog e he
    split at h
    · cases h; exact hboth
    · cases err1 with
      | some e0 => simp only [TaskState.store, Except.ok.injEq] at h; subst h; exact hboth
      | none => simp only [TaskState.store, Except.ok.injEq] at h; subst h; exact hboth

theorem Decoder.nonRootTasks_log (d : Decoder) (ctx : Context) (model : Model)
    (order : List Nat) :
    ∀ (ts ts1 : TaskState), d.nonRootTasks ctx model order ts = .ok ts1 →
      (∀ e ∈ ts.log, e.isRoot = false) → ∀ e ∈ ts1.log, e.isRoot = false := by
  induction order with
  | nil =>
    intro ts ts1 h hts
    simp only [Decoder.nonRootTasks, Except.ok.injEq] at h
    subst h
    exact hts
  | cons i rest ih =>
    intro ts ts1 h hts
    simp only [Decoder.nonRootTasks] at h
    cases hi : d.nonRootTask ctx model ts i with
    | error p => rw [hi] at h; cases h
    | ok ts2 =>
      rw [hi] at h
      exact ih ts2 ts1 h (Decoder.nonRootTask_log d ctx model ts ts2 i hi hts)

theorem Decoder.processNonRootModels_log (d : Decoder) (ctx : Context) (model : Model)
    (order : List Nat) :
    ∀ e ∈ (d.processNonRootModels ctx model order).2.2.2, e.isRoot = false := by
  unfold Decoder.processNonRootModels
  cases h : d.nonRootTasks ctx model order
      { err := none, cancelled := false, files := [], log := [], receives := 0 } with
  | error p => intro e he; cases he
  | ok ts =>
    have hlog := Decoder.nonRootTasks_log d ctx model order _ ts h
      (by intro e he; cases he)
    simp only
    cases ts.err with
    | some err => exact hlog
    | none =>
      simp only
      split <;> exact hlog

theorem Decoder.processRootModel_log (d : Decoder) (ctx : Context) (seen : Nat)
    (rootFile : packageFile) (model : Model) :
    (d.processRootModel ctx seen rootFile model).2.2.2 = [] ∨
      (d.processRootModel ctx seen rootFile model).2.2.2 =
        [{ path := rootFile.Name, isRoot := true }] := by
  unfold Decoder.processRootModel
  cases rootFile.openError with
  | some err => exact Or.inl rfl
  | none => exact Or.inr rfl

/-- C18 (counterexample): on a package with the root part `/3D/3dmodel.model` and one
secondary part `/3D/other.model`, `DecodeContext` decodes the secondary part first and the
root part last. -/
theorem DecodeContext_secondary_first :
    (Decoder.DecodeContext sampleOPC sampleDecoder liveContext [0] sampleModel).2.2.2 =
      [{ path := "/3D/other.model", isRoot := false },
       { path := "/3D/3dmodel.model", isRoot := true }] := by
  decide

/-! ## `processNonRootModels`: the order of the merge -/

/-- C19: when every secondary part opens and decodes without error and the caller's context
is not done, `processNonRootModels` returns nil and leaves the same decoder and the same
model for any two orders in which the goroutines complete; resources, build items and
warnings of the parts are appended in the order of `model.ProductionAttachments`. -/
theorem processNonRootModels_discovery_order (d : Decoder) (ctx : Context) (model : Model)
    (sc : Nat → Scanner) (order1 order2 : List Nat)
    (hok : ∀ i, i < model.ProductionAttachments.length → ∃ log,
      d.readProductionAttachmentModel i model = .ok (some (sc i), none, log))
    (hctx : ∀ k, k < model.ProductionAttachments.length → ctx.done k = false)
    (hperm1 : order1.Perm (List.range model.ProductionAttachments.length))
    (hperm2 : order2.Perm (List.range model.ProductionAttachments.length)) :
    (d.processNonRootModels ctx model order1).1 = .ok none ∧
    (d.processNonRootModels ctx model order2).1 = .ok none ∧
    (d.processNonRootModels ctx model order1).2.1 =
      (d.processNonRootModels ctx model order2).2.1 ∧
    (d.processNonRootModels ctx model order1).2.2.1 =
      (d.processNonRootModels ctx model order2).2.2.1 ∧
    (d.processNonRootModels ctx model order1).2.2.1.Resources =
      ((List.range model.ProductionAttachments.length).map sc).foldl
        (fun acc p => acc ++ p.Resources) model.Resources ∧
    (d.processNonRootModels ctx model order1).2.2.1.BuildItems =
      ((List.range model.ProductionAttachments.length).map sc).foldl
        (fun acc p => acc ++ p.BuildItems) model.BuildItems ∧
    (d.processNonRootModels ctx model order1).2.1.Warnings =
      ((List.range model.ProductionAttachments.length).map sc).foldl
        (fun acc p => acc ++ p.Warnings) d.Warnings := by
  obtain ⟨a1, b1, c1⟩ :=
    Decoder.processNonRootModels_all_ok d ctx model sc order1 hok hctx hperm1
  obtain ⟨a2, b2, c2⟩ :=
    Decoder.processNonRootModels_all_ok d ctx model sc order2 hok hctx hperm2
  obtain ⟨l1, l2, l3⟩ := Decoder.addModelFiles_lists
    ((List.range model.ProductionAttachments.length).map sc) d model
  refine ⟨a1, a2, by rw [b1, b2], by rw [c1, c2], ?_, ?_, ?_⟩
  · rw [c1]; exact l1
  · rw [c1]; exact l2
  · rw [b1]; exact l3

/-- Witness of `processNonRootModels_discovery_order`: two secondary parts that register
the resources 10 and 20; whichever completes first, the model holds `[10, 20]`
afterwards. -/
theorem processNonRootModels_discovery_order_witness :
    (sampleDecoder.processNonRootModels liveContext twoPartModel [1, 0]).2.2.1 =
      (sampleDecoder.processNonRootModels liveContext twoPartModel [0, 1]).2.2.1 ∧
    (sampleDecoder.processNonRootModels liveContext twoPartModel [1, 0]).2.2.1.Resources =
      [10, 20] :=
  have h := processNonRootModels_discovery_order sampleDecoder liveContext twoPartModel
    (fun i => if i = 0 then scannerWith 10 else scannerWith 20) [1, 0] [0, 1]
    (by
      intro i hi
      have hi2 : i < 2 := hi
      interval_cases i
      · exact ⟨[{ path := "/3D/first.model", isRoot := false }], rfl⟩
      · exact ⟨[{ path := "/3D/second.model", isRoot := false }], rfl⟩)
    (fun _ _ => rfl) (by decide) (by decide)
  ⟨h.2.2.2.1, h.2.2.2.2.1⟩

/-! ## `processRootModel`: a failing root part -/

/-- C20 (the code as it is): the root part `failingRootFile` fails to decode after it
registered the resource 7 and the build item 3; `processRootModel` returns the error, and
the model, empty before the call, holds the resource and the build item afterwards. The
same happens when the decode succeeds and the context is done by the time it finishes. -/
theorem processRootModel_merges_failed_root :
    sampleModel.Resources = [] ∧ sampleModel.BuildItems = [] ∧
    (sampleDecoder.processRootModel liveContext 0 failingRootFile sampleModel).1 =
      some ⟨"invalid required attribute"⟩ ∧
    (sampleDecoder.processRootModel liveContext 0 failingRootFile sampleModel).2.2.1.Resources
      = [7] ∧
    (sampleDecoder.processRootModel liveContext 0 failingRootFile sampleModel).2.2.1.BuildItems
      = [3] ∧
    (sampleDecoder.processRootModel cancelledContext 0 (goodFile "/3D/3dmodel.model" 1)
      sampleModel).1 = some ContextError.Canceled.toError ∧
    (sampleDecoder.processRootModel cancelledContext 0 (goodFile "/3D/3dmodel.model" 1)
      sampleModel).2.2.1.Resources = [1] := by
  decide

end Go3mf

namespace Go3mf

/-! ## `Decode` on the sample streams -/

/-- Witness of `Decode_skips_unknown_element`: the loop of `Decode` enters on
`unknownStream`, whose top-level element is not the model element: `Child` of the top-level
decoder returns nil, and the iteration passes over the element with the model element
inside it. -/
theorem Decode_skips_unknown_element_witness :
    WellNested [(XMLToken.StartElement ⟨"core", "model"⟩ [], 20),
      (XMLToken.EndElement ⟨"core", "model"⟩, 28)] ∧
    decodeStep sampleDecoders liveContext 4
        (initialLoopState unknownStream () "/3D/3dmodel.model" true true 4) =
      .inr { initialLoopState unknownStream () "/3D/3dmodel.model" true true 4 with
             x := { unknownStream with tokens := [], offset := 42 }
             calls := [Call.Child (nodeDecoder.topLevelDecoder true) ⟨"other", "thing"⟩] } :=
  have hin : WellNested [(XMLToken.StartElement ⟨"core", "model"⟩ [], 20),
      (XMLToken.EndElement ⟨"core", "model"⟩, 28)] :=
    WellNested.element ⟨"core", "model"⟩ [] 20 28 [] [] WellNested.nil WellNested.nil
  ⟨hin,
    (Decode_skips_unknown_element sampleDecoders liveContext 4
      (initialLoopState unknownStream () "/3D/3dmodel.model" true true 4)
      ⟨"other", "thing"⟩ [] 13 42
      [(XMLToken.StartElement ⟨"core", "model"⟩ [], 20),
        (XMLToken.EndElement ⟨"core", "model"⟩, 28)] []
      (initialLoopState (D := String) unknownStream () "/3D/3dmodel.model" true true 4).st
      rfl hin rfl).1⟩

/-- Witness of `Decode_stack_discipline`: on `sampleStream` the model element is opened,
gets its attributes and its text, the element it does not know is passed over, and the
model element is closed; `Decode` returns nil. -/
theorem Decode_stack_discipline_witness :
    sampleStream.final = ioEOF ∧
    (Decode sampleDecoders 4 liveContext sampleStream () "/3D/3dmodel.model" true true).err =
      .ok none ∧
    (Decode sampleDecoders 4 liveContext sampleStream () "/3D/3dmodel.model" true true
      ).final.calls =
      [Call.Child (nodeDecoder.topLevelDecoder true) ⟨"core", "model"⟩,
       Call.Open (nodeDecoder.element "model"),
       Call.Attributes (nodeDecoder.element "model") [] true,
       Call.Text (nodeDecoder.element "model") [116] true,
       Call.Child (nodeDecoder.element "model") ⟨"other", "thing"⟩,
       Call.Close (nodeDecoder.element "model") true] :=
  have hw : Walk sampleDecoders (nodeDecoder.topLevelDecoder true)
      (initialLoopState (D := String) sampleStream () "/3D/3dmodel.model" true true 4).st
      sampleStream.tokens
      ((initialLoopState (D := String) sampleStream () "/3D/3dmodel.model" true true 4).st
        |>.setElement "model")
      [Call.Child (nodeDecoder.topLevelDecoder true) ⟨"core", "model"⟩,
       Call.Open (nodeDecoder.element "model"),
       Call.Attributes (nodeDecoder.element "model") [] true,
       Call.Text (nodeDecoder.element "model") [116] true,
       Call.Child (nodeDecoder.element "model") ⟨"other", "thing"⟩,
       Call.Close (nodeDecoder.element "model") true] :=
    Walk.element (nodeDecoder.topLevelDecoder true) (nodeDecoder.element "model")
      _ _ _ _ _ _ ⟨"core", "model"⟩ [] 7 50
      [(XMLToken.CharData [116], 11),
       (XMLToken.StartElement ⟨"other", "thing"⟩ [], 24),
       (XMLToken.CharData [116], 28),
       (XMLToken.EndElement ⟨"other", "thing"⟩, 42)] []
      [Call.Text (nodeDecoder.element "model") [116] true,
       Call.Child (nodeDecoder.element "model") ⟨"other", "thing"⟩] []
      rfl rfl
      (Walk.charData (nodeDecoder.element "model") _ _ _ [116] 11 _ _ rfl
        (Walk.unknown (nodeDecoder.element "model") _ _ _ ⟨"other", "thing"⟩ [] 24 42
          [(XMLToken.CharData [116], 28)] [] [] rfl
          (WellNested.charData [116] 28 [] WellNested.nil)
          (Walk.done _ _)))
      rfl (Walk.done _ _)
  have h := Decode_stack_discipline sampleDecoders 4 liveContext sampleStream ()
    "/3D/3dmodel.model" true true _ _ hw rfl
  ⟨rfl, (h.2.2 (fun _ => rfl)).1, (h.2.2 (fun _ => rfl)).2.1⟩

/-- C16 (counterexample): on `brokenStream`, `Close` of the element `broken` returns false
and leaves the error `close failed` in the scanner; the cancellation check that follows
finds the signal set, and `Decode` returns the error of the context, not the error the
scanner holds. -/
theorem Decode_callback_false_context_error :
    (Decode sampleDecoders 4 cancelledContext brokenStream () "/3D/3dmodel.model" true true
      ).final.calls.getLast? = some (Call.Close (nodeDecoder.element "broken") false) ∧
    (Decode sampleDecoders 4 cancelledContext brokenStream () "/3D/3dmodel.model" true true
      ).final.st.scanner.Err = some ⟨"close failed"⟩ ∧
    (Decode sampleDecoders 4 cancelledContext brokenStream () "/3D/3dmodel.model" true true
      ).err = .ok (some ⟨"context canceled"⟩) ∧
    (Decode sampleDecoders 4 cancelledContext brokenStream () "/3D/3dmodel.model" true true
      ).final.x.tokens = [(XMLToken.EndElement ⟨"core", "model"⟩, 32)] :=
  ⟨rfl, rfl, rfl, rfl⟩

end Go3mf

namespace Go3mf

/-! ## Claims on `AddNode` without a dedup index, and on the nodes kept -/

theorem nodeStructure.lookup_of_no_tree (n : nodeStructure) (p : Vec3)
    (h : n.vectorTree = none) : n.lookup p = none := by
  simp [nodeStructure.lookup, h]

/-- C28: in a node structure without a dedup index whose count is below the effective
maximum (the maximum being a `uint32`), `AddNode(p)` appends: it returns the node with
`Index` the previous count and `Position` `p`, the node list is the previous one followed
by that node, and `NodeCount` is the previous count plus one; whether `p` is the position
of a stored node plays no part. -/
theorem AddNode_without_index (n : nodeStructure) (p : Vec3)
    (htree : n.vectorTree = none) (hmax : n.maxNodeCount < 4294967296)
    (hroom : n.NodeCount < n.getMaxNodeCount) :
    (n.AddNode p).1 = .ok { Index := n.NodeCount, Position := p } ∧
    (n.AddNode p).2.nodes = n.nodes ++ [{ Index := n.NodeCount, Position := p }] ∧
    (n.AddNode p).2.NodeCount = n.NodeCount + 1 ∧
    (n.AddNode p).2.vectorTree = none ∧
    (n.AddNode p).2.maxNodeCount = n.maxNodeCount := by
  rw [nodeStructure.AddNode_append n p (n.lookup_of_no_tree p htree) hroom]
  refine ⟨rfl, rfl, ?_, by simp [htree], rfl⟩
  have h1 := n.getMaxNodeCount_lt hmax
  unfold nodeStructure.NodeCount u32 at hroom ⊢
  simp only [List.length_append, List.length_singleton]
  omega

/-- Witness of `AddNode_without_index`: the structure without a dedup index that holds the
origin takes the origin a second time, at index 1. -/
theorem AddNode_without_index_witness :
    ((emptyNodes false 0).AddNode originPosition).2.Stored originPosition ∧
    (((emptyNodes false 0).AddNode originPosition).2.AddNode originPosition).1 =
      .ok { Index := 1, Position := originPosition } ∧
    (((emptyNodes false 0).AddNode originPosition).2.AddNode originPosition).2.NodeCount =
      2 :=
  have h := AddNode_without_index ((emptyNodes false 0).AddNode originPosition).2
    originPosition rfl (by decide) (by decide)
  ⟨by decide, h.1, h.2.2.1⟩

theorem nodeStructure.AddNode_prefix (n : nodeStructure) (p : Vec3) :
    n.nodes <+: (n.AddNode p).2.nodes := by
  rw [nodeStructure.AddNode_eq]
  cases n.lookup p with
  | some index => exact List.prefix_refl _
  | none =>
    simp only
    split
    · exact List.prefix_refl _
    · exact List.prefix_append _ _

theorem nodeStructure.AddNode_error_unchanged (n : nodeStructure) (p : Vec3) (e : Panic)
    (h : (n.AddNode p).1 = .error e) : (n.AddNode p).2 = n := by
  cases hl : n.lookup p with
  | some index => rw [nodeStructure.AddNode_found n p index hl]
  | none =>
    by_cases hroom : n.NodeCount < n.getMaxNodeCount
    · rw [nodeStructure.AddNode_append n p hl hroom] at h
      cases h
    · rw [nodeStructure.AddNode_full n p hl (Nat.le_of_not_lt hroom)]

theorem AddNodes_prefix (ps : List Vec3) :
    ∀ n : nodeStructure, n.nodes <+: (AddNodes n ps).2.nodes := by
  induction ps with
  | nil => intro n; exact List.prefix_refl _
  | cons p ps ih =>
    intro n
    have h1 := n.AddNode_prefix p
    simp only [AddNodes]
    rcases hadd : n.AddNode p with ⟨r, n1⟩
    rw [hadd] at h1
    cases r with
    | error e => exact h1
    | ok node =>
      have h2 := ih n1
      simp only
      rcases hrest : AddNodes n1 ps with ⟨r2, n2⟩
      rw [hrest] at h2
      cases r2 with
      | error e => exact h1.trans h2
      | ok nodes => exact h1.trans h2

/-- C30: `AddNode` and `merge` never change or remove a node: the node list held before the
call is a prefix of the node list held after it, whatever the call returns (a `merge` that
fails on the way keeps the nodes it added so far); an `AddNode` that fails, on capacity or
otherwise, leaves the whole structure as it was, and so does an `AddNode` that returns a
stored node. -/
theorem AddNode_merge_keep_nodes (TransformCoordinate : Vec3 → Mat4 → Vec3)
    (n other : nodeStructure) (p : Vec3) (matrix : Mat4) :
    n.nodes <+: (n.AddNode p).2.nodes ∧
    n.nodes <+: (nodeStructure.merge TransformCoordinate n other matrix).2.nodes ∧
    ((n.AddNode p).1 = .error Panic.MaxNodeError → (n.AddNode p).2 = n) ∧
    (∀ e, (n.AddNode p).1 = .error e → (n.AddNode p).2 = n) ∧
    (∀ i, n.lookup p = some i → (n.AddNode p).2 = n) := by
  refine ⟨n.AddNode_prefix p, ?_, n.AddNode_error_unchanged p _, n.AddNode_error_unchanged p, ?_⟩
  · rw [nodeStructure.merge_eq_AddNodes]
    exact AddNodes_prefix _ n
  · intro i hi
    rw [nodeStructure.AddNode_found n p i hi]

/-! ## Claims on the stack -/

namespace ItemStack

variable {Item : Type}

theorem Pop_Push (s : ItemStack Item) (x : Item) : (s.Push x).Pop = (.ok x, s) := by
  simp [Push, Pop]

theorem PopN_PushAll (xs : List Item) :
    ∀ s : ItemStack Item, PopN xs.length (s.PushAll xs) = (.ok xs.reverse, s) := by
  induction xs using List.reverseRecOn with
  | nil => intro s; rfl
  | append_singleton xs x ih =>
    intro s
    have hpush : ∀ (ys : List Item) (t : ItemStack Item),
        t.PushAll (ys ++ [x]) = (t.PushAll ys).Push x := by
      intro ys
      induction ys with
      | nil => intro t; rfl
      | cons y ys ihy => intro t; simp only [List.cons_append, PushAll]; exact ihy _
    rw [hpush, List.length_append, List.length_singleton, PopN, Pop_Push]
    simp only [ih s, List.reverse_append, List.reverse_singleton, List.singleton_append]

end ItemStack

/-- C29: for every stack `s` and every item `x`, `Pop` after `Push(x)` returns `x` and
leaves the stack as it was before the `Push`, with the same items in the same order; hence
after pushing `x1..xn` in that order, `n` calls of `Pop` return `xn..x1` and leave the
stack as it was before the first `Push`. -/
theorem ItemStack_Push_Pop {Item : Type} (s : ItemStack Item) :
    (∀ x : Item, (s.Push x).Pop = (.ok x, s)) ∧
    (∀ x : Item, (s.Push x).items = s.items ++ [x]) ∧
    (∀ xs : List Item, ItemStack.PopN xs.length (s.PushAll xs) = (.ok xs.reverse, s)) :=
  ⟨s.Pop_Push, fun _ => rfl, fun xs => ItemStack.PopN_PushAll xs s⟩

end Go3mf

namespace Go3mf

/-! ## `processNonRootModels`: a secondary part that fails -/

theorem Decoder.nonRootTasks_cancelled (d : Decoder) (ctx : Context) (model : Model)
    (order : List Nat) :
    ∀ ts : TaskState, ts.cancelled = true →
      (∀ i ∈ order, ∃ r, d.readProductionAttachmentModel i model = .ok r) →
      ∃ ts1, d.nonRootTasks ctx model order ts = .ok ts1 ∧ ts1.err = ts.err ∧
        ts1.files = ts.files := by
  induction order with
  | nil => intro ts _ _; exact ⟨ts, rfl, rfl, rfl⟩
  | cons i rest ih =>
    intro ts hcan hread
    obtain ⟨⟨f, err1, log⟩, hr⟩ := hread i (List.mem_cons_self _ _)
    have htask : d.nonRootTask ctx model ts i =
        .ok { ts with log := ts.log ++ log, receives := ts.receives + 1 } := by
      simp [Decoder.nonRootTask, hr, hcan]
    obtain ⟨ts1, h1, h2, h3⟩ :=
      ih { ts with log := ts.log ++ log, receives := ts.receives + 1 } hcan
        (fun j hj => hread j (List.mem_cons_of_mem _ hj))
    exact ⟨ts1, by simp only [Decoder.nonRootTasks, htask]; exact h1, h2, h3⟩

theorem Decoder.nonRootTasks_failure (d : Decoder) (ctx : Context) (model : Model)
    (order : List Nat) :
    ∀ ts : TaskState, ts.err = none → ts.cancelled = false →
      (∀ i ∈ order, ∃ r, d.readProductionAttachmentModel i model = .ok r) →
      (∃ i ∈ order, ∃ f e log,
        d.readProductionAttachmentModel i model = .ok (f, some e, log)) →
      (∀ k, ts.receives ≤ k → k < ts.receives + order.length → ctx.done k = false) →
      ∃ ts1 e, d.nonRootTasks ctx model order ts = .ok ts1 ∧ ts1.err = some e ∧
        ∃ i ∈ order, ∃ f log,
          d.readProductionAttachmentModel i model = .ok (f, some e, log) := by
  induction order with
  | nil =>
    intro ts _ _ _ hfail _
    obtain ⟨i, hi, _⟩ := hfail
    cases hi
  | cons i rest ih =>
    intro ts herr hcan hread hfail hctx
    obtain ⟨⟨f, err1, log⟩, hr⟩ := hread i (List.mem_cons_self _ _)
    have hdone : ctx.done ts.receives = false :=
      hctx ts.receives (Nat.le_refl _) (by simp)
    cases err1 with
    | some e =>
      have htask : d.nonRootTask ctx model ts i =
          .ok (({ ts with log := ts.log ++ log, receives := ts.receives + 1,
                          err := some e, cancelled := true } : TaskState).store i f) := by
        simp [Decoder.nonRootTask, hr, hcan, hdone]
      obtain ⟨ts1, h1, h2, _⟩ := Decoder.nonRootTasks_cancelled d ctx model rest
        (({ ts with log := ts.log ++ log, receives := ts.receives + 1,
                    err := some e, cancelled := true } : TaskState).store i f) rfl
        (fun j hj => hread j (List.mem_cons_of_mem _ hj))
      exact ⟨ts1, e, by simp only [Decoder.nonRootTasks, htask]; exact h1, h2,
        i, List.mem_cons_self _ _, f, log, hr⟩
    | none =>
      have htask : d.nonRootTask ctx model ts i =
          .ok (({ ts with log := ts.log ++ log, receives := ts.receives + 1 }
            : TaskState).store i f) := by
        simp [Decoder.nonRootTask, hr, hcan, hdone]
      have hfail1 : ∃ j ∈ rest, ∃ f e log,
          d.readProductionAttachmentModel j model = .ok (f, some e, log) := by
        obtain ⟨j, hj, f1, e1, log1, hj1⟩ := hfail
        rcases List.mem_cons.mp hj with heq | hmem
        · subst heq
          rw [hr] at hj1
          cases hj1
        · exact ⟨j, hmem, f1, e1, log1, hj1⟩
      obtain ⟨ts1, e, h1, h2, j, hj, f1, log1, hj1⟩ := ih
        (({ ts with log := ts.log ++ log, receives := ts.receives + 1 }
            : TaskState).store i f) herr hcan
        (fun j hj => hread j (List.mem_cons_of_mem _ hj)) hfail1
        (by
          intro k hk1 hk2
          simp only [TaskState.store] at hk1 hk2
          exact hctx k (by omega) (by simp only [List.length_cons]; omega))
      exact ⟨ts1, e, by simp only [Decoder.nonRootTasks, htask]; exact h1, h2,
        j, List.mem_cons_of_mem _ hj, f1, log1, hj1⟩

/-- C21 (amended): when no task panics, the decode of a secondary part fails and the
caller's context is not done at the receives the tasks make, then for every order in which
the tasks complete `processNonRootModels` returns a non-nil error, the error of a part
that failed, and leaves the decoder and the model as they were: no secondary part is
merged, the parts that decoded successfully included. -/
theorem processNonRootModels_on_failure (d : Decoder) (ctx : Context) (model : Model)
    (order : List Nat)
    (hread : ∀ i ∈ order, ∃ r, d.readProductionAttachmentModel i model = .ok r)
    (hfail : ∃ i ∈ order, ∃ f e log,
      d.readProductionAttachmentModel i model = .ok (f, some e, log))
    (hctx : ∀ k, k < order.length → ctx.done k = false) :
    ∃ e, (d.processNonRootModels ctx model order).1 = .ok (some e) ∧
      (∃ i ∈ order, ∃ f log,
        d.readProductionAttachmentModel i model = .ok (f, some e, log)) ∧
      (d.processNonRootModels ctx model order).2.1 = d ∧
      (d.processNonRootModels ctx model order).2.2.1 = model := by
  obtain ⟨ts1, e, h1, h2, h3⟩ := Decoder.nonRootTasks_failure d ctx model order
    { err := none, cancelled := false, files := [], log := [], receives := 0 } rfl rfl
    hread hfail (fun k _ hk => hctx k (by simpa using hk))
  refine ⟨e, ?_, h3, ?_, ?_⟩ <;> simp only [Decoder.processNonRootModels, h1, h2]

/-- Witness of `processNonRootModels_on_failure`: of the two secondary parts the first
decodes and the second fails; whichever completes first, the error is returned and the
model stays empty. -/
theorem processNonRootModels_on_failure_witness :
    (∃ e, (failingDecoder.processNonRootModels liveContext twoPartModel [0, 1]).1 =
        .ok (some e)) ∧
    (failingDecoder.processNonRootModels liveContext twoPartModel [0, 1]).2.2.1 =
      twoPartModel ∧
    (failingDecoder.processNonRootModels liveContext twoPartModel [1, 0]).2.2.1 =
      twoPartModel :=
  have h1 := processNonRootModels_on_failure failingDecoder liveContext twoPartModel [0, 1]
    (by
      intro i hi
      simp only [List.mem_cons, List.mem_singleton, List.not_mem_nil, or_false] at hi
      rcases hi with rfl | rfl
      · exact ⟨_, rfl⟩
      · exact ⟨_, rfl⟩)
    ⟨1, by simp, _, _, _, rfl⟩ (fun _ _ => rfl)
  have h2 := processNonRootModels_on_failure failingDecoder liveContext twoPartModel [1, 0]
    (by
      intro i hi
      simp only [List.mem_cons, List.mem_singleton, List.not_mem_nil, or_false] at hi
      rcases hi with rfl | rfl
      · exact ⟨_, rfl⟩
      · exact ⟨_, rfl⟩)
    ⟨1, by simp, _, _, _, rfl⟩ (fun _ _ => rfl)
  ⟨⟨h1.choose, h1.choose_spec.1⟩, h1.choose_spec.2.2.2, h2.choose_spec.2.2.2⟩

/-- C21 (counterexample): the first secondary part decodes and stores its scanner, then the
caller cancels the context, and the second part, whose decode fails, sees the context done
and returns without recording its error: `processNonRootModels` returns nil and merges
the first part into the model. -/
theorem processNonRootModels_cancelled_failure :
    (failingDecoder.readProductionAttachmentModel 1 twoPartModel).toOption.map
        (fun r => r.2.1) = some (some ⟨"invalid required attribute"⟩) ∧
    (failingDecoder.processNonRootModels (doneFrom 1) twoPartModel [0, 1]).1 = .ok none ∧
    twoPartModel.Resources = [] ∧
    (failingDecoder.processNonRootModels (doneFrom 1) twoPartModel [0, 1]).2.2.1.Resources =
      [10] :=
  ⟨rfl, rfl, rfl, rfl⟩

end Go3mf

namespace Go3mf

/-! ## The loop of `beamDecoder.Attributes` -/

namespace beamDecoder

variable {R : Type}

theorem beam_handleAttr_error (ps : BeamParsers) (v v1 : beamVars) (a : XMLAttr) (err : GoError)
    (h : handleAttr ps v a = (some err, v1)) : beamParseFailure ps a err := by
  unfold handleAttr at h
  unfold beamParseFailure
  split_ifs at h with h0 h1 h2 h3 h4 h5 h6 <;>
    simp only [Prod.mk.injEq, reduceCtorEq, false_and] at h
  · exact ⟨not_not.mp h0, Or.inl ⟨Or.inl h1, h.1⟩⟩
  · exact ⟨not_not.mp h0, Or.inl ⟨Or.inr h2, h.1⟩⟩
  · exact ⟨not_not.mp h0, Or.inr ⟨Or.inl h3, h.1⟩⟩
  · exact ⟨not_not.mp h0, Or.inr ⟨Or.inr h4, h.1⟩⟩

theorem attributesLoop_error (ps : BeamParsers) (attrs : List XMLAttr) :
    ∀ (v v1 : beamVars) (err : GoError), attributesLoop ps attrs v = (some err, v1) →
      ∃ a ∈ attrs, beamParseFailure ps a err := by
  induction attrs with
  | nil => intro v v1 err h; simp [attributesLoop] at h
  | cons a rest ih =>
    intro v v1 err h
    simp only [attributesLoop] at h
    rcases hstep : handleAttr ps v a with ⟨e, v2⟩
    rw [hstep] at h
    cases e with
    | some e0 =>
      simp only [Prod.mk.injEq, Option.some.injEq] at h
      obtain ⟨rfl, _⟩ := h
      exact ⟨a, List.mem_cons_self _ _, beam_handleAttr_error ps v v2 a e0 hstep⟩
    | none =>
      obtain ⟨b, hb, hfail⟩ := ih v2 v1 err h
      exact ⟨b, List.mem_cons_of_mem _ hb, hfail⟩

/-- What an attribute leaves untouched: each local variable changes only through the
attribute without namespace that is named after it. -/
theorem beam_handleAttr_frame (ps : BeamParsers) (v : beamVars) (a : XMLAttr) :
    (¬ (a.Name.Space = "" ∧ a.Name.Local = attrV1) → (handleAttr ps v a).2.v1 = v.v1) ∧
    (¬ (a.Name.Space = "" ∧ a.Name.Local = attrV2) → (handleAttr ps v a).2.v2 = v.v2) ∧
    (¬ (a.Name.Space = "" ∧ a.Name.Local = attrR1) → (handleAttr ps v a).2.r1 = v.r1) ∧
    (¬ (a.Name.Space = "" ∧ a.Name.Local = attrR2) → (handleAttr ps v a).2.r2 = v.r2) ∧
    (¬ (a.Name.Space = "" ∧ a.Name.Local = attrCap1) →
      (handleAttr ps v a).2.cap1 = v.cap1 ∧ (handleAttr ps v a).2.hasCap1 = v.hasCap1) ∧
    (¬ (a.Name.Space = "" ∧ a.Name.Local = attrCap2) →
      (handleAttr ps v a).2.cap2 = v.cap2 ∧ (handleAttr ps v a).2.hasCap2 = v.hasCap2) := by
  unfold handleAttr
  split_ifs with h0 h1 h2 h3 h4 h5 h6 <;> simp_all

theorem beam_attributesLoop_frame (ps : BeamParsers) (attrs : List XMLAttr) :
    ∀ v : beamVars,
      (¬ hasPlainAttr attrs attrV1 → (attributesLoop ps attrs v).2.v1 = v.v1) ∧
      (¬ hasPlainAttr attrs attrV2 → (attributesLoop ps attrs v).2.v2 = v.v2) ∧
      (¬ hasPlainAttr attrs attrR1 → (attributesLoop ps attrs v).2.r1 = v.r1) ∧
      (¬ hasPlainAttr attrs attrR2 → (attributesLoop ps attrs v).2.r2 = v.r2) ∧
      (¬ hasPlainAttr attrs attrCap1 →
        (attributesLoop ps attrs v).2.cap1 = v.cap1 ∧
          (attributesLoop ps attrs v).2.hasCap1 = v.hasCap1) ∧
      (¬ hasPlainAttr attrs attrCap2 →
        (attributesLoop ps attrs v).2.cap2 = v.cap2 ∧
          (attributesLoop ps attrs v).2.hasCap2 = v.hasCap2) := by
  induction attrs with
  | nil => intro v; simp [attributesLoop]
  | cons a rest ih =>
    intro v
    have hf := beam_handleAttr_frame ps v a
    have hsplit : ∀ name, ¬ hasPlainAttr (a :: rest) name →
        ¬ (a.Name.Space = "" ∧ a.Name.Local = name) ∧ ¬ hasPlainAttr rest name := by
      intro name hn
      constructor
      · intro ha
        exact hn ⟨a, List.mem_cons_self _ _, ha⟩
      · rintro ⟨b, hb, hb1⟩
        exact hn ⟨b, List.mem_cons_of_mem _ hb, hb1⟩
    simp only [attributesLoop]
    rcases hstep : handleAttr ps v a with ⟨e, v2⟩
    rw [hstep] at hf
    simp only at hf
    obtain ⟨f1, f2, f3, f4, f5, f6⟩ := hf
    cases e with
    | some e0 =>
      simp only
      exact ⟨fun h => f1 (hsplit _ h).1, fun h => f2 (hsplit _ h).1,
        fun h => f3 (hsplit _ h).1, fun h => f4 (hsplit _ h).1,
        fun h => f5 (hsplit _ h).1, fun h => f6 (hsplit _ h).1⟩
    | none =>
      simp only
      obtain ⟨g1, g2, g3, g4, g5, g6⟩ := ih v2
      refine ⟨fun h => ?_, fun h => ?_, fun h => ?_, fun h => ?_, fun h => ?_, fun h => ?_⟩
      · rw [g1 (hsplit _ h).2, f1 (hsplit _ h).1]
      · rw [g2 (hsplit _ h).2, f2 (hsplit _ h).1]
      · rw [g3 (hsplit _ h).2, f3 (hsplit _ h).1]
      · rw [g4 (hsplit _ h).2, f4 (hsplit _ h).1]
      · rw [(g5 (hsplit _ h).2).1, (g5 (hsplit _ h).2).2, (f5 (hsplit _ h).1).1,
          (f5 (hsplit _ h).1).2]
        exact ⟨rfl, rfl⟩
      · rw [(g6 (hsplit _ h).2).1, (g6 (hsplit _ h).2).2, (f6 (hsplit _ h).1).1,
          (f6 (hsplit _ h).1).2]
        exact ⟨rfl, rfl⟩

/-- `Attributes` in terms of its loop: an error of the loop is returned and nothing else
happens; without error the beam for the values of the loop is appended. -/
theorem beam_Attributes_eq (ps : BeamParsers) (d : beamDecoder R) (attrs : List XMLAttr) :
    ((attributesLoop ps attrs beamVars.zero).1 = none →
      Attributes ps d attrs =
        (none, { d with mesh := { d.mesh with
          Beams := d.mesh.Beams ++ [newBeam d.mesh (attributesLoop ps attrs beamVars.zero).2] } })) ∧
    (∀ err, (attributesLoop ps attrs beamVars.zero).1 = some err →
      Attributes ps d attrs = (some err, d)) := by
  unfold Attributes
  rcases attributesLoop ps attrs beamVars.zero with ⟨e, v⟩
  cases e with
  | none => exact ⟨fun _ => rfl, fun err h => by cases h⟩
  | some e0 =>
    refine ⟨fun h => (by cases h), fun err h => ?_⟩
    simp only [Option.some.injEq] at h
    subst h
    rfl

theorem Attributes_none (ps : BeamParsers) (d : beamDecoder R) (attrs : List XMLAttr)
    (h : (Attributes ps d attrs).1 = none) :
    (attributesLoop ps attrs beamVars.zero).1 = none := by
  cases hl : (attributesLoop ps attrs beamVars.zero).1 with
  | none => rfl
  | some err =>
    rw [(beam_Attributes_eq ps d attrs).2 err hl] at h
    cases h

end beamDecoder

/-! ## Claims on the beam decoder -/

/-- C24 (amended): for every beam element whose numeric attributes parse (`Attributes`
returns nil), one beam is appended, and for it: when the attribute `r1` is absent the first
radius is the `DefaultRadius` of the mesh; when the attribute `r2` is absent the second
radius is the first radius as stored (which is `DefaultRadius` when `r1` is absent too);
when `cap1`, respectively `cap2`, is absent the cap mode of that end is the `CapMode` of
the mesh. -/
theorem beamDecoder_Attributes_defaults {R : Type} (ps : BeamParsers) (d : beamDecoder R)
    (attrs : List XMLAttr) (h : (beamDecoder.Attributes ps d attrs).1 = none) :
    ∃ b : mesh.Beam,
      (beamDecoder.Attributes ps d attrs).2.mesh.Beams = d.mesh.Beams ++ [b] ∧
      (¬ hasPlainAttr attrs attrR1 → b.Radius.1 = d.mesh.DefaultRadius) ∧
      (¬ hasPlainAttr attrs attrR2 → b.Radius.2 = b.Radius.1) ∧
      (¬ hasPlainAttr attrs attrR1 → ¬ hasPlainAttr attrs attrR2 →
        b.Radius.2 = d.mesh.DefaultRadius) ∧
      (¬ hasPlainAttr attrs attrCap1 → b.CapMode.1 = d.mesh.CapMode) ∧
      (¬ hasPlainAttr attrs attrCap2 → b.CapMode.2 = d.mesh.CapMode) := by
  have hl := beamDecoder.Attributes_none ps d attrs h
  obtain ⟨_, _, f3, f4, f5, f6⟩ := beamDecoder.beam_attributesLoop_frame ps attrs beamVars.zero
  refine ⟨beamDecoder.newBeam d.mesh (beamDecoder.attributesLoop ps attrs beamVars.zero).2,
    by rw [(beamDecoder.beam_Attributes_eq ps d attrs).1 hl], ?_, ?_, ?_, ?_, ?_⟩
  · intro h1
    have e1 : (beamDecoder.attributesLoop ps attrs beamVars.zero).2.r1 = 0 := f3 h1
    simp [beamDecoder.newBeam, e1, f64IsZero]
  · intro h2
    have e2 : (beamDecoder.attributesLoop ps attrs beamVars.zero).2.r2 = 0 := f4 h2
    simp [beamDecoder.newBeam, e2, f64IsZero]
  · intro h1 h2
    have e1 : (beamDecoder.attributesLoop ps attrs beamVars.zero).2.r1 = 0 := f3 h1
    have e2 : (beamDecoder.attributesLoop ps attrs beamVars.zero).2.r2 = 0 := f4 h2
    simp [beamDecoder.newBeam, e1, e2, f64IsZero]
  · intro h1
    have e1 : (beamDecoder.attributesLoop ps attrs beamVars.zero).2.hasCap1 = false :=
      (f5 h1).2
    simp [beamDecoder.newBeam, e1]
  · intro h1
    have e1 : (beamDecoder.attributesLoop ps attrs beamVars.zero).2.hasCap2 = false :=
      (f6 h1).2
    simp [beamDecoder.newBeam, e1]

/-- Witness of `beamDecoder_Attributes_defaults`: a beam with `v1` and `v2` only, on the
mesh with default radius `1.0` and default cap mode 2. -/
theorem beamDecoder_Attributes_defaults_witness :
    (beamDecoder.Attributes sampleParsers sampleBeamDecoder
      [plainAttr "v1" "0", plainAttr "v2" "1"]).1 = none ∧
    ∃ b : mesh.Beam,
      (beamDecoder.Attributes sampleParsers sampleBeamDecoder
        [plainAttr "v1" "0", plainAttr "v2" "1"]).2.mesh.Beams = [b] ∧
      b.Radius = (4607182418800017408, 4607182418800017408) ∧ b.CapMode = (2, 2) :=
  have h := beamDecoder_Attributes_defaults sampleParsers sampleBeamDecoder
    [plainAttr "v1" "0", plainAttr "v2" "1"] (by decide)
  ⟨by decide, h.choose, h.choose_spec.1,
    Prod.ext (h.choose_spec.2.1 (by decide)) (h.choose_spec.2.2.2.1 (by decide) (by decide)),
    Prod.ext (h.choose_spec.2.2.2.2.1 (by decide)) (h.choose_spec.2.2.2.2.2 (by decide))⟩

/-- C24 (counterexample): a beam with `r1="2"` and no `r2`, on the mesh with default radius
`1.0`: the attributes parse, `r2` is absent, and the second radius stored is `2.0`, the
first radius, not the default radius of the mesh. -/
theorem beamDecoder_Attributes_second_radius :
    ¬ hasPlainAttr [plainAttr "v1" "0", plainAttr "v2" "1", plainAttr "r1" "2"] attrR2 ∧
    (beamDecoder.Attributes sampleParsers sampleBeamDecoder
      [plainAttr "v1" "0", plainAttr "v2" "1", plainAttr "r1" "2"]).1 = none ∧
    (beamDecoder.Attributes sampleParsers sampleBeamDecoder
      [plainAttr "v1" "0", plainAttr "v2" "1", plainAttr "r1" "2"]).2.mesh.Beams =
      [{ NodeIndices := (0, 1), Radius := (4611686018427387904, 4611686018427387904)
         CapMode := (2, 2) }] ∧
    sampleBeamDecoder.mesh.DefaultRadius = 4607182418800017408 ∧
    (4611686018427387904 : Nat) ≠ sampleBeamDecoder.mesh.DefaultRadius := by
  decide

/-- C25 (amended): `beamDecoder.Attributes` does not look whether `v1` and `v2` are
present: it returns an error only when a numeric attribute that is present fails to parse
(and then leaves the decoder as it was); otherwise it appends one beam, and the index of an
end whose attribute `v1`, respectively `v2`, is absent is 0. -/
theorem beamDecoder_Attributes_missing_index {R : Type} (ps : BeamParsers) (d : beamDecoder R)
    (attrs : List XMLAttr) :
    (∀ err, (beamDecoder.Attributes ps d attrs).1 = some err →
      (∃ a ∈ attrs, beamParseFailure ps a err) ∧ (beamDecoder.Attributes ps d attrs).2 = d) ∧
    ((beamDecoder.Attributes ps d attrs).1 = none →
      ∃ b : mesh.Beam,
        (beamDecoder.Attributes ps d attrs).2.mesh.Beams = d.mesh.Beams ++ [b] ∧
        (¬ hasPlainAttr attrs attrV1 → b.NodeIndices.1 = 0) ∧
        (¬ hasPlainAttr attrs attrV2 → b.NodeIndices.2 = 0)) := by
  constructor
  · intro err h
    cases hl : (beamDecoder.attributesLoop ps attrs beamVars.zero).1 with
    | none =>
      rw [(beamDecoder.beam_Attributes_eq ps d attrs).1 hl] at h
      cases h
    | some e0 =>
      have heq := (beamDecoder.beam_Attributes_eq ps d attrs).2 e0 hl
      rw [heq] at h ⊢
      simp only [Option.some.injEq] at h
      subst h
      exact ⟨beamDecoder.attributesLoop_error ps attrs beamVars.zero
        (beamDecoder.attributesLoop ps attrs beamVars.zero).2 e0
        (by rw [← hl]), rfl⟩
  · intro h
    have hl := beamDecoder.Attributes_none ps d attrs h
    obtain ⟨f1, f2, _⟩ := beamDecoder.beam_attributesLoop_frame ps attrs beamVars.zero
    refine ⟨beamDecoder.newBeam d.mesh (beamDecoder.attributesLoop ps attrs beamVars.zero).2,
      by rw [(beamDecoder.beam_Attributes_eq ps d attrs).1 hl], ?_, ?_⟩
    · intro h1
      have e1 : (beamDecoder.attributesLoop ps attrs beamVars.zero).2.v1 = 0 := f1 h1
      simp [beamDecoder.newBeam, e1, u32]
    · intro h1
      have e1 : (beamDecoder.attributesLoop ps attrs beamVars.zero).2.v2 = 0 := f2 h1
      simp [beamDecoder.newBeam, e1, u32]

/-- C25 (counterexample): a beam element with `v2="5"` and no `v1`: `Attributes` returns
nil and the beam list of the mesh, empty before, holds the beam from vertex 0 to vertex 5
afterwards. -/
theorem beamDecoder_Attributes_without_v1 :
    ¬ hasPlainAttr [plainAttr "v2" "5"] attrV1 ∧
    sampleBeamDecoder.mesh.Beams = [] ∧
    (beamDecoder.Attributes sampleParsers sampleBeamDecoder [plainAttr "v2" "5"]).1 = none ∧
    (beamDecoder.Attributes sampleParsers sampleBeamDecoder [plainAttr "v2" "5"]).2.mesh.Beams =
      [{ NodeIndices := (0, 5), Radius := (4607182418800017408, 4607182418800017408)
         CapMode := (2, 2) }] := by
  decide

end Go3mf

namespace Go3mf

/-! ## The enumerated attributes -/

namespace objectDecoder

variable {Resource : Type}

theorem parseCoreAttr_type (sm : ScannerMethods Resource)
    (newObjectType : String → ObjectType × Bool) (d : objectDecoder) (a : XMLAttr)
    (h : a.Name.Local = attrType) :
    parseCoreAttr sm newObjectType d a =
      (true,
        { scanner :=
            if (newObjectType a.Value).2 then d.scanner
            else sm.InvalidOptionalAttr d.scanner attrType a.Value
          resource := { d.resource with ObjectType := (newObjectType a.Value).1 } }) := by
  have hne : ¬ a.Name.Local = attrID := by rw [h]; decide
  unfold parseCoreAttr
  rw [if_neg hne, if_pos h]
  split <;> rfl

theorem parseSliceAttr_meshRes (sm : ScannerMethods Resource)
    (newSliceResolution : String → String × Bool) (d : objectDecoder) (a : XMLAttr)
    (h : a.Name.Local = attrMeshRes) :
    parseSliceAttr sm newSliceResolution d a =
      (true,
        { scanner :=
            if (newSliceResolution a.Value).2 then d.scanner
            else sm.InvalidOptionalAttr d.scanner attrMeshRes a.Value
          resource := { d.resource with SliceResoultion := (newSliceResolution a.Value).1 } }) := by
  have hne : ¬ a.Name.Local = attrSliceRefID := by rw [h]; decide
  unfold parseSliceAttr
  rw [if_neg hne, if_pos h]
  split <;> rfl

theorem handleAttr_core (sm : ScannerMethods Resource) (validateUUID : String → Option GoError)
    (newObjectType : String → ObjectType × Bool) (newSliceResolution : String → String × Bool)
    (d : objectDecoder) (a : XMLAttr) (h : a.Name.Space = "") :
    handleAttr sm validateUUID newObjectType newSliceResolution d a =
      parseCoreAttr sm newObjectType d a := by
  have h1 : ¬ a.Name.Space = nsProductionSpec := by rw [h]; decide
  have h2 : ¬ a.Name.Space = nsSliceSpec := by rw [h]; decide
  unfold handleAttr
  rw [if_neg h1, if_neg h2, if_pos h]

theorem handleAttr_slice (sm : ScannerMethods Resource) (validateUUID : String → Option GoError)
    (newObjectType : String → ObjectType × Bool) (newSliceResolution : String → String × Bool)
    (d : objectDecoder) (a : XMLAttr) (h : a.Name.Space = nsSliceSpec) :
    handleAttr sm validateUUID newObjectType newSliceResolution d a =
      parseSliceAttr sm newSliceResolution d a := by
  have h1 : ¬ a.Name.Space = nsProductionSpec := by rw [h]; decide
  unfold handleAttr
  rw [if_neg h1, if_pos h]

theorem object_handleAttr_enum (sm : ScannerMethods Resource) (validateUUID : String → Option GoError)
    (newObjectType : String → ObjectType × Bool) (newSliceResolution : String → String × Bool)
    (d : objectDecoder) (a : XMLAttr) (h : objectEnumAttr a) :
    (handleAttr sm validateUUID newObjectType newSliceResolution d a).1 = true := by
  rcases h with ⟨hs, hl⟩ | ⟨hs, hl⟩
  · rw [handleAttr_core sm validateUUID newObjectType newSliceResolution d a hs,
      parseCoreAttr_type sm newObjectType d a hl]
  · rw [handleAttr_slice sm validateUUID newObjectType newSliceResolution d a hs,
      parseSliceAttr_meshRes sm newSliceResolution d a hl]

theorem handleAttr_false (sm : ScannerMethods Resource) (validateUUID : String → Option GoError)
    (newObjectType : String → ObjectType × Bool) (newSliceResolution : String → String × Bool)
    (d : objectDecoder) (a : XMLAttr)
    (h : (handleAttr sm validateUUID newObjectType newSliceResolution d a).1 = false) :
    objectAttrFailure sm validateUUID d a := by
  unfold objectAttrFailure
  by_cases h1 : a.Name.Space = nsProductionSpec
  · left
    unfold handleAttr at h
    rw [if_pos h1] at h
    by_cases h2 : a.Name.Local = attrProdUUID
    · rw [if_pos h2] at h
      cases hv : validateUUID a.Value with
      | none => rw [hv] at h; cases h
      | some e => rw [hv] at h; exact ⟨h1, h2, by simp, h⟩
    · rw [if_neg h2] at h
      cases h
  · by_cases h3 : a.Name.Space = nsSliceSpec
    · right; left
      rw [handleAttr_slice sm validateUUID newObjectType newSliceResolution d a h3] at h
      by_cases g1 : a.Name.Local = attrSliceRefID
      · unfold parseSliceAttr at h
        rw [if_pos g1] at h
        exact ⟨h3, g1, h⟩
      · by_cases g2 : a.Name.Local = attrMeshRes
        · rw [parseSliceAttr_meshRes sm newSliceResolution d a g2] at h
          cases h
        · unfold parseSliceAttr at h
          rw [if_neg g1, if_neg g2] at h
          cases h
    · by_cases h4 : a.Name.Space = ""
      · right; right
        rw [handleAttr_core sm validateUUID newObjectType newSliceResolution d a h4] at h
        by_cases g1 : a.Name.Local = attrID
        · unfold parseCoreAttr at h
          rw [if_pos g1] at h
          exact ⟨h4, g1, h⟩
        · exfalso
          unfold parseCoreAttr at h
          rw [if_neg g1] at h
          split_ifs at h
      · unfold handleAttr at h
        rw [if_neg h1, if_neg h3, if_neg h4] at h
        cases h

theorem Attributes_false (sm : ScannerMethods Resource) (validateUUID : String → Option GoError)
    (newObjectType : String → ObjectType × Bool) (newSliceResolution : String → String × Bool)
    (attrs : List XMLAttr) :
    ∀ d : objectDecoder,
      (Attributes sm validateUUID newObjectType newSliceResolution d attrs).1 = false →
      ∃ a ∈ attrs, ∃ d1, objectAttrFailure sm validateUUID d1 a := by
  induction attrs with
  | nil => intro d h; cases h
  | cons a rest ih =>
    intro d h
    simp only [Attributes] at h
    rcases hstep : handleAttr sm validateUUID newObjectType newSliceResolution d a with ⟨ok, d1⟩
    rw [hstep] at h
    cases ok with
    | false =>
      exact ⟨a, List.mem_cons_self _ _, d,
        handleAttr_false sm validateUUID newObjectType newSliceResolution d a (by rw [hstep])⟩
    | true =>
      obtain ⟨b, hb, d2, hfail⟩ := ih d1 h
      exact ⟨b, List.mem_cons_of_mem _ hb, d2, hfail⟩

end objectDecoder

theorem objectAttrFailure_not_enum {Resource : Type} (sm : ScannerMethods Resource)
    (validateUUID : String → Option GoError) (d : objectDecoder) (a : XMLAttr)
    (h : objectAttrFailure sm validateUUID d a) : ¬ objectEnumAttr a := by
  unfold objectEnumAttr
  rcases h with ⟨hs, hl, _⟩ | ⟨hs, hl, _⟩ | ⟨hs, hl, _⟩ <;> rw [hs, hl] <;> decide

theorem beamParseFailure_not_enum (ps : BeamParsers) (a : XMLAttr) (err : GoError)
    (h : beamParseFailure ps a err) : ¬ beamEnumAttr a := by
  unfold beamEnumAttr
  obtain ⟨_, h1⟩ := h
  rintro ⟨_, h2⟩
  rcases h1 with ⟨hl | hl, _⟩ | ⟨hl | hl, _⟩ <;> rw [hl] at h2 <;> revert h2 <;> decide

theorem beamLatticeParseFailure_not_enum (ps : BeamParsers) (a : XMLAttr) (err : GoError)
    (h : beamLatticeParseFailure ps a err) : ¬ beamLatticeEnumAttr a := by
  unfold beamLatticeEnumAttr
  obtain ⟨_, h1⟩ := h
  rintro ⟨_, h2⟩
  rcases h1 with ⟨hl | hl | hl, _⟩ | ⟨hl | hl, _⟩ <;> rw [hl] at h2 <;> revert h2 <;> decide

namespace beamDecoder

theorem beam_handleAttr_enum (ps : BeamParsers) (v : beamVars) (a : XMLAttr) (h : beamEnumAttr a) :
    (handleAttr ps v a).1 = none := by
  cases he : (handleAttr ps v a).1 with
  | none => rfl
  | some err =>
    exact absurd h (beamParseFailure_not_enum ps a err
      (beam_handleAttr_error ps v (handleAttr ps v a).2 a err (by rw [← he])))

end beamDecoder

namespace beamLatticeDecoder

variable {R : Type}

theorem lattice_handleAttr_error (ps : BeamParsers) (d d1 : beamLatticeDecoder R) (a : XMLAttr)
    (err : GoError) (h : handleAttr ps d a = (some err, d1)) :
    beamLatticeParseFailure ps a err := by
  unfold handleAttr at h
  unfold beamLatticeParseFailure
  split_ifs at h with h0 h1 h2 h3 h4 h5 h6 <;>
    simp only [Prod.mk.injEq, reduceCtorEq, false_and] at h
  · exact ⟨not_not.mp h0, Or.inl ⟨Or.inl h1, h.1⟩⟩
  · exact ⟨not_not.mp h0, Or.inl ⟨Or.inr h2, h.1⟩⟩
  · exact ⟨not_not.mp h0, Or.inr ⟨Or.inl h4, h.1⟩⟩
  · exact ⟨not_not.mp h0, Or.inr ⟨Or.inr h5, h.1⟩⟩

theorem lattice_handleAttr_enum (ps : BeamParsers) (d : beamLatticeDecoder R) (a : XMLAttr)
    (h : beamLatticeEnumAttr a) : (handleAttr ps d a).1 = none := by
  cases he : (handleAttr ps d a).1 with
  | none => rfl
  | some err =>
    exact absurd h (beamLatticeParseFailure_not_enum ps a err
      (lattice_handleAttr_error ps d (handleAttr ps d a).2 a err (by rw [← he])))

theorem Attributes_error (ps : BeamParsers) (attrs : List XMLAttr) :
    ∀ (d : beamLatticeDecoder R) (err : GoError), (Attributes ps d attrs).1 = some err →
      ∃ a ∈ attrs, beamLatticeParseFailure ps a err := by
  induction attrs with
  | nil => intro d err h; cases h
  | cons a rest ih =>
    intro d err h
    simp only [Attributes] at h
    rcases hstep : handleAttr ps d a with ⟨e, d2⟩
    rw [hstep] at h
    cases e with
    | some e0 =>
      simp only [Option.some.injEq] at h
      subst h
      exact ⟨a, List.mem_cons_self _ _, lattice_handleAttr_error ps d d2 a e0 hstep⟩
    | none =>
      obtain ⟨b, hb, hfail⟩ := ih d2 err h
      exact ⟨b, List.mem_cons_of_mem _ hb, hfail⟩

theorem handleAttr_r (ps : BeamParsers) (d : beamLatticeDecoder R) (a : XMLAttr) :
    (handleAttr ps d a).2.r = d.r := by
  unfold handleAttr
  split_ifs <;> rfl

theorem Attributes_r (ps : BeamParsers) (attrs : List XMLAttr) :
    ∀ d : beamLatticeDecoder R, (Attributes ps d attrs).2.r = d.r := by
  induction attrs with
  | nil => intro d; rfl
  | cons a rest ih =>
    intro d
    have hr := handleAttr_r ps d a
    simp only [Attributes]
    rcases hstep : handleAttr ps d a with ⟨e, d2⟩
    rw [hstep] at hr
    cases e with
    | some e0 => exact hr
    | none => exact (ih d2).trans hr

end beamLatticeDecoder

/-- C26: an enumerated attribute never makes `Attributes` fail, whatever its value and
whatever the mode of the scanner. For the object decoder, the handling of an object type
or of a slice resolution leaves `ok` true, and when `Attributes` returns false the attribute
that made it do so is another one: a UUID, a slice stack id or an id that the scanner
reported on. For the beam decoder and the beam lattice decoder, the handling of a cap mode
or of a clipping mode leaves the error nil, and when `Attributes` returns an error it is
the error of a numeric attribute that failed to parse. -/
theorem enumerated_attributes_never_fail {Resource R : Type} (sm : ScannerMethods Resource)
    (validateUUID : String → Option GoError) (newObjectType : String → ObjectType × Bool)
    (newSliceResolution : String → String × Bool) (ps : BeamParsers) :
    (∀ (d : objectDecoder) (a : XMLAttr), objectEnumAttr a →
      (objectDecoder.handleAttr sm validateUUID newObjectType newSliceResolution d a).1 = true) ∧
    (∀ (d : objectDecoder) (attrs : List XMLAttr),
      (objectDecoder.Attributes sm validateUUID newObjectType newSliceResolution d attrs).1 =
        false →
      ∃ a ∈ attrs, ¬ objectEnumAttr a ∧ ∃ d1, objectAttrFailure sm validateUUID d1 a) ∧
    (∀ (v : beamVars) (a : XMLAttr), beamEnumAttr a →
      (beamDecoder.handleAttr ps v a).1 = none) ∧
    (∀ (d : beamDecoder R) (attrs : List XMLAttr) (err : GoError),
      (beamDecoder.Attributes ps d attrs).1 = some err →
      ∃ a ∈ attrs, ¬ beamEnumAttr a ∧ beamParseFailure ps a err) ∧
    (∀ (d : beamLatticeDecoder R) (a : XMLAttr), beamLatticeEnumAttr a →
      (beamLatticeDecoder.handleAttr ps d a).1 = none) ∧
    (∀ (d : beamLatticeDecoder R) (attrs : List XMLAttr) (err : GoError),
      (beamLatticeDecoder.Attributes ps d attrs).1 = some err →
      ∃ a ∈ attrs, ¬ beamLatticeEnumAttr a ∧ beamLatticeParseFailure ps a err) := by
  refine ⟨?_, ?_, ?_, ?_, ?_, ?_⟩
  · exact objectDecoder.object_handleAttr_enum sm validateUUID newObjectType newSliceResolution
  · intro d attrs h
    obtain ⟨a, ha, d1, hfail⟩ :=
      objectDecoder.Attributes_false sm validateUUID newObjectType newSliceResolution attrs d h
    exact ⟨a, ha, objectAttrFailure_not_enum sm validateUUID d1 a hfail, d1, hfail⟩
  · exact beamDecoder.beam_handleAttr_enum ps
  · intro d attrs err h
    cases hl : (beamDecoder.attributesLoop ps attrs beamVars.zero).1 with
    | none =>
      rw [(beamDecoder.beam_Attributes_eq ps d attrs).1 hl] at h
      cases h
    | some e0 =>
      rw [(beamDecoder.beam_Attributes_eq ps d attrs).2 e0 hl] at h
      simp only [Option.some.injEq] at h
      subst h
      obtain ⟨a, ha, hfail⟩ := beamDecoder.attributesLoop_error ps attrs beamVars.zero
        (beamDecoder.attributesLoop ps attrs beamVars.zero).2 e0 (by rw [← hl])
      exact ⟨a, ha, beamParseFailure_not_enum ps a e0 hfail, hfail⟩
  · exact beamLatticeDecoder.lattice_handleAttr_enum ps
  · intro d attrs err h
    obtain ⟨a, ha, hfail⟩ := beamLatticeDecoder.Attributes_error ps attrs d err h
    exact ⟨a, ha, beamLatticeParseFailure_not_enum ps a err hfail, hfail⟩

end Go3mf

namespace Go3mf

/-! ## Warnings for the enumerated attributes -/

namespace beamDecoder

variable {R : Type}

theorem Attributes_frame (ps : BeamParsers) (d : beamDecoder R) (attrs : List XMLAttr) :
    (Attributes ps d attrs).2.r = d.r ∧
    ((Attributes ps d attrs).2.mesh = d.mesh ∨
      ∃ b, (Attributes ps d attrs).2.mesh = { d.mesh with Beams := d.mesh.Beams ++ [b] }) := by
  cases hl : (attributesLoop ps attrs beamVars.zero).1 with
  | none =>
    rw [(beam_Attributes_eq ps d attrs).1 hl]
    exact ⟨rfl, Or.inr ⟨_, rfl⟩⟩
  | some err =>
    rw [(beam_Attributes_eq ps d attrs).2 err hl]
    exact ⟨rfl, Or.inl rfl⟩

end beamDecoder

namespace beamLatticeDecoder

variable {R : Type}

theorem handleAttr_enum_frame (ps : BeamParsers) (d : beamLatticeDecoder R) (a : XMLAttr)
    (h : beamLatticeEnumAttr a) :
    (a.Name.Local = attrCap →
      (handleAttr ps d a).2 =
        { d with resource := { d.resource with
            Mesh := { d.resource.Mesh with CapMode := (ps.newCapMode a.Value).1 } } }) ∧
    (a.Name.Local = attrClippingMode ∨ a.Name.Local = attrClipping →
      (handleAttr ps d a).2 =
        { d with resource := { d.resource with
            BeamLatticeAttributes := { d.resource.BeamLatticeAttributes with
              ClipMode := (ps.newClipMode a.Value).1 } } }) := by
  obtain ⟨hs, _⟩ := h
  constructor
  · intro hl
    unfold handleAttr
    rw [if_neg (not_not.mpr hs), hl]
    simp only [attrCap, attrRadius, attrMinLength, attrPrecision, attrClippingMode, attrClipping,
      attrClippingMesh, attrRepresentationMesh]
    rfl
  · intro hl
    have h1 : ¬ a.Name.Local = attrRadius := by
      rcases hl with hl | hl <;> rw [hl] <;> decide
    have h2 : ¬ (a.Name.Local = attrMinLength ∨ a.Name.Local = attrPrecision) := by
      rcases hl with hl | hl <;> rw [hl] <;> decide
    unfold handleAttr
    rw [if_neg (not_not.mpr hs), if_neg h1, if_neg h2, if_pos hl]

end beamLatticeDecoder

/-- C27 (amended): of the decoders that read an enumerated attribute, the object decoder
reports a value that is not a known one: for an object type or a slice resolution it calls
`InvalidOptionalAttr` of the scanner, which, with the scanner as the spec describes it,
adds a warning in every mode. The beam decoder and the beam lattice decoder report
nothing: `Attributes` of the beam decoder leaves the `Reader` as it was and changes the
mesh by the beam it appends only, `Attributes` of the beam lattice decoder leaves the
`Reader` as it was, and a cap mode or a clipping mode changes the field it sets and nothing
else. -/
theorem enumerated_attributes_warnings {Resource R : Type} (sm : ScannerMethods Resource)
    (validateUUID : String → Option GoError) (newObjectType : String → ObjectType × Bool)
    (newSliceResolution : String → String × Bool) (ps : BeamParsers) :
    (∀ (d : objectDecoder) (a : XMLAttr), a.Name.Space = "" → a.Name.Local = attrType →
      (newObjectType a.Value).2 = false →
      (objectDecoder.handleAttr sm validateUUID newObjectType newSliceResolution d a).2.scanner =
        sm.InvalidOptionalAttr d.scanner attrType a.Value) ∧
    (∀ (d : objectDecoder) (a : XMLAttr), a.Name.Space = nsSliceSpec →
      a.Name.Local = attrMeshRes → (newSliceResolution a.Value).2 = false →
      (objectDecoder.handleAttr sm validateUUID newObjectType newSliceResolution d a).2.scanner =
        sm.InvalidOptionalAttr d.scanner attrMeshRes a.Value) ∧
    (∀ (registry : String → Nat → Option Resource) (namespaces : List String)
        (parseMatrix : String → Option Mat4) (s : Scanner) (attr value : String),
      ∃ w, ((specScanner registry namespaces parseMatrix).InvalidOptionalAttr s attr value
          ).Warnings = s.Warnings ++ [w]) ∧
    (∀ (d : beamDecoder R) (attrs : List XMLAttr),
      (beamDecoder.Attributes ps d attrs).2.r = d.r ∧
      ((beamDecoder.Attributes ps d attrs).2.mesh = d.mesh ∨
        ∃ b, (beamDecoder.Attributes ps d attrs).2.mesh =
          { d.mesh with Beams := d.mesh.Beams ++ [b] })) ∧
    (∀ (d : beamLatticeDecoder R) (attrs : List XMLAttr),
      (beamLatticeDecoder.Attributes ps d attrs).2.r = d.r) ∧
    (∀ (d : beamLatticeDecoder R) (a : XMLAttr), beamLatticeEnumAttr a →
      (a.Name.Local = attrCap →
        (beamLatticeDecoder.handleAttr ps d a).2 =
          { d with resource := { d.resource with
              Mesh := { d.resource.Mesh with CapMode := (ps.newCapMode a.Value).1 } } }) ∧
      (a.Name.Local = attrClippingMode ∨ a.Name.Local = attrClipping →
        (beamLatticeDecoder.handleAttr ps d a).2 =
          { d with resource := { d.resource with
              BeamLatticeAttributes := { d.resource.BeamLatticeAttributes with
                ClipMode := (ps.newClipMode a.Value).1 } } })) := by
  refine ⟨?_, ?_, ?_, ?_, ?_, ?_⟩
  · intro d a hs hl hv
    rw [objectDecoder.handleAttr_core sm validateUUID newObjectType newSliceResolution d a hs,
      objectDecoder.parseCoreAttr_type sm newObjectType d a hl]
    simp [hv]
  · intro d a hs hl hv
    rw [objectDecoder.handleAttr_slice sm validateUUID newObjectType newSliceResolution d a hs,
      objectDecoder.parseSliceAttr_meshRes sm newSliceResolution d a hl]
    simp [hv]
  · intro registry namespaces parseMatrix s attr value
    exact ⟨_, rfl⟩
  · exact beamDecoder.Attributes_frame ps
  · intro d attrs
    exact beamLatticeDecoder.Attributes_r ps attrs d
  · exact beamLatticeDecoder.handleAttr_enum_frame ps

/-- C27 (counterexample): a beam with `cap1="bogus"` and a beam lattice with
`clippingmode="bogus"`: the values are not known ones, both `Attributes` calls return nil,
and the `Reader` of each decoder, held as the list of its warnings, is as empty afterwards
as it was before. -/
theorem beam_decoders_record_no_warning :
    (sampleParsers.newCapMode "bogus").2 = false ∧
    (sampleParsers.newClipMode "bogus").2 = false ∧
    sampleBeamDecoder.r = [] ∧ sampleBeamLatticeDecoder.r = [] ∧
    (beamDecoder.Attributes sampleParsers sampleBeamDecoder
      [plainAttr "v1" "0", plainAttr "v2" "1", plainAttr "cap1" "bogus"]).1 = none ∧
    (beamDecoder.Attributes sampleParsers sampleBeamDecoder
      [plainAttr "v1" "0", plainAttr "v2" "1", plainAttr "cap1" "bogus"]).2.r = [] ∧
    (beamLatticeDecoder.Attributes sampleParsers sampleBeamLatticeDecoder
      [plainAttr "clippingmode" "bogus"]).1 = none ∧
    (beamLatticeDecoder.Attributes sampleParsers sampleBeamLatticeDecoder
      [plainAttr "clippingmode" "bogus"]).2.r = [] := by
  decide

end Go3mf

namespace Go3mf

/-! ## The scanner as the spec describes it: what its methods keep -/

theorem Scanner.strictError_strict (s : Scanner) (err : GoError) (h : s.Strict = true) :
    s.strictError err = (false, { s with Err := some err }) := by
  simp [Scanner.strictError, h]

theorem Scanner.strictError_lenient (s : Scanner) (err : GoError) (h : s.Strict = false) :
    s.strictError err = (true, { s with Warnings := s.Warnings ++ [err] }) := by
  simp [Scanner.strictError, h]

theorem Scanner.strictError_keeps (s : Scanner) (err : GoError) :
    (s.strictError err).2.Strict = s.Strict ∧ (s.strictError err).2.IsRoot = s.IsRoot := by
  unfold Scanner.strictError
  split <;> exact ⟨rfl, rfl⟩

namespace componentDecoder

variable {Resource Obj : Type}

/-! ## The loop of `componentDecoder.Attributes` -/

theorem component_handleAttr_frame (sm : ScannerMethods Resource) (validateUUID : String → Option GoError)
    (s : Scanner) (v : componentVars Obj) (a : XMLAttr) :
    (handleAttr sm validateUUID s v a).2.2.component.Object = v.component.Object ∧
    (handleAttr sm validateUUID s v a).2.2.path =
      (if a.Name.Space = nsProductionSpec ∧ a.Name.Local = attrPath then a.Value else v.path) := by
  unfold handleAttr
  by_cases h1 : a.Name.Space = nsProductionSpec
  · rw [if_pos h1]
    by_cases h2 : a.Name.Local = attrProdUUID
    · have h3 : ¬ a.Name.Local = attrPath := by rw [h2]; decide
      rw [if_pos h2]
      cases validateUUID a.Value <;> simp [h1, h3]
    · rw [if_neg h2]
      by_cases h3 : a.Name.Local = attrPath
      · simp [h1, h3]
      · simp [h1, h3]
  · have hn : ¬ (a.Name.Space = nsProductionSpec ∧ a.Name.Local = attrPath) :=
      fun h => h1 h.1
    rw [if_neg h1, if_neg hn]
    split_ifs <;> exact ⟨rfl, rfl⟩

theorem component_attributesLoop_frame (sm : ScannerMethods Resource)
    (validateUUID : String → Option GoError) (attrs : List XMLAttr) :
    ∀ (s : Scanner) (v : componentVars Obj),
      (attributesLoop sm validateUUID attrs s v).2.2.component.Object = v.component.Object ∧
      ((attributesLoop sm validateUUID attrs s v).1 = true →
        (attributesLoop sm validateUUID attrs s v).2.2.path = pathAfter attrs v.path) := by
  induction attrs with
  | nil => intro s v; exact ⟨rfl, fun _ => rfl⟩
  | cons a rest ih =>
    intro s v
    have hf := component_handleAttr_frame sm validateUUID s v a
    simp only [attributesLoop]
    rcases hstep : handleAttr sm validateUUID s v a with ⟨ok, s1, v1⟩
    rw [hstep] at hf
    simp only at hf
    cases ok with
    | false => exact ⟨hf.1, fun h => by cases h⟩
    | true =>
      simp only
      obtain ⟨g1, g2⟩ := ih s1 v1
      refine ⟨g1.trans hf.1, fun h => ?_⟩
      rw [g2 h, hf.2]
      rfl

/-! ## `addComponent` -/

theorem addComponent_eq (sm : ScannerMethods Resource) (asObject : Resource → Option Obj)
    (d : componentDecoder Obj) (component : go3mf.Component Obj) (path : String)
    (objectID : Nat) :
    ((precheck sm d.scanner component path).1 = false →
      addComponent sm asObject d component path objectID =
        (false, { d with scanner := (precheck sm d.scanner component path).2 })) ∧
    ((precheck sm d.scanner component path).1 = true →
      (resolve sm asObject (precheck sm d.scanner component path).2 component path objectID).1 =
        false →
      addComponent sm asObject d component path objectID =
        (false, { d with scanner :=
          (resolve sm asObject (precheck sm d.scanner component path).2 component path
            objectID).2.1 })) ∧
    ((precheck sm d.scanner component path).1 = true →
      (resolve sm asObject (precheck sm d.scanner component path).2 component path objectID).1 =
        true →
      addComponent sm asObject d component path objectID =
        (true,
          { scanner :=
              (resolve sm asObject (precheck sm d.scanner component path).2 component path
                objectID).2.1
            resource := { d.resource with
              Components := d.resource.Components ++
                [(resolve sm asObject (precheck sm d.scanner component path).2 component path
                  objectID).2.2] } })) := by
  unfold addComponent
  rcases precheck sm d.scanner component path with ⟨ok1, s1⟩
  cases ok1 with
  | false => exact ⟨fun _ => rfl, fun h => (by cases h), fun h => (by cases h)⟩
  | true =>
    simp only
    rcases resolve sm asObject s1 component path objectID with ⟨ok2, s2, c⟩
    cases ok2 with
    | false => exact ⟨fun h => (by cases h), fun _ _ => rfl, fun _ h => (by cases h)⟩
    | true => exact ⟨fun h => (by cases h), fun _ h => (by cases h), fun _ _ => rfl⟩

/-- What `resolve` returns, by the lookup of the target: a resolved component, or the
decision of `GenericError` with a component without Object. -/
theorem resolve_cases (sm : ScannerMethods Resource) (asObject : Resource → Option Obj)
    (s : Scanner) (component : go3mf.Component Obj) (path : String) (objectID : Nat)
    (hobj : component.Object = none) :
    (∃ res o, sm.FindResource s path (u32 objectID) = some res ∧ asObject res = some o ∧
      resolve sm asObject s component path objectID =
        (true, s, { component with Object := some o })) ∨
    (sm.FindResource s path (u32 objectID) = none ∧
      resolve sm asObject s component path objectID =
        ((sm.GenericError s true "non-existent referenced object").1,
          (sm.GenericError s true "non-existent referenced object").2, component)) ∨
    (∃ res, sm.FindResource s path (u32 objectID) = some res ∧ asObject res = none ∧
      resolve sm asObject s component path objectID =
        ((sm.GenericError s true "non-object referenced resource").1,
          (sm.GenericError s true "non-object referenced resource").2, component)) := by
  unfold resolve
  cases hf : sm.FindResource s path (u32 objectID) with
  | none => exact Or.inr (Or.inl ⟨rfl, rfl⟩)
  | some res =>
    cases ha : asObject res with
    | some o => exact Or.inl ⟨res, o, rfl, ha, by simp only [ha]⟩
    | none =>
      refine Or.inr (Or.inr ⟨res, rfl, ha, ?_⟩)
      simp only [ha]
      rw [← hobj]

end componentDecoder

end Go3mf

namespace Go3mf

namespace componentDecoder

variable {Resource Obj : Type}

theorem component_Attributes_eq (sm : ScannerMethods Resource) (validateUUID : String → Option GoError)
    (asObject : Resource → Option Obj) (d : componentDecoder Obj) (attrs : List XMLAttr) :
    ((attributesLoop sm validateUUID attrs d.scanner (componentVars.zero Obj)).1 = false →
      Attributes sm validateUUID asObject d attrs =
        (false, { d with scanner :=
          (attributesLoop sm validateUUID attrs d.scanner (componentVars.zero Obj)).2.1 })) ∧
    ((attributesLoop sm validateUUID attrs d.scanner (componentVars.zero Obj)).1 = true →
      Attributes sm validateUUID asObject d attrs =
        addComponent sm asObject
          { d with scanner :=
            (attributesLoop sm validateUUID attrs d.scanner (componentVars.zero Obj)).2.1 }
          (parsed sm validateUUID d attrs).component (parsed sm validateUUID d attrs).path
          (parsed sm validateUUID d attrs).objectID) := by
  unfold Attributes parsed
  rcases attributesLoop sm validateUUID attrs d.scanner (componentVars.zero Obj) with ⟨ok, s1, v⟩
  cases ok with
  | false => exact ⟨fun _ => rfl, fun h => (by cases h)⟩
  | true => exact ⟨fun h => (by cases h), fun _ => rfl⟩

theorem parsed_object (sm : ScannerMethods Resource) (validateUUID : String → Option GoError)
    (d : componentDecoder Obj) (attrs : List XMLAttr) :
    (parsed sm validateUUID d attrs).component.Object = none :=
  (component_attributesLoop_frame sm validateUUID attrs d.scanner (componentVars.zero Obj)).1

theorem parsed_path (sm : ScannerMethods Resource) (validateUUID : String → Option GoError)
    (d : componentDecoder Obj) (attrs : List XMLAttr)
    (h : (attributesLoop sm validateUUID attrs d.scanner (componentVars.zero Obj)).1 = true) :
    (parsed sm validateUUID d attrs).path = componentPath attrs :=
  (component_attributesLoop_frame sm validateUUID attrs d.scanner (componentVars.zero Obj)).2 h

theorem Attributes_loop_false (sm : ScannerMethods Resource)
    (validateUUID : String → Option GoError) (asObject : Resource → Option Obj)
    (d : componentDecoder Obj) (attrs : List XMLAttr)
    (hl : (attributesLoop sm validateUUID attrs d.scanner (componentVars.zero Obj)).1 = false) :
    (Attributes sm validateUUID asObject d attrs).1 = false ∧
    (Attributes sm validateUUID asObject d attrs).2.resource = d.resource ∧
    (Attributes sm validateUUID asObject d attrs).2.scanner =
      (attributesLoop sm validateUUID attrs d.scanner (componentVars.zero Obj)).2.1 := by
  rw [(component_Attributes_eq sm validateUUID asObject d attrs).1 hl]
  exact ⟨rfl, rfl, rfl⟩

theorem Attributes_checked_false (sm : ScannerMethods Resource)
    (validateUUID : String → Option GoError) (asObject : Resource → Option Obj)
    (d : componentDecoder Obj) (attrs : List XMLAttr)
    (hl : (attributesLoop sm validateUUID attrs d.scanner (componentVars.zero Obj)).1 = true)
    (hc : (checked sm validateUUID d attrs).1 = false) :
    (Attributes sm validateUUID asObject d attrs).1 = false ∧
    (Attributes sm validateUUID asObject d attrs).2.resource = d.resource ∧
    (Attributes sm validateUUID asObject d attrs).2.scanner =
      (checked sm validateUUID d attrs).2 := by
  rw [(component_Attributes_eq sm validateUUID asObject d attrs).2 hl]
  have h := (addComponent_eq sm asObject
    { d with scanner :=
      (attributesLoop sm validateUUID attrs d.scanner (componentVars.zero Obj)).2.1 }
    (parsed sm validateUUID d attrs).component (parsed sm validateUUID d attrs).path
    (parsed sm validateUUID d attrs).objectID).1 hc
  rw [h]
  exact ⟨rfl, rfl, rfl⟩

theorem Attributes_resolved (sm : ScannerMethods Resource)
    (validateUUID : String → Option GoError) (asObject : Resource → Option Obj)
    (d : componentDecoder Obj) (attrs : List XMLAttr)
    (hl : (attributesLoop sm validateUUID attrs d.scanner (componentVars.zero Obj)).1 = true)
    (hc : (checked sm validateUUID d attrs).1 = true)
    (hr : (resolve sm asObject (checked sm validateUUID d attrs).2
      (parsed sm validateUUID d attrs).component (parsed sm validateUUID d attrs).path
      (parsed sm validateUUID d attrs).objectID).1 = true) :
    (Attributes sm validateUUID asObject d attrs).1 = true ∧
    (Attributes sm validateUUID asObject d attrs).2.resource.Components =
      d.resource.Components ++
        [(resolve sm asObject (checked sm validateUUID d attrs).2
          (parsed sm validateUUID d attrs).component (parsed sm validateUUID d attrs).path
          (parsed sm validateUUID d attrs).objectID).2.2] ∧
    (Attributes sm validateUUID asObject d attrs).2.scanner =
      (resolve sm asObject (checked sm validateUUID d attrs).2
        (parsed sm validateUUID d attrs).component (parsed sm validateUUID d attrs).path
        (parsed sm validateUUID d attrs).objectID).2.1 := by
  rw [(component_Attributes_eq sm validateUUID asObject d attrs).2 hl]
  have h := (addComponent_eq sm asObject
    { d with scanner :=
      (attributesLoop sm validateUUID attrs d.scanner (componentVars.zero Obj)).2.1 }
    (parsed sm validateUUID d attrs).component (parsed sm validateUUID d attrs).path
    (parsed sm validateUUID d attrs).objectID).2.2 hc hr
  rw [h]
  exact ⟨rfl, rfl, rfl⟩

/-- What `Attributes` does to the component list, whatever the scanner methods: nothing,
with the result false, or it appends one component, with the result true; the component
appended has the target found under the path and the id the attributes gave, when that
target is an Object, and no Object otherwise, which takes `GenericError` returning true. -/
theorem Attributes_cases (sm : ScannerMethods Resource) (validateUUID : String → Option GoError)
    (asObject : Resource → Option Obj) (d : componentDecoder Obj) (attrs : List XMLAttr) :
    ((Attributes sm validateUUID asObject d attrs).1 = false ∧
      (Attributes sm validateUUID asObject d attrs).2.resource = d.resource) ∨
    ((Attributes sm validateUUID asObject d attrs).1 = true ∧
      (attributesLoop sm validateUUID attrs d.scanner (componentVars.zero Obj)).1 = true ∧
      (checked sm validateUUID d attrs).1 = true ∧
      ∃ c, (Attributes sm validateUUID asObject d attrs).2.resource.Components =
          d.resource.Components ++ [c] ∧
        ((∃ res o,
            sm.FindResource (checked sm validateUUID d attrs).2
              (parsed sm validateUUID d attrs).path
              (u32 (parsed sm validateUUID d attrs).objectID) = some res ∧
            asObject res = some o ∧ c.Object = some o) ∨
          (c.Object = none ∧
            sm.FindResource (checked sm validateUUID d attrs).2
              (parsed sm validateUUID d attrs).path
              (u32 (parsed sm validateUUID d attrs).objectID) = none ∧
            (sm.GenericError (checked sm validateUUID d attrs).2 true
              "non-existent referenced object").1 = true) ∨
          (c.Object = none ∧
            ∃ res,
              sm.FindResource (checked sm validateUUID d attrs).2
                (parsed sm validateUUID d attrs).path
                (u32 (parsed sm validateUUID d attrs).objectID) = some res ∧
              asObject res = none ∧
              (sm.GenericError (checked sm validateUUID d attrs).2 true
                "non-object referenced resource").1 = true))) := by
  have hobj := parsed_object sm validateUUID d attrs
  obtain ⟨e1, e2⟩ := component_Attributes_eq sm validateUUID asObject d attrs
  cases hl : (attributesLoop sm validateUUID attrs d.scanner (componentVars.zero Obj)).1 with
  | false =>
    left
    rw [e1 hl]
    exact ⟨rfl, rfl⟩
  | true =>
    rw [e2 hl]
    obtain ⟨a1, a2, a3⟩ := addComponent_eq sm asObject
      { d with scanner :=
        (attributesLoop sm validateUUID attrs d.scanner (componentVars.zero Obj)).2.1 }
      (parsed sm validateUUID d attrs).component (parsed sm validateUUID d attrs).path
      (parsed sm validateUUID d attrs).objectID
    have hck : precheck sm
        (attributesLoop sm validateUUID attrs d.scanner (componentVars.zero Obj)).2.1
        (parsed sm validateUUID d attrs).component (parsed sm validateUUID d attrs).path =
        checked sm validateUUID d attrs := rfl
    simp only [hck] at a1 a2 a3
    cases hp : (checked sm validateUUID d attrs).1 with
    | false =>
      left
      rw [a1 hp]
      exact ⟨rfl, rfl⟩
    | true =>
      rcases resolve_cases sm asObject (checked sm validateUUID d attrs).2
          (parsed sm validateUUID d attrs).component (parsed sm validateUUID d attrs).path
          (parsed sm validateUUID d attrs).objectID hobj with
        ⟨res, o, hf, ha, hr⟩ | ⟨hf, hr⟩ | ⟨res, hf, ha, hr⟩
      · right
        rw [a3 hp (by rw [hr]), hr]
        exact ⟨rfl, rfl, rfl, _, rfl, Or.inl ⟨res, o, hf, ha, rfl⟩⟩
      · cases hg : (sm.GenericError (checked sm validateUUID d attrs).2 true
            "non-existent referenced object").1 with
        | false =>
          left
          rw [a2 hp (by rw [hr]; exact hg)]
          exact ⟨rfl, rfl⟩
        | true =>
          right
          rw [a3 hp (by rw [hr]; exact hg), hr]
          exact ⟨rfl, rfl, rfl, _, rfl, Or.inr (Or.inl ⟨hobj, hf, rfl⟩)⟩
      · cases hg : (sm.GenericError (checked sm validateUUID d attrs).2 true
            "non-object referenced resource").1 with
        | false =>
          left
          rw [a2 hp (by rw [hr]; exact hg)]
          exact ⟨rfl, rfl⟩
        | true =>
          right
          rw [a3 hp (by rw [hr]; exact hg), hr]
          exact ⟨rfl, rfl, rfl, _, rfl, Or.inr (Or.inr ⟨hobj, res, hf, ha, rfl⟩)⟩

end componentDecoder

end Go3mf

namespace Go3mf

namespace componentDecoder

variable {Resource Obj : Type}

/-! ## The component decoder with the scanner as the spec describes it -/

theorem handleAttr_spec (registry : String → Nat → Option Resource) (namespaces : List String)
    (parseMatrix : String → Option Mat4) (validateUUID : String → Option GoError)
    (s : Scanner) (v : componentVars Obj) (a : XMLAttr) :
    (handleAttr (specScanner registry namespaces parseMatrix) validateUUID s v a).2.1.Strict =
        s.Strict ∧
    (handleAttr (specScanner registry namespaces parseMatrix) validateUUID s v a).2.1.IsRoot =
        s.IsRoot ∧
    (s.Strict = true →
      (handleAttr (specScanner registry namespaces parseMatrix) validateUUID s v a).1 = false →
      (handleAttr (specScanner registry namespaces parseMatrix) validateUUID s v a).2.1.Err ≠
        none) := by
  unfold handleAttr
  by_cases h1 : a.Name.Space = nsProductionSpec
  · rw [if_pos h1]
    by_cases h2 : a.Name.Local = attrProdUUID
    · rw [if_pos h2]
      cases validateUUID a.Value with
      | none => exact ⟨rfl, rfl, fun _ h => by cases h⟩
      | some e => exact ⟨rfl, rfl, fun _ _ => by simp [specScanner, Scanner.fatalError]⟩
    · rw [if_neg h2]
      split_ifs <;> exact ⟨rfl, rfl, fun _ h => by cases h⟩
  · rw [if_neg h1]
    by_cases h3 : a.Name.Space = ""
    · rw [if_pos h3]
      by_cases h4 : a.Name.Local = attrObjectID
      · rw [if_pos h4]
        simp only [specScanner]
        rcases parseUint32 a.Value with ⟨n, e⟩
        cases e with
        | none => exact ⟨rfl, rfl, fun _ h => by cases h⟩
        | some e0 =>
          simp only
          refine ⟨?_, ?_, ?_⟩
          · split <;> rfl
          · split <;> rfl
          · intro hs _
            rw [if_pos hs]
            simp
      · rw [if_neg h4]
        by_cases h5 : a.Name.Local = attrTransform
        · rw [if_pos h5]
          simp only [specScanner]
          cases parseMatrix a.Value with
          | none => exact ⟨rfl, rfl, fun _ h => by cases h⟩
          | some m => exact ⟨rfl, rfl, fun _ h => by cases h⟩
        · rw [if_neg h5]
          exact ⟨rfl, rfl, fun _ h => by cases h⟩
    · rw [if_neg h3]
      exact ⟨rfl, rfl, fun _ h => by cases h⟩

theorem attributesLoop_spec (registry : String → Nat → Option Resource)
    (namespaces : List String) (parseMatrix : String → Option Mat4)
    (validateUUID : String → Option GoError) (attrs : List XMLAttr) :
    ∀ (s : Scanner) (v : componentVars Obj),
      (attributesLoop (specScanner registry namespaces parseMatrix) validateUUID attrs s
        v).2.1.Strict = s.Strict ∧
      (attributesLoop (specScanner registry namespaces parseMatrix) validateUUID attrs s
        v).2.1.IsRoot = s.IsRoot ∧
      (s.Strict = true →
        (attributesLoop (specScanner registry namespaces parseMatrix) validateUUID attrs s
          v).1 = false →
        (attributesLoop (specScanner registry namespaces parseMatrix) validateUUID attrs s
          v).2.1.Err ≠ none) := by
  induction attrs with
  | nil => intro s v; exact ⟨rfl, rfl, fun _ h => by cases h⟩
  | cons a rest ih =>
    intro s v
    have hs := handleAttr_spec registry namespaces parseMatrix validateUUID s v a
    simp only [attributesLoop]
    rcases hstep : handleAttr (specScanner registry namespaces parseMatrix) validateUUID s v a
      with ⟨ok, s1, v1⟩
    rw [hstep] at hs
    simp only at hs
    obtain ⟨k1, k2, k3⟩ := hs
    cases ok with
    | false => exact ⟨k1, k2, fun h _ => k3 h rfl⟩
    | true =>
      simp only
      obtain ⟨g1, g2, g3⟩ := ih s1 v1
      exact ⟨g1.trans k1, g2.trans k2, fun h hf => g3 (k1.trans h) hf⟩

theorem precheck_spec (registry : String → Nat → Option Resource) (namespaces : List String)
    (parseMatrix : String → Option Mat4) (s : Scanner) (component : go3mf.Component Obj)
    (path : String) :
    (precheck (specScanner registry namespaces parseMatrix) s component path).2.Strict =
        s.Strict ∧
    (s.Strict = true →
      (precheck (specScanner registry namespaces parseMatrix) s component path).1 = false →
      (precheck (specScanner registry namespaces parseMatrix) s component path).2.Err ≠ none) ∧
    (s.Strict = true → path ≠ "" → s.IsRoot = false →
      (precheck (specScanner registry namespaces parseMatrix) s component path).1 = false) ∧
    (s.Strict = false →
      (precheck (specScanner registry namespaces parseMatrix) s component path).1 = true) ∧
    (s.Strict = false → path ≠ "" → s.IsRoot = false →
      (⟨"path attribute in a non-root file is not supported"⟩ : GoError) ∈
        (precheck (specScanner registry namespaces parseMatrix) s component path).2.Warnings) := by
  cases hstrict : s.Strict with
  | true =>
    refine ⟨?_, fun _ => ?_, fun _ hp hr => ?_, fun h => (by cases h), fun h => (by cases h)⟩
    all_goals
      simp only [precheck, specScanner, Scanner.strictError, hstrict, if_true]
      split_ifs <;> simp_all
  | false =>
    refine ⟨?_, fun h => (by cases h), fun h => (by cases h), fun _ => ?_, fun _ hp hr => ?_⟩
    all_goals
      simp only [precheck, specScanner, Scanner.strictError, hstrict]
      split_ifs <;> simp_all

theorem GenericError_spec_strict (registry : String → Nat → Option Resource)
    (namespaces : List String) (parseMatrix : String → Option Mat4) (s : Scanner)
    (msg : String) (h : s.Strict = true) :
    ((specScanner registry namespaces parseMatrix).GenericError s true msg).1 = false := by
  simp [specScanner, Scanner.strictError, h]

theorem resolve_spec (registry : String → Nat → Option Resource) (namespaces : List String)
    (parseMatrix : String → Option Mat4) (asObject : Resource → Option Obj) (s : Scanner)
    (component : go3mf.Component Obj) (path : String) (objectID : Nat)
    (hobj : component.Object = none) :
    (s.Strict = true →
      (resolve (specScanner registry namespaces parseMatrix) asObject s component path
        objectID).1 = true →
      ∃ res o, registry path (u32 objectID) = some res ∧ asObject res = some o ∧
        (resolve (specScanner registry namespaces parseMatrix) asObject s component path
          objectID).2.2.Object = some o) ∧
    (s.Strict = false →
      (resolve (specScanner registry namespaces parseMatrix) asObject s component path
        objectID).1 = true ∧
      (resolve (specScanner registry namespaces parseMatrix) asObject s component path
        objectID).2.2.Object = (registry path (u32 objectID)).bind asObject ∧
      ∀ w ∈ s.Warnings,
        w ∈ (resolve (specScanner registry namespaces parseMatrix) asObject s component path
          objectID).2.1.Warnings) := by
  have hfind : (specScanner registry namespaces parseMatrix).FindResource s path (u32 objectID) =
      registry path (u32 objectID) := rfl
  rcases resolve_cases (specScanner registry namespaces parseMatrix) asObject s component path
      objectID hobj with ⟨res, o, hf, ha, hr⟩ | ⟨hf, hr⟩ | ⟨res, hf, ha, hr⟩
  · rw [hfind] at hf
    rw [hr]
    refine ⟨fun _ _ => ⟨res, o, hf, ha, rfl⟩, fun _ => ⟨rfl, ?_, fun w hw => hw⟩⟩
    simp [hf, ha]
  · rw [hfind] at hf
    rw [hr]
    constructor
    · intro hs h
      simp [specScanner, Scanner.strictError, hs] at h
    · intro hs
      simp [specScanner, Scanner.strictError, hs, hf, hobj]
      intro w hw
      exact Or.inl hw
  · rw [hfind] at hf
    rw [hr]
    constructor
    · intro hs h
      simp [specScanner, Scanner.strictError, hs] at h
    · intro hs
      simp [specScanner, Scanner.strictError, hs, hf, ha, hobj]
      intro w hw
      exact Or.inl hw

end componentDecoder

end Go3mf

namespace Go3mf

/-! ## Claims on the component decoder -/

/-- C22 (amended): `componentDecoder.Attributes` leaves the component list as it was, with
the result false, or appends one component, with the result true. A component appended
has as its Object the resource found under the path and the object id of the element
when that resource is an Object; when the target is not found or is not an Object the
component is appended all the same, without Object, exactly when `GenericError` of the
scanner returns true. With the scanner as the spec describes it that never happens in
strict mode, where every component appended has its target; and it always happens in
lenient mode: once the attributes are read, the component is appended, with its target if
the target is a registered Object and without Object otherwise. -/
theorem componentDecoder_Attributes_target {Resource Obj : Type}
    (validateUUID : String → Option GoError) (asObject : Resource → Option Obj) :
    (∀ (sm : ScannerMethods Resource) (d : componentDecoder Obj) (attrs : List XMLAttr),
      ((componentDecoder.Attributes sm validateUUID asObject d attrs).1 = false ∧
        (componentDecoder.Attributes sm validateUUID asObject d attrs).2.resource =
          d.resource) ∨
      ((componentDecoder.Attributes sm validateUUID asObject d attrs).1 = true ∧
        ∃ c, (componentDecoder.Attributes sm validateUUID asObject d attrs
            ).2.resource.Components = d.resource.Components ++ [c] ∧
          ((∃ res o,
              sm.FindResource (componentDecoder.checked sm validateUUID d attrs).2
                (componentDecoder.parsed sm validateUUID d attrs).path
                (u32 (componentDecoder.parsed sm validateUUID d attrs).objectID) = some res ∧
              asObject res = some o ∧ c.Object = some o) ∨
            (c.Object = none ∧
              sm.FindResource (componentDecoder.checked sm validateUUID d attrs).2
                (componentDecoder.parsed sm validateUUID d attrs).path
                (u32 (componentDecoder.parsed sm validateUUID d attrs).objectID) = none ∧
              (sm.GenericError (componentDecoder.checked sm validateUUID d attrs).2 true
                "non-existent referenced object").1 = true) ∨
            (c.Object = none ∧
              ∃ res,
                sm.FindResource (componentDecoder.checked sm validateUUID d attrs).2
                  (componentDecoder.parsed sm validateUUID d attrs).path
                  (u32 (componentDecoder.parsed sm validateUUID d attrs).objectID) =
                  some res ∧
                asObject res = none ∧
                (sm.GenericError (componentDecoder.checked sm validateUUID d attrs).2 true
                  "non-object referenced resource").1 = true)))) ∧
    (∀ (registry : String → Nat → Option Resource) (namespaces : List String)
        (parseMatrix : String → Option Mat4) (d : componentDecoder Obj)
        (attrs : List XMLAttr),
      d.scanner.Strict = true →
      (componentDecoder.Attributes (specScanner registry namespaces parseMatrix) validateUUID
          asObject d attrs).2.resource = d.resource ∨
      ∃ c res o,
        (componentDecoder.Attributes (specScanner registry namespaces parseMatrix)
            validateUUID asObject d attrs).2.resource.Components =
          d.resource.Components ++ [c] ∧
        registry
            (componentDecoder.parsed (specScanner registry namespaces parseMatrix)
              validateUUID d attrs).path
            (u32 (componentDecoder.parsed (specScanner registry namespaces parseMatrix)
              validateUUID d attrs).objectID) = some res ∧
        asObject res = some o ∧ c.Object = some o) ∧
    (∀ (registry : String → Nat → Option Resource) (namespaces : List String)
        (parseMatrix : String → Option Mat4) (d : componentDecoder Obj)
        (attrs : List XMLAttr),
      d.scanner.Strict = false →
      (componentDecoder.attributesLoop (specScanner registry namespaces parseMatrix)
          validateUUID attrs d.scanner (componentVars.zero Obj)).1 = true →
      (componentDecoder.Attributes (specScanner registry namespaces parseMatrix) validateUUID
          asObject d attrs).1 = true ∧
      ∃ c,
        (componentDecoder.Attributes (specScanner registry namespaces parseMatrix)
            validateUUID asObject d attrs).2.resource.Components =
          d.resource.Components ++ [c] ∧
        c.Object =
          (registry
            (componentDecoder.parsed (specScanner registry namespaces parseMatrix)
              validateUUID d attrs).path
            (u32 (componentDecoder.parsed (specScanner registry namespaces parseMatrix)
              validateUUID d attrs).objectID)).bind asObject) := by
  refine ⟨?_, ?_, ?_⟩
  · intro sm d attrs
    rcases componentDecoder.Attributes_cases sm validateUUID asObject d attrs with
      h | ⟨h1, _, _, c, hc, hcases⟩
    · exact Or.inl h
    · exact Or.inr ⟨h1, c, hc, hcases⟩
  · intro registry namespaces parseMatrix d attrs hstrict
    have hloop := componentDecoder.attributesLoop_spec registry namespaces parseMatrix
      validateUUID attrs d.scanner (componentVars.zero Obj)
    have hpre := componentDecoder.precheck_spec registry namespaces parseMatrix
      (componentDecoder.attributesLoop (specScanner registry namespaces parseMatrix)
        validateUUID attrs d.scanner (componentVars.zero Obj)).2.1
      (componentDecoder.parsed (specScanner registry namespaces parseMatrix) validateUUID d
        attrs).component
      (componentDecoder.parsed (specScanner registry namespaces parseMatrix) validateUUID d
        attrs).path
    have hs2 : (componentDecoder.checked (specScanner registry namespaces parseMatrix)
        validateUUID d attrs).2.Strict = true := (hpre.1.trans hloop.1).trans hstrict
    rcases componentDecoder.Attributes_cases (specScanner registry namespaces parseMatrix)
        validateUUID asObject d attrs with h | ⟨_, _, _, c, hc, hcases⟩
    · exact Or.inl h.2
    · right
      rcases hcases with ⟨res, o, hf, ha, ho⟩ | ⟨_, _, hg⟩ | ⟨_, res, _, _, hg⟩
      · exact ⟨c, res, o, hc, hf, ha, ho⟩
      · rw [componentDecoder.GenericError_spec_strict registry namespaces parseMatrix _ _
          hs2] at hg
        cases hg
      · rw [componentDecoder.GenericError_spec_strict registry namespaces parseMatrix _ _
          hs2] at hg
        cases hg
  · intro registry namespaces parseMatrix d attrs hlenient hl
    have hloop := componentDecoder.attributesLoop_spec registry namespaces parseMatrix
      validateUUID attrs d.scanner (componentVars.zero Obj)
    have hpre := componentDecoder.precheck_spec registry namespaces parseMatrix
      (componentDecoder.attributesLoop (specScanner registry namespaces parseMatrix)
        validateUUID attrs d.scanner (componentVars.zero Obj)).2.1
      (componentDecoder.parsed (specScanner registry namespaces parseMatrix) validateUUID d
        attrs).component
      (componentDecoder.parsed (specScanner registry namespaces parseMatrix) validateUUID d
        attrs).path
    have hs1 : (componentDecoder.attributesLoop (specScanner registry namespaces parseMatrix)
        validateUUID attrs d.scanner (componentVars.zero Obj)).2.1.Strict = false :=
      hloop.1.trans hlenient
    have hck : (componentDecoder.checked (specScanner registry namespaces parseMatrix)
        validateUUID d attrs).1 = true := hpre.2.2.2.1 hs1
    have hs2 : (componentDecoder.checked (specScanner registry namespaces parseMatrix)
        validateUUID d attrs).2.Strict = false := hpre.1.trans hs1
    obtain ⟨r1, r2, _⟩ := (componentDecoder.resolve_spec registry namespaces parseMatrix
      asObject
      (componentDecoder.checked (specScanner registry namespaces parseMatrix) validateUUID d
        attrs).2
      (componentDecoder.parsed (specScanner registry namespaces parseMatrix) validateUUID d
        attrs).component
      (componentDecoder.parsed (specScanner registry namespaces parseMatrix) validateUUID d
        attrs).path
      (componentDecoder.parsed (specScanner registry namespaces parseMatrix) validateUUID d
        attrs).objectID
      (componentDecoder.parsed_object _ validateUUID d attrs)).2 hs2
    obtain ⟨a1, a2, _⟩ := componentDecoder.Attributes_resolved
      (specScanner registry namespaces parseMatrix) validateUUID asObject d attrs hl hck r1
    exact ⟨a1, _, a2, r2⟩

/-- C22 (counterexample): in lenient mode, a component element whose `objectid` is 7, which
the registry does not hold, and one whose `objectid` is 2, which is a texture and no
Object: each time `Attributes` returns true and the component list, empty before, holds
one component without Object afterwards; the scanner has recorded a warning and captured
no error. -/
theorem componentDecoder_lenient_unresolved :
    sampleRegistry "" 7 = none ∧
    (sampleRegistry "" 2).bind SampleResource.asObject = none ∧
    lenientComponentDecoder.scanner.Strict = false ∧
    lenientComponentDecoder.resource.Components.length = 0 ∧
    (componentDecoder.Attributes sampleScannerMethods sampleValidateUUID
      SampleResource.asObject lenientComponentDecoder [plainAttr "objectid" "7"]).1 = true ∧
    (componentDecoder.Attributes sampleScannerMethods sampleValidateUUID
      SampleResource.asObject lenientComponentDecoder [plainAttr "objectid" "7"]
      ).2.resource.Components.map (fun c => c.Object) = [none] ∧
    (componentDecoder.Attributes sampleScannerMethods sampleValidateUUID
      SampleResource.asObject lenientComponentDecoder [plainAttr "objectid" "7"]
      ).2.scanner.Warnings = [⟨"non-existent referenced object"⟩] ∧
    (componentDecoder.Attributes sampleScannerMethods sampleValidateUUID
      SampleResource.asObject lenientComponentDecoder [plainAttr "objectid" "7"]
      ).2.scanner.Err = none ∧
    (componentDecoder.Attributes sampleScannerMethods sampleValidateUUID
      SampleResource.asObject lenientComponentDecoder [plainAttr "objectid" "2"]).1 = true ∧
    (componentDecoder.Attributes sampleScannerMethods sampleValidateUUID
      SampleResource.asObject lenientComponentDecoder [plainAttr "objectid" "2"]
      ).2.resource.Components.map (fun c => c.Object) = [none] := by
  decide

/-- C23 (amended): for a component element with a non-empty path attribute inside a part
that is not the root part, `addComponent` hands the decision to `GenericError` of the
scanner (when the check for the UUID has passed). With the scanner as the spec describes
it: in strict mode `Attributes` returns false, the scanner has captured an error and the
component list is as it was; in lenient mode, once the attributes are read, the condition
is recorded as a warning, `Attributes` returns true and the component is appended, with the
Object found under the path and the object id if there is one. -/
theorem componentDecoder_Attributes_path_in_non_root {Resource Obj : Type}
    (validateUUID : String → Option GoError) (asObject : Resource → Option Obj) :
    (∀ (sm : ScannerMethods Resource) (s : Scanner) (component : go3mf.Component Obj)
        (path : String),
      (component.UUID ≠ "" ∨ sm.NamespaceRegistered s nsProductionSpec = false) →
      path ≠ "" → s.IsRoot = false →
      componentDecoder.precheck sm s component path =
        sm.GenericError s true "path attribute in a non-root file is not supported") ∧
    (∀ (registry : String → Nat → Option Resource) (namespaces : List String)
        (parseMatrix : String → Option Mat4) (d : componentDecoder Obj)
        (attrs : List XMLAttr),
      d.scanner.Strict = true → d.scanner.IsRoot = false → componentPath attrs ≠ "" →
      (componentDecoder.Attributes (specScanner registry namespaces parseMatrix) validateUUID
          asObject d attrs).1 = false ∧
      (componentDecoder.Attributes (specScanner registry namespaces parseMatrix) validateUUID
          asObject d attrs).2.resource = d.resource ∧
      (componentDecoder.Attributes (specScanner registry namespaces parseMatrix) validateUUID
          asObject d attrs).2.scanner.Err ≠ none) ∧
    (∀ (registry : String → Nat → Option Resource) (namespaces : List String)
        (parseMatrix : String → Option Mat4) (d : componentDecoder Obj)
        (attrs : List XMLAttr),
      d.scanner.Strict = false → d.scanner.IsRoot = false → componentPath attrs ≠ "" →
      (componentDecoder.attributesLoop (specScanner registry namespaces parseMatrix)
          validateUUID attrs d.scanner (componentVars.zero Obj)).1 = true →
      (componentDecoder.Attributes (specScanner registry namespaces parseMatrix) validateUUID
          asObject d attrs).1 = true ∧
      (∃ c,
        (componentDecoder.Attributes (specScanner registry namespaces parseMatrix)
            validateUUID asObject d attrs).2.resource.Components =
          d.resource.Components ++ [c] ∧
        c.Object =
          (registry (componentPath attrs)
            (u32 (componentDecoder.parsed (specScanner registry namespaces parseMatrix)
              validateUUID d attrs).objectID)).bind asObject) ∧
      (⟨"path attribute in a non-root file is not supported"⟩ : GoError) ∈
        (componentDecoder.Attributes (specScanner registry namespaces parseMatrix)
          validateUUID asObject d attrs).2.scanner.Warnings) := by
  refine ⟨?_, ?_, ?_⟩
  · intro sm s component path huuid hpath hroot
    have h1 : ¬ (component.UUID = "" ∧ sm.NamespaceRegistered s nsProductionSpec = true) := by
      rintro ⟨hu, hn⟩
      rcases huuid with h | h
      · exact h hu
      · rw [hn] at h
        cases h
    simp only [componentDecoder.precheck, if_neg h1]
    rw [if_pos ⟨trivial, hpath, hroot⟩]
  · intro registry namespaces parseMatrix d attrs hstrict hroot hpath
    obtain ⟨l1, l2, l3⟩ := componentDecoder.attributesLoop_spec registry namespaces
      parseMatrix validateUUID attrs d.scanner (componentVars.zero Obj)
    cases hl : (componentDecoder.attributesLoop (specScanner registry namespaces parseMatrix)
        validateUUID attrs d.scanner (componentVars.zero Obj)).1 with
    | false =>
      obtain ⟨a1, a2, a3⟩ := componentDecoder.Attributes_loop_false
        (specScanner registry namespaces parseMatrix) validateUUID asObject d attrs hl
      refine ⟨a1, a2, ?_⟩
      rw [a3]
      exact l3 hstrict hl
    | true =>
      have hpre := componentDecoder.precheck_spec registry namespaces parseMatrix
        (componentDecoder.attributesLoop (specScanner registry namespaces parseMatrix)
          validateUUID attrs d.scanner (componentVars.zero Obj)).2.1
        (componentDecoder.parsed (specScanner registry namespaces parseMatrix) validateUUID d
          attrs).component
        (componentDecoder.parsed (specScanner registry namespaces parseMatrix) validateUUID d
          attrs).path
      have hp : (componentDecoder.parsed (specScanner registry namespaces parseMatrix)
          validateUUID d attrs).path ≠ "" := by
        rw [componentDecoder.parsed_path _ validateUUID d attrs hl]
        exact hpath
      have hfalse := hpre.2.2.1 (l1.trans hstrict) hp (l2.trans hroot)
      have herr := hpre.2.1 (l1.trans hstrict) hfalse
      obtain ⟨a1, a2, a3⟩ := componentDecoder.Attributes_checked_false
        (specScanner registry namespaces parseMatrix) validateUUID asObject d attrs hl hfalse
      refine ⟨a1, a2, ?_⟩
      rw [a3]
      exact herr
  · intro registry namespaces parseMatrix d attrs hlenient hroot hpath hl
    obtain ⟨l1, l2, _⟩ := componentDecoder.attributesLoop_spec registry namespaces
      parseMatrix validateUUID attrs d.scanner (componentVars.zero Obj)
    have hpre := componentDecoder.precheck_spec registry namespaces parseMatrix
      (componentDecoder.attributesLoop (specScanner registry namespaces parseMatrix)
        validateUUID attrs d.scanner (componentVars.zero Obj)).2.1
      (componentDecoder.parsed (specScanner registry namespaces parseMatrix) validateUUID d
        attrs).component
      (componentDecoder.parsed (specScanner registry namespaces parseMatrix) validateUUID d
        attrs).path
    have hpp := componentDecoder.parsed_path (specScanner registry namespaces parseMatrix)
      validateUUID d attrs hl
    have hp : (componentDecoder.parsed (specScanner registry namespaces parseMatrix)
        validateUUID d attrs).path ≠ "" := by
      rw [hpp]
      exact hpath
    have hs1 := l1.trans hlenient
    have hck : (componentDecoder.checked (specScanner registry namespaces parseMatrix)
        validateUUID d attrs).1 = true := hpre.2.2.2.1 hs1
    have hs2 : (componentDecoder.checked (specScanner registry namespaces parseMatrix)
        validateUUID d attrs).2.Strict = false := hpre.1.trans hs1
    have hwarn := hpre.2.2.2.2 hs1 hp (l2.trans hroot)
    obtain ⟨r1, r2, r3⟩ := (componentDecoder.resolve_spec registry namespaces parseMatrix
      asObject
      (componentDecoder.checked (specScanner registry namespaces parseMatrix) validateUUID d
        attrs).2
      (componentDecoder.parsed (specScanner registry namespaces parseMatrix) validateUUID d
        attrs).component
      (componentDecoder.parsed (specScanner registry namespaces parseMatrix) validateUUID d
        attrs).path
      (componentDecoder.parsed (specScanner registry namespaces parseMatrix) validateUUID d
        attrs).objectID
      (componentDecoder.parsed_object _ validateUUID d attrs)).2 hs2
    obtain ⟨a1, a2, a3⟩ := componentDecoder.Attributes_resolved
      (specScanner registry namespaces parseMatrix) validateUUID asObject d attrs hl hck r1
    refine ⟨a1, ⟨_, a2, ?_⟩, ?_⟩
    · rw [r2, hpp]
    · rw [a3]
      exact r3 _ hwarn

/-- C23 (counterexample): in lenient mode, inside the part `/3D/other.model`, which is not
the root part, a component element with the path `/3D/other.model` and the object id 1:
`Attributes` returns true and the component list, empty before, holds the component with
the object 1 afterwards; the scanner has recorded a warning and captured no error. -/
theorem componentDecoder_lenient_path_in_non_root :
    lenientSecondaryComponentDecoder.scanner.IsRoot = false ∧
    lenientSecondaryComponentDecoder.scanner.Strict = false ∧
    lenientSecondaryComponentDecoder.resource.Components.length = 0 ∧
    componentPath [productionAttr "path" "/3D/other.model", plainAttr "objectid" "1"] =
      "/3D/other.model" ∧
    (componentDecoder.Attributes sampleScannerMethods sampleValidateUUID
      SampleResource.asObject lenientSecondaryComponentDecoder
      [productionAttr "path" "/3D/other.model", plainAttr "objectid" "1"]).1 = true ∧
    (componentDecoder.Attributes sampleScannerMethods sampleValidateUUID
      SampleResource.asObject lenientSecondaryComponentDecoder
      [productionAttr "path" "/3D/other.model", plainAttr "objectid" "1"]
      ).2.resource.Components.map (fun c => c.Object) = [some 1] ∧
    (componentDecoder.Attributes sampleScannerMethods sampleValidateUUID
      SampleResource.asObject lenientSecondaryComponentDecoder
      [productionAttr "path" "/3D/other.model", plainAttr "objectid" "1"]
      ).2.scanner.Warnings = [⟨"path attribute in a non-root file is not supported"⟩] ∧
    (componentDecoder.Attributes sampleScannerMethods sampleValidateUUID
      SampleResource.asObject lenientSecondaryComponentDecoder
      [productionAttr "path" "/3D/other.model", plainAttr "objectid" "1"]
      ).2.scanner.Err = none := by
  decide

end Go3mf

namespace Go3mf

/-! ## The values the attributes of a beam give -/

theorem lastPlainValue_cons (a : XMLAttr) (rest : List XMLAttr) (name : String) :
    lastPlainValue (a :: rest) name =
      (lastPlainValue rest name).or
        (if a.Name.Space = "" ∧ a.Name.Local = name then some a.Value else none) := by
  unfold lastPlainValue
  rw [List.reverse_cons, List.find?_append]
  cases rest.reverse.find? (fun a => a.Name.Space == "" && a.Name.Local == name) with
  | some b => rfl
  | none =>
    by_cases h : a.Name.Space = "" ∧ a.Name.Local = name
    · simp [h]
    · have h1 : (a.Name.Space == "" && a.Name.Local == name) = false := by
        simpa using h
      simp [List.find?, h1, h]

theorem lastPlainValue_none (attrs : List XMLAttr) (name : String)
    (h : ¬ hasPlainAttr attrs name) : lastPlainValue attrs name = none := by
  unfold lastPlainValue
  rw [Option.map_eq_none', List.find?_eq_none]
  intro a ha hp
  simp only [List.mem_reverse] at ha
  simp only [Bool.and_eq_true, beq_iff_eq] at hp
  exact h ⟨a, ha, hp⟩

namespace beamDecoder

theorem handleAttr_plain (ps : BeamParsers) (v : beamVars) (a : XMLAttr)
    (hs : a.Name.Space = "") :
    (a.Name.Local = attrV1 →
      handleAttr ps v a = ((ps.ParseUint a.Value).2, { v with v1 := (ps.ParseUint a.Value).1 })) ∧
    (a.Name.Local = attrV2 →
      handleAttr ps v a = ((ps.ParseUint a.Value).2, { v with v2 := (ps.ParseUint a.Value).1 })) ∧
    (a.Name.Local = attrR1 →
      handleAttr ps v a =
        ((ps.ParseFloat a.Value).2, { v with r1 := (ps.ParseFloat a.Value).1 })) ∧
    (a.Name.Local = attrR2 →
      handleAttr ps v a =
        ((ps.ParseFloat a.Value).2, { v with r2 := (ps.ParseFloat a.Value).1 })) := by
  refine ⟨fun hl => ?_, fun hl => ?_, fun hl => ?_, fun hl => ?_⟩
  · unfold handleAttr
    rw [if_neg (not_not.mpr hs), if_pos hl]
  · have h1 : ¬ a.Name.Local = attrV1 := by rw [hl]; decide
    unfold handleAttr
    rw [if_neg (not_not.mpr hs), if_neg h1, if_pos hl]
  · have h1 : ¬ a.Name.Local = attrV1 := by rw [hl]; decide
    have h2 : ¬ a.Name.Local = attrV2 := by rw [hl]; decide
    unfold handleAttr
    rw [if_neg (not_not.mpr hs), if_neg h1, if_neg h2, if_pos hl]
  · have h1 : ¬ a.Name.Local = attrV1 := by rw [hl]; decide
    have h2 : ¬ a.Name.Local = attrV2 := by rw [hl]; decide
    have h3 : ¬ a.Name.Local = attrR1 := by rw [hl]; decide
    unfold handleAttr
    rw [if_neg (not_not.mpr hs), if_neg h1, if_neg h2, if_neg h3, if_pos hl]

theorem handleAttr_failure (ps : BeamParsers) (v : beamVars) (a : XMLAttr) (err : GoError)
    (h : beamParseFailure ps a err) : (handleAttr ps v a).1 = some err := by
  obtain ⟨hs, hcases⟩ := h
  obtain ⟨p1, p2, p3, p4⟩ := handleAttr_plain ps v a hs
  rcases hcases with ⟨hl | hl, he⟩ | ⟨hl | hl, he⟩
  · rw [p1 hl]; exact he
  · rw [p2 hl]; exact he
  · rw [p3 hl]; exact he
  · rw [p4 hl]; exact he

theorem attributesLoop_failure (ps : BeamParsers) (attrs : List XMLAttr) :
    ∀ v : beamVars, (∃ a ∈ attrs, ∃ err, beamParseFailure ps a err) →
      ∃ err, (attributesLoop ps attrs v).1 = some err := by
  induction attrs with
  | nil => intro v ⟨a, ha, _⟩; cases ha
  | cons a rest ih =>
    intro v ⟨b, hb, err, hfail⟩
    simp only [attributesLoop]
    rcases hstep : handleAttr ps v a with ⟨e, v1⟩
    cases e with
    | some e0 => exact ⟨e0, rfl⟩
    | none =>
      rcases List.mem_cons.mp hb with heq | hmem
      · subst heq
        have := handleAttr_failure ps v b err hfail
        rw [hstep] at this
        cases this
      · exact ih v1 ⟨b, hmem, err, hfail⟩

/-- The value of each numeric variable after one attribute. -/
theorem handleAttr_values (ps : BeamParsers) (v : beamVars) (a : XMLAttr) :
    (handleAttr ps v a).2.v1 =
      (if a.Name.Space = "" ∧ a.Name.Local = attrV1 then (ps.ParseUint a.Value).1 else v.v1) ∧
    (handleAttr ps v a).2.v2 =
      (if a.Name.Space = "" ∧ a.Name.Local = attrV2 then (ps.ParseUint a.Value).1 else v.v2) ∧
    (handleAttr ps v a).2.r1 =
      (if a.Name.Space = "" ∧ a.Name.Local = attrR1 then (ps.ParseFloat a.Value).1 else v.r1) ∧
    (handleAttr ps v a).2.r2 =
      (if a.Name.Space = "" ∧ a.Name.Local = attrR2 then (ps.ParseFloat a.Value).1
        else v.r2) := by
  obtain ⟨f1, f2, f3, f4, _, _⟩ := beam_handleAttr_frame ps v a
  refine ⟨?_, ?_, ?_, ?_⟩
  · by_cases h : a.Name.Space = "" ∧ a.Name.Local = attrV1
    · rw [if_pos h, (handleAttr_plain ps v a h.1).1 h.2]
    · rw [if_neg h, f1 h]
  · by_cases h : a.Name.Space = "" ∧ a.Name.Local = attrV2
    · rw [if_pos h, (handleAttr_plain ps v a h.1).2.1 h.2]
    · rw [if_neg h, f2 h]
  · by_cases h : a.Name.Space = "" ∧ a.Name.Local = attrR1
    · rw [if_pos h, (handleAttr_plain ps v a h.1).2.2.1 h.2]
    · rw [if_neg h, f3 h]
  · by_cases h : a.Name.Space = "" ∧ a.Name.Local = attrR2
    · rw [if_pos h, (handleAttr_plain ps v a h.1).2.2.2 h.2]
    · rw [if_neg h, f4 h]

/-- After a loop that ends without error each numeric variable holds what the last
attribute of its name gave, or the value it had when the element has no such attribute. -/
theorem attributesLoop_values (ps : BeamParsers) (attrs : List XMLAttr) :
    ∀ v : beamVars, (attributesLoop ps attrs v).1 = none →
      (attributesLoop ps attrs v).2.v1 =
        ((lastPlainValue attrs attrV1).map (fun s => (ps.ParseUint s).1)).getD v.v1 ∧
      (attributesLoop ps attrs v).2.v2 =
        ((lastPlainValue attrs attrV2).map (fun s => (ps.ParseUint s).1)).getD v.v2 ∧
      (attributesLoop ps attrs v).2.r1 =
        ((lastPlainValue attrs attrR1).map (fun s => (ps.ParseFloat s).1)).getD v.r1 ∧
      (attributesLoop ps attrs v).2.r2 =
        ((lastPlainValue attrs attrR2).map (fun s => (ps.ParseFloat s).1)).getD v.r2 := by
  induction attrs with
  | nil => intro v _; exact ⟨rfl, rfl, rfl, rfl⟩
  | cons a rest ih =>
    intro v h
    have hv := handleAttr_values ps v a
    simp only [attributesLoop] at h ⊢
    rcases hstep : handleAttr ps v a with ⟨e, v1⟩
    rw [hstep] at h hv
    simp only at hv
    cases e with
    | some e0 => cases h
    | none =>
      simp only at h ⊢
      obtain ⟨i1, i2, i3, i4⟩ := ih v1 h
      obtain ⟨k1, k2, k3, k4⟩ := hv
      simp only [lastPlainValue_cons]
      refine ⟨?_, ?_, ?_, ?_⟩
      · rw [i1, k1]
        cases lastPlainValue rest attrV1 <;> split_ifs <;> rfl
      · rw [i2, k2]
        cases lastPlainValue rest attrV2 <;> split_ifs <;> rfl
      · rw [i3, k3]
        cases lastPlainValue rest attrR1 <;> split_ifs <;> rfl
      · rw [i4, k4]
        cases lastPlainValue rest attrR2 <;> split_ifs <;> rfl

end beamDecoder

end Go3mf

namespace Go3mf

theorem lastPlainValue_mem (attrs : List XMLAttr) (name value : String)
    (h : lastPlainValue attrs name = some value) :
    ∃ a ∈ attrs, a.Name.Space = "" ∧ a.Name.Local = name ∧ a.Value = value := by
  unfold lastPlainValue at h
  rw [Option.map_eq_some'] at h
  obtain ⟨a, hfind, hval⟩ := h
  have hp := List.find?_some hfind
  have hm := List.mem_of_find?_eq_some hfind
  simp only [Bool.and_eq_true, beq_iff_eq] at hp
  exact ⟨a, List.mem_reverse.mp hm, hp.1, hp.2, hval⟩

/-! ## Claims on the error and the radii of a beam -/

/-- C31: `beamDecoder.Attributes` returns an error if and only if one of the attributes
`v1`, `v2`, `r1`, `r2` without namespace that the element carries fails to parse; the error
is the parse error of such an attribute and the decoder, `mesh.Beams` included, is left as
it was. Otherwise exactly one beam is appended after the beams held before, and its
`NodeIndices` are the values of the last `v1` and of the last `v2` attribute (0 for an
absent one), converted to `uint32`, which changes nothing when `strconv.ParseUint` keeps
to 32 bits. -/
theorem beamDecoder_Attributes_error_iff {R : Type} (ps : BeamParsers) (d : beamDecoder R)
    (attrs : List XMLAttr) :
    ((∃ err, (beamDecoder.Attributes ps d attrs).1 = some err) ↔
      ∃ a ∈ attrs, ∃ err, beamParseFailure ps a err) ∧
    (∀ err, (beamDecoder.Attributes ps d attrs).1 = some err →
      (∃ a ∈ attrs, beamParseFailure ps a err) ∧ (beamDecoder.Attributes ps d attrs).2 = d) ∧
    ((beamDecoder.Attributes ps d attrs).1 = none →
      ∃ b : mesh.Beam,
        (beamDecoder.Attributes ps d attrs).2.mesh = { d.mesh with Beams := d.mesh.Beams ++ [b] } ∧
        b.NodeIndices =
          (u32 (((lastPlainValue attrs attrV1).map (fun s => (ps.ParseUint s).1)).getD 0),
            u32 (((lastPlainValue attrs attrV2).map (fun s => (ps.ParseUint s).1)).getD 0)) ∧
        ((∀ s, (ps.ParseUint s).2 = none → (ps.ParseUint s).1 < 4294967296) →
          b.NodeIndices =
            (((lastPlainValue attrs attrV1).map (fun s => (ps.ParseUint s).1)).getD 0,
              ((lastPlainValue attrs attrV2).map (fun s => (ps.ParseUint s).1)).getD 0))) := by
  have herr : ∀ err, (beamDecoder.Attributes ps d attrs).1 = some err →
      (∃ a ∈ attrs, beamParseFailure ps a err) ∧ (beamDecoder.Attributes ps d attrs).2 = d := by
    intro err h
    cases hl : (beamDecoder.attributesLoop ps attrs beamVars.zero).1 with
    | none =>
      rw [(beamDecoder.beam_Attributes_eq ps d attrs).1 hl] at h
      cases h
    | some e0 =>
      have heq := (beamDecoder.beam_Attributes_eq ps d attrs).2 e0 hl
      rw [heq] at h ⊢
      simp only [Option.some.injEq] at h
      subst h
      exact ⟨beamDecoder.attributesLoop_error ps attrs beamVars.zero
        (beamDecoder.attributesLoop ps attrs beamVars.zero).2 e0 (by rw [← hl]), rfl⟩
  refine ⟨⟨?_, ?_⟩, herr, ?_⟩
  · rintro ⟨err, h⟩
    obtain ⟨⟨a, ha, hfail⟩, _⟩ := herr err h
    exact ⟨a, ha, err, hfail⟩
  · intro hfail
    obtain ⟨err, hl⟩ := beamDecoder.attributesLoop_failure ps attrs beamVars.zero hfail
    exact ⟨err, by rw [(beamDecoder.beam_Attributes_eq ps d attrs).2 err hl]⟩
  · intro h
    have hl := beamDecoder.Attributes_none ps d attrs h
    obtain ⟨e1, e2, _, _⟩ := beamDecoder.attributesLoop_values ps attrs beamVars.zero hl
    have hidx : (beamDecoder.newBeam d.mesh
        (beamDecoder.attributesLoop ps attrs beamVars.zero).2).NodeIndices =
        (u32 (((lastPlainValue attrs attrV1).map (fun s => (ps.ParseUint s).1)).getD 0),
          u32 (((lastPlainValue attrs attrV2).map (fun s => (ps.ParseUint s).1)).getD 0)) := by
      simp only [beamDecoder.newBeam, e1, e2]
      rfl
    refine ⟨beamDecoder.newBeam d.mesh (beamDecoder.attributesLoop ps attrs beamVars.zero).2,
      by rw [(beamDecoder.beam_Attributes_eq ps d attrs).1 hl], hidx, ?_⟩
    intro hrange
    rw [hidx]
    have hsmall : ∀ name, (name = attrV1 ∨ name = attrV2) →
        ((lastPlainValue attrs name).map (fun s => (ps.ParseUint s).1)).getD 0 < 4294967296 := by
      intro name hname
      cases hv : lastPlainValue attrs name with
      | none => simp
      | some s =>
        simp only [Option.map_some', Option.getD_some]
        apply hrange
        obtain ⟨a, ha, hs, hn, hval⟩ := lastPlainValue_mem attrs name s hv
        cases hp : (ps.ParseUint s).2 with
        | none => rfl
        | some err =>
          exfalso
          have hfail : beamParseFailure ps a err :=
            ⟨hs, Or.inl ⟨by rw [hn]; exact hname, by rw [hval]; exact hp⟩⟩
          obtain ⟨e0, he0⟩ := beamDecoder.attributesLoop_failure ps attrs beamVars.zero
            ⟨a, ha, err, hfail⟩
          rw [hl] at he0
          cases he0
    have h1 := hsmall attrV1 (Or.inl rfl)
    have h2 := hsmall attrV2 (Or.inr rfl)
    simp only [u32, Nat.mod_eq_of_lt h1, Nat.mod_eq_of_lt h2]

/-- C32: for every beam element whose attributes parse (`Attributes` returns nil) one beam
is appended, and its radii are these: the first radius is the value of the last `r1`
attribute when that value is not zero, and the `DefaultRadius` of the mesh when `r1` is
absent or zero; the second radius is the value of the last `r2` attribute when that value
is not zero, and the first radius as stored when `r2` is absent or zero. -/
theorem beamDecoder_Attributes_radii {R : Type} (ps : BeamParsers) (d : beamDecoder R)
    (attrs : List XMLAttr) (h : (beamDecoder.Attributes ps d attrs).1 = none) :
    ∃ b : mesh.Beam,
      (beamDecoder.Attributes ps d attrs).2.mesh.Beams = d.mesh.Beams ++ [b] ∧
      (lastPlainValue attrs attrR1 = none → b.Radius.1 = d.mesh.DefaultRadius) ∧
      (∀ s, lastPlainValue attrs attrR1 = some s →
        b.Radius.1 =
          if f64IsZero (ps.ParseFloat s).1 then d.mesh.DefaultRadius else (ps.ParseFloat s).1) ∧
      (lastPlainValue attrs attrR2 = none → b.Radius.2 = b.Radius.1) ∧
      (∀ s, lastPlainValue attrs attrR2 = some s →
        b.Radius.2 = if f64IsZero (ps.ParseFloat s).1 then b.Radius.1 else (ps.ParseFloat s).1) ∧
      (¬ hasPlainAttr attrs attrR1 → lastPlainValue attrs attrR1 = none) ∧
      (¬ hasPlainAttr attrs attrR2 → lastPlainValue attrs attrR2 = none) := by
  have hl := beamDecoder.Attributes_none ps d attrs h
  obtain ⟨_, _, e3, e4⟩ := beamDecoder.attributesLoop_values ps attrs beamVars.zero hl
  refine ⟨beamDecoder.newBeam d.mesh (beamDecoder.attributesLoop ps attrs beamVars.zero).2,
    by rw [(beamDecoder.beam_Attributes_eq ps d attrs).1 hl], ?_, ?_, ?_, ?_,
    lastPlainValue_none attrs attrR1, lastPlainValue_none attrs attrR2⟩
  · intro hn
    rw [hn] at e3
    have e : (beamDecoder.attributesLoop ps attrs beamVars.zero).2.r1 = 0 := e3
    simp [beamDecoder.newBeam, e, f64IsZero]
  · intro s hs
    rw [hs] at e3
    have e : (beamDecoder.attributesLoop ps attrs beamVars.zero).2.r1 = (ps.ParseFloat s).1 := e3
    simp only [beamDecoder.newBeam, e]
  · intro hn
    rw [hn] at e4
    have e : (beamDecoder.attributesLoop ps attrs beamVars.zero).2.r2 = 0 := e4
    simp [beamDecoder.newBeam, e, f64IsZero]
  · intro s hs
    rw [hs] at e4
    have e : (beamDecoder.attributesLoop ps attrs beamVars.zero).2.r2 = (ps.ParseFloat s).1 := e4
    simp only [beamDecoder.newBeam, e]

/-- Witness of `beamDecoder_Attributes_radii`: a beam with `r1="2"` and `r2="0"` on the mesh
with default radius `1.0` gets the radii `2.0` and `2.0`; a beam with `r1="0"` and `r2="2"`
gets the radii `1.0` and `2.0`. -/
theorem beamDecoder_Attributes_radii_witness :
    (beamDecoder.Attributes sampleParsers sampleBeamDecoder
      [plainAttr "v1" "0", plainAttr "v2" "1", plainAttr "r1" "2", plainAttr "r2" "0"]).1 =
      none ∧
    (∃ b : mesh.Beam,
      (beamDecoder.Attributes sampleParsers sampleBeamDecoder
        [plainAttr "v1" "0", plainAttr "v2" "1", plainAttr "r1" "2", plainAttr "r2" "0"]
        ).2.mesh.Beams = [b] ∧
      b.Radius.1 = 4611686018427387904 ∧ b.Radius.2 = b.Radius.1) ∧
    (beamDecoder.Attributes sampleParsers sampleBeamDecoder
      [plainAttr "v1" "0", plainAttr "v2" "1", plainAttr "r1" "0", plainAttr "r2" "2"]
      ).2.mesh.Beams =
      [{ NodeIndices := (0, 1), Radius := (4607182418800017408, 4611686018427387904)
         CapMode := (2, 2) }] :=
  have h := beamDecoder_Attributes_radii sampleParsers sampleBeamDecoder
    [plainAttr "v1" "0", plainAttr "v2" "1", plainAttr "r1" "2", plainAttr "r2" "0"]
    (by decide)
  ⟨by decide,
    ⟨h.choose, h.choose_spec.1, h.choose_spec.2.2.1 "2" (by decide),
      h.choose_spec.2.2.2.2.1 "0" (by decide)⟩,
    by decide⟩

/-! ## `clear` and the dedup index -/

/-- C34 (the code as it is): on an empty node structure with a dedup index, `AddNode` of
the origin, then `clear()`, then `AddNode` of the origin again: after `clear()` the
structure has zero nodes, the dedup lookup of the origin still returns the index 0, which is
not smaller than `NodeCount`, and the second `AddNode` reads `nodes[0]` out of range and
panics; with another position the `AddNode` after `clear()` does return a node with
`Index` 0. -/
theorem AddNode_after_clear_out_of_range :
    ((emptyNodes true 0).AddNode originPosition).1 =
      .ok { Index := 0, Position := originPosition } ∧
    ((emptyNodes true 0).AddNode originPosition).2.clear.NodeCount = 0 ∧
    ((emptyNodes true 0).AddNode originPosition).2.clear.lookup originPosition = some 0 ∧
    (((emptyNodes true 0).AddNode originPosition).2.clear.AddNode originPosition).1 =
      .error Panic.IndexOutOfRange ∧
    (((emptyNodes true 0).AddNode originPosition).2.clear.AddNode unitPosition).1 =
      .ok { Index := 0, Position := unitPosition } :=
  ⟨rfl, rfl, rfl, rfl, rfl⟩

end Go3mf

namespace Go3mf

/-! ## The beam set decoders -/

theorem Option_or_getD {α : Type} (l : Option α) (p : Prop) [Decidable p] (v x : α) :
    (l.or (if p then some v else none)).getD x = l.getD (if p then v else x) := by
  cases l with
  | some b => rfl
  | none =>
    by_cases hp : p
    · simp [hp]
    · simp [hp]

namespace beamSetDecoder

variable {R : Type}

theorem handleAttr_fields (d : beamSetDecoder R) (a : XMLAttr) :
    (d.handleAttr a).r = d.r ∧ (d.handleAttr a).mesh = d.mesh ∧
    (d.handleAttr a).refTarget = d.refTarget ∧
    (d.handleAttr a).beamSet.Refs = d.beamSet.Refs ∧
    (d.handleAttr a).beamSet.Name =
      (if a.Name.Space = "" ∧ a.Name.Local = attrName then a.Value else d.beamSet.Name) ∧
    (d.handleAttr a).beamSet.Identifier =
      (if a.Name.Space = "" ∧ a.Name.Local = attrIdentifier then a.Value
        else d.beamSet.Identifier) := by
  have hne : attrName ≠ attrIdentifier := by decide
  have hne2 : attrIdentifier ≠ attrName := by decide
  unfold handleAttr
  by_cases hs : a.Name.Space = ""
  · by_cases hn : a.Name.Local = attrName
    · simp [hs, hn, hne]
    · by_cases hi : a.Name.Local = attrIdentifier
      · simp [hs, hi, hne2]
      · simp [hs, hn, hi]
  · simp [hs]

theorem Attributes_fields (attrs : List XMLAttr) (d : beamSetDecoder R) :
    (d.Attributes attrs).r = d.r ∧ (d.Attributes attrs).mesh = d.mesh ∧
    (d.Attributes attrs).refTarget = d.refTarget ∧
    (d.Attributes attrs).beamSet.Refs = d.beamSet.Refs ∧
    (d.Attributes attrs).beamSet.Name = (lastPlainValue attrs attrName).getD d.beamSet.Name ∧
    (d.Attributes attrs).beamSet.Identifier =
      (lastPlainValue attrs attrIdentifier).getD d.beamSet.Identifier := by
  induction attrs generalizing d with
  | nil => exact ⟨rfl, rfl, rfl, rfl, rfl, rfl⟩
  | cons a rest ih =>
    obtain ⟨h1, h2, h3, h4, h5, h6⟩ := ih (d.handleAttr a)
    obtain ⟨g1, g2, g3, g4, g5, g6⟩ := handleAttr_fields d a
    have e : d.Attributes (a :: rest) = (d.handleAttr a).Attributes rest := rfl
    rw [e, lastPlainValue_cons, lastPlainValue_cons, Option_or_getD, Option_or_getD]
    exact ⟨h1.trans g1, h2.trans g2, h3.trans g3, h4.trans g4, by rw [h5, g5], by rw [h6, g6]⟩

end beamSetDecoder

namespace beamRefDecoder

variable {R : Type}

theorem index_value (ps : BeamParsers) (attrs : List XMLAttr) (value : String)
    (h : firstPlainValue attrs attrIndex = some value) : index ps attrs = ps.ParseUint value := by
  unfold index
  rw [h]

theorem Attributes_ok (ps : BeamParsers) (d : beamSetDecoder R) (attrs : List XMLAttr)
    (ht : d.refTarget = true) (h : (index ps attrs).2 = none) :
    Attributes ps d attrs =
      (.ok none,
        { d with
          beamSet :=
            { d.beamSet with Refs := d.beamSet.Refs ++ [u32 (index ps attrs).1] } }) := by
  unfold Attributes
  rw [h]
  simp only [ht, if_true]

theorem Attributes_parse_error (ps : BeamParsers) (d : beamSetDecoder R)
    (attrs : List XMLAttr) (err : GoError) (h : (index ps attrs).2 = some err) :
    Attributes ps d attrs = (.ok (some err), d) := by
  unfold Attributes
  rw [h]

theorem AttributesAll_ok (ps : BeamParsers) (refs : List (List XMLAttr))
    (d : beamSetDecoder R) (ht : d.refTarget = true)
    (h : ∀ ra ∈ refs, (index ps ra).2 = none) :
    AttributesAll ps refs d =
      (.ok none,
        { d with
          beamSet :=
            { d.beamSet with
              Refs := d.beamSet.Refs ++ refs.map (fun ra => u32 (index ps ra).1) } }) := by
  induction refs generalizing d with
  | nil => simp [AttributesAll]
  | cons ra rest ih =>
    have h0 := Attributes_ok ps d ra ht (h ra (List.mem_cons_self _ _))
    have e : AttributesAll ps (ra :: rest) d =
        AttributesAll ps rest
          { d with
            beamSet := { d.beamSet with Refs := d.beamSet.Refs ++ [u32 (index ps ra).1] } } := by
      simp only [AttributesAll, h0]
    rw [e, ih]
    · simp [List.append_assoc]
    · exact ht
    · exact fun r hr => h r (List.mem_cons_of_mem _ hr)

end beamRefDecoder

/-- C33: for a `beamset` element whose `ref` children (with the attribute lists `refs`, in
document order) each carry an attribute `index` that parses, the calls made for the element
return without error and leave the mesh with exactly one beam set appended after the beam
sets held before; it carries the name and the identifier of the element (the empty string
for an absent one) and, as `Refs`, the indices of the `ref` children in document order, one
for each child, each the value `strconv.ParseUint` gives for its `index` attribute. For a
`ref` whose first `index` attribute fails to parse, `Attributes` of the `beamRefDecoder`
returns that error and leaves the beam set as it was. -/
theorem beamSetsDecoder_decodeBeamSet_appends {R : Type} (ps : BeamParsers)
    (parent : beamSetsDecoder R) (attrs : List XMLAttr) (refs : List (List XMLAttr))
    (hvalid : ∀ ra ∈ refs,
      ∃ value, firstPlainValue ra attrIndex = some value ∧ (ps.ParseUint value).2 = none) :
    beamSetsDecoder.decodeBeamSet ps parent beamSetName attrs refs =
      (.ok none,
        { parent.mesh with
          BeamSets := parent.mesh.BeamSets ++
            [{ Name := (lastPlainValue attrs attrName).getD ""
               Identifier := (lastPlainValue attrs attrIdentifier).getD ""
               Refs := refs.map (fun ra => u32 (beamRefDecoder.index ps ra).1) }] }) ∧
    (refs.map (fun ra => u32 (beamRefDecoder.index ps ra).1)).length = refs.length ∧
    (∀ ra value, firstPlainValue ra attrIndex = some value →
      beamRefDecoder.index ps ra = ps.ParseUint value) ∧
    ((∀ s, (ps.ParseUint s).2 = none → (ps.ParseUint s).1 < 4294967296) →
      refs.map (fun ra => u32 (beamRefDecoder.index ps ra).1) =
        refs.map (fun ra => (beamRefDecoder.index ps ra).1)) ∧
    (∀ (d : beamSetDecoder R) ra value err, firstPlainValue ra attrIndex = some value →
      (ps.ParseUint value).2 = some err →
      beamRefDecoder.Attributes ps d ra = (.ok (some err), d)) := by
  have hidx : ∀ ra ∈ refs, (beamRefDecoder.index ps ra).2 = none := by
    intro ra hra
    obtain ⟨value, hv, hp⟩ := hvalid ra hra
    rw [beamRefDecoder.index_value ps ra value hv]
    exact hp
  refine ⟨?_, List.length_map _ _, fun ra value hv => beamRefDecoder.index_value ps ra value hv,
    ?_, ?_⟩
  · have hc : parent.Child beamSetName =
        some
          { r := parent.r, mesh := parent.mesh
            beamSet := { Name := "", Identifier := "", Refs := [] }, refTarget := false } := by
      unfold beamSetsDecoder.Child
      rw [if_pos ⟨rfl, rfl⟩]
    obtain ⟨d0, hd0⟩ : ∃ d0 : beamSetDecoder R, d0 =
        beamSetDecoder.Attributes
          (beamSetDecoder.Open
            { r := parent.r, mesh := parent.mesh
              beamSet := { Name := "", Identifier := "", Refs := [] }, refTarget := false })
          attrs := ⟨_, rfl⟩
    obtain ⟨_, g2, g3, g4, g5, g6⟩ := beamSetDecoder.Attributes_fields attrs
      (beamSetDecoder.Open
        ({ r := parent.r, mesh := parent.mesh
           beamSet := { Name := "", Identifier := "", Refs := [] }
           refTarget := false } : beamSetDecoder R))
    rw [← hd0] at g2 g3 g4 g5 g6
    have f2 : d0.mesh = parent.mesh := g2
    have f3 : d0.refTarget = true := g3
    have f4 : d0.beamSet.Refs = [] := g4
    have f5 : d0.beamSet.Name = (lastPlainValue attrs attrName).getD "" := g5
    have f6 : d0.beamSet.Identifier = (lastPlainValue attrs attrIdentifier).getD "" := g6
    have hall := beamRefDecoder.AttributesAll_ok ps refs d0 f3 hidx
    unfold beamSetsDecoder.decodeBeamSet
    rw [hc]
    simp only [← hd0, hall, beamSetDecoder.Close, f2, f4, f5, f6, List.nil_append]
  · intro hrange
    apply List.map_congr_left
    intro ra hra
    obtain ⟨value, hv, hp⟩ := hvalid ra hra
    show u32 _ = _
    rw [beamRefDecoder.index_value ps ra value hv]
    exact Nat.mod_eq_of_lt (hrange value hp)
  · intro d ra value err hv hp
    apply beamRefDecoder.Attributes_parse_error
    rw [beamRefDecoder.index_value ps ra value hv]
    exact hp

/-- Witness of `beamSetsDecoder_decodeBeamSet_appends`: a `beamset` element with the name
`"a"`, the identifier `"b"` and two `ref` children with the indices 2 and 0 appends the
beam set with these and the references 2, 0; with a `ref` whose index is `"x"` the calls
end with the error of `strconv.ParseUint` and no beam set is appended. -/
theorem beamSetsDecoder_decodeBeamSet_appends_witness :
    (∀ ra ∈ [[plainAttr "index" "2"], [plainAttr "index" "0"]],
      ∃ value, firstPlainValue ra attrIndex = some value ∧
        (sampleParsers.ParseUint value).2 = none) ∧
    beamSetsDecoder.decodeBeamSet sampleParsers sampleBeamSetsDecoder beamSetName
      [plainAttr "name" "a", plainAttr "identifier" "b"]
      [[plainAttr "index" "2"], [plainAttr "index" "0"]] =
      (.ok none,
        { sampleBeamMesh with BeamSets := [{ Name := "a", Identifier := "b", Refs := [2, 0] }] }) ∧
    beamSetsDecoder.decodeBeamSet sampleParsers sampleBeamSetsDecoder beamSetName
      [plainAttr "name" "a", plainAttr "identifier" "b"]
      [[plainAttr "index" "2"], [plainAttr "index" "x"]] =
      (.ok (some ⟨"invalid syntax"⟩), sampleBeamMesh) :=
  have hv : ∀ ra ∈ [[plainAttr "index" "2"], [plainAttr "index" "0"]],
      ∃ value, firstPlainValue ra attrIndex = some value ∧
        (sampleParsers.ParseUint value).2 = none := by
    intro ra hra
    simp only [List.mem_cons, List.mem_singleton, List.not_mem_nil, or_false] at hra
    rcases hra with h | h
    · subst h
      exact ⟨"2", by decide, by decide⟩
    · subst h
      exact ⟨"0", by decide, by decide⟩
  ⟨hv,
    (beamSetsDecoder_decodeBeamSet_appends sampleParsers sampleBeamSetsDecoder
      [plainAttr "name" "a", plainAttr "identifier" "b"]
      [[plainAttr "index" "2"], [plainAttr "index" "0"]] hv).1.trans rfl,
    rfl⟩

end Go3mf

namespace Go3mf

variable {D δ : Type}

/-! ## The cancellation check is made -/

theorem checkStep_spec (ctx : Context) (c : Int) (err : Option GoError) (s0 : LoopState D δ)
    (off : Int) (hoff : s0.x.offset = off) :
    (off > s0.nextBytesCheck →
      (afterStep (match cancelCheck ctx c err s0 with
        | (some e, s2) => .inl (finishDecode e s2)
        | (none, s2) => .inr s2)).checks =
        s0.checks ++ [{ offset := off, threshold := s0.nextBytesCheck,
                         signalled := ctx.done s0.checks.length }] ∧
      (afterStep (match cancelCheck ctx c err s0 with
        | (some e, s2) => .inl (finishDecode e s2)
        | (none, s2) => .inr s2)).nextBytesCheck = i64 (s0.nextBytesCheck + c) ∧
      (ctx.done s0.checks.length = true →
        ∃ r : DecodeResult D δ,
          (match cancelCheck ctx c err s0 with
            | (some e, s2) => .inl (finishDecode e s2)
            | (none, s2) => .inr s2) = Sum.inl r ∧
          r.err = .ok (some ctx.err.toError) ∧ r.final.x.tokens = s0.x.tokens)) ∧
    (¬ off > s0.nextBytesCheck →
      (afterStep (match cancelCheck ctx c err s0 with
        | (some e, s2) => .inl (finishDecode e s2)
        | (none, s2) => .inr s2)).checks = s0.checks ∧
      (afterStep (match cancelCheck ctx c err s0 with
        | (some e, s2) => .inl (finishDecode e s2)
        | (none, s2) => .inr s2)).nextBytesCheck = s0.nextBytesCheck) := by
  have hio : s0.x.InputOffset = off := hoff
  rcases cancelCheck_eq ctx c err s0 with ⟨hle, hcc⟩ | ⟨hgt, hcc⟩
  · rw [hio] at hle
    refine ⟨fun h => absurd h hle, fun _ => ?_⟩
    rw [hcc]
    cases err with
    | none => exact ⟨rfl, rfl⟩
    | some e => exact ⟨rfl, rfl⟩
  · rw [hio] at hgt
    refine ⟨fun _ => ?_, fun h => absurd hgt h⟩
    rw [hcc, hio]
    cases hd : ctx.done s0.checks.length with
    | true =>
      simp only [if_true]
      exact ⟨rfl, rfl, fun _ => ⟨_, rfl, finishDecode_context _ _, rfl⟩⟩
    | false =>
      simp only [Bool.false_eq_true, if_false]
      cases err with
      | none => exact ⟨rfl, rfl, fun h => by cases h⟩
      | some e => exact ⟨rfl, rfl, fun h => by cases h⟩

theorem LoopState.popPanics_eq_false (cb : ElementDecoders D δ) (s : LoopState D δ)
    (name : XMLName) (hn : s.currentName = name) (st2 : DecodeState δ)
    (hc : s.currentDecoder.Close cb (s.st.setElement name.Local) = (true, st2))
    (h : s.popPanics cb name = false) :
    ∃ d state n names, s.state = d :: state ∧ s.names = n :: names := by
  unfold LoopState.popPanics at h
  rw [hc] at h
  simp only [hn, decide_True, Bool.true_and, Bool.or_eq_false_iff] at h
  obtain ⟨h1, h2⟩ := h
  cases hs : s.state with
  | nil => rw [hs] at h1; cases h1
  | cons d state =>
    cases hns : s.names with
    | nil => rw [hns] at h2; cases h2
    | cons n names => exact ⟨d, state, n, names, rfl, rfl⟩

/-- One iteration on an end element: it panics on the empty stack without a check, or it ends
with the cancellation check, which is made exactly when the offset exceeds the threshold. -/
theorem decodeStep_end_check (cb : ElementDecoders D δ) (ctx : Context) (c : Int)
    (s : LoopState D δ) (name : XMLName) (off : Int) (rest : List (XMLToken × Int))
    (h : s.x.tokens = (XMLToken.EndElement name, off) :: rest) :
    (s.popPanics cb name = true →
      ∃ r, decodeStep cb ctx c s = .inl r ∧ r.err = .error Panic.IndexOutOfRange ∧
        r.final.checks = s.checks) ∧
    (s.popPanics cb name = false →
      (off > s.nextBytesCheck →
        (afterStep (decodeStep cb ctx c s)).checks =
          s.checks ++ [{ offset := off, threshold := s.nextBytesCheck,
                          signalled := ctx.done s.checks.length }] ∧
        (afterStep (decodeStep cb ctx c s)).nextBytesCheck = i64 (s.nextBytesCheck + c) ∧
        (ctx.done s.checks.length = true →
          ∃ r, decodeStep cb ctx c s = .inl r ∧ r.err = .ok (some ctx.err.toError) ∧
            r.final.x.tokens = rest)) ∧
      (¬ off > s.nextBytesCheck →
        (afterStep (decodeStep cb ctx c s)).checks = s.checks ∧
        (afterStep (decodeStep cb ctx c s)).nextBytesCheck = s.nextBytesCheck)) := by
  by_cases hn : s.currentName = name
  · rcases hc : s.currentDecoder.Close cb (s.st.setElement name.Local) with ⟨ok, st2⟩
    cases ok with
    | false =>
      have hp : s.popPanics cb name = false := by
        unfold LoopState.popPanics
        rw [hc]
        simp
      rw [decodeStep_end_close_false cb ctx c s h hn hc]
      refine ⟨fun hpt => (by rw [hp] at hpt; cases hpt), fun _ => ?_⟩
      exact checkStep_spec ctx c st2.scanner.Err
        ((s.read rest off).called st2 (Call.Close s.currentDecoder false)) off rfl
    | true =>
      cases hpp : s.popPanics cb name with
      | false =>
        obtain ⟨d, state, n, names, hs, hns⟩ :=
          LoopState.popPanics_eq_false cb s name hn st2 hc hpp
        rw [decodeStep_end_close_true cb ctx c s h hn hc hs hns]
        refine ⟨fun hpt => (by cases hpt), fun _ => ?_⟩
        exact checkStep_spec ctx c none
          (((s.read rest off).called st2 (Call.Close s.currentDecoder true)).pop d state n names)
          off rfl
      | true =>
        refine ⟨fun _ => ?_, fun hpf => by cases hpf⟩
        cases hs : s.state with
        | nil =>
          rw [decodeStep_end_close_empty cb ctx c s h hn hc hs]
          exact ⟨_, rfl, rfl, rfl⟩
        | cons d state =>
          cases hns : s.names with
          | nil =>
            unfold decodeStep XMLDecoder.Token
            simp only [h, if_pos hn, hc, hs, hns]
            exact ⟨_, rfl, rfl, rfl⟩
          | cons n names =>
            exfalso
            unfold LoopState.popPanics at hpp
            rw [hs, hns] at hpp
            simp at hpp
  · have hp : s.popPanics cb name = false := by
      unfold LoopState.popPanics
      simp [hn]
    rw [decodeStep_end_other cb ctx c s h hn]
    refine ⟨fun hpt => (by rw [hp] at hpt; cases hpt), fun _ => ?_⟩
    exact checkStep_spec ctx c none (s.read rest off) off rfl

theorem Reaches.runDecode_eq {cb : ElementDecoders D δ} {ctx : Context} {c : Int}
    {s s1 : LoopState D δ} (h : Reaches cb ctx c s s1) :
    runDecode cb ctx c s1 = runDecode cb ctx c s := by
  induction h with
  | start => rfl
  | next a b _ hstep ih => rw [← ih, runDecode_inr cb ctx c a b hstep]

theorem Reaches.checkInvariant {cb : ElementDecoders D δ} {ctx : Context} {c : Int}
    {orig : List (XMLToken × Int)} {s s1 : LoopState D δ} (h : Reaches cb ctx c s s1)
    (hs : CheckInvariant c ctx orig s) : CheckInvariant c ctx orig s1 := by
  induction h with
  | start => exact hs
  | next a b _ hstep ih => exact (decodeStep_checkInvariant cb ctx c orig a ih).1 b hstep

theorem decodeStep_checks_prefix (cb : ElementDecoders D δ) (ctx : Context) (c : Int)
    (s : LoopState D δ) : s.checks <+: (afterStep (decodeStep cb ctx c s)).checks := by
  rcases decodeStep_shape cb ctx c s with ⟨r, hr, g1, _⟩ | ⟨s2, hs2, g1, _⟩ |
    ⟨name, off, rest, err, s0, _, _, _, hck, _, heq⟩
  · rw [hr]
    show s.checks <+: r.final.checks
    rw [g1]
  · rw [hs2]
    show s.checks <+: s2.checks
    rw [g1]
  · rw [heq, ← hck]
    rcases cancelCheck_eq ctx c err s0 with ⟨_, hcc⟩ | ⟨_, hcc⟩
    · rw [hcc]
      cases err with
      | none => exact List.prefix_refl _
      | some e => exact List.prefix_refl _
    · rw [hcc]
      cases hd : (if ctx.done s0.checks.length = true then some ctx.err.toError else err) with
      | none => exact List.prefix_append _ _
      | some e => exact List.prefix_append _ _

theorem runDecode_checks_prefix (cb : ElementDecoders D δ) (ctx : Context) (c : Int)
    (s : LoopState D δ) :
    ∃ r, runDecode cb ctx c s = some r ∧ s.checks <+: r.final.checks := by
  apply runDecode_invariant cb ctx c (fun s1 => s.checks <+: s1.checks)
    (fun r => s.checks <+: r.final.checks)
  · intro s1 s2 hP hstep
    have := decodeStep_checks_prefix cb ctx c s1
    rw [hstep] at this
    exact hP.trans this
  · intro s1 r hP hstep
    have := decodeStep_checks_prefix cb ctx c s1
    rw [hstep] at this
    exact hP.trans this
  · exact List.prefix_refl _

theorem runDecode_first_exit (cb : ElementDecoders D δ) (ctx : Context) (c : Int)
    (s : LoopState D δ) :
    ∃ r s1, runDecode cb ctx c s = some r ∧ Reaches cb ctx c s s1 ∧
      decodeStep cb ctx c s1 = .inl r := by
  obtain ⟨r, hr, s1, h1, h2⟩ := runDecode_invariant cb ctx c (fun s1 => Reaches cb ctx c s s1)
    (fun r => ∃ s1, Reaches cb ctx c s s1 ∧ decodeStep cb ctx c s1 = .inl r)
    (fun s1 s2 hP hstep => Reaches.next s1 s2 hP hstep)
    (fun s1 r hP hstep => ⟨s1, hP, hstep⟩) s Reaches.start
  exact ⟨r, s1, hr, h1, h2⟩

end Go3mf

namespace Go3mf

variable {D δ : Type}

theorem getElem?_of_prefix_snoc {α : Type} (l m : List α) (a : α) (h : (l ++ [a]) <+: m) :
    m[l.length]? = some a := by
  obtain ⟨t, rfl⟩ := h
  rw [List.append_assoc, List.getElem?_append_right (le_refl _)]
  simp

/-- C17: `Decode` consults the cancellation signal after the end elements it reads whose
input offset exceeds the byte threshold, and nowhere else. The record of the checks of a
run: the k-th check follows an end element of the stream, at an offset that exceeds the
threshold at that time, which starts at `checkEveryBytes` and which every check raises by
`checkEveryBytes` (`thresholdAt`); a check that finds the signal set is the last thing
`Decode` does: it returns the error of the context and the tokens after that end element
stay unread. An iteration whose token is not an end element makes no check. An iteration
that reads an end element, unless it panics on the empty stack before, makes the check
exactly when the offset exceeds the threshold: it records it, raises the threshold, and
ends the loop with the error of the context when the signal is set. `Decode` returns what
the first iteration that leaves the loop returns, and for the variables it passes through:
the threshold is `thresholdAt` of the number of checks made, and at an end element with an
offset above it the check is part of the record `Decode` ends with, and with the signal set
`Decode` returns the error of the context, that check being the last, and leaves the tokens
after the end element unread. -/
theorem Decode_cancellation_checks (cb : ElementDecoders D δ) (c : Int) (ctx : Context)
    (x : XMLDecoder) (priv : δ) (path : String) (isRoot strict : Bool) :
    (∀ (k : Nat) (ck : Check),
      (Decode cb c ctx x priv path isRoot strict).final.checks[k]? = some ck →
      ck.threshold = thresholdAt c k ∧ ck.threshold < ck.offset ∧ ck.signalled = ctx.done k ∧
      ∃ pre name post, x.tokens = pre ++ (XMLToken.EndElement name, ck.offset) :: post) ∧
    (∀ (k : Nat) (ck : Check),
      (Decode cb c ctx x priv path isRoot strict).final.checks[k]? = some ck →
      ck.signalled = true →
      k + 1 = (Decode cb c ctx x priv path isRoot strict).final.checks.length ∧
      (Decode cb c ctx x priv path isRoot strict).err = .ok (some ctx.err.toError) ∧
      ∃ pre name, x.tokens = pre ++ (XMLToken.EndElement name, ck.offset) ::
        (Decode cb c ctx x priv path isRoot strict).final.x.tokens) ∧
    (∀ (s : LoopState D δ),
      (∀ name off rest, s.x.tokens ≠ (XMLToken.EndElement name, off) :: rest) →
      (∀ s1, decodeStep cb ctx c s = .inr s1 → s1.checks = s.checks) ∧
      (∀ r, decodeStep cb ctx c s = .inl r → r.final.checks = s.checks)) ∧
    (∀ (s : LoopState D δ) (name : XMLName) (off : Int) (rest : List (XMLToken × Int)),
      s.x.tokens = (XMLToken.EndElement name, off) :: rest →
      (s.popPanics cb name = true →
        ∃ r, decodeStep cb ctx c s = .inl r ∧ r.err = .error Panic.IndexOutOfRange ∧
          r.final.checks = s.checks) ∧
      (s.popPanics cb name = false →
        (off > s.nextBytesCheck →
          (afterStep (decodeStep cb ctx c s)).checks =
            s.checks ++ [{ offset := off, threshold := s.nextBytesCheck,
                            signalled := ctx.done s.checks.length }] ∧
          (afterStep (decodeStep cb ctx c s)).nextBytesCheck = i64 (s.nextBytesCheck + c) ∧
          (ctx.done s.checks.length = true →
            ∃ r, decodeStep cb ctx c s = .inl r ∧ r.err = .ok (some ctx.err.toError) ∧
              r.final.x.tokens = rest)) ∧
        (¬ off > s.nextBytesCheck →
          (afterStep (decodeStep cb ctx c s)).checks = s.checks ∧
          (afterStep (decodeStep cb ctx c s)).nextBytesCheck = s.nextBytesCheck))) ∧
    (∃ s, Reaches cb ctx c (initialLoopState x priv path isRoot strict c) s ∧
      decodeStep cb ctx c s = .inl (Decode cb c ctx x priv path isRoot strict)) ∧
    (∀ s, Reaches cb ctx c (initialLoopState x priv path isRoot strict c) s →
      s.nextBytesCheck = thresholdAt c s.checks.length ∧
      ∀ name off rest, s.x.tokens = (XMLToken.EndElement name, off) :: rest →
        s.popPanics cb name = false → off > thresholdAt c s.checks.length →
        (Decode cb c ctx x priv path isRoot strict).final.checks[s.checks.length]? =
          some { offset := off, threshold := thresholdAt c s.checks.length,
                 signalled := ctx.done s.checks.length } ∧
        (ctx.done s.checks.length = true →
          (Decode cb c ctx x priv path isRoot strict).err = .ok (some ctx.err.toError) ∧
          (Decode cb c ctx x priv path isRoot strict).final.x.tokens = rest ∧
          (Decode cb c ctx x priv path isRoot strict).final.checks.length =
            s.checks.length + 1)) := by
  have hinit : CheckInvariant c ctx x.tokens
      (initialLoopState (D := D) x priv path isRoot strict c) :=
    ⟨⟨[], rfl⟩, rfl, fun k ck hk => by simp [initialLoopState] at hk,
      fun ck hmem => by simp [initialLoopState] at hmem⟩
  have hdec := Decode_eq_runDecode cb c ctx x priv path isRoot strict
  obtain ⟨r, hr, hq⟩ := runDecode_invariant cb ctx c (CheckInvariant c ctx x.tokens)
    (CheckOutcome c ctx x.tokens)
    (fun s s1 hP hs => (decodeStep_checkInvariant cb ctx c x.tokens s hP).1 s1 hs)
    (fun s r hP hs => (decodeStep_checkInvariant cb ctx c x.tokens s hP).2 r hs)
    _ hinit
  rw [hdec] at hr
  simp only [Option.some.injEq] at hr
  subst hr
  refine ⟨hq.1, hq.2, ?_, ?_, ?_, ?_⟩
  · intro s hne
    rcases decodeStep_shape cb ctx c s with ⟨r, hr, g1, _⟩ | ⟨s2, hs2, g1, _⟩ |
      ⟨name, off, rest, _, _, htok, _⟩
    · constructor
      · intro s1 h1
        rw [hr] at h1
        cases h1
      · intro r1 h1
        rw [hr] at h1
        cases h1
        exact g1
    · constructor
      · intro s1 h1
        rw [hs2] at h1
        cases h1
        exact g1
      · intro r1 h1
        rw [hs2] at h1
        cases h1
    · exact absurd htok (hne name off rest)
  · intro s name off rest htok
    exact decodeStep_end_check cb ctx c s name off rest htok
  · obtain ⟨r, s1, hr, h1, h2⟩ := runDecode_first_exit cb ctx c
      (initialLoopState (D := D) x priv path isRoot strict c)
    rw [hdec] at hr
    simp only [Option.some.injEq] at hr
    subst hr
    exact ⟨s1, h1, h2⟩
  · intro s hreach
    have hn : s.nextBytesCheck = thresholdAt c s.checks.length :=
      (Reaches.checkInvariant hreach hinit).2.1
    refine ⟨hn, ?_⟩
    intro name off rest htok hpp hgt
    have hrun : runDecode cb ctx c s = some (Decode cb c ctx x priv path isRoot strict) := by
      rw [Reaches.runDecode_eq hreach, hdec]
    rw [← hn] at hgt ⊢
    obtain ⟨hchk, _, hdone⟩ := ((decodeStep_end_check cb ctx c s name off rest htok).2 hpp).1 hgt
    cases hstep : decodeStep cb ctx c s with
    | inl r =>
      have hfin : Decode cb c ctx x priv path isRoot strict = r := by
        have := runDecode_inl cb ctx c s r hstep
        rw [hrun] at this
        exact Option.some.inj this
      rw [hstep] at hchk hdone
      have hchk1 : r.final.checks =
          s.checks ++ [Check.mk off s.nextBytesCheck (ctx.done s.checks.length)] := hchk
      rw [hfin, hchk1]
      refine ⟨by simp, ?_⟩
      intro hd
      obtain ⟨r1, hr1, herr, htoks⟩ := hdone hd
      cases hr1
      exact ⟨herr, htoks, by simp⟩
    | inr s1 =>
      rw [hstep] at hchk hdone
      have hchk1 : s1.checks =
          s.checks ++ [Check.mk off s.nextBytesCheck (ctx.done s.checks.length)] := hchk
      obtain ⟨r, hr, hpre⟩ := runDecode_checks_prefix cb ctx c s1
      rw [← runDecode_inr cb ctx c s s1 hstep, hrun] at hr
      simp only [Option.some.injEq] at hr
      subst hr
      rw [hchk1] at hpre
      refine ⟨getElem?_of_prefix_snoc _ _ _ hpre, ?_⟩
      intro hd
      obtain ⟨r1, hr1, _⟩ := hdone hd
      cases hr1

/-- Witness of `Decode_cancellation_checks`, on `<model><a></a><b></b></model>` with
`checkEveryBytes` 12. While the signal is not set, `Decode` consults it after `</a>` (offset
14, threshold 12) and after `</model>` (offset 29, threshold 24), not after `</b>` (offset
21), and returns nil. With the signal set, the check after `</a>` is the only one: `Decode`
returns the error of the context and leaves the three tokens after `</a>` unread. -/
theorem Decode_cancellation_checks_witness :
    (Decode sampleDecoders 12 liveContext nestedStream () "/3D/3dmodel.model" true true).err =
      .ok none ∧
    (Decode sampleDecoders 12 liveContext nestedStream () "/3D/3dmodel.model" true true
      ).final.checks =
      [{ offset := 14, threshold := 12, signalled := false },
       { offset := 29, threshold := 24, signalled := false }] ∧
    (Decode sampleDecoders 12 cancelledContext nestedStream () "/3D/3dmodel.model" true true
      ).final.checks = [{ offset := 14, threshold := 12, signalled := true }] ∧
    (Decode sampleDecoders 12 cancelledContext nestedStream () "/3D/3dmodel.model" true true
      ).err = .ok (some ⟨"context canceled"⟩) ∧
    (Decode sampleDecoders 12 cancelledContext nestedStream () "/3D/3dmodel.model" true true
      ).final.x.tokens =
      [(XMLToken.StartElement ⟨"core", "b"⟩ [], 17),
       (XMLToken.EndElement ⟨"core", "b"⟩, 21),
       (XMLToken.EndElement ⟨"core", "model"⟩, 29)] :=
  have h := (Decode_cancellation_checks sampleDecoders 12 cancelledContext nestedStream ()
    "/3D/3dmodel.model" true true).2.2.2.2.2 _
    (Reaches.next _ _ (Reaches.next _ _ Reaches.start rfl) rfl)
  have h1 := h.2 ⟨"core", "a"⟩ 14 _ rfl rfl (by decide)
  ⟨rfl, rfl, rfl, (h1.2 rfl).1, (h1.2 rfl).2.1⟩

end Go3mf

namespace Go3mf

/-- C18 (amended): `DecodeContext` runs `processNonRootModels` first and decodes the root
part afterwards, and only when `processNonRootModels` returned nil. The `Decode` calls it
makes are those of `processNonRootModels`, all of secondary parts, followed by at most one
call for the root part. When `processOPC` fails, no part is decoded. When
`processNonRootModels` returns an error (or panics), `DecodeContext` returns what it
returned and the root part is not decoded. When `processNonRootModels` returns nil,
`DecodeContext` returns the error of `processRootModel`, and the root part is decoded, after
every secondary part, exactly when the root file opens. -/
theorem DecodeContext_order
    (processOPC : Decoder → Model → Except GoError packageFile × Decoder × Model)
    (d : Decoder) (ctx : Context) (order : List Nat) (model : Model) :
    (∃ secondary root : List PartDecode,
      (Decoder.DecodeContext processOPC d ctx order model).2.2.2 = secondary ++ root ∧
      (∀ e ∈ secondary, e.isRoot = false) ∧
      (root = [] ∨
        ∃ rootFile d1 model1, processOPC d model = (.ok rootFile, d1, model1) ∧
          (d1.processNonRootModels ctx model1 order).1 = .ok none ∧
          secondary = (d1.processNonRootModels ctx model1 order).2.2.2 ∧
          root = [{ path := rootFile.Name, isRoot := true }])) ∧
    (∀ err d1 model1, processOPC d model = (.error err, d1, model1) →
      Decoder.DecodeContext processOPC d ctx order model = (.ok (some err), d1, model1, [])) ∧
    (∀ rootFile d1 model1, processOPC d model = (.ok rootFile, d1, model1) →
      (∀ e ∈ (d1.processNonRootModels ctx model1 order).2.2.2, e.isRoot = false) ∧
      ((d1.processNonRootModels ctx model1 order).1 ≠ .ok none →
        Decoder.DecodeContext processOPC d ctx order model =
          d1.processNonRootModels ctx model1 order) ∧
      ((d1.processNonRootModels ctx model1 order).1 = .ok none →
        (Decoder.DecodeContext processOPC d ctx order model).1 =
          .ok ((d1.processNonRootModels ctx model1 order).2.1.processRootModel ctx order.length
            rootFile (d1.processNonRootModels ctx model1 order).2.2.1).1 ∧
        (rootFile.openError = none →
          (Decoder.DecodeContext processOPC d ctx order model).2.2.2 =
            (d1.processNonRootModels ctx model1 order).2.2.2 ++
              [{ path := rootFile.Name, isRoot := true }]) ∧
        (rootFile.openError ≠ none →
          (Decoder.DecodeContext processOPC d ctx order model).2.2.2 =
            (d1.processNonRootModels ctx model1 order).2.2.2))) := by
  refine ⟨?_, ?_, ?_⟩
  · unfold Decoder.DecodeContext
    rcases hopc : processOPC d model with ⟨r, d1, model1⟩
    cases r with
    | error err => exact ⟨[], [], rfl, fun e he => (by cases he), Or.inl rfl⟩
    | ok rootFile =>
      simp only
      have hlog := Decoder.processNonRootModels_log d1 ctx model1 order
      rcases hn : d1.processNonRootModels ctx model1 order with ⟨r2, d2, model2, log⟩
      rw [hn] at hlog
      simp only at hlog
      cases r2 with
      | error p => exact ⟨log, [], by simp, hlog, Or.inl rfl⟩
      | ok oerr =>
        cases oerr with
        | some err => exact ⟨log, [], by simp, hlog, Or.inl rfl⟩
        | none =>
          simp only
          rcases Decoder.processRootModel_log d2 ctx order.length rootFile model2 with h | h
          · exact ⟨log, [], by rw [h], hlog, Or.inl rfl⟩
          · exact ⟨log, _, by rw [h], hlog, Or.inr ⟨rootFile, d1, model1, rfl, by rw [hn], by rw [hn], rfl⟩⟩
  · intro err d1 model1 hopc
    unfold Decoder.DecodeContext
    rw [hopc]
  · intro rootFile d1 model1 hopc
    refine ⟨Decoder.processNonRootModels_log d1 ctx model1 order, ?_, ?_⟩
    · intro hne
      unfold Decoder.DecodeContext
      rw [hopc]
      simp only
      rcases hn : d1.processNonRootModels ctx model1 order with ⟨r2, d2, model2, log⟩
      rw [hn] at hne
      cases r2 with
      | error p => rfl
      | ok oerr =>
        cases oerr with
        | some err => rfl
        | none => exact absurd rfl hne
    · intro hnil
      unfold Decoder.DecodeContext
      rw [hopc]
      simp only
      rcases hn : d1.processNonRootModels ctx model1 order with ⟨r2, d2, model2, log⟩
      rw [hn] at hnil
      simp only at hnil
      subst hnil
      simp only
      refine ⟨trivial, ?_, ?_⟩
      · intro hopen
        simp only [Decoder.processRootModel, hopen]
      · intro hopen
        cases ho : rootFile.openError with
        | none => exact absurd ho hopen
        | some e => simp only [Decoder.processRootModel, ho, List.append_nil]

end Go3mf
